import Mathlib

/-!
# illuscribe: the DSL parser, the element tree and the layout engine

A shallow embedding of `illuscribe.c`.

* C strings are `List Char` (the characters before the terminating NUL).
* `float` fields are rationals; a division by zero, which gives an infinity or a NaN
  in C, gives 0. The widths `1.0f / n` of the rows of `apply_layout` and the sums of its
  cursor `cur_x`, on which the test `cur_x >= 1.0f` for a full row depends, are rounded
  to `float` as the program rounds them (`to_float`).
* `exit(1)` after a diagnostic is `Except.error` with the diagnostic as an `Err`;
  undefined behaviour of the C program (a NULL dereference, a read of an
  uninitialised local, an out-of-bounds index) is `Err.undefined`.
* Failure of `malloc`/`realloc` is not modelled.
* What the layout asks of X11 and Xft (window size, advances, font heights) is a
  `Display` value; the loop of `apply_word_wrap`, which need not end, runs for at
  most `fuel` passes and then ends in `Err.step_limit`.
-/

namespace Illuscribe

/-! ## Characters and strings -/

/-- The double quote character, written `'\"'` in the source. -/
def dquote : Char := Char.ofNat 34

/-- The `isspace` of `<ctype.h>` in the C locale: space, `\t`, `\n`, `\v`, `\f`, `\r`. -/
def isspace (c : Char) : Bool :=
  c.toNat = 32 || (9 ≤ c.toNat && c.toNat ≤ 13)

/-- The second loop of `trim_str`: `end` walks left from the last character
while `end > str` and `*end` is a space. The argument is the text after `str[0]`. -/
def trim_end (tail : List Char) : List Char :=
  (tail.reverse.dropWhile isspace).reverse

/-- The function `trim_str`: skips the leading spaces, moves the rest to the front, then
cuts the trailing spaces; the pointer `end` never goes below `str`, so the first
character that is left stays. -/
def trim_str (str : List Char) : List Char :=
  match str.dropWhile isspace with
  | [] => []
  | c :: tail => c :: trim_end tail

/-- The loop of `split_str` over `str[i..]`, with the locals `in_quotes`, `in_token`
and `start_idx`; the empty list is the iteration `i = strlen(str)` that reads the
terminating NUL. The result lists, for every token in order, the pair
`(start_idx, i)` handed to `memcpy`. -/
def split_loop (delim : List Char) :
    List Char → Nat → Bool → Bool → Nat → List (Nat × Nat)
  | [], i, _, in_token, start_idx =>
    -- `strchr(delim, '\0')` is not NULL, so the NUL takes the `else if` branch
    if in_token then [(start_idx, i)] else []
  | c :: cs, i, in_quotes, in_token, start_idx =>
    if c = dquote then
      split_loop delim cs (i + 1) (!in_quotes) in_token start_idx
    else if delim.contains c = false then
      split_loop delim cs (i + 1) in_quotes true (if in_token then start_idx else i)
    else if in_token && !in_quotes then
      (start_idx, i) :: split_loop delim cs (i + 1) in_quotes false start_idx
    else
      split_loop delim cs (i + 1) in_quotes in_token start_idx

/-- The pairs `(start_idx, i)` of the tokens `split_str` cuts out of `str`. -/
def split_spans (str delim : List Char) : List (Nat × Nat) :=
  split_loop delim str 0 false false 0

/-- The bytes `str[start_idx .. i)` that `split_str` copies with `memcpy`. -/
def slice (str : List Char) (span : Nat × Nat) : List Char :=
  (str.drop span.1).take (span.2 - span.1)

/-- The function `split_str`: every token is copied out of `str` and trimmed; the
length of the result is `*length_return`. -/
def split_str (str delim : List Char) : List (List Char) :=
  (split_spans str delim).map (fun span => trim_str (slice str span))

/-- The function `is_string`. -/
def is_string (str : List Char) : Bool :=
  if str.length < 2 then false
  else if str.head? ≠ some dquote && str.getLast? ≠ some dquote then false
  else true

/-- The function `remove_quotes` for `strlen(str) ≥ 2`: the `length - 2` characters
from `str + 1`. (The handlers call it after `check_syntax` accepted the token as
`str`; `handle_define`, which calls it before, is guarded at the call.) -/
def remove_quotes (str : List Char) : List Char :=
  (str.drop 1).take (str.length - 2)

/-- The value `LONG_MAX` of a 64-bit `long`. -/
def LONG_MAX : Int := 2 ^ 63 - 1

/-- The value `LONG_MIN` of a 64-bit `long`. -/
def LONG_MIN : Int := -(2 ^ 63)

/-- The C library's `strtol(nptr, &endptr, 10)`: optional white space, an optional
sign, then decimal digits. Returns the value (clamped to the range of `long`) and
`endptr - nptr`; without a digit nothing is converted and `endptr = nptr`. -/
def strtol (nptr : List Char) : Int × Nat :=
  let ws := nptr.takeWhile isspace
  let s1 := nptr.dropWhile isspace
  let neg := s1.head? = some '-'
  let signlen := if s1.head? = some '-' ∨ s1.head? = some '+' then 1 else 0
  let digits := (s1.drop signlen).takeWhile Char.isDigit
  if digits.isEmpty then (0, 0)
  else
    let v : Int := digits.foldl (fun acc d => 10 * acc + ((d.toNat - 48 : Nat) : Int)) 0
    let n : Int := if neg then -v else v
    (max LONG_MIN (min LONG_MAX n), ws.length + signlen + digits.length)

/-- The function `is_number`; the second argument is the value of `*is_negative`
before the call and the second component its value after it. -/
def is_number (str : List Char) (is_negative : Bool) : Bool × Bool :=
  match str with
  | [] => (false, is_negative)
  | c :: _ =>
    if isspace c then (false, is_negative)
    else
      let r := strtol str
      (decide (r.2 = str.length), decide (r.1 < 0))

/-! ## Outcomes -/

/-- The places where the C program has undefined behaviour instead of a defined
result. -/
inductive Undefined where
  /-- An index past the end of `args`. -/
  | args_out_of_bounds
  /-- The function `remove_quotes` on a one-character token (`strncpy` with count `-1`). -/
  | remove_quotes_short
  /-- The local `stack_type` of `handle_box` read while unset, after the diagnostic for line `line`. -/
  | unset_stack_type (line : Nat) (found : List Char)
  /-- The local `text_align` of `handle_box` read while unset. -/
  | unset_text_align (line : Nat) (found : List Char)
  /-- The local `font_size` of `handle_text` read while unset. -/
  | unset_font_size (line : Nat) (found : List Char)
  /-- The call `add_element_to_slide(NULL, se)`. -/
  | null_current_slide
  /-- The call `add_element_to_box(NULL, se)`, after the diagnostic for line `line`. -/
  | null_current_box (line : Nat)
  /-- A pointer that does not point to a live object of its type. -/
  | wild_pointer
  /-- An index past the end of `list.slides`. -/
  | slide_index_out_of_bounds (idx : Nat)
deriving DecidableEq, Repr

/-- The ways a run ends early: every constructor but `undefined` and `step_limit` is a
diagnostic printed to `stderr` followed by `exit(1)`. -/
inductive Err where
  /-- "Syntax Error on line %d : %s expects %d arguments, but %d were given." -/
  | wrong_arg_count (line : Nat) (keyword : List Char) (expected given : Nat)
  /-- "Syntax Error on line %d : Expected String for argument %d" -/
  | expected_string (line i : Nat)
  /-- "Syntax Error on line %d : Expected Integer for argument %d" -/
  | expected_integer (line i : Nat)
  /-- "Syntax Error on line %d : Expected Positive Integer for argument %d" -/
  | expected_positive (line i : Nat)
  /-- "Syntax Error on line %d : Expected variable for argument %d" -/
  | expected_variable (line i : Nat)
  /-- "Syntax Error on line %d : Unmatched end keyword." -/
  | unmatched_end (line : Nat)
  /-- "Error on line %d : Couldn't find slide or template with name: %s" -/
  | uses_not_found (line : Nat) (name : List Char)
  /-- "Logic Error : Attempting to access %s inside of %s" -/
  | self_reference (name slide_name : List Char)
  /-- "Logic Error on line %d : Trying to define nonexistent element '%s'." -/
  | define_nonexistent (line : Nat) (arg : List Char)
  /-- "Logic Error on line %d : Trying to define non-box element '%s'." -/
  | define_non_box (line : Nat) (arg : List Char)
  /-- "Failed to load image: %s" -/
  | image_load (filename : List Char)
  /-- "Error: Single word in text is wider than box width. In box: %s" -/
  | word_too_wide (box_name : List Char)
  /-- Not an outcome of the program: the bound on the iterations of a loop that the
  model was given is used up. -/
  | step_limit
  /-- No diagnostic and no `exit`: the behaviour of the C program is undefined. -/
  | undefined (u : Undefined)
deriving DecidableEq, Repr

/-- The diagnostics of `check_syntax`. -/
def Err.is_syntax_error : Err → Bool
  | .wrong_arg_count .. => true
  | .expected_string .. => true
  | .expected_integer .. => true
  | .expected_positive .. => true
  | .expected_variable .. => true
  | _ => false

/-- The diagnostics that start with "Logic Error". -/
def Err.is_logic_error : Err → Bool
  | .self_reference .. => true
  | .define_nonexistent .. => true
  | .define_non_box .. => true
  | _ => false

/-! ## Syntax validator -/

/-- One iteration of the loop of `check_syntax`: argument `i` of kind `type`. A kind
that is none of `str`, `int`, `uint`, `type` checks nothing. -/
def check_arg (type arg : List Char) (line_num i : Nat) : Except Err Unit :=
  if type = "str".toList then
    if !is_string arg then .error (.expected_string line_num i) else .ok ()
  else if type = "int".toList then
    if !(is_number arg false).1 then .error (.expected_integer line_num i) else .ok ()
  else if type = "uint".toList then
    let r := is_number arg false
    if !r.1 || r.2 then .error (.expected_positive line_num i) else .ok ()
  else if type = "type".toList then
    if (is_number arg false).1 || is_string arg then .error (.expected_variable line_num i)
    else .ok ()
  else .ok ()

/-- The loop `for (i = 0; i < arg_len; i++)` of `check_syntax`, from index `i` on:
`types` is `types[i..]` and `args` is `check_args[i + 1 ..]`. -/
def check_args_from (line_num : Nat) :
    List (List Char) → List (List Char) → Nat → Except Err Unit
  | [], _, _ => .ok ()
  | _ :: _, [], _ => .error (.undefined .args_out_of_bounds)
  | type :: types, arg :: args, i =>
    match check_arg type arg line_num i with
    | .error e => .error e
    | .ok () => check_args_from line_num types args (i + 1)

/-- The function `check_syntax`: `check_args` is the split line (keyword first,
`check_len` its length) and `expect` the blank-separated kinds. -/
def check_syntax (check_args : List (List Char)) (expect : List Char) (line_num : Nat) :
    Except Err Unit :=
  let types := split_str expect [' ']
  match check_args with
  | [] => .error (.undefined .args_out_of_bounds)
  | keyword :: args =>
    if args.length ≠ types.length then
      .error (.wrong_arg_count line_num keyword types.length args.length)
    else check_args_from line_num types args 0

/-- The function `strstr(haystack, needle) != NULL`: `needle` occurs in `haystack`. -/
def strstr (haystack needle : List Char) : Bool :=
  haystack.tails.any (fun t => needle.isPrefixOf t)

/-! ## Data model -/

/-- The enum `FontSize`. -/
inductive FontSize where
  | FONT_TITLE | FONT_NORMAL | FONT_SMALL | FONT_HUGE
deriving DecidableEq, Repr

/-- The enum `TextAlignmentType`. -/
inductive TextAlignmentType where
  | TEXT_ALIGN_CENTER | TEXT_ALIGN_LEFT | TEXT_ALIGN_RIGHT
deriving DecidableEq, Repr

/-- The enum `StackType`. -/
inductive StackType where
  | STACK_HORIZONTAL | STACK_VERTICAL
deriving DecidableEq, Repr

/-- The struct `Text` (its tag `type` is the constructor of `SlideElement`). -/
structure Text where
  font_size : FontSize
  content : List Char
  x : ℚ
  y : ℚ
  size : ℚ
deriving DecidableEq, Repr

/-- What `stbi_load` writes for a file it can decode; the pixel buffer is left out. -/
structure Decoded where
  width : Int
  height : Int
  channels : Int
deriving DecidableEq, Repr

/-- The struct `Image` without its X11 handles and pixel buffer. -/
structure Image where
  filename : List Char
  width : Int
  height : Int
  channels : Int
  rheight : ℚ
  rwidth : ℚ
  x : ℚ
  y : ℚ
deriving DecidableEq, Repr

mutual
/-- The struct `Slide`; `element_count` is the length of `elements`. -/
inductive Slide where
  | mk (name : List Char) (visible : Bool) (elements : List SlideElement)
/-- The struct `Box`; `element_count` is the length of `elements`. -/
inductive Box where
  | mk (text_align : TextAlignmentType) (stack_type : StackType) (name : List Char)
      (elements : List SlideElement) (x y width height : ℚ)
/-- The tagged union `SlideElement`. -/
inductive SlideElement where
  | slide (s : Slide)
  | box (b : Box)
  | text (t : Text)
  | image (i : Image)
end

/-- Field `name` of a `Slide`. -/
def Slide.name : Slide → List Char
  | .mk name _ _ => name

/-- Field `visible` of a `Slide`. -/
def Slide.visible : Slide → Bool
  | .mk _ visible _ => visible

/-- Field `elements` of a `Slide`. -/
def Slide.elements : Slide → List SlideElement
  | .mk _ _ elements => elements

/-- Field `text_align` of a `Box`. -/
def Box.text_align : Box → TextAlignmentType
  | .mk text_align _ _ _ _ _ _ _ => text_align

/-- Field `stack_type` of a `Box`. -/
def Box.stack_type : Box → StackType
  | .mk _ stack_type _ _ _ _ _ _ => stack_type

/-- Field `name` of a `Box`. -/
def Box.name : Box → List Char
  | .mk _ _ name _ _ _ _ _ => name

/-- Field `elements` of a `Box`. -/
def Box.elements : Box → List SlideElement
  | .mk _ _ _ elements _ _ _ _ => elements

/-- The function `create_text`; `x`, `y` and `size` are left unset by the source and
are 0 here (the layout writes them before it reads them). -/
def create_text (content : List Char) (font_size : FontSize) : Text :=
  { font_size := font_size, content := content, x := 0, y := 0, size := 0 }

/-- The function `create_box`; `x`, `y`, `width` and `height` are left unset by the
source and are 0 here. -/
def create_box (name : List Char) (stack : StackType) (alignment : TextAlignmentType) : Box :=
  .mk alignment stack name [] 0 0 0 0

/-- The function `create_slide`. -/
def create_slide (name : List Char) (visible : Bool) : Slide :=
  .mk name visible []

/-- The function `create_image`: `stbi_load` decodes the file, a NULL result is the
fatal "Failed to load image". (The source runs `swap_rb_channels` on the buffer
before it tests it for NULL; the pixels are not part of this model.) -/
def create_image (stbi_load : List Char → Option Decoded) (filename : List Char) :
    Except Err Image :=
  match stbi_load filename with
  | none => .error (.image_load filename)
  | some d =>
    .ok { filename := filename, width := d.width, height := d.height, channels := d.channels,
          rheight := 0, rwidth := 0, x := 0, y := 0 }

/-- The function `add_element_to_slide`. -/
def add_element_to_slide (slide : Slide) (element : SlideElement) : Slide :=
  .mk slide.name slide.visible (slide.elements ++ [element])

/-- The function `add_element_to_box`. -/
def add_element_to_box (box : Box) (element : SlideElement) : Box :=
  match box with
  | .mk text_align stack_type name elements x y width height =>
    .mk text_align stack_type name (elements ++ [element]) x y width height

/-! ## Template resolver: deep copy -/

/-- The function `copy_text`. -/
def copy_text (text : Text) : Text :=
  create_text text.content text.font_size

/-- The function `copy_image`: the file is decoded again. -/
def copy_image (stbi_load : List Char → Option Decoded) (image : Image) : Except Err Image :=
  create_image stbi_load image.filename

/-- The loop of `copy_box` over `box->elements[i..]`: a Text or an Image is copied
and appended, any other element is passed over. -/
def copy_box_elements (stbi_load : List Char → Option Decoded) :
    List SlideElement → Except Err (List SlideElement)
  | [] => .ok []
  | .text t :: es =>
    match copy_box_elements stbi_load es with
    | .error e => .error e
    | .ok es' => .ok (.text (copy_text t) :: es')
  | .image i :: es =>
    match copy_image stbi_load i with
    | .error e => .error e
    | .ok i' =>
      match copy_box_elements stbi_load es with
      | .error e => .error e
      | .ok es' => .ok (.image i' :: es')
  | _ :: es => copy_box_elements stbi_load es

/-- The function `copy_box`: the copies are appended, in order, to a new box made by
`create_box`. -/
def copy_box (stbi_load : List Char → Option Decoded) (box : Box) : Except Err Box :=
  match copy_box_elements stbi_load box.elements with
  | .error e => .error e
  | .ok es => .ok (es.foldl add_element_to_box (create_box box.name box.stack_type box.text_align))

mutual
/-- The function `copy_slide`: the copies are appended, in order, to a new slide made
by `create_slide(&new_slide, strdup(slide->name), true)`. -/
def copy_slide (stbi_load : List Char → Option Decoded) : Slide → Except Err Slide
  | .mk name _ elements =>
    match copy_slide_elements stbi_load elements with
    | .error e => .error e
    | .ok es => .ok (es.foldl add_element_to_slide (create_slide name true))
/-- The loop of `copy_slide` over `slide->elements[i..]`: a Box or a nested Slide is
copied and appended, any other element is passed over. -/
def copy_slide_elements (stbi_load : List Char → Option Decoded) :
    List SlideElement → Except Err (List SlideElement)
  | [] => .ok []
  | .box b :: es =>
    match copy_box stbi_load b with
    | .error e => .error e
    | .ok b' =>
      match copy_slide_elements stbi_load es with
      | .error e => .error e
      | .ok es' => .ok (.box b' :: es')
  | .slide s :: es =>
    match copy_slide stbi_load s with
    | .error e => .error e
    | .ok s' =>
      match copy_slide_elements stbi_load es with
      | .error e => .error e
      | .ok es' => .ok (.slide s' :: es')
  | _ :: es => copy_slide_elements stbi_load es
end

/-! ## Document builder -/

/-- A `Box*` into the tree: the top-level slide that owns the box (an index into
`ParserState.slides`) and the child indices that lead from it to the box. -/
structure BoxPtr where
  slide : Nat
  path : List Nat
deriving DecidableEq, Repr

/-- The memory and the locals of `parse_slideshow`. A `Slide*` to a slide made by
`handle_slide` or `handle_template` is its index in `slides`; boxes and nested
slides live inside the slide that owns them. -/
structure ParserState where
  /-- Every slide allocated by `handle_slide` / `handle_template`, in allocation order. -/
  slides : List Slide
  /-- The `SlideList`: `list->slides[0 .. count)`. -/
  list : List Nat
  /-- The local `current_slide` (`none` is NULL). -/
  current_slide : Option Nat
  /-- The local `current_box` (`none` is NULL). -/
  current_box : Option BoxPtr

/-- The state at the start of `parse_slideshow`, after `slide_list_init`. -/
def ParserState.init : ParserState :=
  { slides := [], list := [], current_slide := none, current_box := none }

/-- The slides the `SlideList` points to, in list order. -/
def ParserState.slide_list (st : ParserState) : List Slide :=
  st.list.filterMap (fun p => st.slides[p]?)

/-- The element a path of child indices leads to, from a slide down through nested
slides. -/
def element_at : Slide → List Nat → Option SlideElement
  | _, [] => none
  | s, [i] => s.elements[i]?
  | s, i :: j :: rest =>
    match s.elements[i]? with
    | some (.slide t) => element_at t (j :: rest)
    | _ => none

/-- The slide after `add_element_to_box(box, element)` on the box at `path`; `none`
when the path does not lead to a box. -/
def add_element_at : Slide → List Nat → SlideElement → Option Slide
  | _, [], _ => none
  | s, [i], element =>
    match s.elements[i]? with
    | some (.box b) =>
      some (.mk s.name s.visible (s.elements.set i (.box (add_element_to_box b element))))
    | _ => none
  | s, i :: j :: rest, element =>
    match s.elements[i]? with
    | some (.slide t) =>
      match add_element_at t (j :: rest) element with
      | some t' => some (.mk s.name s.visible (s.elements.set i (.slide t')))
      | none => none
    | _ => none

/-- The loop of `find_slide_by_name` over `list.slides[i..]`; the result is the
`Slide*` found, `none` for NULL. -/
def find_slide_by_name (name : List Char) (slides : List Slide) :
    List Nat → Except Err (Option Nat)
  | [] => .ok none
  | p :: ps =>
    match slides[p]? with
    | none => .error (.undefined .wild_pointer)
    | some slide =>
      if slide.name = name then .ok (some p) else find_slide_by_name name slides ps

mutual
/-- The function `find_element_by_name` on a slide that is not NULL; the result is
the path to the `SlideElement*` found, `none` for NULL. -/
def find_element_by_name (name : List Char) : Slide → Except Err (Option (List Nat))
  | .mk slide_name _ elements =>
    if slide_name = name then .error (.self_reference name slide_name)
    else find_element_from name elements 0
/-- The loop of `find_element_by_name` over `slide->elements[i..]`. -/
def find_element_from (name : List Char) :
    List SlideElement → Nat → Except Err (Option (List Nat))
  | [], _ => .ok none
  | .box b :: es, i =>
    if b.name = name then .ok (some [i]) else find_element_from name es (i + 1)
  | .slide s :: es, i =>
    if s.name = name then .ok (some [i])
    else
      match find_element_by_name name s with
      | .error e => .error e
      | .ok (some found) => .ok (some (i :: found))
      | .ok none => find_element_from name es (i + 1)
  | _ :: es, i => find_element_from name es (i + 1)
end

/-- The function `handle_slide`. -/
def handle_slide (st : ParserState) (args : List (List Char)) (line_num : Nat) :
    Except Err ParserState :=
  match check_syntax args "str".toList line_num with
  | .error e => .error e
  | .ok () =>
    .ok { st with slides := st.slides ++ [create_slide (remove_quotes (args.getD 1 [])) true],
                  current_slide := some st.slides.length }

/-- The function `handle_template`. -/
def handle_template (st : ParserState) (args : List (List Char)) (line_num : Nat) :
    Except Err ParserState :=
  match check_syntax args "str".toList line_num with
  | .error e => .error e
  | .ok () =>
    .ok { st with slides := st.slides ++ [create_slide (remove_quotes (args.getD 1 [])) false],
                  current_slide := some st.slides.length }

/-- The slide `*current_slide` after `add_element_to_slide(*current_slide, se)`,
written back to memory. -/
def add_to_current_slide (st : ParserState) (se : SlideElement) : Except Err ParserState :=
  match st.current_slide with
  | none => .error (.undefined .null_current_slide)
  | some p =>
    match st.slides[p]? with
    | none => .error (.undefined .wild_pointer)
    | some slide => .ok { st with slides := st.slides.set p (add_element_to_slide slide se) }

/-- The box `*current_box` after `add_element_to_box(*current_box, se)`, written back
to memory; with `current_box == NULL` the source prints its "Logic Error" and goes on
to the call. -/
def add_to_current_box (st : ParserState) (se : SlideElement) (line_num : Nat) :
    Except Err ParserState :=
  match st.current_box with
  | none => .error (.undefined (.null_current_box line_num))
  | some ptr =>
    match st.slides[ptr.slide]? with
    | none => .error (.undefined .wild_pointer)
    | some slide =>
      match add_element_at slide ptr.path se with
      | none => .error (.undefined .wild_pointer)
      | some slide' => .ok { st with slides := st.slides.set ptr.slide slide' }

/-- The function `handle_box`. An unknown stack or align word only prints a
diagnostic: the local stays unset and is read by `create_box`. -/
def handle_box (st : ParserState) (args : List (List Char)) (line_num : Nat) :
    Except Err ParserState :=
  match check_syntax args "str type type".toList line_num with
  | .error e => .error e
  | .ok () =>
    let a2 := args.getD 2 []
    let a3 := args.getD 3 []
    let stack_type : Option StackType :=
      if a2 = "stack-vertical".toList then some .STACK_VERTICAL
      else if a2 = "stack-horizontal".toList then some .STACK_HORIZONTAL
      else none
    let text_align : Option TextAlignmentType :=
      if a3 = "align-left".toList then some .TEXT_ALIGN_LEFT
      else if a3 = "align-right".toList then some .TEXT_ALIGN_RIGHT
      else if a3 = "align-center".toList then some .TEXT_ALIGN_CENTER
      else none
    match stack_type, text_align with
    | none, _ => .error (.undefined (.unset_stack_type line_num a2))
    | some _, none => .error (.undefined (.unset_text_align line_num a3))
    | some stack, some align =>
      add_to_current_slide st (.box (create_box (remove_quotes (args.getD 1 [])) stack align))

/-- The function `handle_uses`. -/
def handle_uses (stbi_load : List Char → Option Decoded) (st : ParserState)
    (args : List (List Char)) (line_num : Nat) : Except Err ParserState :=
  match check_syntax args "str".toList line_num with
  | .error e => .error e
  | .ok () =>
    let name := remove_quotes (args.getD 1 [])
    match find_slide_by_name name st.slides st.list with
    | .error e => .error e
    | .ok none => .error (.uses_not_found line_num name)
    | .ok (some p) =>
      match st.slides[p]? with
      | none => .error (.undefined .wild_pointer)
      | some found_slide =>
        match copy_slide stbi_load found_slide with
        | .error e => .error e
        | .ok slide => add_to_current_slide st (.slide slide)

/-- The function `handle_text`. An unknown size word only prints a diagnostic: the
local `font_size` stays unset and is read by `create_text`. -/
def handle_text (st : ParserState) (args : List (List Char)) (line_num : Nat) :
    Except Err ParserState :=
  match check_syntax args "type str".toList line_num with
  | .error e => .error e
  | .ok () =>
    let a1 := args.getD 1 []
    let font_size : Option FontSize :=
      if a1 = "huge".toList then some .FONT_HUGE
      else if a1 = "title".toList then some .FONT_TITLE
      else if a1 = "normal".toList then some .FONT_NORMAL
      else if a1 = "small".toList then some .FONT_SMALL
      else none
    match font_size with
    | none => .error (.undefined (.unset_font_size line_num a1))
    | some fs =>
      add_to_current_box st (.text (create_text (remove_quotes (args.getD 2 [])) fs)) line_num

/-- The function `handle_image`. -/
def handle_image (stbi_load : List Char → Option Decoded) (st : ParserState)
    (args : List (List Char)) (line_num : Nat) : Except Err ParserState :=
  match check_syntax args "str".toList line_num with
  | .error e => .error e
  | .ok () =>
    match create_image stbi_load (remove_quotes (args.getD 1 [])) with
    | .error e => .error e
    | .ok image => add_to_current_box st (.image image) line_num

/-- The function `handle_define`. The source calls `remove_quotes(args[1])` before
`check_syntax`: without a second token that reads past `args`, and on a token of one
character `strncpy` gets the count `-1` (with `malloc(0)` not NULL). On an empty
token `remove_quotes` returns NULL, which is not used because `check_syntax` then
fails. -/
def handle_define (st : ParserState) (args : List (List Char)) (line_num : Nat) :
    Except Err ParserState :=
  match args[1]? with
  | none => .error (.undefined .args_out_of_bounds)
  | some a1 =>
    if a1.length = 1 then .error (.undefined .remove_quotes_short)
    else
      let name := remove_quotes a1
      match check_syntax args "str".toList line_num with
      | .error e => .error e
      | .ok () =>
        match st.current_slide with
        | none => .error (.define_nonexistent line_num a1)
        | some p =>
          match st.slides[p]? with
          | none => .error (.undefined .wild_pointer)
          | some slide =>
            match find_element_by_name name slide with
            | .error e => .error e
            | .ok none => .error (.define_nonexistent line_num a1)
            | .ok (some path) =>
              match element_at slide path with
              | some (.box _) => .ok { st with current_box := some { slide := p, path := path } }
              | some _ => .error (.define_non_box line_num a1)
              | none => .error (.undefined .wild_pointer)

/-- The table `keyword_map` and the loop over it in `parse_slideshow`: the handler of
the first keyword equal to `split[0]` runs; no handler runs for any other word. -/
def run_keyword (stbi_load : List Char → Option Decoded) (st : ParserState)
    (split : List (List Char)) (line_num : Nat) : Except Err ParserState :=
  let kw := split.getD 0 []
  if kw = "slide".toList then handle_slide st split line_num
  else if kw = "template".toList then handle_template st split line_num
  else if kw = "box".toList then handle_box st split line_num
  else if kw = "uses".toList then handle_uses stbi_load st split line_num
  else if kw = "text".toList then handle_text st split line_num
  else if kw = "image".toList then handle_image stbi_load st split line_num
  else if kw = "define".toList then handle_define st split line_num
  else .ok st

/-- The `if (strstr(split[0], "end") != NULL)` block of `parse_slideshow`; the body
of the `if` is `close_context`. -/
def close_context (st : ParserState) (line_num : Nat) : Except Err ParserState :=
  match st.current_box with
  | some _ => .ok { st with current_box := none }
  | none =>
    match st.current_slide with
    | some p => .ok { st with list := st.list ++ [p], current_slide := none }
    | none => .error (.unmatched_end line_num)

/-- The block of `parse_slideshow` that tests `split[0]` for "end". -/
def handle_end (st : ParserState) (split : List (List Char)) (line_num : Nat) :
    Except Err ParserState :=
  if strstr (split.getD 0 []) "end".toList then close_context st line_num else .ok st

/-- One pass of the `while (fgets(...))` loop of `parse_slideshow` on the line
`line`; `line_num` is incremented by the caller. -/
def parse_line (stbi_load : List Char → Option Decoded) (st : ParserState)
    (line : List Char) (line_num : Nat) : Except Err ParserState :=
  let line := trim_str line
  if line.length ≤ 1 then .ok st
  else
    let split := split_str line ":,".toList
    if split.length < 1 then .ok st
    else
      match run_keyword stbi_load st split line_num with
      | .error e => .error e
      | .ok st' => handle_end st' split line_num

/-- The `while` loop of `parse_slideshow` over the lines that `fgets` returns. -/
def parse_lines (stbi_load : List Char → Option Decoded) :
    ParserState → List (List Char) → Nat → Except Err ParserState
  | st, [], _ => .ok st
  | st, line :: lines, line_num =>
    match parse_line stbi_load st line line_num with
    | .error e => .error e
    | .ok st' => parse_lines stbi_load st' lines (line_num + 1)

/-- The chunks `fgets(line, 1024, file)` returns for the rest of the file: up to
and with the next newline, at most 1023 characters each. `buf` is the chunk read so
far, last character first. -/
def fgets_loop : List Char → List Char → List (List Char)
  | [], buf => if buf.isEmpty then [] else [buf.reverse]
  | c :: cs, buf =>
    if c = Char.ofNat 10 || buf.length + 1 = 1023 then (c :: buf).reverse :: fgets_loop cs []
    else fgets_loop cs (c :: buf)

/-- The function `parse_slideshow` on the content of the opened file, from the state
after `slide_list_init`. -/
def parse_slideshow (stbi_load : List Char → Option Decoded) (file : List Char) :
    Except Err ParserState :=
  parse_lines stbi_load ParserState.init (fgets_loop file []) 1

/-! ## Observations on the tree -/

mutual
/-- The Text descendants of a slide, in depth-first order. -/
def Slide.texts : Slide → List Text
  | .mk _ _ elements => texts_of elements
/-- The Text descendants of a box, in order. -/
def Box.texts : Box → List Text
  | .mk _ _ _ elements _ _ _ _ => texts_of elements
/-- The Text elements among `elements` and below them, in depth-first order. -/
def texts_of : List SlideElement → List Text
  | [] => []
  | .slide s :: es => s.texts ++ texts_of es
  | .box b :: es => b.texts ++ texts_of es
  | .text t :: es => t :: texts_of es
  | .image _ :: es => texts_of es
end

/-- An element that `find_element_by_name` compares with `name`: a Box or a Slide of
that name. -/
def SlideElement.named (name : List Char) : SlideElement → Bool
  | .box b => b.name = name
  | .slide s => s.name = name
  | _ => false

/-- A Box of the given name. -/
def SlideElement.box_named (name : List Char) : SlideElement → Bool
  | .box b => b.name = name
  | _ => false

mutual
/-- The subtree of a slide in depth-first pre-order: its children in order, each
nested Slide followed by its own subtree; every element with the path of child
indices that leads to it. -/
def preorder : Slide → List (List Nat × SlideElement)
  | .mk _ _ elements => preorder_from elements 0
/-- The pre-order listing of `elements`, the first of which is child number `i`. -/
def preorder_from : List SlideElement → Nat → List (List Nat × SlideElement)
  | [], _ => []
  | .slide s :: es, i =>
    ([i], .slide s) :: ((preorder s).map (fun pe => (i :: pe.1, pe.2)) ++ preorder_from es (i + 1))
  | .box b :: es, i => ([i], .box b) :: preorder_from es (i + 1)
  | .text t :: es, i => ([i], .text t) :: preorder_from es (i + 1)
  | .image im :: es, i => ([i], .image im) :: preorder_from es (i + 1)
end

/-! ## Deep copy (C6) -/

mutual
/-- Structural equality of two slides, field by field: name, the `visible` flag
(compared only when `with_visible` is set), and the children. -/
def Slide.agrees (with_visible : Bool) (s c : Slide) : Bool :=
  match s with
  | .mk name visible elements =>
    decide (name = c.name) && (!with_visible || visible == c.visible) &&
      elements_agree with_visible elements c.elements
termination_by structural s
/-- Structural equality of two boxes: name, stack_type, text_align and the children. -/
def Box.agrees (with_visible : Bool) (b c : Box) : Bool :=
  match b with
  | .mk text_align stack_type name elements _ _ _ _ =>
    decide (name = c.name) && decide (stack_type = c.stack_type) &&
      decide (text_align = c.text_align) && elements_agree with_visible elements c.elements
termination_by structural b
/-- Structural equality of two elements: the same kind, and then Box and Slide as
above, Text by content and font_size, Image by filename. -/
def SlideElement.agrees (with_visible : Bool) (e c : SlideElement) : Bool :=
  match e with
  | .slide s =>
    match c with
    | .slide s' => s.agrees with_visible s'
    | _ => false
  | .box b =>
    match c with
    | .box b' => b.agrees with_visible b'
    | _ => false
  | .text t =>
    match c with
    | .text t' => decide (t.content = t'.content) && decide (t.font_size = t'.font_size)
    | _ => false
  | .image i =>
    match c with
    | .image i' => decide (i.filename = i'.filename)
    | _ => false
termination_by structural e
/-- The same number of children, in the same order, each pair structurally equal. -/
def elements_agree (with_visible : Bool) (es cs : List SlideElement) : Bool :=
  match es with
  | [] => cs.isEmpty
  | e :: es' =>
    match cs with
    | [] => false
    | c :: cs' => e.agrees with_visible c && elements_agree with_visible es' cs'
termination_by structural es
end

mutual
/-- The slide and every slide below it has `visible = true`. -/
def Slide.all_visible : Slide → Bool
  | .mk _ visible elements => visible && elements_all_visible elements
/-- Every slide below the box has `visible = true`. -/
def Box.all_visible : Box → Bool
  | .mk _ _ _ elements _ _ _ _ => elements_all_visible elements
/-- Every slide among and below the elements has `visible = true`. -/
def elements_all_visible : List SlideElement → Bool
  | [] => true
  | .slide s :: es => s.all_visible && elements_all_visible es
  | .box b :: es => b.all_visible && elements_all_visible es
  | .text _ :: es => elements_all_visible es
  | .image _ :: es => elements_all_visible es
end

/-- The children of a box as the parser builds them: Texts and Images only. -/
def box_children_shaped : List SlideElement → Bool
  | [] => true
  | .text _ :: es => box_children_shaped es
  | .image _ :: es => box_children_shaped es
  | _ :: _ => false

mutual
/-- A slide as the parser builds it: slides hold only Boxes and nested Slides, boxes
hold only Texts and Images. -/
def Slide.parser_shaped : Slide → Bool
  | .mk _ _ elements => slide_children_shaped elements
/-- The children of a slide as the parser builds them. -/
def slide_children_shaped : List SlideElement → Bool
  | [] => true
  | .slide s :: es => s.parser_shaped && slide_children_shaped es
  | .box b :: es => box_children_shaped b.elements && slide_children_shaped es
  | _ :: _ => false
end

mutual
/-- The Image descendants of a slide, in depth-first order. -/
def Slide.images : Slide → List Image
  | .mk _ _ elements => images_of elements
/-- The Image descendants of a box, in order. -/
def Box.images : Box → List Image
  | .mk _ _ _ elements _ _ _ _ => images_of elements
/-- The Image elements among `elements` and below them, in depth-first order. -/
def images_of : List SlideElement → List Image
  | [] => []
  | .slide s :: es => s.images ++ images_of es
  | .box b :: es => b.images ++ images_of es
  | .text _ :: es => images_of es
  | .image im :: es => im :: images_of es
end

/-- The template "T": one vertical box "b" with the text "hi", `visible = false`. -/
def template_T : Slide :=
  .mk "T".toList false
    [.box (.mk .TEXT_ALIGN_LEFT .STACK_VERTICAL "b".toList
      [.text { font_size := .FONT_NORMAL, content := "hi".toList, x := 0, y := 0, size := 0 }]
      0 0 0 0)]

/-! ## Quoted substrings -/

/-- Position `i` of `str` lies between an opening double quote and its matching
closing double quote: an odd number of quotes stands before it and a quote follows. -/
def inside_quotes (str : List Char) (i : Nat) : Bool :=
  decide ((str.take i).count dquote % 2 = 1) && (str.drop i).contains dquote

/-! ## Type signatures -/

/-- The kinds a signature of `check_syntax` is made of. -/
inductive Kind where
  | str | int | uint | type
deriving DecidableEq, Repr

/-- The word of a kind in the `expect` string. -/
def Kind.word : Kind → List Char
  | .str => "str".toList
  | .int => "int".toList
  | .uint => "uint".toList
  | .type => "type".toList

/-- The `expect` string of a signature: the words of its kinds, one blank between
two of them, as in `"str type type"`. -/
def signature_string : List Kind → List Char
  | [] => []
  | [k] => k.word
  | k :: k' :: ks => k.word ++ ' ' :: signature_string (k' :: ks)

/-- An argument satisfies a kind: `str` when `is_string` holds, `int` when `is_number`
holds, `uint` when `is_number` holds and the value is not negative, `type` when
neither `is_number` nor `is_string` holds. -/
def Kind.accepts (k : Kind) (arg : List Char) : Bool :=
  match k with
  | .str => is_string arg
  | .int => (is_number arg false).1
  | .uint => (is_number arg false).1 && !(is_number arg false).2
  | .type => !(is_number arg false).1 && !is_string arg

/-! ## Example inputs -/

/-- The file of six lines: a slide "A" with one vertical box "b" that holds the
text "hi". -/
def six_line_file : List Char :=
  ("slide: \"A\"\nbox: \"b\", stack-vertical, align-left\ndefine: \"b\"\n" ++
   "text: normal, \"hi\"\nend\nend\n").toList

/-- The slide that `six_line_file` describes. -/
def slide_A : Slide :=
  .mk "A".toList true
    [.box (.mk .TEXT_ALIGN_LEFT .STACK_VERTICAL "b".toList
      [.text { font_size := .FONT_NORMAL, content := "hi".toList, x := 0, y := 0, size := 0 }]
      0 0 0 0)]

/-- A state with the slide "A" open and no box current. -/
def open_slide_state : ParserState :=
  { slides := [slide_A], list := [], current_slide := some 0, current_box := none }

/-- A SlideList whose only entry is the template "T0", which holds a nested slide
named "T"; the slide "A" is open. -/
def nested_name_state : ParserState :=
  { slides := [.mk "T0".toList false [.slide (.mk "T".toList true [])], slide_A],
    list := [0], current_slide := some 1, current_box := none }

/-- A slide "A" whose first child is a nested slide "n" and whose second child is
a box "n". -/
def slide_before_box_state : ParserState :=
  { slides := [.mk "A".toList true
      [.slide (.mk "n".toList true []),
       .box (.mk .TEXT_ALIGN_LEFT .STACK_VERTICAL "n".toList [] 0 0 0 0)]],
    list := [], current_slide := some 0, current_box := none }

/-- A template with a box that holds a text and an image, and a nested slide. -/
def template_with_image : Slide :=
  .mk "T".toList false
    [.box (.mk .TEXT_ALIGN_CENTER .STACK_HORIZONTAL "b".toList
      [.text { font_size := .FONT_TITLE, content := "hi".toList, x := 0, y := 0, size := 0 },
       .image { filename := "a.png".toList, width := 4, height := 3, channels := 4,
                rheight := 0, rwidth := 0, x := 0, y := 0 }]
      0 0 0 0),
     .slide slide_A]

/-! ## Integer tokens -/

/-- The value of a string of decimal digits. -/
def digits_value (digits : List Char) : Int :=
  digits.foldl (fun acc d => 10 * acc + ((d.toNat - 48 : Nat) : Int)) 0

/-- The part of a token after its optional sign. -/
def unsigned_part : List Char → List Char
  | '+' :: rest => rest
  | '-' :: rest => rest
  | str => str

/-- A token that is an optional sign (`+` or `-`) followed by one or more decimal
digits and nothing else. -/
def is_integer_token (str : List Char) : Bool :=
  !(unsigned_part str).isEmpty && (unsigned_part str).all Char.isDigit

/-- The integer an integer token denotes. -/
def token_value : List Char → Int
  | '-' :: rest => -digits_value rest
  | str => digits_value (unsigned_part str)

/-! ## Enum words -/

/-- The word `handle_box` accepts for a stack kind. -/
def StackType.word : StackType → List Char
  | .STACK_VERTICAL => "stack-vertical".toList
  | .STACK_HORIZONTAL => "stack-horizontal".toList

/-- The word `handle_box` accepts for an align kind. -/
def TextAlignmentType.word : TextAlignmentType → List Char
  | .TEXT_ALIGN_LEFT => "align-left".toList
  | .TEXT_ALIGN_RIGHT => "align-right".toList
  | .TEXT_ALIGN_CENTER => "align-center".toList

/-- The slide "A" open and its box "b" current. -/
def open_box_state : ParserState :=
  { slides := [slide_A], list := [], current_slide := some 0,
    current_box := some { slide := 0, path := [0] } }

/-! ## Presentation sequence -/

/-- What `change_slide` draws: `render_slide` of an entry of the list, or
`render_endslide`. -/
inductive Shown where
  | slide (idx : Nat)
  | end_slide
deriving DecidableEq, Repr

/-- The `while` loop of `skip_templates` at index `idx`, on `list.slides[idx ..]`. -/
def skip_templates_loop : List Slide → Nat → Except Err Nat
  | [], idx => .error (.undefined (.slide_index_out_of_bounds idx))
  | slide :: rest, idx =>
    if slide.visible then .ok idx
    else if rest.isEmpty then .ok idx   -- `*slide_idx` went to `count` and back
    else skip_templates_loop rest (idx + 1)

/-- The function `skip_templates`; the result is the new `*slide_idx`. -/
def skip_templates (list : List Slide) (slide_idx : Nat) : Except Err Nat :=
  if list.length = 0 then .ok slide_idx
  else skip_templates_loop (list.drop slide_idx) slide_idx

/-- The sum `*slide_idx += amount` of an `unsigned int` and an `int`. -/
def add_unsigned (slide_idx : Nat) (amount : Int) : Nat :=
  (((slide_idx : Int) + amount) % 2 ^ 32).toNat

/-- The calls `render_slide(*list.slides[*slide_idx], ...)` and `update_title` at the
end of `change_slide`. -/
def render_current (list : List Slide) (slide_idx : Nat) : Except Err (Nat × Option Shown) :=
  if slide_idx < list.length then .ok (slide_idx, some (.slide slide_idx))
  else .error (.undefined (.slide_index_out_of_bounds slide_idx))

/-- The guard `amount < 0 && *slide_idx > 0 && list.slides[*slide_idx - 1]->visible` of
`change_slide`; the list is read only when the first two tests hold. -/
def may_step_back (list : List Slide) (slide_idx : Nat) (amount : Int) : Except Err Bool :=
  if amount < 0 ∧ slide_idx > 0 then
    match list[slide_idx - 1]? with
    | none => .error (.undefined (.slide_index_out_of_bounds (slide_idx - 1)))
    | some previous => .ok previous.visible
  else .ok false

/-- The function `change_slide`; the result is the new `*slide_idx` and what was
drawn. -/
def change_slide (list : List Slide) (slide_idx : Nat) (amount : Int) :
    Except Err (Nat × Option Shown) :=
  if list.length = 0 then .ok (slide_idx, none)
  else
    match may_step_back list slide_idx amount with
    | .error e => .error e
    | .ok true => render_current list (add_unsigned slide_idx amount)
    | .ok false =>
      if amount > 0 then
        if add_unsigned slide_idx amount ≥ list.length then .ok (list.length, some .end_slide)
        else render_current list (add_unsigned slide_idx amount)
      else render_current list slide_idx

/-- The SlideList of a file with the slide "A" followed by the template "T". -/
def slide_then_template : List Slide :=
  [slide_A, template_T]

/-! ## Which slides get closed -/

/-- What the lines read so far say about slides: `kinds` has one entry for every
`slide` (true) or `template` (false) line, in order, so that the n-th of these lines
opens the slide number n; `current` is the slide that is open, `box` tells whether a
box is current, and `closed` lists the slides closed by an `end` line, in the order
of those lines. -/
structure Opened where
  kinds : List Bool
  current : Option Nat
  box : Bool
  closed : List Nat
deriving DecidableEq, Repr

/-- Nothing read yet. -/
def Opened.init : Opened :=
  { kinds := [], current := none, box := false, closed := [] }

/-- A line with the first token `kw`: `slide` and `template` open the next slide
(replacing the open one), `define` makes a box current. -/
def track_keyword (tr : Opened) (kw : List Char) : Opened :=
  if kw = "slide".toList then
    { tr with kinds := tr.kinds ++ [true], current := some tr.kinds.length }
  else if kw = "template".toList then
    { tr with kinds := tr.kinds ++ [false], current := some tr.kinds.length }
  else if kw = "define".toList then { tr with box := true }
  else tr

/-- A line whose first token `kw` contains "end" closes the box if one is current,
and else closes the open slide. -/
def track_end (tr : Opened) (kw : List Char) : Opened :=
  if strstr kw "end".toList then
    if tr.box then { tr with box := false }
    else
      match tr.current with
      | some p => { tr with closed := tr.closed ++ [p], current := none }
      | none => tr
  else tr

/-- One line: blank lines and lines of one character are skipped. -/
def track_line (tr : Opened) (line : List Char) : Opened :=
  if (trim_str line).length ≤ 1 then tr
  else
    match split_str (trim_str line) ":,".toList with
    | [] => tr
    | kw :: _ => track_end (track_keyword tr kw) kw

/-- All lines, in order. -/
def track_lines (tr : Opened) (lines : List (List Char)) : Opened :=
  lines.foldl track_line tr

/-- The parser state agrees with what the lines say. -/
def Tracks (st : ParserState) (tr : Opened) : Prop :=
  st.slides.map Slide.visible = tr.kinds ∧ st.list = tr.closed ∧
    st.current_slide = tr.current ∧ st.current_box.isSome = tr.box

/-- The slides named by what the lines say exist. -/
def Opened.valid (tr : Opened) : Prop :=
  (∀ p, tr.current = some p → p < tr.kinds.length) ∧ ∀ p ∈ tr.closed, p < tr.kinds.length

/-- A file with the template "T", a slide "X" that is replaced before it is closed,
and the slide "A". -/
def unclosed_slide_file : List Char :=
  ("template: \"T\"\nend\nslide: \"X\"\nslide: \"A\"\nbox: \"b\", stack-vertical, align-left\n" ++
   "define: \"b\"\nendbox\nend\nslide: \"Y\"\n").toList

/-- The parser state after `unclosed_slide_file`. -/
def unclosed_slide_result : ParserState :=
  { slides := [.mk "T".toList false [], .mk "X".toList true [],
      .mk "A".toList true [.box (.mk .TEXT_ALIGN_LEFT .STACK_VERTICAL "b".toList [] 0 0 0 0)],
      .mk "Y".toList true []],
    list := [0, 2], current_slide := some 3, current_box := none }

/-! ## Layout engine -/

/-- What the X server and Xft report to the layout: the attributes of the window
(`XGetWindowAttributes`), the advance `extents.xOff` that `XftTextExtentsUtf8` gives
for one byte and for a string in the font of a size, and the `height` and `ascent`
of that font (`global_fonts[size]`). -/
structure Display where
  width : Int
  height : Int
  char_xoff : FontSize → Char → Int
  string_xoff : FontSize → List Char → Int
  font_height : FontSize → Int
  font_ascent : FontSize → Int

/-- The globals `global_huge_font_size`, `global_title_font_size`,
`global_normal_font_size` and `global_small_font_size`. -/
def global_font_size : FontSize → ℚ
  | .FONT_HUGE => 40
  | .FONT_TITLE => 25
  | .FONT_NORMAL => 18
  | .FONT_SMALL => 15

/-- The constant `padding_percent = 0.025f`. -/
def padding_percent : ℚ := 1 / 40

/-- Field `x` of a `Box`. -/
def Box.x : Box → ℚ
  | .mk _ _ _ _ x _ _ _ => x

/-- Field `y` of a `Box`. -/
def Box.y : Box → ℚ
  | .mk _ _ _ _ _ y _ _ => y

/-- Field `width` of a `Box`. -/
def Box.width : Box → ℚ
  | .mk _ _ _ _ _ _ width _ => width

/-- Field `height` of a `Box`. -/
def Box.height : Box → ℚ
  | .mk _ _ _ _ _ _ _ height => height

/-- The box after `box->elements` is replaced. -/
def Box.set_elements : Box → List SlideElement → Box
  | .mk text_align stack_type name _ x y width height, elements =>
    .mk text_align stack_type name elements x y width height

/-- The box after `box->width = width`. -/
def Box.set_width : Box → ℚ → Box
  | .mk text_align stack_type name elements x y _ height, width =>
    .mk text_align stack_type name elements x y width height

/-- The box after `box->height = height`. -/
def Box.set_height : Box → ℚ → Box
  | .mk text_align stack_type name elements x y width _, height =>
    .mk text_align stack_type name elements x y width height

/-- The box after `box->y = y; box->x = x`. -/
def Box.set_position : Box → ℚ → ℚ → Box
  | .mk text_align stack_type name elements _ _ width height, x, y =>
    .mk text_align stack_type name elements x y width height

/-- The conversion of a `float` to `int`: the fraction is cut off. -/
def float_to_int (q : ℚ) : Int :=
  if 0 ≤ q then ⌊q⌋ else ⌈q⌉

/-- The function `get_char_width`. -/
def get_char_width (dpy : Display) (c : Char) (size : FontSize) : ℚ :=
  dpy.char_xoff size c

/-- The function `get_strtext_width`. -/
def get_strtext_width (dpy : Display) (str : List Char) (size : FontSize) : ℚ :=
  dpy.string_xoff size str

/-- The function `get_text_width`: the advances of the characters, summed in an `int`. -/
def get_text_width (dpy : Display) (text : Text) : ℚ :=
  ((text.content.map (dpy.char_xoff text.font_size)).sum : Int)

/-- The function `get_line_height`. -/
def get_line_height (dpy : Display) (text : Text) (box_height : Int) : ℚ :=
  (dpy.font_height text.font_size : ℚ) / (box_height : ℚ)

/-- The function `get_font_ascent`. -/
def get_font_ascent (dpy : Display) (text : Text) (box_height : Int) : ℚ :=
  (dpy.font_ascent text.font_size : ℚ) / (box_height : ℚ)

/-- The value `(attr.width * padding_percent) / (box->width * attr.width)` that
`apply_word_wrap`, `calculate_vbox_height` and `position_elements` call `padding`. -/
def box_padding (dpy : Display) (box_width : ℚ) : ℚ :=
  ((dpy.width : ℚ) * padding_percent) / (box_width * (dpy.width : ℚ))

/-- The first loop over the words in `apply_word_wrap`: the greatest width of a word,
starting from `max_width`. -/
def max_word_width (dpy : Display) (size : FontSize) : List (List Char) → ℚ → ℚ
  | [], max_width => max_width
  | word :: words, max_width =>
    let temp_width := get_strtext_width dpy word size / (dpy.width : ℚ)
    max_word_width dpy size words (if temp_width > max_width then temp_width else max_width)

/-- The second loop over the words in `apply_word_wrap`, from word `j` on, with the
locals `width` and `break_idx`; the result is `break_idx` after the loop. -/
def find_break (dpy : Display) (size : FontSize) (box_width space_width : ℚ) :
    List (List Char) → Nat → ℚ → Nat → Nat
  | [], _, _, break_idx => break_idx
  | word :: words, j, width, break_idx =>
    let break_idx := if j > 0 then j - 1 else break_idx
    let width := width + get_strtext_width dpy word size / (dpy.width : ℚ) + space_width
    if width ≥ box_width then break_idx
    else find_break dpy size box_width space_width words (j + 1) width break_idx

/-- The words `strcat`ed one after the other, each followed by a blank. -/
def join_words : List (List Char) → List Char
  | [] => []
  | word :: words => word ++ ' ' :: join_words words

/-- The loop of `apply_word_wrap` at index `i`, on `box->elements[i ..]`, with the
local `current_y`; the result is `box->elements[i ..]` after the loop. `fuel` bounds
the number of passes through the loop body. A pass that wraps a Text replaces it by
a new Text with the words before `break_idx`, puts the other words in front of the
next Text or into a new Text, and visits the same index again. -/
def wrap_from (dpy : Display) (box_width : ℚ) (box_name : List Char) (padding : ℚ) :
    Nat → List SlideElement → ℚ → Except Err (List SlideElement)
  | _, [], _ => .ok []
  | 0, _ :: _, _ => .error .step_limit
  | fuel + 1, .text t :: rest, current_y =>
    let text : Text := { t with size := global_font_size t.font_size / (dpy.width : ℚ) }
    let slide_text_width := get_text_width dpy text / (dpy.width : ℚ) + padding
    if slide_text_width > box_width ∧ strstr text.content [' '] = true then
      let space_width := get_char_width dpy ' ' text.font_size / (dpy.width : ℚ)
      let split_text := split_str text.content [' ']
      let fn := text.font_size
      if max_word_width dpy text.font_size split_text 0 > box_width then
        .error (.word_too_wide box_name)
      else
        let break_idx := find_break dpy text.font_size box_width space_width split_text 0 0 0
        let new_line := join_words (split_text.take break_idx)
        let next_line := join_words (split_text.drop break_idx)
        let rest' : List SlideElement :=
          match rest with
          | .text next_text :: after =>
            .text (create_text (next_line ++ next_text.content) fn) :: after
          | _ => .text (create_text next_line fn) :: rest
        wrap_from dpy box_width box_name padding fuel
          (.text (create_text new_line fn) :: rest') current_y
    else
      let line_height := get_line_height dpy text dpy.height
      let text : Text := { text with y := current_y + get_font_ascent dpy text dpy.height }
      match wrap_from dpy box_width box_name padding fuel rest (current_y + line_height) with
      | .error e => .error e
      | .ok wrapped => .ok (.text text :: wrapped)
  | fuel + 1, element :: rest, current_y =>
    match wrap_from dpy box_width box_name padding fuel rest current_y with
    | .error e => .error e
    | .ok wrapped => .ok (element :: wrapped)

/-- The function `apply_word_wrap`, with at most `fuel` passes through its loop. -/
def apply_word_wrap (dpy : Display) (fuel : Nat) (box : Box) : Except Err Box :=
  match wrap_from dpy box.width box.name (box_padding dpy box.width) fuel box.elements
      (box_padding dpy box.width) with
  | .error e => .error e
  | .ok elements => .ok (box.set_elements elements)

/-- The loop of `calculate_vbox_height` on `box->elements[i ..]` with the local
`current_y`: the elements after the loop (every Text with its new `y`) and the
final `current_y`. -/
def vbox_height_from (dpy : Display) : List SlideElement → ℚ → List SlideElement × ℚ
  | [], current_y => ([], current_y)
  | .text text :: rest, current_y =>
    let line_height := get_line_height dpy text dpy.height
    let text : Text := { text with y := current_y + get_font_ascent dpy text dpy.height }
    let r := vbox_height_from dpy rest (current_y + line_height)
    (.text text :: r.1, r.2)
  | .image image :: rest, current_y =>
    let r := vbox_height_from dpy rest
      (current_y + (1 * (image.height : ℚ)) / (image.width : ℚ))
    (.image image :: r.1, r.2)
  | element :: rest, current_y =>
    let r := vbox_height_from dpy rest current_y
    (element :: r.1, r.2)

/-- The function `calculate_vbox_height`: the box after the call and the value
returned. -/
def calculate_vbox_height (dpy : Display) (box : Box) : Box × ℚ :=
  let r := vbox_height_from dpy box.elements (box_padding dpy box.width)
  (box.set_elements r.1, r.2)

/-- The `switch (box->text_align)` of `position_elements` for an element of width
`width`: its `x`. -/
def aligned_x (text_align : TextAlignmentType) (padding width : ℚ) : ℚ :=
  match text_align with
  | .TEXT_ALIGN_LEFT => padding
  | .TEXT_ALIGN_CENTER => 1 / 2 - width / 2
  | .TEXT_ALIGN_RIGHT => 1 - width - padding

/-- The loop of `position_elements` on `box->elements[i ..]` with the local
`current_y`; `element_count` is `box->element_count`. -/
def position_from (dpy : Display) (box : Box) (element_count : Nat) (box_height_px : Int)
    (box_aspect_ratio padding : ℚ) : List SlideElement → ℚ → List SlideElement
  | [], _ => []
  | .text text :: rest, current_y =>
    let text_width := (get_text_width dpy text / (dpy.width : ℚ)) / box.width
    let line_height := get_line_height dpy text box_height_px
    let y := if element_count = 1 then 1 / 2 + line_height / 2
      else current_y + get_font_ascent dpy text box_height_px
    let current_y := if element_count = 1 then current_y else current_y + line_height
    .text { text with y := y, x := aligned_x box.text_align padding text_width } ::
      position_from dpy box element_count box_height_px box_aspect_ratio padding rest current_y
  | .image image :: rest, current_y =>
    let img_scale : ℚ := 9 / 10
    let img_aspect_ratio : ℚ := (image.width : ℚ) / (image.height : ℚ)
    let rheight := (img_scale / img_aspect_ratio) * box_aspect_ratio
    let clipped := decide (rheight > box.height - current_y)
    let rheight := if clipped then box.height - current_y else rheight
    let rwidth := if clipped then rheight * img_aspect_ratio / box_aspect_ratio else img_scale
    let y := if element_count = 1 then 1 / 2 - rheight / 2 else current_y
    .image { image with rwidth := rwidth, rheight := rheight, y := y,
                        x := aligned_x box.text_align padding rwidth } ::
      position_from dpy box element_count box_height_px box_aspect_ratio padding rest
        (current_y + rheight)
  | element :: rest, current_y =>
    element ::
      position_from dpy box element_count box_height_px box_aspect_ratio padding rest current_y

/-- The function `position_elements`. -/
def position_elements (dpy : Display) (box : Box) : Box :=
  let box_height_px := float_to_int (box.height * (dpy.height : ℚ))
  let box_aspect_ratio := (box.width * (dpy.width : ℚ)) / (box.height * (dpy.height : ℚ))
  let padding := box_padding dpy box.width
  box.set_elements
    (position_from dpy box box.elements.length box_height_px box_aspect_ratio padding
      box.elements padding)

/-- Rounding of a rational to the nearest integer, a tie going to the even one. -/
def round_even (q : ℚ) : Int :=
  if q - ⌊q⌋ < 1 / 2 then ⌊q⌋
  else if q - ⌊q⌋ > 1 / 2 then ⌊q⌋ + 1
  else if ⌊q⌋ % 2 = 0 then ⌊q⌋ else ⌊q⌋ + 1

/-- The `float` nearest to `q`, a tie going to the even mantissa: what an operation
on `float` operands (IEEE 754 binary32: 24 bits of precision, least exponent -126)
stores when its exact result is `q`. The exponent has no upper bound here; the values
of the layout are far below the greatest `float`. -/
def to_float (q : ℚ) : ℚ :=
  if q = 0 then 0
  else (round_even (q / 2 ^ (max (Int.log 2 |q|) (-126) - 23)) : ℚ) *
    2 ^ (max (Int.log 2 |q|) (-126) - 23)

/-- The locals `in_row`, `cur_count`, `hbox_width` and `row_count` of `apply_layout`. -/
structure RowState where
  in_row : Bool
  cur_count : Int
  hbox_width : ℚ
  row_count : Int
deriving DecidableEq, Repr

/-- The inner loop `for (j = i; ...)` of `apply_layout` on `slide->elements[j ..]`:
it counts the Horizontal boxes up to the next Vertical box or up to a Box that is the
last element, and then sets the width of the row; an element that is no Box is
passed over, also when it is the last one. -/
def row_scan : List SlideElement → RowState → RowState
  | [], rs => rs
  | .box rbox :: rest, rs =>
    let cur_count := if rbox.stack_type = .STACK_HORIZONTAL then rs.cur_count + 1 else rs.cur_count
    if rbox.stack_type = .STACK_VERTICAL ∨ rest.isEmpty = true then
      { in_row := true, cur_count := 0,
        hbox_width := if cur_count ≤ 1 then 1 else to_float (1 / (cur_count : ℚ)),
        row_count := rs.row_count + 1 }
    else row_scan rest { rs with cur_count := cur_count }
  | _ :: rest, rs => row_scan rest rs

/-- The second loop of `apply_layout` ("adjust sizes of hboxes") on
`slide->elements[i ..]`: the elements after the loop and the final locals. -/
def row_pass (dpy : Display) (fuel : Nat) :
    List SlideElement → RowState → Except Err (List SlideElement × RowState)
  | [], rs => .ok ([], rs)
  | .box box :: rest, rs =>
    if box.stack_type = .STACK_HORIZONTAL then
      let rs := if rs.in_row then rs else row_scan (.box box :: rest) rs
      match apply_word_wrap dpy fuel (box.set_width rs.hbox_width) with
      | .error e => .error e
      | .ok box' =>
        match row_pass dpy fuel rest rs with
        | .error e => .error e
        | .ok r => .ok (.box box' :: r.1, r.2)
    else
      match row_pass dpy fuel rest { rs with in_row := false } with
      | .error e => .error e
      | .ok r => .ok (.box box :: r.1, r.2)
  | element :: rest, rs =>
    match row_pass dpy fuel rest rs with
    | .error e => .error e
    | .ok r => .ok (element :: r.1, r.2)

/-- The third loop of `apply_layout`: every Horizontal box gets the height
`(1.0f - total_height) / row_count`. -/
def height_pass (total_height : ℚ) (row_count : Int) : List SlideElement → List SlideElement
  | [] => []
  | .box box :: rest =>
    (if box.stack_type = .STACK_HORIZONTAL then
      .box (box.set_height ((1 - total_height) / (row_count : ℚ)))
     else .box box) :: height_pass total_height row_count rest
  | element :: rest => element :: height_pass total_height row_count rest

/-- The fourth loop of `apply_layout` ("adjust positions") on
`slide->elements[i ..]` with the cursor `cur_x`, `cur_y`. The sum
`cur_x += box->width` is the `float` sum of two `float`s, and the test
`cur_x >= 1.0f` is made on it. -/
def position_pass (dpy : Display) : List SlideElement → ℚ → ℚ → List SlideElement
  | [], _, _ => []
  | .box box :: rest, cur_x, cur_y =>
    let box := position_elements dpy (box.set_position cur_x cur_y)
    if box.stack_type = .STACK_VERTICAL then
      .box box :: position_pass dpy rest cur_x (cur_y + box.height)
    else if to_float (cur_x + box.width) ≥ 1 then
      .box box :: position_pass dpy rest 0 (cur_y + box.height)
    else .box box :: position_pass dpy rest (to_float (cur_x + box.width)) cur_y
  | element :: rest, cur_x, cur_y => element :: position_pass dpy rest cur_x cur_y

mutual
/-- The function `apply_layout`, with at most `fuel` passes through the loop of each
call of `apply_word_wrap`. -/
def apply_layout (dpy : Display) (fuel : Nat) (slide : Slide) : Except Err Slide :=
  match slide with
  | .mk name visible elements =>
    match measure_pass dpy fuel elements 0 0 with
    | .error e => .error e
    | .ok (measured, total_height, total_hboxes) =>
      let hbox_width : ℚ := if total_hboxes > 0 then to_float (1 / (total_hboxes : ℚ)) else 0
      match row_pass dpy fuel measured
          { in_row := false, cur_count := 0, hbox_width := hbox_width, row_count := 0 } with
      | .error e => .error e
      | .ok (sized, rs) =>
        .ok (.mk name visible
          (position_pass dpy (height_pass total_height rs.row_count sized) 0 0))
termination_by structural slide
/-- The first loop of `apply_layout` ("calculate default box size") on
`slide->elements[i ..]` with the locals `total_height` and `total_hboxes`. A nested
Slide is laid out by the recursive call; the source then goes on to read it through
the `box` member of the union, where the word read as `stack_type` is half of the
pointer `name`, which is neither `STACK_VERTICAL` nor `STACK_HORIZONTAL`: no branch
is taken. -/
def measure_pass (dpy : Display) (fuel : Nat) (elements : List SlideElement)
    (total_height : ℚ) (total_hboxes : Int) :
    Except Err (List SlideElement × ℚ × Int) :=
  match elements with
  | [] => .ok ([], total_height, total_hboxes)
  | .slide nested_slide :: rest =>
    match apply_layout dpy fuel nested_slide with
    | .error e => .error e
    | .ok nested =>
      match measure_pass dpy fuel rest total_height total_hboxes with
      | .error e => .error e
      | .ok r => .ok (.slide nested :: r.1, r.2)
  | .box box :: rest =>
    if box.stack_type = .STACK_VERTICAL then
      match apply_word_wrap dpy fuel (box.set_width 1) with
      | .error e => .error e
      | .ok wrapped =>
        let r := calculate_vbox_height dpy wrapped
        let box := r.1.set_height (r.2 / 1)
        match measure_pass dpy fuel rest (total_height + box.height) total_hboxes with
        | .error e => .error e
        | .ok r => .ok (.box box :: r.1, r.2)
    else
      match measure_pass dpy fuel rest total_height (total_hboxes + 1) with
      | .error e => .error e
      | .ok r => .ok (.box (box.set_height 1) :: r.1, r.2)
  | element :: rest =>
    match measure_pass dpy fuel rest total_height total_hboxes with
    | .error e => .error e
    | .ok r => .ok (element :: r.1, r.2)
termination_by structural elements
end

/-! ## Observations on a laid-out slide -/

/-- The widths of the Box children, in order. -/
def box_widths : List SlideElement → List ℚ
  | [] => []
  | .box box :: rest => box.width :: box_widths rest
  | _ :: rest => box_widths rest

/-- The heights of the Box children, in order. -/
def box_heights : List SlideElement → List ℚ
  | [] => []
  | .box box :: rest => box.height :: box_heights rest
  | _ :: rest => box_heights rest

/-- Every child is a Vertical box. -/
def only_vertical_boxes : List SlideElement → Bool
  | [] => true
  | .box box :: rest => decide (box.stack_type = .STACK_VERTICAL) && only_vertical_boxes rest
  | _ :: _ => false

/-- The height of the content of a box: the normalized line height of every Text
(height of its font over the height of the window) and the aspect-derived height of
every Image (its height over its width), summed. -/
def content_height (dpy : Display) : List SlideElement → ℚ
  | [] => 0
  | .text text :: rest => get_line_height dpy text dpy.height + content_height dpy rest
  | .image image :: rest =>
    (1 * (image.height : ℚ)) / (image.width : ℚ) + content_height dpy rest
  | _ :: rest => content_height dpy rest

/-- The heights that the contents of the Box children ask for: the padding 0.025 and
the height of the content, for every Box child in order. -/
def content_heights (dpy : Display) : List SlideElement → List ℚ
  | [] => []
  | .box box :: rest =>
    (padding_percent + content_height dpy box.elements) :: content_heights dpy rest
  | _ :: rest => content_heights dpy rest

/-- A window of 800 by 600 pixels with fonts in which every character advances by 10
pixels and every line is 20 pixels high. -/
def example_display : Display :=
  { width := 800, height := 600, char_xoff := fun _ _ => 10,
    string_xoff := fun _ str => 10 * str.length, font_height := fun _ => 20,
    font_ascent := fun _ => 15 }

/-- A childless box. -/
def empty_box (name : List Char) (stack : StackType) : SlideElement :=
  .box (create_box name stack .TEXT_ALIGN_LEFT)

/-- A slide with the children: Horizontal "a", Vertical "v", Horizontal "b",
Horizontal "c", and the nested slide "T" that a `uses` line at the end adds. -/
def rows_then_slide : Slide :=
  .mk "A".toList true
    [empty_box "a".toList .STACK_HORIZONTAL, empty_box "v".toList .STACK_VERTICAL,
     empty_box "b".toList .STACK_HORIZONTAL, empty_box "c".toList .STACK_HORIZONTAL,
     .slide (.mk "T".toList true [])]

/-- A slide whose only child is a childless Vertical box. -/
def one_vertical_box : Slide :=
  .mk "A".toList true [empty_box "v".toList .STACK_VERTICAL]

/-- A slide with the Vertical box "v" that holds the text "hi" and the childless
Vertical box "w". -/
def text_box_slide : Slide :=
  .mk "A".toList true
    [.box (.mk .TEXT_ALIGN_LEFT .STACK_VERTICAL "v".toList
        [.text (create_text "hi".toList .FONT_NORMAL)] 0 0 0 0),
     empty_box "w".toList .STACK_VERTICAL]

/-- The slide `text_box_slide` laid out in `example_display`. -/
def text_box_slide_laid_out : Slide :=
  .mk "A".toList true
    [.box (.mk .TEXT_ALIGN_LEFT .STACK_VERTICAL "v".toList
        [.text { font_size := .FONT_NORMAL, content := "hi".toList, x := 1 / 40, y := 11 / 14,
                 size := 9 / 400 }] 0 0 1 (7 / 120)),
     .box (.mk .TEXT_ALIGN_LEFT .STACK_VERTICAL "w".toList [] 0 (7 / 120) 1 (1 / 40))]

/-! ## Word wrap: observations and examples -/

/-- The running width of the second loop over the words in `apply_word_wrap` after
the words 0..j: the width of each of them plus one space width. -/
def running_width (dpy : Display) (size : FontSize) (words : List (List Char)) (j : Nat) : ℚ :=
  ((words.take (j + 1)).map (fun word =>
    get_strtext_width dpy word size / (dpy.width : ℚ) +
      get_char_width dpy ' ' size / (dpy.width : ℚ))).sum

/-- The contents of the Text children, in order. -/
def text_contents : List SlideElement → List (List Char)
  | [] => []
  | .text t :: rest => t.content :: text_contents rest
  | _ :: rest => text_contents rest

/-- A window of 800 by 600 pixels with fonts in which every character advances by 40
pixels and every line is 50 pixels high. -/
def huge_font_display : Display :=
  { width := 800, height := 600, char_xoff := fun _ _ => 40,
    string_xoff := fun _ str => 40 * str.length, font_height := fun _ => 50,
    font_ascent := fun _ => 40 }

/-- A Vertical box "v" of width 1 with one Text of the Huge size. -/
def huge_text_box (content : List Char) : Box :=
  .mk .TEXT_ALIGN_LEFT .STACK_VERTICAL "v".toList [.text (create_text content .FONT_HUGE)] 0 0 1 0

/-- What a wrap step of `apply_word_wrap` at index `i` leaves at the indices after `i`,
which held `rest` before: the remainder `next_line` is put in front of the content of
a Text at `i + 1`, and else becomes a new Text at `i + 1`; both take the font size
`fn` of the wrapped Text. -/
def carry_remainder (next_line : List Char) (fn : FontSize) :
    List SlideElement → List SlideElement
  | .text next_text :: after => .text (create_text (next_line ++ next_text.content) fn) :: after
  | rest => .text (create_text next_line fn) :: rest

/-- The index `break_idx` that a wrap step of `apply_word_wrap` computes for a Text. -/
def break_index (dpy : Display) (box_width : ℚ) (t : Text) : Nat :=
  find_break dpy t.font_size box_width (get_char_width dpy ' ' t.font_size / (dpy.width : ℚ))
    (split_str t.content [' ']) 0 0 0

/-- The box `huge_text_box "hello brave new world"` after `apply_word_wrap` in
`huge_font_display`. -/
def hello_brave_wrapped : Box :=
  .mk .TEXT_ALIGN_LEFT .STACK_VERTICAL "v".toList
    [.text { font_size := .FONT_HUGE, content := "hello brave ".toList, x := 0, y := 11 / 120,
             size := 1 / 20 },
     .text { font_size := .FONT_HUGE, content := "new world ".toList, x := 0, y := 7 / 40,
             size := 1 / 20 }] 0 0 1 0

/-! ## Rows of Horizontal boxes -/

/-- What the passes of `apply_layout` over the children of a slide look at to tell
rows: for every child, the stack type when it is a Box. -/
def stack_shape : List SlideElement → List (Option StackType)
  | [] => []
  | .box b :: rest => some b.stack_type :: stack_shape rest
  | _ :: rest => none :: stack_shape rest

/-- The number of Horizontal boxes from the front of the list up to the next
Vertical box or the end of the list; elements that are no Box are passed over. -/
def hboxes_ahead : List (Option StackType) → Nat
  | [] => 0
  | some .STACK_HORIZONTAL :: rest => hboxes_ahead rest + 1
  | some .STACK_VERTICAL :: _ => 0
  | none :: rest => hboxes_ahead rest

/-- The number of Horizontal boxes in the list. -/
def count_hboxes : List (Option StackType) → Nat
  | [] => 0
  | some .STACK_HORIZONTAL :: rest => count_hboxes rest + 1
  | _ :: rest => count_hboxes rest

/-- Whether the inner loop of `apply_layout`, started at the front of the list,
reaches its `break`: it does at a Vertical box and at a Box that is the last element
of the list. -/
def row_closes : List (Option StackType) → Bool
  | [] => false
  | some stack :: rest => decide (stack = .STACK_VERTICAL) || rest.isEmpty || row_closes rest
  | none :: rest => row_closes rest

/-- The sums of the cursor over a row of `m` boxes are exact in `float`: the width
`1 / m` and its multiples up to 1 are `float`s, as they are for m = 1, 2 and 4; for
m = 12 the width is rounded, and the sum of the twelve rounded widths, rounded at
every step, stays below 1. -/
def exact_count (m : Nat) : Prop :=
  ∀ j : Nat, j ≤ m → to_float ((j : ℚ) / (m : ℚ)) = (j : ℚ) / (m : ℚ)

/-- The widths of the Horizontal boxes fit the cursor `cur_x` of the position pass:
a Vertical box is met with the cursor at 0, and a Horizontal box is met at `j / m`
with the width `1 / m` for some `j < m` with sums that are exact in `float`, after
which the cursor is at `(j + 1) / m`, or at 0 again when that is 1; where the inner loop of `apply_layout` reaches its
`break`, `m` is the number of boxes of the row: the `j` before and the ones ahead. -/
def row_packed : ℚ → List SlideElement → Prop
  | _, [] => True
  | cur_x, .box b :: rest =>
    if b.stack_type = .STACK_VERTICAL then cur_x = 0 ∧ row_packed 0 rest
    else ∃ m j : Nat, j < m ∧ exact_count m ∧ b.width = 1 / (m : ℚ) ∧
      cur_x = (j : ℚ) / (m : ℚ) ∧
      (row_closes (stack_shape (.box b :: rest)) = true →
        m = j + hboxes_ahead (stack_shape (.box b :: rest))) ∧
      row_packed (if j + 1 = m then 0 else ((j : ℚ) + 1) / (m : ℚ)) rest
  | cur_x, _ :: rest => row_packed cur_x rest

/-- What the second loop of `apply_layout` can rely on at an index, with the locals
`rs`, the stack types `shape` from that index on, and the place `cur_x` at which the
position pass will meet the next box. Inside a row whose width has been set, the
width is the `float` nearest to `1 / m`, and `j` boxes of the row are passed and the
others ahead; before a
row that the inner loop will close, the cursor is at 0 and `cur_count` is 0; where
the inner loop cannot close a row any more, the width stays what it is. -/
def row_state_ok (shape : List (Option StackType)) (rs : RowState) (cur_x : ℚ) : Prop :=
  if rs.in_row = true then
    rs.cur_count = 0 ∧ ∃ m j : Nat, 1 ≤ m ∧ rs.hbox_width = to_float (1 / (m : ℚ)) ∧
      j + hboxes_ahead shape = m ∧
      cur_x = if hboxes_ahead shape = 0 then 0 else (j : ℚ) / (m : ℚ)
  else if row_closes shape = true then
    rs.cur_count = 0 ∧ cur_x = 0 ∧
      ((∃ m : Nat, 1 ≤ m ∧ rs.hbox_width = to_float (1 / (m : ℚ))) ∨ count_hboxes shape = 0)
  else
    (∃ m j : Nat, j < m ∧ rs.hbox_width = to_float (1 / (m : ℚ)) ∧
      cur_x = (j : ℚ) / (m : ℚ)) ∨
      (cur_x = 0 ∧ count_hboxes shape = 0)

/-- An image file of 600 by 800 pixels, as `create_image` returns it. -/
def tall_image : Image :=
  { filename := "tall.png".toList, width := 600, height := 800, channels := 3,
    rheight := 0, rwidth := 0, x := 0, y := 0 }

/-- What the measure pass leaves in a Vertical box: the width 1, and as height the
padding of a box of width 1 and the height of the content. -/
def vertical_measured (dpy : Display) : SlideElement → Prop
  | .box b =>
    b.stack_type = .STACK_VERTICAL →
      b.width = 1 ∧ b.height = box_padding dpy 1 + content_height dpy b.elements
  | _ => True

/-! ## Positions of the boxes of a slide -/

/-- Every child is a Box. -/
def all_boxes (es : List SlideElement) : Bool :=
  (stack_shape es).all Option.isSome

/-- The positions `(x, y)` of the Box children, in order. -/
def box_positions : List SlideElement → List (ℚ × ℚ)
  | [] => []
  | .box b :: rest => (b.x, b.y) :: box_positions rest
  | _ :: rest => box_positions rest

/-- Stated from the claim on the position pass, for children that are all boxes: `k`
boxes of the current row are placed already, and `y` is the sum of the heights of the
Vertical boxes and of the complete rows passed so far. A Vertical box is put at
`(0, y)` and adds its height to `y`; a Horizontal box is the `k`-th box of its row of
`N` boxes, where `N` is `k` and the number of Horizontal boxes from this one up to
the next Vertical box or the end, and is put at `(k / N, y)`; the last box of a row
completes it, and the height of the row is added to `y`. -/
def stacked_positions : List SlideElement → Nat → ℚ → List (ℚ × ℚ)
  | [], _, _ => []
  | .box b :: rest, k, y =>
    if b.stack_type = .STACK_VERTICAL then (0, y) :: stacked_positions rest 0 (y + b.height)
    else
      ((k : ℚ) / ((k + hboxes_ahead (stack_shape (.box b :: rest)) : Nat) : ℚ), y) ::
        (if hboxes_ahead (stack_shape rest) = 0 then stacked_positions rest 0 (y + b.height)
         else stacked_positions rest (k + 1) y)
  | _ :: rest, k, y => stacked_positions rest k y

/-- A slide with the childless boxes Horizontal "a", Horizontal "b", Vertical "v" and
Horizontal "c". -/
def two_rows_slide : Slide :=
  .mk "A".toList true
    [empty_box "a".toList .STACK_HORIZONTAL, empty_box "b".toList .STACK_HORIZONTAL,
     empty_box "v".toList .STACK_VERTICAL, empty_box "c".toList .STACK_HORIZONTAL]

/-- The slide `two_rows_slide` laid out. -/
def two_rows_laid_out : Slide :=
  .mk "A".toList true
    [.box (.mk .TEXT_ALIGN_LEFT .STACK_HORIZONTAL "a".toList [] 0 0 (1 / 2) (39 / 80)),
     .box (.mk .TEXT_ALIGN_LEFT .STACK_HORIZONTAL "b".toList [] (1 / 2) 0 (1 / 2) (39 / 80)),
     .box (.mk .TEXT_ALIGN_LEFT .STACK_VERTICAL "v".toList [] 0 (39 / 80) 1 (1 / 40)),
     .box (.mk .TEXT_ALIGN_LEFT .STACK_HORIZONTAL "c".toList [] 0 (41 / 80) 1 (39 / 80))]

/-- The number of rows: of maximal runs of Horizontal boxes that no Vertical box
parts; `in_run` tells whether the box before was Horizontal. -/
def count_rows : Bool → List (Option StackType) → Nat
  | _, [] => 0
  | in_run, some .STACK_HORIZONTAL :: rest => (if in_run then 0 else 1) + count_rows true rest
  | _, some .STACK_VERTICAL :: rest => count_rows false rest
  | in_run, none :: rest => count_rows in_run rest

/-- The sum of the heights of the Vertical boxes. -/
def vertical_total : List SlideElement → ℚ
  | [] => 0
  | .box b :: rest =>
    (if b.stack_type = .STACK_VERTICAL then b.height else 0) + vertical_total rest
  | _ :: rest => vertical_total rest

/-- The heights of the Horizontal boxes, in order. -/
def hbox_heights : List SlideElement → List ℚ
  | [] => []
  | .box b :: rest =>
    if b.stack_type = .STACK_HORIZONTAL then b.height :: hbox_heights rest else hbox_heights rest
  | _ :: rest => hbox_heights rest

/-- The slide `rows_then_slide` laid out in a window of non-zero width. -/
def rows_then_slide_laid_out : Slide :=
  .mk "A".toList true
    [.box (.mk .TEXT_ALIGN_LEFT .STACK_HORIZONTAL "a".toList [] 0 0 1 (39 / 40)),
     .box (.mk .TEXT_ALIGN_LEFT .STACK_VERTICAL "v".toList [] 0 (39 / 40) 1 (1 / 40)),
     .box (.mk .TEXT_ALIGN_LEFT .STACK_HORIZONTAL "b".toList [] 0 1 1 (39 / 40)),
     .box (.mk .TEXT_ALIGN_LEFT .STACK_HORIZONTAL "c".toList [] 0 (79 / 40) 1 (39 / 40)),
     .slide (.mk "T".toList true [])]

/-! ## A second layout -/

/-- A Text without the place that the layout gives it: `x` and `y`. -/
def Text.unplaced (t : Text) : Text :=
  { t with x := 0, y := 0 }

/-- An Image without what `position_elements` writes to it. -/
def Image.unplaced (image : Image) : Image :=
  { image with rwidth := 0, rheight := 0, x := 0, y := 0 }

/-- A child of a box without the place that the layout gives it. -/
def unplaced_element : SlideElement → SlideElement
  | .text t => .text t.unplaced
  | .image image => .image image.unplaced
  | e => e

/-- A box without what the layout writes after the word wrap: its position, the
places of its Texts and Images and, for a Horizontal box, its height. -/
def Box.unplaced : Box → Box
  | .mk text_align stack_type name elements _ _ width height =>
    .mk text_align stack_type name (elements.map unplaced_element) 0 0 width
      (if stack_type = .STACK_HORIZONTAL then 0 else height)

/-- A child of a slide without what the layout writes to a Box after the word wrap. -/
def unplaced_child : SlideElement → SlideElement
  | .box b => .box b.unplaced
  | e => e

/-- A child of a slide on which the first loop of `apply_layout` has nothing left to
do: a nested Slide that `apply_layout` returns as it is, and a Vertical box that the
measure leaves as it is but for the places of its children, also when these places
are other ones. -/
def settled (dpy : Display) (fuel : Nat) : SlideElement → Prop
  | .box b =>
    b.stack_type = .STACK_VERTICAL → ∀ b2 : Box, b2.unplaced = b.unplaced →
      ∃ wrapped, apply_word_wrap dpy fuel (b2.set_width 1) = .ok wrapped ∧
        ((calculate_vbox_height dpy wrapped).1.set_height
          ((calculate_vbox_height dpy wrapped).2 / 1)).unplaced = b.unplaced ∧
        (calculate_vbox_height dpy wrapped).2 / 1 = b.height
  | .slide s => apply_layout dpy fuel s = .ok s
  | _ => True

/-- A slide whose only child is the box `huge_text_box "hello brave new world"`. -/
def hello_brave_slide : Slide :=
  .mk "A".toList true [.box (huge_text_box "hello brave new world".toList)]

/-- The slide `hello_brave_slide` laid out in `huge_font_display`. -/
def hello_brave_laid_out : Slide :=
  .mk "A".toList true
    [.box (.mk .TEXT_ALIGN_LEFT .STACK_VERTICAL "v".toList
      [.text { font_size := .FONT_HUGE, content := "hello brave ".toList, x := 1 / 40,
               y := 343 / 920, size := 1 / 20 },
       .text { font_size := .FONT_HUGE, content := "new world ".toList, x := 1 / 40,
               y := 743 / 920, size := 1 / 20 }] 0 0 1 (23 / 120))]

/-! ## Lines without a keyword (C39) -/

/-- The keywords of the table `keyword_map`, in the order of the table. -/
def keyword_map : List (List Char) :=
  ["slide".toList, "template".toList, "box".toList, "uses".toList, "text".toList,
   "image".toList, "define".toList]

/-! ## Deep copy of nested templates (C38) -/

/-- A template that holds the template `template_with_image` as a nested slide and,
after it, an empty box. -/
def template_of_templates : Slide :=
  .mk "U".toList false
    [.slide template_with_image,
     .box (.mk .TEXT_ALIGN_RIGHT .STACK_VERTICAL "c".toList [] 0 0 0 0)]

/-! ## A row that ends in a nested slide (C36) -/

/-- A slide whose children are the childless Horizontal box "a" and, after it, a
nested slide "T" without children, as a `uses` line adds it. -/
def hbox_then_slide : Slide :=
  .mk "S".toList true
    [.box (.mk .TEXT_ALIGN_LEFT .STACK_HORIZONTAL "a".toList [] 0 0 0 0),
     .slide (.mk "T".toList true [])]

/-! ## Word wrap: one wrap step on the box (C31, C34, C35) -/

/-- The string `new_line` of a wrap step of `apply_word_wrap` on the Text `t`: the
words before `break_idx`, each followed by a blank. -/
def new_line (dpy : Display) (box_width : ℚ) (t : Text) : List Char :=
  join_words ((split_str t.content [' ']).take (break_index dpy box_width t))

/-- The remainder of a wrap step of `apply_word_wrap` on the Text `t`, which the
source builds in `next_line`: the words from `break_idx` on, each followed by a
blank. -/
def next_line (dpy : Display) (box_width : ℚ) (t : Text) : List Char :=
  join_words ((split_str t.content [' ']).drop (break_index dpy box_width t))

/-- The body of the loop of `apply_word_wrap` at index `i` for a Text that is wrapped
(the block of the `if` that ends in `i--; continue`): the box after the pass. The
Text at `i` is replaced by a Text made of `new_line`; the remainder goes in front of
the content of a Text at `i + 1`, or into a new Text that
`add_element_to_box_at_index` inserts at `i + 1`. A box without a Text at `i` is left
as it is. -/
def wrap_step (dpy : Display) (box : Box) (i : Nat) : Box :=
  match box.elements.drop i with
  | .text text :: rest =>
    let fn := text.font_size
    box.set_elements (box.elements.take i ++
      .text (create_text (new_line dpy box.width text) fn) ::
        carry_remainder (next_line dpy box.width text) fn rest)
  | _ => box

/-- The words of the Text children, in child order: for every Text the strings that
`split_str(content, " ")` returns. -/
def box_words : List SlideElement → List (List Char)
  | [] => []
  | .text t :: rest => split_str t.content [' '] ++ box_words rest
  | _ :: rest => box_words rest

/-- The children that are no Text, in child order. -/
def non_text_children : List SlideElement → List SlideElement
  | [] => []
  | .text _ :: rest => non_text_children rest
  | e :: rest => e :: non_text_children rest

/-- The maximal runs of characters other than the blank in `cs`, in order; `cur` is
the run that is open at the front. -/
def blank_runs : List Char → List Char → List (List Char)
  | [], cur => if cur = [] then [] else [cur]
  | c :: cs, cur =>
    if c = ' ' then (if cur = [] then blank_runs cs [] else cur :: blank_runs cs [])
    else blank_runs cs (cur ++ [c])

/-- A Vertical box "v" of width 1 with the Huge Text "hello brave new world" and,
after it, the Normal Text "again". -/
def two_fonts_box : Box :=
  .mk .TEXT_ALIGN_LEFT .STACK_VERTICAL "v".toList
    [.text (create_text "hello brave new world".toList .FONT_HUGE),
     .text (create_text "again".toList .FONT_NORMAL)] 0 0 1 0

/-- A Vertical box "v" of width 1 with the Huge Text `hello brave \t new world`, in
which a tab stands between two blanks. -/
def tab_word_box : Box :=
  huge_text_box "hello brave \t new world".toList

/-! ## Places of the elements of a box (C32) -/

/-- The places that the loop of `position_elements` gives from the cursor
`current_y` on in a box with two or more children: a Text is at the cursor plus the
ascent of its font and moves the cursor on by its line height; an Image is at the
cursor and moves it on by its `rheight`. -/
def follows_cursor (dpy : Display) (box_height_px : Int) : ℚ → List SlideElement → Bool
  | _, [] => true
  | current_y, .text text :: rest =>
    decide (text.y = current_y + get_font_ascent dpy text box_height_px) &&
      follows_cursor dpy box_height_px (current_y + get_line_height dpy text box_height_px) rest
  | current_y, .image image :: rest =>
    decide (image.y = current_y) &&
      follows_cursor dpy box_height_px (current_y + image.rheight) rest
  | current_y, _ :: rest => follows_cursor dpy box_height_px current_y rest

/-- A Horizontal box "h" of width 1 and height 1 with the one Huge Text "hi". -/
def lone_text_box : Box :=
  .mk .TEXT_ALIGN_LEFT .STACK_HORIZONTAL "h".toList [.text (create_text "hi".toList .FONT_HUGE)]
    0 0 1 1

/-! ## A row of twelve boxes (C29) -/

/-- A slide with twelve childless Horizontal boxes "h" and, after them, the childless
Vertical box "v". -/
def twelve_then_vertical : Slide :=
  .mk "A".toList true
    [empty_box "h".toList .STACK_HORIZONTAL,
     empty_box "h".toList .STACK_HORIZONTAL,
     empty_box "h".toList .STACK_HORIZONTAL,
     empty_box "h".toList .STACK_HORIZONTAL,
     empty_box "h".toList .STACK_HORIZONTAL,
     empty_box "h".toList .STACK_HORIZONTAL,
     empty_box "h".toList .STACK_HORIZONTAL,
     empty_box "h".toList .STACK_HORIZONTAL,
     empty_box "h".toList .STACK_HORIZONTAL,
     empty_box "h".toList .STACK_HORIZONTAL,
     empty_box "h".toList .STACK_HORIZONTAL,
     empty_box "h".toList .STACK_HORIZONTAL,
     empty_box "v".toList .STACK_VERTICAL]

/-- The slide `twelve_then_vertical` laid out in a window of 800 by 600 pixels: the
widths are the `float` nearest to 1/12, and the cursor is the `float` sum of them. -/
def twelve_then_vertical_laid_out : Slide :=
  .mk "A".toList true
    [.box (.mk .TEXT_ALIGN_LEFT .STACK_HORIZONTAL "h".toList [] (0) 0
       (11184811 / 134217728) (39 / 40)),
     .box (.mk .TEXT_ALIGN_LEFT .STACK_HORIZONTAL "h".toList [] (11184811 / 134217728) 0
       (11184811 / 134217728) (39 / 40)),
     .box (.mk .TEXT_ALIGN_LEFT .STACK_HORIZONTAL "h".toList [] (11184811 / 67108864) 0
       (11184811 / 134217728) (39 / 40)),
     .box (.mk .TEXT_ALIGN_LEFT .STACK_HORIZONTAL "h".toList [] (1 / 4) 0
       (11184811 / 134217728) (39 / 40)),
     .box (.mk .TEXT_ALIGN_LEFT .STACK_HORIZONTAL "h".toList [] (11184811 / 33554432) 0
       (11184811 / 134217728) (39 / 40)),
     .box (.mk .TEXT_ALIGN_LEFT .STACK_HORIZONTAL "h".toList [] (6990507 / 16777216) 0
       (11184811 / 134217728) (39 / 40)),
     .box (.mk .TEXT_ALIGN_LEFT .STACK_HORIZONTAL "h".toList [] (1 / 2) 0
       (11184811 / 134217728) (39 / 40)),
     .box (.mk .TEXT_ALIGN_LEFT .STACK_HORIZONTAL "h".toList [] (9786709 / 16777216) 0
       (11184811 / 134217728) (39 / 40)),
     .box (.mk .TEXT_ALIGN_LEFT .STACK_HORIZONTAL "h".toList [] (5592405 / 8388608) 0
       (11184811 / 134217728) (39 / 40)),
     .box (.mk .TEXT_ALIGN_LEFT .STACK_HORIZONTAL "h".toList [] (12582911 / 16777216) 0
       (11184811 / 134217728) (39 / 40)),
     .box (.mk .TEXT_ALIGN_LEFT .STACK_HORIZONTAL "h".toList [] (3495253 / 4194304) 0
       (11184811 / 134217728) (39 / 40)),
     .box (.mk .TEXT_ALIGN_LEFT .STACK_HORIZONTAL "h".toList [] (15379113 / 16777216) 0
       (11184811 / 134217728) (39 / 40)),
     .box (.mk .TEXT_ALIGN_LEFT .STACK_VERTICAL "v".toList [] (8388607 / 8388608) 0 1 (1 / 40))]

/-! ## A lone image (C32) -/

/-- The height `image->rheight` that `position_elements` computes for an Image before
it tests it against the room below the cursor: the scale 0.9 over the aspect ratio of
the image, times the aspect ratio of the box. -/
def scaled_rheight (box_aspect_ratio : ℚ) (image : Image) : ℚ :=
  ((9 / 10 : ℚ) / ((image.width : ℚ) / (image.height : ℚ))) * box_aspect_ratio

/-- A Horizontal box "h" of width 1 and height 1 with the one image `tall_image`. -/
def lone_image_box : Box :=
  .mk .TEXT_ALIGN_LEFT .STACK_HORIZONTAL "h".toList [.image tall_image] 0 0 1 1

/-! ## Parsing a small file (C1) -/

/-- Claim C1: parsing the six lines `slide: "A"`, `box: "b", stack-vertical, align-left`,
`define: "b"`, `text: normal, "hi"`, `end`, `end` succeeds, and the SlideList then
holds exactly one slide, named "A", with `visible = true`, whose only Text
descendant has the content "hi" and the font size Normal. -/
theorem parse_six_lines (stbi_load : List Char → Option Decoded) :
    (fgets_loop six_line_file []).map trim_str =
      ["slide: \"A\"".toList, "box: \"b\", stack-vertical, align-left".toList,
       "define: \"b\"".toList, "text: normal, \"hi\"".toList, "end".toList, "end".toList] ∧
    ∃ st s, parse_slideshow stbi_load six_line_file = .ok st ∧
      st.slide_list = [s] ∧ s.name = "A".toList ∧ s.visible = true ∧
      (∃ t, s.texts = [t] ∧ t.content = "hi".toList ∧ t.font_size = .FONT_NORMAL) ∧
      st.current_slide = none ∧ st.current_box = none :=
  ⟨rfl, { slides := [slide_A], list := [0], current_slide := none, current_box := none },
    slide_A, rfl, rfl, rfl, rfl, ⟨_, rfl, rfl, rfl⟩, rfl, rfl⟩

/-! ## Lines that close a context (C2) -/

theorem length_trim_end_le (l : List Char) : (trim_end l).length ≤ l.length := by
  unfold trim_end
  rw [List.length_reverse]
  exact (List.length_reverse l) ▸ (List.dropWhile_sublist _).length_le

theorem length_trim_str_le (l : List Char) : (trim_str l).length ≤ l.length := by
  unfold trim_str
  have h := (List.dropWhile_sublist isspace (l := l)).length_le
  cases hd : l.dropWhile isspace with
  | nil => simp
  | cons c tail =>
    rw [hd] at h
    have h2 := length_trim_end_le tail
    simp only [List.length_cons] at h ⊢
    omega

theorem length_slice_le (l : List Char) (span : Nat × Nat) : (slice l span).length ≤ l.length := by
  unfold slice
  simp only [List.length_take, List.length_drop]
  omega

theorem length_le_of_mem_split_str {str delim tok : List Char}
    (h : tok ∈ split_str str delim) : tok.length ≤ str.length := by
  unfold split_str at h
  obtain ⟨span, -, rfl⟩ := List.mem_map.1 h
  exact (length_trim_str_le _).trans (length_slice_le _ _)

theorem length_le_of_strstr {haystack needle : List Char}
    (h : strstr haystack needle = true) : needle.length ≤ haystack.length := by
  unfold strstr at h
  obtain ⟨t, ht, hp⟩ := List.any_eq_true.1 h
  have h1 : needle <+: t := List.isPrefixOf_iff_prefix.1 hp
  have h2 : t <:+ haystack := (List.mem_tails t haystack).1 ht
  exact h1.length_le.trans h2.length_le

/-- No keyword of `keyword_map` contains "end": on a closing line no handler runs. -/
theorem run_keyword_of_strstr_end (stbi_load : List Char → Option Decoded) (st : ParserState)
    (tok : List Char) (rest : List (List Char)) (line_num : Nat)
    (hend : strstr tok "end".toList = true) :
    run_keyword stbi_load st (tok :: rest) line_num = .ok st := by
  have h1 : tok ≠ "slide".toList := by rintro rfl; revert hend; decide
  have h2 : tok ≠ "template".toList := by rintro rfl; revert hend; decide
  have h3 : tok ≠ "box".toList := by rintro rfl; revert hend; decide
  have h4 : tok ≠ "uses".toList := by rintro rfl; revert hend; decide
  have h5 : tok ≠ "text".toList := by rintro rfl; revert hend; decide
  have h6 : tok ≠ "image".toList := by rintro rfl; revert hend; decide
  have h7 : tok ≠ "define".toList := by rintro rfl; revert hend; decide
  simp only [run_keyword, List.getD_cons_zero, if_neg h1, if_neg h2, if_neg h3, if_neg h4,
    if_neg h5, if_neg h6, if_neg h7]

/-- On a line whose first token contains "end", `parse_line` is `close_context`. -/
theorem parse_line_of_strstr_end (stbi_load : List Char → Option Decoded) (st : ParserState)
    (line : List Char) (line_num : Nat) (tok : List Char) (rest : List (List Char))
    (hsplit : split_str (trim_str line) ":,".toList = tok :: rest)
    (hend : strstr tok "end".toList = true) :
    parse_line stbi_load st line line_num = close_context st line_num := by
  have hlen : ¬ (trim_str line).length ≤ 1 := by
    have h1 : tok.length ≤ (trim_str line).length :=
      length_le_of_mem_split_str (hsplit ▸ List.mem_cons_self tok rest)
    have h2 := length_le_of_strstr hend
    have h3 : ("end".toList).length = 3 := rfl
    omega
  simp only [parse_line, if_neg hlen, hsplit, List.length_cons,
    run_keyword_of_strstr_end stbi_load st tok rest line_num hend, handle_end,
    List.getD_cons_zero, hend, if_true]
  simp

/-- Claim C2: on a line whose first token contains "end", for every parser state:
with `current_box` set the line only clears `current_box`; otherwise, with
`current_slide` set, that slide becomes the last entry of the SlideList, the entries
before it stay, and `current_slide` is cleared; otherwise parsing fails with the
"Unmatched end keyword" error of that line. -/
theorem end_line_closes_context (stbi_load : List Char → Option Decoded) (st : ParserState)
    (line : List Char) (line_num : Nat) (tok : List Char) (rest : List (List Char))
    (hsplit : split_str (trim_str line) ":,".toList = tok :: rest)
    (hend : strstr tok "end".toList = true) :
    (∀ b, st.current_box = some b →
      parse_line stbi_load st line line_num = .ok { st with current_box := none }) ∧
    (st.current_box = none → ∀ p, st.current_slide = some p →
      parse_line stbi_load st line line_num =
        .ok { st with list := st.list ++ [p], current_slide := none } ∧
      ∀ s, st.slides[p]? = some s →
        ({ st with list := st.list ++ [p], current_slide := none } : ParserState).slide_list =
          st.slide_list ++ [s]) ∧
    (st.current_box = none → st.current_slide = none →
      parse_line stbi_load st line line_num = .error (.unmatched_end line_num)) := by
  rw [parse_line_of_strstr_end stbi_load st line line_num tok rest hsplit hend]
  refine ⟨?_, ?_, ?_⟩
  · intro b hb
    simp [close_context, hb]
  · intro hb p hp
    refine ⟨by simp [close_context, hb, hp], ?_⟩
    intro s hs
    simp [ParserState.slide_list, List.filterMap_append, hs]
  · intro hb hs
    simp [close_context, hb, hs]

/-- Witness for C2: the line `endslide` read with the slide "A" open and no box
current appends that slide to the empty SlideList. -/
theorem end_line_closes_context_witness :
    parse_line (fun _ => none) open_slide_state "endslide\n".toList 7 =
      .ok { slides := [slide_A], list := [0], current_slide := none, current_box := none } :=
  ((end_line_closes_context (fun _ => none) open_slide_state "endslide\n".toList 7
    "endslide".toList [] rfl rfl).2.1 rfl 0 rfl).1

/-! ## `uses` (C3) -/

theorem check_syntax_str (kw tok : List Char) (line_num : Nat) (hstr : is_string tok = true) :
    check_syntax [kw, tok] "str".toList line_num = .ok () := by
  have hs : split_str "str".toList [' '] = ["str".toList] := by decide
  unfold check_syntax
  rw [hs]
  simp [check_args_from, check_arg, hstr]

theorem copy_box_elements_error (stbi_load : List Char → Option Decoded) :
    ∀ (es : List SlideElement) (e : Err),
      copy_box_elements stbi_load es = .error e → ∃ f, e = .image_load f
  | [], e, h => by simp [copy_box_elements] at h
  | .text t :: es, e, h => by
    simp only [copy_box_elements] at h
    split at h
    · next e' he => cases h; exact copy_box_elements_error stbi_load es _ he
    · cases h
  | .image i :: es, e, h => by
    simp only [copy_box_elements, copy_image, create_image] at h
    split at h
    · next e' he =>
      cases h
      split at he
      · cases he; exact ⟨_, rfl⟩
      · cases he
    · split at h
      · next e' he => cases h; exact copy_box_elements_error stbi_load es _ he
      · cases h
  | .slide s :: es, e, h => by
    simp only [copy_box_elements] at h
    exact copy_box_elements_error stbi_load es _ h
  | .box b :: es, e, h => by
    simp only [copy_box_elements] at h
    exact copy_box_elements_error stbi_load es _ h

theorem copy_box_error (stbi_load : List Char → Option Decoded) (b : Box) (e : Err)
    (h : copy_box stbi_load b = .error e) : ∃ f, e = .image_load f := by
  simp only [copy_box] at h
  split at h
  · next e' he => cases h; exact copy_box_elements_error stbi_load _ _ he
  · cases h

mutual
theorem copy_slide_error (stbi_load : List Char → Option Decoded) :
    ∀ (s : Slide) (e : Err), copy_slide stbi_load s = .error e → ∃ f, e = .image_load f
  | .mk name visible elements, e, h => by
    simp only [copy_slide] at h
    split at h
    · next e' he => cases h; exact copy_slide_elements_error stbi_load elements _ he
    · cases h
theorem copy_slide_elements_error (stbi_load : List Char → Option Decoded) :
    ∀ (es : List SlideElement) (e : Err),
      copy_slide_elements stbi_load es = .error e → ∃ f, e = .image_load f
  | [], e, h => by simp [copy_slide_elements] at h
  | .box b :: es, e, h => by
    simp only [copy_slide_elements] at h
    split at h
    · next e' he => cases h; exact copy_box_error stbi_load b _ he
    · split at h
      · next e' he => cases h; exact copy_slide_elements_error stbi_load es _ he
      · cases h
  | .slide s :: es, e, h => by
    simp only [copy_slide_elements] at h
    split at h
    · next e' he => cases h; exact copy_slide_error stbi_load s _ he
    · split at h
      · next e' he => cases h; exact copy_slide_elements_error stbi_load es _ he
      · cases h
  | .text t :: es, e, h => by
    simp only [copy_slide_elements] at h
    exact copy_slide_elements_error stbi_load es _ h
  | .image i :: es, e, h => by
    simp only [copy_slide_elements] at h
    exact copy_slide_elements_error stbi_load es _ h
end

theorem copy_box_elements_total (stbi_load : List Char → Option Decoded) :
    ∀ es : List SlideElement, (∀ im ∈ images_of es, (stbi_load im.filename).isSome = true) →
      ∃ es', copy_box_elements stbi_load es = .ok es'
  | [], _ => ⟨[], rfl⟩
  | .text t :: es, hl => by
    simp only [images_of] at hl
    obtain ⟨es', h1⟩ := copy_box_elements_total stbi_load es hl
    simp only [copy_box_elements, h1]
    exact ⟨_, rfl⟩
  | .image im :: es, hl => by
    simp only [images_of, List.mem_cons, forall_eq_or_imp] at hl
    obtain ⟨es', h1⟩ := copy_box_elements_total stbi_load es hl.2
    obtain ⟨d, hd⟩ := Option.isSome_iff_exists.1 hl.1
    simp only [copy_box_elements, copy_image, create_image, hd, h1]
    exact ⟨_, rfl⟩
  | .slide s :: es, hl => by
    simp only [images_of, List.mem_append] at hl
    obtain ⟨es', h1⟩ := copy_box_elements_total stbi_load es (fun im him => hl im (Or.inr him))
    simp only [copy_box_elements, h1]
    exact ⟨_, rfl⟩
  | .box b :: es, hl => by
    simp only [images_of, List.mem_append] at hl
    obtain ⟨es', h1⟩ := copy_box_elements_total stbi_load es (fun im him => hl im (Or.inr him))
    simp only [copy_box_elements, h1]
    exact ⟨_, rfl⟩

theorem copy_box_total (stbi_load : List Char → Option Decoded) (b : Box)
    (hl : ∀ im ∈ b.images, (stbi_load im.filename).isSome = true) :
    ∃ b', copy_box stbi_load b = .ok b' := by
  obtain ⟨text_align, stack_type, name, elements, x, y, width, height⟩ := b
  simp only [Box.images] at hl
  obtain ⟨es', h1⟩ := copy_box_elements_total stbi_load elements hl
  simp only [copy_box, Box.elements, h1]
  exact ⟨_, rfl⟩

mutual
/-- The function `copy_slide` returns a slide whenever every image below its argument
decodes. -/
theorem copy_slide_total (stbi_load : List Char → Option Decoded) :
    ∀ s : Slide, (∀ im ∈ s.images, (stbi_load im.filename).isSome = true) →
      ∃ c, copy_slide stbi_load s = .ok c
  | .mk name visible elements, hl => by
    simp only [Slide.images] at hl
    obtain ⟨es', h1⟩ := copy_slide_elements_total stbi_load elements hl
    simp only [copy_slide, h1]
    exact ⟨_, rfl⟩
theorem copy_slide_elements_total (stbi_load : List Char → Option Decoded) :
    ∀ es : List SlideElement, (∀ im ∈ images_of es, (stbi_load im.filename).isSome = true) →
      ∃ es', copy_slide_elements stbi_load es = .ok es'
  | [], _ => ⟨[], rfl⟩
  | .box b :: es, hl => by
    simp only [images_of, List.mem_append] at hl
    obtain ⟨b', hb⟩ := copy_box_total stbi_load b (fun im him => hl im (Or.inl him))
    obtain ⟨es', h1⟩ := copy_slide_elements_total stbi_load es
      (fun im him => hl im (Or.inr him))
    simp only [copy_slide_elements, hb, h1]
    exact ⟨_, rfl⟩
  | .slide s :: es, hl => by
    simp only [images_of, List.mem_append] at hl
    obtain ⟨s', hs⟩ := copy_slide_total stbi_load s (fun im him => hl im (Or.inl him))
    obtain ⟨es', h1⟩ := copy_slide_elements_total stbi_load es
      (fun im him => hl im (Or.inr him))
    simp only [copy_slide_elements, hs, h1]
    exact ⟨_, rfl⟩
  | .text t :: es, hl => by
    simp only [images_of] at hl
    obtain ⟨es', h1⟩ := copy_slide_elements_total stbi_load es hl
    simp only [copy_slide_elements, h1]
    exact ⟨_, rfl⟩
  | .image im :: es, hl => by
    simp only [images_of, List.mem_cons, forall_eq_or_imp] at hl
    obtain ⟨es', h1⟩ := copy_slide_elements_total stbi_load es hl.2
    simp only [copy_slide_elements, h1]
    exact ⟨_, rfl⟩
end

theorem find_slide_by_name_spec (name : List Char) (slides : List Slide) :
    ∀ ps : List Nat, (∀ p ∈ ps, p < slides.length) →
      (∃ p t, find_slide_by_name name slides ps = .ok (some p) ∧ slides[p]? = some t ∧
        (ps.filterMap (fun p => slides[p]?)).find? (fun s => decide (s.name = name)) = some t) ∨
      (find_slide_by_name name slides ps = .ok none ∧
        ∀ s ∈ ps.filterMap (fun p => slides[p]?), s.name ≠ name)
  | [], _ => Or.inr ⟨rfl, by simp⟩
  | p :: ps, hv => by
    have hp : p < slides.length := hv p (List.mem_cons_self p ps)
    have hget : slides[p]? = some slides[p] := List.getElem?_eq_getElem hp
    have ih := find_slide_by_name_spec name slides ps
      (fun q hq => hv q (List.mem_cons_of_mem p hq))
    by_cases hn : slides[p].name = name
    · left
      refine ⟨p, slides[p], ?_, hget, ?_⟩
      · simp [find_slide_by_name, hget, hn]
      · simp [List.filterMap_cons, hget, List.find?_cons, hn]
    · rcases ih with ⟨q, t, h1, h2, h3⟩ | ⟨h1, h2⟩
      · left
        refine ⟨q, t, ?_, h2, ?_⟩
        · simp [find_slide_by_name, hget, hn, h1]
        · simp only [List.filterMap_cons, hget, List.find?_cons, decide_eq_false hn]
          exact h3
      · right
        refine ⟨?_, ?_⟩
        · simp [find_slide_by_name, hget, hn, h1]
        · intro s hs
          simp only [List.filterMap_cons, hget, List.mem_cons] at hs
          rcases hs with rfl | hs
          · exact hn
          · exact h2 s hs

/-- Claim C3: for every SlideList and name `n` (the quoted token of a `uses` line
with its quotes removed), `handle_uses` fails with the "Couldn't find slide or
template" error that carries `n` and the line number if and only if no top-level
entry of the SlideList is named `n`; and when the first entry named `n` is `t` (its
image files decoding again), `copy_slide` returns a copy of `t` that becomes the last
child of `current_slide`, everything else unchanged. Only the names of the list
entries decide, never a slide nested in one. -/
theorem uses_searches_top_level (stbi_load : List Char → Option Decoded) (st : ParserState)
    (kw tok : List Char) (line_num : Nat)
    (hstr : is_string tok = true)
    (hvalid : ∀ p ∈ st.list, p < st.slides.length) :
    (handle_uses stbi_load st [kw, tok] line_num =
        .error (.uses_not_found line_num (remove_quotes tok)) ↔
      ∀ s ∈ st.slide_list, s.name ≠ remove_quotes tok) ∧
    (∀ t, st.slide_list.find? (fun s => decide (s.name = remove_quotes tok)) = some t →
      (∀ im ∈ t.images, (stbi_load im.filename).isSome = true) →
      ∀ c cur, st.current_slide = some c → st.slides[c]? = some cur →
        ∃ t', copy_slide stbi_load t = .ok t' ∧
          handle_uses stbi_load st [kw, tok] line_num =
            .ok { st with slides :=
              st.slides.set c (.mk cur.name cur.visible (cur.elements ++ [.slide t'])) }) := by
  have hsyn := check_syntax_str kw tok line_num hstr
  have hu : handle_uses stbi_load st [kw, tok] line_num =
      match find_slide_by_name (remove_quotes tok) st.slides st.list with
      | .error e => .error e
      | .ok none => .error (.uses_not_found line_num (remove_quotes tok))
      | .ok (some p) =>
        match st.slides[p]? with
        | none => .error (.undefined .wild_pointer)
        | some found_slide =>
          match copy_slide stbi_load found_slide with
          | .error e => .error e
          | .ok slide => add_to_current_slide st (.slide slide) := by
    simp only [handle_uses, hsyn, List.getD_cons_succ, List.getD_cons_zero]
  rw [hu]
  rcases find_slide_by_name_spec (remove_quotes tok) st.slides st.list hvalid with
    ⟨p, t, h1, h2, h3⟩ | ⟨h1, h2⟩
  · have hne : ¬ ∀ s ∈ st.slide_list, s.name ≠ remove_quotes tok := by
      intro hall
      have hm := List.mem_of_find?_eq_some h3
      have hp := List.find?_some h3
      exact hall t hm (of_decide_eq_true hp)
    refine ⟨⟨?_, fun h => absurd h hne⟩, ?_⟩
    · intro h
      rw [h1] at h
      simp only [h2] at h
      split at h
      · next e he =>
        obtain ⟨f, hf⟩ := copy_slide_error stbi_load t e he
        rw [hf] at h
        cases h
      · next s' hs' =>
        simp only [add_to_current_slide] at h
        split at h
        · cases h
        · split at h <;> cases h
    · intro t0 ht0 himg c cur hc hcur
      have ht : t0 = t := by
        have : some t0 = some t := ht0.symm.trans h3
        exact Option.some.inj this
      subst ht
      obtain ⟨t', hcopy⟩ := copy_slide_total stbi_load t0 himg
      refine ⟨t', hcopy, ?_⟩
      rw [h1]
      simp only [h2, hcopy, add_to_current_slide, hc, hcur, add_element_to_slide]
  · refine ⟨⟨fun _ => h2, fun _ => ?_⟩, ?_⟩
    · rw [h1]
    · intro t ht
      have hm := List.mem_of_find?_eq_some ht
      have hp := List.find?_some ht
      exact absurd (of_decide_eq_true hp) (h2 t hm)

/-- Witness for C3: `uses: "T"` on line 9 fails although a slide named "T" is nested
in the list entry "T0". -/
theorem uses_searches_top_level_witness :
    handle_uses (fun _ => none) nested_name_state ["uses".toList, "\"T\"".toList] 9 =
      .error (.uses_not_found 9 "T".toList) :=
  (uses_searches_top_level (fun _ => none) nested_name_state "uses".toList "\"T\"".toList 9
    rfl (by decide)).1.2 (by decide)

/-! ## `define` (C4, C5) -/

theorem named_box (name : List Char) (b : Box) :
    (SlideElement.box b).named name = decide (b.name = name) := rfl

theorem named_slide (name : List Char) (s : Slide) :
    (SlideElement.slide s).named name = decide (s.name = name) := rfl

theorem named_text (name : List Char) (t : Text) :
    (SlideElement.text t).named name = false := rfl

theorem named_image (name : List Char) (im : Image) :
    (SlideElement.image im).named name = false := rfl

mutual
/-- The search of `find_element_by_name` below a slide with another name is the
first named element of the pre-order listing. -/
theorem find_element_by_name_eq (name : List Char) :
    ∀ s : Slide, s.name ≠ name →
      find_element_by_name name s =
        .ok (((preorder s).find? (fun pe => pe.2.named name)).map Prod.fst)
  | .mk slide_name visible elements, hne => by
    have hne' : ¬ slide_name = name := hne
    simp only [find_element_by_name, if_neg hne', preorder]
    exact find_element_from_eq name elements 0
theorem find_element_from_eq (name : List Char) :
    ∀ (es : List SlideElement) (i : Nat),
      find_element_from name es i =
        .ok (((preorder_from es i).find? (fun pe => pe.2.named name)).map Prod.fst)
  | [], i => by simp [find_element_from, preorder_from]
  | .box b :: es, i => by
    by_cases hb : b.name = name
    · simp [find_element_from, preorder_from, named_box, hb]
    · simp only [find_element_from, preorder_from, if_neg hb, List.find?_cons,
        named_box, decide_eq_false hb]
      exact find_element_from_eq name es (i + 1)
  | .text t :: es, i => by
    simp only [find_element_from, preorder_from, List.find?_cons, named_text]
    exact find_element_from_eq name es (i + 1)
  | .image im :: es, i => by
    simp only [find_element_from, preorder_from, List.find?_cons, named_image]
    exact find_element_from_eq name es (i + 1)
  | .slide s :: es, i => by
    by_cases hs : s.name = name
    · simp [find_element_from, preorder_from, named_slide, hs]
    · have ih1 := find_element_by_name_eq name s hs
      have ih2 := find_element_from_eq name es (i + 1)
      simp only [find_element_from, preorder_from, if_neg hs, List.find?_cons,
        named_slide, decide_eq_false hs, ih1, List.find?_append, List.find?_map]
      have hcomp : ((fun pe : List Nat × SlideElement => pe.2.named name) ∘
          fun pe : List Nat × SlideElement => (i :: pe.1, pe.2)) =
          fun pe => pe.2.named name := rfl
      rw [hcomp]
      cases hf : (preorder s).find? (fun pe => pe.2.named name) with
      | none => simpa using ih2
      | some pe => simp
end

theorem getElem?_append_cons_length (pre es : List SlideElement) (e : SlideElement) :
    (pre ++ e :: es)[pre.length]? = some e := by
  rw [List.getElem?_append_right (le_refl _)]
  simp

mutual
/-- Every path of the pre-order listing leads to the element listed with it. -/
theorem element_at_preorder :
    ∀ (s : Slide) (pe : List Nat × SlideElement), pe ∈ preorder s →
      element_at s pe.1 = some pe.2
  | .mk name visible elements, pe, h => by
    simp only [preorder] at h
    exact element_at_preorder_from name visible [] elements pe h
theorem element_at_preorder_from :
    ∀ (name : List Char) (visible : Bool) (pre es : List SlideElement)
      (pe : List Nat × SlideElement), pe ∈ preorder_from es pre.length →
      element_at (.mk name visible (pre ++ es)) pe.1 = some pe.2
  | name, visible, pre, [], pe, h => by simp [preorder_from] at h
  | name, visible, pre, .box b :: es, pe, h => by
    simp only [preorder_from, List.mem_cons] at h
    rcases h with rfl | h
    · simp only [element_at, Slide.elements, getElem?_append_cons_length]
    · have ih := element_at_preorder_from name visible (pre ++ [.box b]) es pe
        (by simpa using h)
      simpa using ih
  | name, visible, pre, .text t :: es, pe, h => by
    simp only [preorder_from, List.mem_cons] at h
    rcases h with rfl | h
    · simp only [element_at, Slide.elements, getElem?_append_cons_length]
    · have ih := element_at_preorder_from name visible (pre ++ [.text t]) es pe
        (by simpa using h)
      simpa using ih
  | name, visible, pre, .image im :: es, pe, h => by
    simp only [preorder_from, List.mem_cons] at h
    rcases h with rfl | h
    · simp only [element_at, Slide.elements, getElem?_append_cons_length]
    · have ih := element_at_preorder_from name visible (pre ++ [.image im]) es pe
        (by simpa using h)
      simpa using ih
  | name, visible, pre, .slide s :: es, pe, h => by
    simp only [preorder_from, List.mem_cons, List.mem_append, List.mem_map] at h
    rcases h with rfl | ⟨pe', hpe', rfl⟩ | h
    · simp only [element_at, Slide.elements, getElem?_append_cons_length]
    · have ih := element_at_preorder s pe' hpe'
      obtain ⟨path, e⟩ := pe'
      cases path with
      | nil => simp [element_at] at ih
      | cons j rest =>
        simp only [element_at, Slide.elements, getElem?_append_cons_length]
        exact ih
    · have ih := element_at_preorder_from name visible (pre ++ [.slide s]) es pe
        (by simpa using h)
      simpa using ih
end

theorem find?_of_stronger {α : Type} (p q : α → Bool) (hq : ∀ y, q y = true → p y = true) :
    ∀ (l : List α) (x : α), l.find? p = some x → q x = true → l.find? q = some x
  | [], x, h, _ => by simp at h
  | a :: l, x, h, hx => by
    by_cases hpa : p a = true
    · have hax : a = x := by simpa [List.find?_cons, hpa] using h
      subst hax
      simp [List.find?_cons, hx]
    · have hqa : q a = false := by
        cases hqa : q a with
        | false => rfl
        | true => exact absurd (hq a hqa) hpa
      have hpa' : p a = false := by simpa using hpa
      rw [List.find?_cons, hpa'] at h
      rw [List.find?_cons, hqa]
      exact find?_of_stronger p q hq l x h hx

theorem handle_define_eq (st : ParserState) (kw tok : List Char) (line_num : Nat)
    (hstr : is_string tok = true) :
    handle_define st [kw, tok] line_num =
      match st.current_slide with
      | none => .error (.define_nonexistent line_num tok)
      | some p =>
        match st.slides[p]? with
        | none => .error (.undefined .wild_pointer)
        | some slide =>
          match find_element_by_name (remove_quotes tok) slide with
          | .error e => .error e
          | .ok none => .error (.define_nonexistent line_num tok)
          | .ok (some path) =>
            match element_at slide path with
            | some (.box _) => .ok { st with current_box := some { slide := p, path := path } }
            | some _ => .error (.define_non_box line_num tok)
            | none => .error (.undefined .wild_pointer) := by
  have hlen : ¬ tok.length = 1 := by
    intro h1
    simp [is_string, h1] at hstr
  simp only [handle_define, List.getElem?_cons_succ, List.getElem?_cons_zero, if_neg hlen,
    check_syntax_str kw tok line_num hstr]

theorem check_syntax_str_inv (args : List (List Char)) (line_num : Nat)
    (h : check_syntax args "str".toList line_num = .ok ()) :
    ∃ kw tok, args = [kw, tok] ∧ is_string tok = true := by
  have hs : split_str "str".toList [' '] = ["str".toList] := by decide
  unfold check_syntax at h
  rw [hs] at h
  match args, h with
  | [], h => simp at h
  | [kw], h => simp at h
  | [kw, tok], h =>
    refine ⟨kw, tok, rfl, ?_⟩
    cases hstr : is_string tok with
    | true => rfl
    | false => simp [check_args_from, check_arg, hstr] at h
  | kw :: tok :: x :: rest, h => simp at h

theorem box_named_imp_named (name : List Char) (pe : List Nat × SlideElement)
    (h : pe.2.box_named name = true) : pe.2.named name = true := by
  obtain ⟨path, e⟩ := pe
  cases e <;> simp_all [SlideElement.box_named, SlideElement.named]

/-- Claim C4: whenever `define n` succeeds, `current_box` points to the first Box
named `n` in the depth-first pre-order of the subtree of `current_slide` (children
in order, nested Slides descended into), and the tree, `current_slide` and the
SlideList are as before. -/
theorem define_selects_first_box (st st' : ParserState) (args : List (List Char))
    (line_num : Nat) (h : handle_define st args line_num = .ok st') :
    ∃ p slide path b,
      st.current_slide = some p ∧ st.slides[p]? = some slide ∧
      (preorder slide).find? (fun pe => pe.2.box_named (remove_quotes (args.getD 1 []))) =
        some (path, .box b) ∧
      element_at slide path = some (.box b) ∧
      st'.current_box = some { slide := p, path := path } ∧
      st'.slides = st.slides ∧ st'.current_slide = st.current_slide ∧ st'.list = st.list := by
  have hsyn : check_syntax args "str".toList line_num = .ok () := by
    unfold handle_define at h
    split at h
    · cases h
    · split at h
      · cases h
      · split at h
        · cases h
        · next hsyn => exact hsyn
  obtain ⟨kw, tok, rfl, hstr⟩ := check_syntax_str_inv args line_num hsyn
  rw [handle_define_eq st kw tok line_num hstr] at h
  simp only [List.getD_cons_succ, List.getD_cons_zero]
  split at h
  · cases h
  · next p hp =>
    split at h
    · cases h
    · next slide hslide =>
      by_cases hname : slide.name = remove_quotes tok
      · obtain ⟨nm, v, es⟩ := slide
        have hname' : nm = remove_quotes tok := hname
        simp [find_element_by_name, hname'] at h
      · rw [find_element_by_name_eq _ slide hname] at h
        cases hf : (preorder slide).find? (fun pe => pe.2.named (remove_quotes tok)) with
        | none => simp [hf] at h
        | some pe =>
          obtain ⟨path, e⟩ := pe
          have hat := element_at_preorder slide (path, e) (List.mem_of_find?_eq_some hf)
          simp only [hf, Option.map_some'] at h
          rw [hat] at h
          cases e with
          | box b =>
            simp only [Except.ok.injEq] at h
            subst h
            have hnamed : (SlideElement.box b).named (remove_quotes tok) = true :=
              List.find?_some (p := fun pe : List Nat × SlideElement =>
                pe.2.named (remove_quotes tok)) hf
            refine ⟨p, slide, path, b, hp, hslide, ?_, hat, rfl, rfl, rfl, rfl⟩
            exact find?_of_stronger _ _ (box_named_imp_named _) _ _ hf hnamed
          | slide s => cases h
          | text t => cases h
          | image im => cases h

/-- Witness for C4: with the slide "A" of `slide_A` open, `define: "b"` makes its
box "b", the child 0, the current box. -/
theorem define_selects_first_box_witness :
    ∃ p slide path b,
      open_slide_state.current_slide = some p ∧ open_slide_state.slides[p]? = some slide ∧
      (preorder slide).find? (fun pe => pe.2.box_named
        (remove_quotes (["define".toList, "\"b\"".toList].getD 1 []))) = some (path, .box b) ∧
      element_at slide path = some (.box b) ∧
      ({ open_slide_state with current_box := some { slide := 0, path := [0] } } :
        ParserState).current_box = some { slide := p, path := path } ∧
      open_slide_state.slides = open_slide_state.slides ∧
      open_slide_state.current_slide = open_slide_state.current_slide ∧
      open_slide_state.list = open_slide_state.list :=
  define_selects_first_box open_slide_state
    { open_slide_state with current_box := some { slide := 0, path := [0] } }
    ["define".toList, "\"b\"".toList] 3 rfl

/-- Claim C5: for a `define` line with the quoted name `n`, `handle_define` ends in a
"Logic Error" if and only if no slide is open, or the open slide is itself named
`n`, or no Box and no nested Slide named `n` occurs in the subtree of the open slide,
or the first element named `n` in depth-first order is a nested Slide; in every
other case it succeeds. -/
theorem define_logic_error_iff (st : ParserState) (kw tok : List Char) (line_num : Nat)
    (hstr : is_string tok = true)
    (hvalid : ∀ p, st.current_slide = some p → p < st.slides.length) :
    ((∃ e, handle_define st [kw, tok] line_num = .error e ∧ e.is_logic_error = true) ↔
      (st.current_slide = none ∨
        ∃ p slide, st.current_slide = some p ∧ st.slides[p]? = some slide ∧
          (slide.name = remove_quotes tok ∨
            (∀ pe ∈ preorder slide, pe.2.named (remove_quotes tok) = false) ∨
            ∃ path s, (preorder slide).find? (fun pe => pe.2.named (remove_quotes tok)) =
              some (path, .slide s)))) ∧
    ((∃ e, handle_define st [kw, tok] line_num = .error e ∧ e.is_logic_error = true) ∨
      ∃ st', handle_define st [kw, tok] line_num = .ok st') := by
  rw [handle_define_eq st kw tok line_num hstr]
  cases hcur : st.current_slide with
  | none =>
    refine ⟨⟨fun _ => Or.inl rfl, fun _ => ⟨_, rfl, rfl⟩⟩, Or.inl ⟨_, rfl, rfl⟩⟩
  | some p =>
    have hp : p < st.slides.length := hvalid p hcur
    have hget : st.slides[p]? = some st.slides[p] := List.getElem?_eq_getElem hp
    generalize st.slides[p] = slide at hget
    simp only [hget]
    have hR : ∀ P : Slide → Prop, ((some p = none ∨ ∃ q sl, some p = some q ∧ st.slides[q]? = some sl ∧ P sl) ↔ P slide) := by
      intro P
      constructor
      · rintro (h | ⟨q, sl, hq, hsl, hP⟩)
        · cases h
        · cases hq
          rw [hget] at hsl
          cases hsl
          exact hP
      · intro hP
        exact Or.inr ⟨p, slide, rfl, hget, hP⟩
    rw [hR]
    by_cases hname : slide.name = remove_quotes tok
    · obtain ⟨nm, v, es⟩ := slide
      have hname' : nm = remove_quotes tok := hname
      simp only [find_element_by_name, hname', if_true]
      exact ⟨⟨fun _ => Or.inl rfl, fun _ => ⟨_, rfl, rfl⟩⟩, Or.inl ⟨_, rfl, rfl⟩⟩
    · rw [find_element_by_name_eq _ slide hname]
      cases hf : (preorder slide).find? (fun pe => pe.2.named (remove_quotes tok)) with
      | none =>
        simp only [Option.map_none']
        have hall : ∀ pe ∈ preorder slide, pe.2.named (remove_quotes tok) = false := by
          intro pe hpe
          have := List.find?_eq_none.1 hf pe hpe
          simpa using this
        exact ⟨⟨fun _ => Or.inr (Or.inl hall), fun _ => ⟨_, rfl, rfl⟩⟩, Or.inl ⟨_, rfl, rfl⟩⟩
      | some pe =>
        obtain ⟨path, e⟩ := pe
        have hat := element_at_preorder slide (path, e) (List.mem_of_find?_eq_some hf)
        have hmem := List.mem_of_find?_eq_some hf
        have hnamed : e.named (remove_quotes tok) = true :=
          List.find?_some (p := fun pe : List Nat × SlideElement =>
            pe.2.named (remove_quotes tok)) hf
        simp only [Option.map_some', hat]
        cases e with
        | box b =>
          refine ⟨⟨?_, ?_⟩, Or.inr ⟨_, rfl⟩⟩
          · rintro ⟨e, he, -⟩
            cases he
          · rintro (h | h | ⟨path', s, h⟩)
            · exact absurd h hname
            · have := h _ hmem
              rw [hnamed] at this
              cases this
            · cases h
        | slide s =>
          exact ⟨⟨fun _ => Or.inr (Or.inr ⟨path, s, rfl⟩), fun _ => ⟨_, rfl, rfl⟩⟩,
            Or.inl ⟨_, rfl, rfl⟩⟩
        | text t => cases hnamed
        | image im => cases hnamed

/-- Witness for C5: `define: "n"` is a logic error when a nested Slide named "n"
comes before the Box named "n". -/
theorem define_logic_error_iff_witness :
    ∃ e, handle_define slide_before_box_state ["define".toList, "\"n\"".toList] 4 = .error e ∧
      e.is_logic_error = true :=
  (define_logic_error_iff slide_before_box_state "define".toList "\"n\"".toList 4 rfl
    (by decide)).1.2 (Or.inr ⟨0, _, rfl, rfl, Or.inr (Or.inr ⟨[0], _, rfl⟩)⟩)

/-! ## Deep copy (C6) -/

theorem foldl_add_element_to_box (es : List SlideElement) :
    ∀ (text_align : TextAlignmentType) (stack_type : StackType) (name : List Char)
      (l : List SlideElement) (x y width height : ℚ),
      es.foldl add_element_to_box (.mk text_align stack_type name l x y width height) =
        .mk text_align stack_type name (l ++ es) x y width height := by
  induction es with
  | nil => intros; simp
  | cons e es ih =>
    intros
    simp only [List.foldl_cons, add_element_to_box, ih, List.append_assoc, List.singleton_append]

theorem foldl_add_element_to_slide (es : List SlideElement) :
    ∀ (name : List Char) (visible : Bool) (l : List SlideElement),
      es.foldl add_element_to_slide (.mk name visible l) = .mk name visible (l ++ es) := by
  induction es with
  | nil => intros; simp
  | cons e es ih =>
    intros
    simp only [List.foldl_cons, add_element_to_slide, Slide.name, Slide.visible, Slide.elements,
      ih, List.append_assoc, List.singleton_append]

theorem copy_image_ok (stbi_load : List Char → Option Decoded) (im : Image)
    (h : (stbi_load im.filename).isSome = true) :
    ∃ im', copy_image stbi_load im = .ok im' ∧ im'.filename = im.filename := by
  obtain ⟨d, hd⟩ := Option.isSome_iff_exists.1 h
  simp only [copy_image, create_image, hd]
  exact ⟨_, rfl, rfl⟩

theorem copy_box_elements_agree (stbi_load : List Char → Option Decoded) (v : Bool) :
    ∀ es : List SlideElement, box_children_shaped es = true →
      (∀ im ∈ images_of es, (stbi_load im.filename).isSome = true) →
      ∃ es', copy_box_elements stbi_load es = .ok es' ∧ elements_agree v es es' = true ∧
        elements_all_visible es' = true
  | [], _, _ => ⟨[], rfl, by simp [elements_agree], by simp [elements_all_visible]⟩
  | .text t :: es, hs, hl => by
    simp only [box_children_shaped] at hs
    simp only [images_of] at hl
    obtain ⟨es', h1, h2, h3⟩ := copy_box_elements_agree stbi_load v es hs hl
    refine ⟨.text (copy_text t) :: es', ?_, ?_, ?_⟩
    · simp only [copy_box_elements, h1]
    · simp [elements_agree, SlideElement.agrees, copy_text, create_text, h2]
    · simpa [elements_all_visible] using h3
  | .image im :: es, hs, hl => by
    simp only [box_children_shaped] at hs
    simp only [images_of, List.mem_cons, forall_eq_or_imp] at hl
    obtain ⟨es', h1, h2, h3⟩ := copy_box_elements_agree stbi_load v es hs hl.2
    obtain ⟨im', hi1, hi2⟩ := copy_image_ok stbi_load im hl.1
    refine ⟨.image im' :: es', ?_, ?_, ?_⟩
    · simp only [copy_box_elements, hi1, h1]
    · simp [elements_agree, SlideElement.agrees, hi2, h2]
    · simpa [elements_all_visible] using h3
  | .slide s :: es, hs, _ => by simp [box_children_shaped] at hs
  | .box b :: es, hs, _ => by simp [box_children_shaped] at hs

theorem copy_box_agrees (stbi_load : List Char → Option Decoded) (v : Bool) (b : Box)
    (hs : box_children_shaped b.elements = true)
    (hl : ∀ im ∈ b.images, (stbi_load im.filename).isSome = true) :
    ∃ b', copy_box stbi_load b = .ok b' ∧ b.agrees v b' = true ∧ b'.all_visible = true := by
  obtain ⟨text_align, stack_type, name, elements, x, y, width, height⟩ := b
  simp only [Box.elements] at hs
  simp only [Box.images] at hl
  obtain ⟨es', h1, h2, h3⟩ := copy_box_elements_agree stbi_load v elements hs hl
  refine ⟨.mk text_align stack_type name es' 0 0 0 0, ?_, ?_, ?_⟩
  · simp only [copy_box, Box.elements, h1, create_box, Box.name, Box.stack_type, Box.text_align,
      foldl_add_element_to_box, List.nil_append]
  · simp [Box.agrees, Box.name, Box.stack_type, Box.text_align, Box.elements, h2]
  · simpa [Box.all_visible] using h3

mutual
theorem copy_slide_agrees_aux (stbi_load : List Char → Option Decoded) :
    ∀ s : Slide, s.parser_shaped = true →
      (∀ im ∈ s.images, (stbi_load im.filename).isSome = true) →
      ∃ c, copy_slide stbi_load s = .ok c ∧ s.agrees false c = true ∧ c.all_visible = true
  | .mk name visible elements, hs, hl => by
    simp only [Slide.parser_shaped] at hs
    simp only [Slide.images] at hl
    obtain ⟨es', h1, h2, h3⟩ := copy_slide_elements_agree stbi_load elements hs hl
    refine ⟨.mk name true es', ?_, ?_, ?_⟩
    · simp only [copy_slide, h1, create_slide, foldl_add_element_to_slide, List.nil_append]
    · simp [Slide.agrees, Slide.name, Slide.elements, h2]
    · simpa [Slide.all_visible] using h3
theorem copy_slide_elements_agree (stbi_load : List Char → Option Decoded) :
    ∀ es : List SlideElement, slide_children_shaped es = true →
      (∀ im ∈ images_of es, (stbi_load im.filename).isSome = true) →
      ∃ es', copy_slide_elements stbi_load es = .ok es' ∧ elements_agree false es es' = true ∧
        elements_all_visible es' = true
  | [], _, _ => ⟨[], rfl, by simp [elements_agree], by simp [elements_all_visible]⟩
  | .box b :: es, hs, hl => by
    simp only [slide_children_shaped, Bool.and_eq_true] at hs
    simp only [images_of, List.mem_append] at hl
    obtain ⟨b', hb1, hb2, hb3⟩ := copy_box_agrees stbi_load false b hs.1
      (fun im him => hl im (Or.inl him))
    obtain ⟨es', h1, h2, h3⟩ := copy_slide_elements_agree stbi_load es hs.2
      (fun im him => hl im (Or.inr him))
    refine ⟨.box b' :: es', ?_, ?_, ?_⟩
    · simp only [copy_slide_elements, hb1, h1]
    · simp [elements_agree, SlideElement.agrees, hb2, h2]
    · simp [elements_all_visible, hb3, h3]
  | .slide s :: es, hs, hl => by
    simp only [slide_children_shaped, Bool.and_eq_true] at hs
    simp only [images_of, List.mem_append] at hl
    obtain ⟨s', hs1, hs2, hs3⟩ := copy_slide_agrees_aux stbi_load s hs.1
      (fun im him => hl im (Or.inl him))
    obtain ⟨es', h1, h2, h3⟩ := copy_slide_elements_agree stbi_load es hs.2
      (fun im him => hl im (Or.inr him))
    refine ⟨.slide s' :: es', ?_, ?_, ?_⟩
    · simp only [copy_slide_elements, hs1, h1]
    · simp [elements_agree, SlideElement.agrees, hs2, h2]
    · simp [elements_all_visible, hs3, h3]
  | .text t :: es, hs, _ => by simp [slide_children_shaped] at hs
  | .image im :: es, hs, _ => by simp [slide_children_shaped] at hs
end

mutual
theorem slide_agrees_of_all_visible :
    ∀ s c : Slide, s.agrees false c = true → s.all_visible = true → c.all_visible = true →
      s.agrees true c = true
  | .mk name visible elements, .mk name' visible' elements', h, hs, hc => by
    simp only [Slide.agrees, Slide.all_visible, Slide.name, Slide.visible, Slide.elements,
      Bool.and_eq_true, decide_eq_true_eq] at h hs hc ⊢
    have ih := elements_agree_of_all_visible elements elements' h.2 hs.2 hc.2
    simp [h.1.1, hs.1, hc.1, ih]
theorem box_agrees_of_all_visible :
    ∀ b c : Box, b.agrees false c = true → b.all_visible = true → c.all_visible = true →
      b.agrees true c = true
  | .mk _ _ _ elements _ _ _ _, .mk _ _ _ elements' _ _ _ _, h, hs, hc => by
    simp only [Box.agrees, Box.all_visible, Box.name, Box.stack_type, Box.text_align,
      Box.elements, Bool.and_eq_true, decide_eq_true_eq] at h hs hc ⊢
    have ih := elements_agree_of_all_visible elements elements' h.2 hs hc
    exact ⟨h.1, ih⟩
theorem elements_agree_of_all_visible :
    ∀ es cs : List SlideElement, elements_agree false es cs = true →
      elements_all_visible es = true → elements_all_visible cs = true →
      elements_agree true es cs = true
  | [], [], _, _, _ => by simp [elements_agree]
  | [], _ :: _, h, _, _ => by simp [elements_agree] at h
  | _ :: _, [], h, _, _ => by simp [elements_agree] at h
  | .slide s :: es, .slide c :: cs, h, hs, hc => by
    simp only [elements_agree, SlideElement.agrees, elements_all_visible, Bool.and_eq_true]
      at h hs hc ⊢
    exact ⟨slide_agrees_of_all_visible s c h.1 hs.1 hc.1,
      elements_agree_of_all_visible es cs h.2 hs.2 hc.2⟩
  | .box b :: es, .box c :: cs, h, hs, hc => by
    simp only [elements_agree, SlideElement.agrees, elements_all_visible, Bool.and_eq_true]
      at h hs hc ⊢
    exact ⟨box_agrees_of_all_visible b c h.1 hs.1 hc.1,
      elements_agree_of_all_visible es cs h.2 hs.2 hc.2⟩
  | .text t :: es, .text c :: cs, h, hs, hc => by
    simp only [elements_agree, SlideElement.agrees, elements_all_visible, Bool.and_eq_true]
      at h hs hc ⊢
    exact ⟨h.1, elements_agree_of_all_visible es cs h.2 hs hc⟩
  | .image i :: es, .image c :: cs, h, hs, hc => by
    simp only [elements_agree, SlideElement.agrees, elements_all_visible, Bool.and_eq_true]
      at h hs hc ⊢
    exact ⟨h.1, elements_agree_of_all_visible es cs h.2 hs hc⟩
  | .slide _ :: _, .box _ :: _, h, _, _ => by simp [elements_agree, SlideElement.agrees] at h
  | .slide _ :: _, .text _ :: _, h, _, _ => by simp [elements_agree, SlideElement.agrees] at h
  | .slide _ :: _, .image _ :: _, h, _, _ => by simp [elements_agree, SlideElement.agrees] at h
  | .box _ :: _, .slide _ :: _, h, _, _ => by simp [elements_agree, SlideElement.agrees] at h
  | .box _ :: _, .text _ :: _, h, _, _ => by simp [elements_agree, SlideElement.agrees] at h
  | .box _ :: _, .image _ :: _, h, _, _ => by simp [elements_agree, SlideElement.agrees] at h
  | .text _ :: _, .slide _ :: _, h, _, _ => by simp [elements_agree, SlideElement.agrees] at h
  | .text _ :: _, .box _ :: _, h, _, _ => by simp [elements_agree, SlideElement.agrees] at h
  | .text _ :: _, .image _ :: _, h, _, _ => by simp [elements_agree, SlideElement.agrees] at h
  | .image _ :: _, .slide _ :: _, h, _, _ => by simp [elements_agree, SlideElement.agrees] at h
  | .image _ :: _, .box _ :: _, h, _, _ => by simp [elements_agree, SlideElement.agrees] at h
  | .image _ :: _, .text _ :: _, h, _, _ => by simp [elements_agree, SlideElement.agrees] at h
end

/-- Counterexample to C6 as stated: the copy of the template "T" (`visible = false`)
is not structurally equal to it, because the copy has `visible = true`. -/
theorem copy_slide_template_differs :
    ∃ c, copy_slide (fun _ => none) template_T = .ok c ∧ template_T.agrees true c = false ∧
      template_T.visible = false ∧ c.visible = true :=
  ⟨_, rfl, rfl, rfl, rfl⟩

/-- Claim C6, amended: for every slide `s` shaped as the parser builds it (slides hold
only Boxes and nested Slides, boxes only Texts and Images) whose image files decode,
`copy_slide` returns a slide `c` in which every `visible` flag is true and which is
structurally equal to `s` in every other compared field (name, number and order of
children, Box name, stack_type and text_align, Text content and font_size, Image
filename, recursively); if every `visible` flag of `s` is true, `c` is structurally
equal to `s` in the `visible` flags as well. -/
theorem copy_slide_agrees (stbi_load : List Char → Option Decoded) (s : Slide)
    (hshape : s.parser_shaped = true)
    (hload : ∀ im ∈ s.images, (stbi_load im.filename).isSome = true) :
    ∃ c, copy_slide stbi_load s = .ok c ∧ c.all_visible = true ∧ s.agrees false c = true ∧
      (s.all_visible = true → s.agrees true c = true) := by
  obtain ⟨c, h1, h2, h3⟩ := copy_slide_agrees_aux stbi_load s hshape hload
  exact ⟨c, h1, h3, h2, fun hs => slide_agrees_of_all_visible s c h2 hs h3⟩

/-- Witness for the amended C6: the copy of `template_with_image`, with a decoder
that reads every file as a 4 by 3 image. -/
theorem copy_slide_agrees_witness :
    ∃ c, copy_slide (fun _ => some ⟨4, 3, 4⟩) template_with_image = .ok c ∧
      c.all_visible = true ∧ template_with_image.agrees false c = true ∧
      (template_with_image.all_visible = true → template_with_image.agrees true c = true) :=
  copy_slide_agrees (fun _ => some ⟨4, 3, 4⟩) template_with_image rfl (fun _ _ => rfl)

/-! ## The splitter and quotes (C7, C8) -/

theorem split_loop_ends_outside_quotes (delim : List Char) :
    ∀ (cs pre : List Char) (in_quotes in_token : Bool) (start_idx : Nat),
      in_quotes = decide (pre.count dquote % 2 = 1) →
      ∀ span ∈ split_loop delim cs pre.length in_quotes in_token start_idx,
        inside_quotes (pre ++ cs) span.2 = false
  | [], pre, in_quotes, in_token, start_idx, _, span, h => by
    simp only [split_loop] at h
    split at h
    · simp only [List.mem_singleton] at h
      subst h
      simp [inside_quotes]
    · simp at h
  | c :: cs, pre, in_quotes, in_token, start_idx, hq, span, h => by
    have hlen : (pre ++ [c]).length = pre.length + 1 := by simp
    have happ : pre ++ [c] ++ cs = pre ++ c :: cs := by simp
    simp only [split_loop] at h
    split at h
    · next hc =>
      subst hc
      have ih := split_loop_ends_outside_quotes delim cs (pre ++ [dquote]) (!in_quotes)
        in_token start_idx
        (by
          subst hq
          simp only [List.count_append, List.count_singleton_self]
          by_cases hodd : pre.count dquote % 2 = 1
          · have : ¬ (pre.count dquote + 1) % 2 = 1 := by omega
            simp [hodd, this]
          · have : (pre.count dquote + 1) % 2 = 1 := by omega
            simp [hodd, this])
        span (hlen ▸ h)
      rw [happ] at ih
      exact ih
    · next hc =>
      have hcount : (pre ++ [c]).count dquote = pre.count dquote := by
        simp [List.count_append, List.count_singleton, Ne.symm hc]
      split at h
      · have ih := split_loop_ends_outside_quotes delim cs (pre ++ [c]) in_quotes true
          (if in_token = true then start_idx else pre.length) (by rw [hcount]; exact hq)
          span (hlen ▸ h)
        rw [happ] at ih
        exact ih
      · split at h
        · next htok =>
          simp only [List.mem_cons] at h
          rcases h with rfl | h
          · have hq' : in_quotes = false := by
              simp only [Bool.and_eq_true, Bool.not_eq_true'] at htok
              exact htok.2
            rw [hq'] at hq
            simp only [inside_quotes, List.take_left', Bool.and_eq_false_imp]
            intro hodd
            rw [hodd] at hq
            cases hq
          · have ih := split_loop_ends_outside_quotes delim cs (pre ++ [c]) in_quotes false
              start_idx (by rw [hcount]; exact hq) span (hlen ▸ h)
            rw [happ] at ih
            exact ih
        · have ih := split_loop_ends_outside_quotes delim cs (pre ++ [c]) in_quotes in_token
            start_idx (by rw [hcount]; exact hq) span (hlen ▸ h)
          rw [happ] at ih
          exact ih

/-- Claim C7: for every line and delimiter set, no token of `split_str` ends at a
position between an opening double quote and its matching closing quote; and
`text: normal, "a, b: c"` split at `:` and `,` gives exactly the three tokens
`text`, `normal`, `"a, b: c"`. -/
theorem split_str_keeps_quoted (str delim : List Char) :
    (∀ span ∈ split_spans str delim, inside_quotes str span.2 = false) ∧
    split_str str delim = (split_spans str delim).map (fun span => trim_str (slice str span)) ∧
    split_str "text: normal, \"a, b: c\"".toList ":,".toList =
      ["text".toList, "normal".toList, "\"a, b: c\"".toList] := by
  refine ⟨?_, rfl, by decide⟩
  intro span h
  exact split_loop_ends_outside_quotes delim str [] false false 0 (by simp) span h

/-- Claim C8 on the code: `slide: "A"` gives the second token `"A"` with both quotes,
but `slide:"A"`, where the quote follows the delimiter directly, gives `A"`: the
opening quote is not part of the token. -/
theorem split_str_drops_opening_quote :
    split_str "slide: \"A\"".toList ":,".toList = ["slide".toList, "\"A\"".toList] ∧
    split_str "slide:\"A\"".toList ":,".toList = ["slide".toList, "A\"".toList] := by
  decide

/-! ## String tokens (C9) -/

/-- Claim C9 on the code: `is_string` holds exactly for the tokens of length at least
2 whose first or last character is a double quote; so it accepts `A"` and `"A`,
which are not wrapped in a pair of quotes. -/
theorem is_string_iff (str : List Char) :
    (is_string str = true ↔
      2 ≤ str.length ∧ (str.head? = some dquote ∨ str.getLast? = some dquote)) ∧
    is_string "A\"".toList = true ∧ is_string "\"A".toList = true := by
  refine ⟨?_, by decide, by decide⟩
  unfold is_string
  by_cases hlen : str.length < 2
  · simp only [hlen, if_true]
    constructor
    · intro h; cases h
    · intro h; omega
  · by_cases h1 : str.head? = some dquote <;> by_cases h2 : str.getLast? = some dquote <;>
      simp [hlen, h1, h2]
    all_goals omega

/-! ## Syntax validator (C10) -/

theorem split_loop_word (k : Kind) (rest : List Char) (i start_idx : Nat) :
    split_loop [' '] (k.word ++ rest) i false false start_idx =
      split_loop [' '] rest (i + k.word.length) false true i := by
  cases k <;> simp [Kind.word, split_loop, dquote, Nat.add_assoc]

theorem trim_str_word (k : Kind) : trim_str k.word = k.word := by
  cases k <;> decide

theorem slice_word (pre w rest : List Char) :
    slice (pre ++ (w ++ rest)) (pre.length, pre.length + w.length) = w := by
  simp [slice]

theorem split_loop_signature :
    ∀ (sig : List Kind) (pre : List Char) (start_idx : Nat),
      (split_loop [' '] (signature_string sig) pre.length false false start_idx).map
          (fun span => trim_str (slice (pre ++ signature_string sig) span)) =
        sig.map Kind.word
  | [], pre, start_idx => by simp [signature_string, split_loop]
  | [k], pre, start_idx => by
    have h := split_loop_word k [] pre.length start_idx
    simp only [List.append_nil] at h
    simp only [signature_string, h, split_loop, if_true, List.map_cons, List.map_nil]
    have hs := slice_word pre k.word []
    simp only [List.append_nil] at hs
    rw [hs, trim_str_word]
  | k :: k' :: ks, pre, start_idx => by
    have h := split_loop_word k (' ' :: signature_string (k' :: ks)) pre.length start_idx
    have hstep : split_loop [' '] (' ' :: signature_string (k' :: ks))
        (pre.length + k.word.length) false true pre.length =
        (pre.length, pre.length + k.word.length) ::
          split_loop [' '] (signature_string (k' :: ks))
            (pre.length + k.word.length + 1) false false pre.length := by
      simp [split_loop, dquote]
    have ih := split_loop_signature (k' :: ks) (pre ++ k.word ++ [' ']) pre.length
    have hlen : (pre ++ k.word ++ [' ']).length = pre.length + k.word.length + 1 := by
      simp only [List.length_append, List.length_singleton]
    have happ : pre ++ k.word ++ [' '] ++ signature_string (k' :: ks) =
        pre ++ (k.word ++ ' ' :: signature_string (k' :: ks)) := by simp
    rw [hlen, happ] at ih
    rw [signature_string, h, hstep, List.map_cons, ih, slice_word, trim_str_word]
    rfl

theorem split_str_signature (sig : List Kind) :
    split_str (signature_string sig) [' '] = sig.map Kind.word := by
  have h := split_loop_signature sig [] 0
  simpa [split_str, split_spans] using h

theorem check_arg_word (k : Kind) (arg : List Char) (line_num i : Nat) :
    (check_arg k.word arg line_num i = .ok () ↔ k.accepts arg = true) ∧
    (∀ e, check_arg k.word arg line_num i = .error e → e.is_syntax_error = true) := by
  cases k
  · cases h : is_string arg <;>
      simp [check_arg, Kind.word, Kind.accepts, h, Err.is_syntax_error]
  · cases h : (is_number arg false).1 <;>
      simp [check_arg, Kind.word, Kind.accepts, h, Err.is_syntax_error]
  · cases h : (is_number arg false).1 <;> cases h2 : (is_number arg false).2 <;>
      simp [check_arg, Kind.word, Kind.accepts, h, h2, Err.is_syntax_error]
  · cases h : (is_number arg false).1 <;> cases h2 : is_string arg <;>
      simp [check_arg, Kind.word, Kind.accepts, h, h2, Err.is_syntax_error]

theorem check_args_from_signature (line_num : Nat) :
    ∀ (sig : List Kind) (args : List (List Char)) (i : Nat), args.length = sig.length →
      (check_args_from line_num (sig.map Kind.word) args i = .ok () ↔
        List.Forall₂ (fun k arg => k.accepts arg = true) sig args) ∧
      (∀ e, check_args_from line_num (sig.map Kind.word) args i = .error e →
        e.is_syntax_error = true)
  | [], [], i, _ => by simp [check_args_from]
  | [], _ :: _, i, h => by simp at h
  | _ :: _, [], i, h => by simp at h
  | k :: sig, arg :: args, i, h => by
    have hlen : args.length = sig.length := by simpa using h
    have ih := check_args_from_signature line_num sig args (i + 1) hlen
    have ha := check_arg_word k arg line_num i
    simp only [List.map_cons, check_args_from, List.forall₂_cons]
    cases hc : check_arg k.word arg line_num i with
    | error e =>
      have hne : ¬ k.accepts arg = true := by
        intro hacc
        have := ha.1.2 hacc
        rw [hc] at this
        cases this
      refine ⟨⟨fun h => (by cases h), fun h => absurd h.1 hne⟩, ?_⟩
      intro e' he'
      cases he'
      exact ha.2 e hc
    | ok u =>
      have hacc : k.accepts arg = true := ha.1.1 (by rw [hc])
      simp only [hacc, true_and]
      exact ih

/-- Claim C10: for every keyword line (keyword `kw`, arguments `args`) and signature,
`check_syntax` succeeds if and only if there are as many arguments as kinds and
every argument satisfies its kind; in every other case it ends in a fatal syntax
error. -/
theorem check_syntax_iff (kw : List Char) (args : List (List Char)) (sig : List Kind)
    (line_num : Nat) :
    ( check_syntax (kw :: args) (signature_string sig) line_num = .ok () ↔
      List.Forall₂ (fun k arg => k.accepts arg = true) sig args) ∧
    (¬ List.Forall₂ (fun k arg => k.accepts arg = true) sig args →
      ∃ e, check_syntax (kw :: args) (signature_string sig) line_num = .error e ∧
        e.is_syntax_error = true) ∧
    signature_string [.str, .type, .type] = "str type type".toList := by
  have hmain : ( check_syntax (kw :: args) (signature_string sig) line_num = .ok () ↔
      List.Forall₂ (fun k arg => k.accepts arg = true) sig args) ∧
      (∀ e, check_syntax (kw :: args) (signature_string sig) line_num = .error e →
        e.is_syntax_error = true) := by
    unfold check_syntax
    rw [split_str_signature]
    simp only [List.length_map]
    by_cases hlen : args.length = sig.length
    · simp only [hlen, ne_eq, not_true_eq_false, if_false]
      exact check_args_from_signature line_num sig args 0 hlen
    · simp only [ne_eq, hlen, not_false_eq_true, if_true]
      refine ⟨⟨fun h => (by cases h), fun h => absurd h.length_eq.symm hlen⟩, ?_⟩
      intro e he
      cases he
      rfl
  refine ⟨hmain.1, ?_, rfl⟩
  intro hnot
  cases hres : check_syntax (kw :: args) (signature_string sig) line_num with
  | error e => exact ⟨e, rfl, hmain.2 e hres⟩
  | ok u => exact absurd (hmain.1.1 (by rw [hres])) hnot

/-! ## Integer tokens (C11) -/

theorem digits_value_nonneg (digits : List Char) : 0 ≤ digits_value digits := by
  unfold digits_value
  have h : ∀ (l : List Char) (a : Int), 0 ≤ a →
      0 ≤ l.foldl (fun acc d => 10 * acc + ((d.toNat - 48 : Nat) : Int)) a := by
    intro l
    induction l with
    | nil => intro a ha; simpa using ha
    | cons d l ih =>
      intro a ha
      simp only [List.foldl_cons]
      apply ih
      have : (0 : Int) ≤ ((d.toNat - 48 : Nat) : Int) := Int.ofNat_nonneg _
      omega
  exact h digits 0 (le_refl 0)

theorem clamp_neg_iff (n : Int) : max LONG_MIN (min LONG_MAX n) < 0 ↔ n < 0 := by
  have h1 : LONG_MIN < 0 := by decide
  have h2 : 0 < LONG_MAX := by decide
  constructor
  · intro h
    by_contra hn
    have : min LONG_MAX n ≤ max LONG_MIN (min LONG_MAX n) := le_max_right _ _
    have h3 : 0 ≤ min LONG_MAX n := le_min (le_of_lt h2) (not_lt.1 hn)
    omega
  · intro h
    exact max_lt h1 (lt_of_le_of_lt (min_le_right _ _) h)

theorem length_takeWhile_eq_iff (p : Char → Bool) (l : List Char) :
    (l.takeWhile p).length = l.length ↔ l.all p = true := by
  induction l with
  | nil => simp
  | cons a l ih =>
    by_cases ha : p a = true
    · simp [List.takeWhile_cons, ha, ih]
    · have ha' : p a = false := by simpa using ha
      simp [List.takeWhile_cons, ha']

theorem takeWhile_eq_self_of_all (p : Char → Bool) (l : List Char) (h : l.all p = true) :
    l.takeWhile p = l := by
  induction l with
  | nil => rfl
  | cons a l ih =>
    simp only [List.all_cons, Bool.and_eq_true] at h
    simp [List.takeWhile_cons, h.1, ih h.2]

/-- The result of `strtol` read off the digits after the sign. -/
theorem is_number_of_body (str body : List Char) (neg : Bool) (signlen : Nat) (b : Bool)
    (hlen : str.length = signlen + body.length)
    (h : is_number str b =
      (decide ((if (body.takeWhile Char.isDigit).isEmpty then ((0 : Int), 0)
          else (max LONG_MIN (min LONG_MAX
            (if neg then -digits_value (body.takeWhile Char.isDigit)
             else digits_value (body.takeWhile Char.isDigit))),
            0 + signlen + (body.takeWhile Char.isDigit).length)).2 = str.length),
       decide ((if (body.takeWhile Char.isDigit).isEmpty then ((0 : Int), 0)
          else (max LONG_MIN (min LONG_MAX
            (if neg then -digits_value (body.takeWhile Char.isDigit)
             else digits_value (body.takeWhile Char.isDigit))),
            0 + signlen + (body.takeWhile Char.isDigit).length)).1 < 0)))
    (hne : str ≠ []) :
    ((is_number str b).1 = true ↔ (!body.isEmpty && body.all Char.isDigit) = true) ∧
    ((!body.isEmpty && body.all Char.isDigit) = true →
      ((is_number str b).2 = true ↔
        (if neg then -digits_value body else digits_value body) < 0)) := by
  have hpos : 0 < str.length := List.length_pos.2 hne
  rw [h]
  by_cases hd : (body.takeWhile Char.isDigit).isEmpty = true
  · simp only [hd, if_true]
    have hnot : (!body.isEmpty && body.all Char.isDigit) = false := by
      cases body with
      | nil => rfl
      | cons c r =>
        by_cases hc : c.isDigit = true
        · simp [List.takeWhile_cons, hc] at hd
        · have hc' : c.isDigit = false := by simpa using hc
          simp [hc']
    rw [hnot]
    constructor
    · constructor
      · intro h0
        have : 0 = str.length := of_decide_eq_true h0
        omega
      · intro h0; cases h0
    · intro h0; cases h0
  · have hd' : (body.takeWhile Char.isDigit).isEmpty = false := by simpa using hd
    simp only [hd', Bool.false_eq_true, if_false]
    have hbody : body ≠ [] := by
      intro hb
      rw [hb] at hd
      simp at hd
    have hbe : body.isEmpty = false := by
      cases body with
      | nil => exact absurd rfl hbody
      | cons c r => rfl
    constructor
    · simp only [hbe, Bool.not_false, Bool.true_and, decide_eq_true_eq]
      rw [← length_takeWhile_eq_iff]
      omega
    · intro hall
      simp only [hbe, Bool.not_false, Bool.true_and] at hall
      rw [takeWhile_eq_self_of_all _ _ hall]
      simp only [decide_eq_true_eq]
      exact clamp_neg_iff _

theorem isspace_false_of_isDigit (c : Char) (h : c.isDigit = true) : isspace c = false := by
  simp only [Char.isDigit, Bool.and_eq_true, decide_eq_true_eq] at h
  have h1 : 48 ≤ c.toNat := by
    have := h.1
    exact this
  simp only [isspace, Bool.or_eq_false_iff, decide_eq_false_iff_not, Bool.and_eq_false_imp,
    decide_eq_true_eq]
  constructor
  · omega
  · intro _
    omega


theorem is_number_spec (str : List Char) (b : Bool) :
    ((is_number str b).1 = true ↔ is_integer_token str = true) ∧
    (is_integer_token str = true → ((is_number str b).2 = true ↔ token_value str < 0)) := by
  cases str with
  | nil => simp [is_number, is_integer_token, unsigned_part]
  | cons c r =>
    by_cases hsp : isspace c = true
    · have hm : c ≠ '-' := by rintro rfl; revert hsp; decide
      have hp : c ≠ '+' := by rintro rfl; revert hsp; decide
      have hdig : c.isDigit = false := by
        cases hdig : c.isDigit with
        | false => rfl
        | true => rw [isspace_false_of_isDigit c hdig] at hsp; cases hsp
      have hu : unsigned_part (c :: r) = c :: r := by
        unfold unsigned_part
        split
        · next h => cases h; exact absurd rfl hp
        · next h => cases h; exact absurd rfl hm
        · rfl
      simp [is_number, hsp, is_integer_token, hu, hdig]
    · have hsp' : isspace c = false := by simpa using hsp
      by_cases hm : c = '-'
      · subst hm
        exact is_number_of_body ('-' :: r) r true 1 b (by simp [Nat.add_comm]) rfl (by simp)
      · by_cases hp : c = '+'
        · subst hp
          have h := is_number_of_body ('+' :: r) r false 1 b (by simp [Nat.add_comm]) rfl (by simp)
          simpa [is_integer_token, unsigned_part, token_value] using h
        · have hu : unsigned_part (c :: r) = c :: r := by
            unfold unsigned_part
            split
            · next h => cases h; exact absurd rfl hp
            · next h => cases h; exact absurd rfl hm
            · rfl
          have htv : token_value (c :: r) = digits_value (c :: r) := by
            unfold token_value
            split
            · next h => cases h; exact absurd rfl hm
            · rw [hu]
          have h := is_number_of_body (c :: r) (c :: r) false 0 b (by simp)
            (by
              simp only [is_number, hsp', Bool.false_eq_true, if_false, strtol,
                List.takeWhile_cons, List.dropWhile_cons, List.head?_cons, Option.some.injEq,
                hm, hp, or_self, if_false, List.drop_zero, List.length_nil, digits_value,
                decide_False])
            (by simp)
          rw [is_integer_token, hu, htv]
          simpa using h

/-- Claim C11: for every token, `is_number` returns true exactly when the token is an
optional sign (`+` or `-`) followed by one or more decimal digits and nothing else;
for such a token it reports `is_negative` exactly when the value is below zero; so
the `uint` kind accepts exactly the integer tokens whose value is at least 0. -/
theorem is_number_iff_integer_token (str : List Char) (b : Bool) :
    ((is_number str b).1 = true ↔ is_integer_token str = true) ∧
    (is_integer_token str = true → ((is_number str b).2 = true ↔ token_value str < 0)) ∧
    (Kind.accepts .uint str = true ↔ is_integer_token str = true ∧ 0 ≤ token_value str) ∧
    is_number "-0".toList false = (true, false) ∧ is_number "-12".toList false = (true, true) ∧
    (is_number " 12".toList false).1 = false ∧ (is_number "12a".toList false).1 = false ∧
    (is_number "+".toList false).1 = false := by
  have h := is_number_spec str b
  have h' := is_number_spec str false
  refine ⟨h.1, h.2, ?_, by decide, by decide, by decide, by decide, by decide⟩
  simp only [Kind.accepts, Bool.and_eq_true, Bool.not_eq_true']
  constructor
  · rintro ⟨h1, h2⟩
    have hi := h'.1.1 h1
    refine ⟨hi, ?_⟩
    by_contra hneg
    have := (h'.2 hi).2 (not_le.1 hneg)
    rw [h2] at this
    cases this
  · rintro ⟨hi, hv⟩
    refine ⟨h'.1.2 hi, ?_⟩
    cases h2 : (is_number str false).2 with
    | false => rfl
    | true =>
      have := (h'.2 hi).1 h2
      omega

/-! ## Enum words and missing context (C12, C13, C14) -/

/-- Claim C12 on the code: a `box` line with the unknown stack word `stack-diagonal`
and a `text` line with the unknown size word `big` pass `check_syntax`; the handler
prints its diagnostic without `exit` and goes on to read the unset local, so the
outcome is no fatal syntax error. -/
theorem unknown_enum_word_not_fatal :
    parse_line (fun _ => none) open_slide_state
        "box: \"c\", stack-diagonal, align-left\n".toList 2 =
      .error (.undefined (.unset_stack_type 2 "stack-diagonal".toList)) ∧
    parse_line (fun _ => none) open_slide_state
        "box: \"c\", stack-vertical, align-top\n".toList 2 =
      .error (.undefined (.unset_text_align 2 "align-top".toList)) ∧
    parse_line (fun _ => none) open_box_state "text: big, \"hi\"\n".toList 4 =
      .error (.undefined (.unset_font_size 4 "big".toList)) ∧
    (Err.undefined (.unset_stack_type 2 "stack-diagonal".toList)).is_syntax_error = false :=
  ⟨rfl, rfl, rfl, rfl⟩

/-- Claim C13 on the code: a `text` line and an `image` line read while no box is
current print the "Logic Error" diagnostic without `exit` and go on to
`add_element_to_box(NULL, se)`; the outcome is no fatal logic error. -/
theorem no_current_box_not_fatal :
    parse_line (fun _ => none) open_slide_state "text: normal, \"hi\"\n".toList 3 =
      .error (.undefined (.null_current_box 3)) ∧
    parse_line (fun _ => some ⟨4, 3, 4⟩) open_slide_state "image: \"a.png\"\n".toList 3 =
      .error (.undefined (.null_current_box 3)) ∧
    (Err.undefined (.null_current_box 3)).is_logic_error = false :=
  ⟨rfl, rfl, rfl⟩

theorem stack_word_is_type (stack : StackType) :
    (is_number stack.word false).1 = false ∧ is_string stack.word = false := by
  cases stack <;> decide

theorem align_word_is_type (align : TextAlignmentType) :
    (is_number align.word false).1 = false ∧ is_string align.word = false := by
  cases align <;> decide

theorem check_syntax_box (kw name_tok : List Char) (stack : StackType)
    (align : TextAlignmentType) (line_num : Nat) (hstr : is_string name_tok = true) :
    check_syntax [kw, name_tok, stack.word, align.word] "str type type".toList line_num =
      .ok () := by
  have hs : split_str "str type type".toList [' '] =
      ["str".toList, "type".toList, "type".toList] := by decide
  unfold check_syntax
  rw [hs]
  simp [check_args_from, check_arg, hstr, stack_word_is_type, align_word_is_type]

/-- Claim C14: for every valid `box` line read while a slide is open, a new Box with
the given name, stack kind and align kind and without children becomes the last
child of `current_slide`; the earlier children of the slide, `current_slide`,
`current_box` and the SlideList stay as they are. -/
theorem handle_box_appends (st : ParserState) (kw name_tok : List Char) (stack : StackType)
    (align : TextAlignmentType) (line_num p : Nat) (slide : Slide)
    (hstr : is_string name_tok = true)
    (hcur : st.current_slide = some p) (hslide : st.slides[p]? = some slide) :
    handle_box st [kw, name_tok, stack.word, align.word] line_num =
      .ok { st with slides := (st.slides.set p
        (.mk slide.name slide.visible
          (slide.elements ++ [.box (.mk align stack (remove_quotes name_tok) [] 0 0 0 0)]))) } := by
  unfold handle_box
  rw [check_syntax_box kw name_tok stack align line_num hstr]
  cases stack <;> cases align <;>
    simp [StackType.word, TextAlignmentType.word, add_to_current_slide, hcur, hslide,
      add_element_to_slide, create_box]

/-- Witness for C14: `box: "c", stack-horizontal, align-center` read with the slide
"A" open appends the box "c" after the box "b". -/
theorem handle_box_appends_witness :
    handle_box open_box_state
        ["box".toList, "\"c\"".toList, "stack-horizontal".toList, "align-center".toList] 3 =
      .ok { open_box_state with slides := [.mk "A".toList true
        (slide_A.elements ++
          [.box (.mk .TEXT_ALIGN_CENTER .STACK_HORIZONTAL "c".toList [] 0 0 0 0)])] } :=
  handle_box_appends open_box_state "box".toList "\"c\"".toList .STACK_HORIZONTAL
    .TEXT_ALIGN_CENTER 3 0 slide_A rfl rfl rfl

/-! ## Presentation sequence (C16) -/

/-- Claim C16 on the code: with the SlideList of the slide "A" followed by the
template "T", `skip_templates` starts at index 0 and one forward `change_slide`
draws entry 1, the template, whose `visible` is false; a list that holds only the
template starts on the template. -/
theorem forward_step_shows_template :
    skip_templates slide_then_template 0 = .ok 0 ∧
    change_slide slide_then_template 0 1 = .ok (1, some (.slide 1)) ∧
    slide_then_template[1]?.map Slide.visible = some false ∧
    skip_templates [template_T] 0 = .ok 0 :=
  ⟨rfl, rfl, rfl, rfl⟩

/-! ## Which slides get closed (C15) -/

theorem map_visible_set (slides : List Slide) (p : Nat) (slide slide' : Slide)
    (h : slides[p]? = some slide) (hv : slide'.visible = slide.visible) :
    (slides.set p slide').map Slide.visible = slides.map Slide.visible := by
  rw [List.map_set, hv]
  apply List.ext_getElem?
  intro i
  by_cases hi : p = i
  · subst hi
    have hlt : p < slides.length := by
      by_contra hge
      rw [List.getElem?_eq_none (not_lt.1 hge)] at h
      cases h
    rw [List.getElem?_set_self (by simpa using hlt)]
    simp [h]
  · rw [List.getElem?_set_ne hi]

theorem add_element_at_visible (slide slide' : Slide) (path : List Nat) (se : SlideElement)
    (h : add_element_at slide path se = some slide') : slide'.visible = slide.visible := by
  match path, h with
  | [], h => simp [add_element_at] at h
  | [i], h =>
    simp only [add_element_at] at h
    split at h
    · cases h; rfl
    · cases h
  | i :: j :: rest, h =>
    simp only [add_element_at] at h
    split at h
    · split at h
      · cases h; rfl
      · cases h
    · cases h

theorem add_to_current_slide_tracks (st st' : ParserState) (se : SlideElement) (tr : Opened)
    (h : add_to_current_slide st se = .ok st') (ht : Tracks st tr) : Tracks st' tr := by
  unfold add_to_current_slide at h
  split at h
  · cases h
  · next p hp =>
    split at h
    · cases h
    · next slide hslide =>
      cases h
      obtain ⟨h1, h2, h3, h4⟩ := ht
      refine ⟨?_, h2, h3, h4⟩
      rw [← h1]
      exact map_visible_set _ _ _ _ hslide rfl

theorem add_to_current_box_tracks (st st' : ParserState) (se : SlideElement) (line_num : Nat)
    (tr : Opened) (h : add_to_current_box st se line_num = .ok st') (ht : Tracks st tr) :
    Tracks st' tr := by
  unfold add_to_current_box at h
  split at h
  · cases h
  · next ptr hptr =>
    split at h
    · cases h
    · next slide hslide =>
      split at h
      · cases h
      · next slide' hadd =>
        cases h
        obtain ⟨h1, h2, h3, h4⟩ := ht
        refine ⟨?_, h2, h3, h4⟩
        rw [← h1]
        exact map_visible_set _ _ _ _ hslide (add_element_at_visible _ _ _ _ hadd)

theorem handle_slide_tracks (st st' : ParserState) (args : List (List Char)) (line_num : Nat)
    (tr : Opened) (h : handle_slide st args line_num = .ok st') (ht : Tracks st tr) :
    Tracks st' { tr with kinds := tr.kinds ++ [true], current := some tr.kinds.length } := by
  unfold handle_slide at h
  split at h
  · cases h
  · cases h
    obtain ⟨h1, h2, h3, h4⟩ := ht
    refine ⟨?_, h2, ?_, h4⟩
    · simp [h1, create_slide, Slide.visible]
    · simp [← h1]

theorem handle_template_tracks (st st' : ParserState) (args : List (List Char))
    (line_num : Nat) (tr : Opened) (h : handle_template st args line_num = .ok st')
    (ht : Tracks st tr) :
    Tracks st' { tr with kinds := tr.kinds ++ [false], current := some tr.kinds.length } := by
  unfold handle_template at h
  split at h
  · cases h
  · cases h
    obtain ⟨h1, h2, h3, h4⟩ := ht
    refine ⟨?_, h2, ?_, h4⟩
    · simp [h1, create_slide, Slide.visible]
    · simp [← h1]

theorem handle_box_tracks (st st' : ParserState) (args : List (List Char)) (line_num : Nat)
    (tr : Opened) (h : handle_box st args line_num = .ok st') (ht : Tracks st tr) :
    Tracks st' tr := by
  unfold handle_box at h
  split at h
  · cases h
  · simp only at h
    split at h
    · cases h
    · cases h
    · exact add_to_current_slide_tracks _ _ _ _ h ht

theorem handle_uses_tracks (stbi_load : List Char → Option Decoded) (st st' : ParserState)
    (args : List (List Char)) (line_num : Nat) (tr : Opened)
    (h : handle_uses stbi_load st args line_num = .ok st') (ht : Tracks st tr) :
    Tracks st' tr := by
  unfold handle_uses at h
  split at h
  · cases h
  · simp only at h
    split at h
    · cases h
    · cases h
    · split at h
      · cases h
      · split at h
        · cases h
        · exact add_to_current_slide_tracks _ _ _ _ h ht

theorem handle_text_tracks (st st' : ParserState) (args : List (List Char)) (line_num : Nat)
    (tr : Opened) (h : handle_text st args line_num = .ok st') (ht : Tracks st tr) :
    Tracks st' tr := by
  unfold handle_text at h
  split at h
  · cases h
  · simp only at h
    split at h
    · cases h
    · exact add_to_current_box_tracks _ _ _ _ _ h ht

theorem handle_image_tracks (stbi_load : List Char → Option Decoded) (st st' : ParserState)
    (args : List (List Char)) (line_num : Nat) (tr : Opened)
    (h : handle_image stbi_load st args line_num = .ok st') (ht : Tracks st tr) :
    Tracks st' tr := by
  unfold handle_image at h
  split at h
  · cases h
  · split at h
    · cases h
    · exact add_to_current_box_tracks _ _ _ _ _ h ht

theorem handle_define_tracks (st st' : ParserState) (args : List (List Char)) (line_num : Nat)
    (tr : Opened) (h : handle_define st args line_num = .ok st') (ht : Tracks st tr) :
    Tracks st' { tr with box := true } := by
  unfold handle_define at h
  split at h
  · cases h
  · split at h
    · cases h
    · simp only at h
      split at h
      · cases h
      · split at h
        · cases h
        · split at h
          · cases h
          · split at h
            · cases h
            · cases h
            · split at h
              · cases h
                obtain ⟨h1, h2, h3, h4⟩ := ht
                exact ⟨h1, h2, h3, rfl⟩
              · cases h
              · cases h

theorem run_keyword_tracks (stbi_load : List Char → Option Decoded) (st st' : ParserState)
    (kw : List Char) (rest : List (List Char)) (line_num : Nat) (tr : Opened)
    (h : run_keyword stbi_load st (kw :: rest) line_num = .ok st') (ht : Tracks st tr) :
    Tracks st' (track_keyword tr kw) := by
  unfold run_keyword at h
  simp only [List.getD_cons_zero] at h
  unfold track_keyword
  by_cases h1 : kw = "slide".toList
  · rw [if_pos h1] at h ⊢
    exact handle_slide_tracks _ _ _ _ _ h ht
  · rw [if_neg h1] at h ⊢
    by_cases h2 : kw = "template".toList
    · rw [if_pos h2] at h ⊢
      exact handle_template_tracks _ _ _ _ _ h ht
    · rw [if_neg h2] at h ⊢
      by_cases h3 : kw = "box".toList
      · have hd : kw ≠ "define".toList := by rw [h3]; decide
        rw [if_pos h3] at h
        rw [if_neg hd]
        exact handle_box_tracks _ _ _ _ _ h ht
      · rw [if_neg h3] at h
        by_cases h4 : kw = "uses".toList
        · have hd : kw ≠ "define".toList := by rw [h4]; decide
          rw [if_pos h4] at h
          rw [if_neg hd]
          exact handle_uses_tracks _ _ _ _ _ _ h ht
        · rw [if_neg h4] at h
          by_cases h5 : kw = "text".toList
          · have hd : kw ≠ "define".toList := by rw [h5]; decide
            rw [if_pos h5] at h
            rw [if_neg hd]
            exact handle_text_tracks _ _ _ _ _ h ht
          · rw [if_neg h5] at h
            by_cases h6 : kw = "image".toList
            · have hd : kw ≠ "define".toList := by rw [h6]; decide
              rw [if_pos h6] at h
              rw [if_neg hd]
              exact handle_image_tracks _ _ _ _ _ _ h ht
            · rw [if_neg h6] at h
              by_cases h7 : kw = "define".toList
              · rw [if_pos h7] at h ⊢
                exact handle_define_tracks _ _ _ _ _ h ht
              · rw [if_neg h7] at h ⊢
                cases h
                exact ht

theorem handle_end_tracks (st st' : ParserState) (kw : List Char) (rest : List (List Char))
    (line_num : Nat) (tr : Opened)
    (h : handle_end st (kw :: rest) line_num = .ok st') (ht : Tracks st tr) :
    Tracks st' (track_end tr kw) := by
  unfold handle_end at h
  simp only [List.getD_cons_zero] at h
  unfold track_end
  obtain ⟨h1, h2, h3, h4⟩ := ht
  by_cases he : strstr kw "end".toList = true
  · rw [if_pos he] at h ⊢
    unfold close_context at h
    split at h
    · next b hb =>
      cases h
      have hbox : tr.box = true := by rw [← h4, hb]; rfl
      rw [if_pos hbox]
      exact ⟨h1, h2, h3, rfl⟩
    · next hb =>
      have hbox : ¬ tr.box = true := by rw [← h4, hb]; simp
      rw [if_neg hbox]
      split at h
      · next p hp =>
        cases h
        have hc : tr.current = some p := by rw [← h3, hp]
        simp only [hc]
        exact ⟨h1, by simp [h2], rfl, by simp [hb, hbox]⟩
      · cases h
  · rw [if_neg he] at h ⊢
    cases h
    exact ⟨h1, h2, h3, h4⟩

theorem parse_line_tracks (stbi_load : List Char → Option Decoded) (st st' : ParserState)
    (line : List Char) (line_num : Nat) (tr : Opened)
    (h : parse_line stbi_load st line line_num = .ok st') (ht : Tracks st tr) :
    Tracks st' (track_line tr line) := by
  unfold parse_line at h
  unfold track_line
  simp only at h
  by_cases hlen : (trim_str line).length ≤ 1
  · rw [if_pos hlen] at h ⊢
    cases h
    exact ht
  · rw [if_neg hlen] at h ⊢
    cases hsplit : split_str (trim_str line) ":,".toList with
    | nil =>
      simp only [hsplit, List.length_nil, Nat.lt_one_iff, if_true] at h
      cases h
      exact ht
    | cons kw rest =>
      simp only [hsplit, List.length_cons] at h
      rw [if_neg (by omega)] at h
      split at h
      · cases h
      · next st1 hk =>
        exact handle_end_tracks _ _ _ _ _ _ h (run_keyword_tracks _ _ _ _ _ _ _ hk ht)

theorem parse_lines_tracks (stbi_load : List Char → Option Decoded) :
    ∀ (lines : List (List Char)) (st st' : ParserState) (line_num : Nat) (tr : Opened),
      parse_lines stbi_load st lines line_num = .ok st' → Tracks st tr →
      Tracks st' (track_lines tr lines)
  | [], st, st', line_num, tr, h, ht => by
    simp only [parse_lines] at h
    cases h
    exact ht
  | line :: lines, st, st', line_num, tr, h, ht => by
    simp only [parse_lines] at h
    split at h
    · cases h
    · next st1 h1 =>
      exact parse_lines_tracks stbi_load lines st1 st' (line_num + 1) (track_line tr line) h
        (parse_line_tracks _ _ _ _ _ _ h1 ht)

theorem track_line_valid (tr : Opened) (line : List Char) (h : tr.valid) :
    (track_line tr line).valid := by
  have hk : ∀ kw, (track_keyword tr kw).valid := by
    intro kw
    unfold track_keyword
    split
    · refine ⟨?_, ?_⟩
      · intro p hp
        simp only [Option.some.injEq] at hp
        simp [← hp]
      · intro p hp
        have := h.2 p hp
        simp only [List.length_append, List.length_singleton]
        omega
    · split
      · refine ⟨?_, ?_⟩
        · intro p hp
          simp only [Option.some.injEq] at hp
          simp [← hp]
        · intro p hp
          have := h.2 p hp
          simp only [List.length_append, List.length_singleton]
          omega
      · split
        · exact h
        · exact h
  have he : ∀ (t : Opened) kw, t.valid → (track_end t kw).valid := by
    intro t kw ht
    unfold track_end
    split
    · split
      · exact ht
      · split
        · next p hp =>
          refine ⟨?_, ?_⟩
          · intro q hq; cases hq
          · intro q hq
            simp only [List.mem_append, List.mem_singleton] at hq
            rcases hq with hq | rfl
            · exact ht.2 q hq
            · exact ht.1 q hp
        · exact ht
    · exact ht
  unfold track_line
  split
  · exact h
  · split
    · exact h
    · exact he _ _ (hk _)

theorem track_lines_valid (lines : List (List Char)) :
    ∀ tr : Opened, tr.valid → (track_lines tr lines).valid := by
  induction lines with
  | nil => intro tr h; exact h
  | cons line lines ih =>
    intro tr h
    exact ih _ (track_line_valid tr line h)

/-- Claim C15: after parsing any input without error, the SlideList holds exactly
the slides and templates that an `end` line closed, in the order of those lines (the
n-th `slide` or `template` line opens the slide number n); every slide has
`visible = true` when a `slide` line opened it and `visible = false` when a
`template` line did; a slide that was replaced or is still open at the end of the
input is not in the list. -/
theorem closed_slides_listed (stbi_load : List Char → Option Decoded) (file : List Char)
    (st : ParserState) (h : parse_slideshow stbi_load file = .ok st) :
    st.list = (track_lines Opened.init (fgets_loop file [])).closed ∧
    st.slides.map Slide.visible = (track_lines Opened.init (fgets_loop file [])).kinds ∧
    st.current_slide = (track_lines Opened.init (fgets_loop file [])).current ∧
    (∀ p ∈ st.list, p < st.slides.length) ∧
    st.slide_list.map Slide.visible =
      (track_lines Opened.init (fgets_loop file [])).closed.filterMap
        (fun p => (track_lines Opened.init (fgets_loop file [])).kinds[p]?) := by
  have ht := parse_lines_tracks stbi_load (fgets_loop file []) ParserState.init st 1
    Opened.init h ⟨rfl, rfl, rfl, rfl⟩
  have hv := track_lines_valid (fgets_loop file []) Opened.init
    ⟨(by intro p hp; cases hp), (by intro p hp; cases hp)⟩
  obtain ⟨h1, h2, h3, _⟩ := ht
  refine ⟨h2, h1, h3, ?_, ?_⟩
  · intro p hp
    rw [h2] at hp
    have := hv.2 p hp
    rw [← h1] at this
    simpa using this
  · rw [ParserState.slide_list, List.map_filterMap, h2, ← h1]
    congr 1
    funext p
    simp [List.getElem?_map]

/-- Witness for C15: in `unclosed_slide_file` the template "T" and the slide "A" are
closed, the slide "X" is replaced by "A" and the slide "Y" stays open; the list holds
the slides 0 and 2. -/
theorem closed_slides_listed_witness :
    parse_slideshow (fun _ => none) unclosed_slide_file = .ok unclosed_slide_result ∧
    unclosed_slide_result.list =
      (track_lines Opened.init (fgets_loop unclosed_slide_file [])).closed ∧
    (track_lines Opened.init (fgets_loop unclosed_slide_file [])).closed = [0, 2] ∧
    (track_lines Opened.init (fgets_loop unclosed_slide_file [])).kinds =
      [false, true, true, true] :=
  ⟨rfl, (closed_slides_listed (fun _ => none) unclosed_slide_file unclosed_slide_result rfl).1,
    by decide, by decide⟩

/-! ## Rounding to `float` -/

theorem round_even_eq (q : ℚ) (n : Int) (h : |q - n| < 1 / 2) : round_even q = n := by
  rw [abs_lt] at h
  unfold round_even
  by_cases hn : (n : ℚ) ≤ q
  · have hf : ⌊q⌋ = n := by
      rw [Int.floor_eq_iff]
      constructor
      · exact hn
      · linarith
    rw [hf, if_pos (by linarith)]
  · have hf : ⌊q⌋ = n - 1 := by
      rw [Int.floor_eq_iff]
      push_cast
      constructor
      · linarith
      · linarith [not_le.1 hn]
    rw [hf]
    push_cast
    rw [if_neg (by linarith), if_pos (by linarith)]
    ring

/-- The `float` nearest to a number between `2 ^ e` and `2 ^ (e + 1)` is the nearest
multiple of `2 ^ (e - 23)`. -/
theorem to_float_eq (q : ℚ) (e n : Int) (hlo : (2 : ℚ) ^ e ≤ q) (hhi : q < 2 ^ (e + 1))
    (he : -126 ≤ e) (hn : |q / 2 ^ (e - 23) - n| < 1 / 2) :
    to_float q = n * 2 ^ (e - 23) := by
  have hpos : 0 < q := lt_of_lt_of_le (by positivity) hlo
  have hlog : Int.log 2 |q| = e := by
    rw [abs_of_pos hpos]
    apply le_antisymm
    · have := (Int.lt_zpow_iff_log_lt (b := 2) (by norm_num) hpos).1 hhi
      omega
    · exact (Int.zpow_le_iff_le_log (b := 2) (by norm_num) hpos).1 hlo
  unfold to_float
  rw [if_neg (ne_of_gt hpos), hlog, max_eq_left he, round_even_eq _ n hn]

theorem to_float_zero : to_float 0 = 0 := by
  simp [to_float]

theorem to_float_one : to_float 1 = 1 := by
  rw [to_float_eq 1 0 (2 ^ 23) (by norm_num) (by norm_num) (by norm_num) (by norm_num)]
  norm_num

theorem to_float_half : to_float (1 / 2) = 1 / 2 := by
  rw [to_float_eq (1 / 2) (-1) (2 ^ 23) (by norm_num) (by norm_num) (by norm_num)
    (by norm_num)]
  norm_num

theorem to_float_inv_two : to_float 2⁻¹ = 2⁻¹ := by
  have h := to_float_half
  rwa [one_div] at h

theorem exact_count_one : exact_count 1 := by
  intro j hj
  interval_cases j
  · simp [to_float_zero]
  · simp [to_float_one]

theorem exact_count_four : exact_count 4 := by
  intro j hj
  interval_cases j
  · simp [to_float_zero]
  · rw [to_float_eq _ (-2) (2 ^ 23) (by norm_num) (by norm_num) (by norm_num) (by norm_num)]
    norm_num
  · rw [to_float_eq _ (-1) (2 ^ 23) (by norm_num) (by norm_num) (by norm_num) (by norm_num)]
    norm_num
  · rw [to_float_eq _ (-1) (3 * 2 ^ 22) (by norm_num) (by norm_num) (by norm_num)
      (by norm_num)]
    norm_num
  · norm_num [to_float_one]

/-- Claim C20: for a slide whose children are exactly two childless Horizontal boxes,
`apply_layout` gives each box the width 1/2 and the height 1 and puts the first at
(0, 0) and the second at (1/2, 0), whatever the window, the fonts and the fields of
the boxes were before. -/
theorem two_horizontal_boxes (dpy : Display) (fuel : Nat) (name n1 n2 : List Char)
    (visible : Bool) (a1 a2 : TextAlignmentType) (x1 y1 w1 h1 x2 y2 w2 h2 : ℚ) :
    apply_layout dpy fuel (.mk name visible
        [.box (.mk a1 .STACK_HORIZONTAL n1 [] x1 y1 w1 h1),
         .box (.mk a2 .STACK_HORIZONTAL n2 [] x2 y2 w2 h2)]) =
      .ok (.mk name visible
        [.box (.mk a1 .STACK_HORIZONTAL n1 [] 0 0 (1 / 2) 1),
         .box (.mk a2 .STACK_HORIZONTAL n2 [] (1 / 2) 0 (1 / 2) 1)]) := by
  simp [apply_layout, measure_pass, row_pass, row_scan, height_pass, position_pass,
    position_elements, position_from, apply_word_wrap, wrap_from, Box.stack_type,
    Box.set_height, Box.set_width, Box.set_position, Box.set_elements, Box.elements,
    Box.width, Box.height, Box.name, to_float_inv_two]
  norm_num [to_float_one, to_float_inv_two]

/-! ## Row packing (C18) -/

/-- Claim C18 on the code: in the slide with the children Horizontal "a", Vertical
"v", Horizontal "b", Horizontal "c" and a nested slide, the row of "b" and "c" ends
at an element that is no Box, so the inner loop never closes the row: both boxes keep
the width 1 of the row before instead of 1/2. -/
theorem row_before_nested_slide_keeps_width :
    ∃ s, apply_layout example_display 0 rows_then_slide = .ok s ∧
      box_widths s.elements = [1, 1, 1, 1] ∧
      box_widths s.elements ≠ [1, 1, 1 / 2, 1 / 2] := by
  refine ⟨.mk "A".toList true
    [.box (.mk .TEXT_ALIGN_LEFT .STACK_HORIZONTAL "a".toList [] 0 0 1 (39 / 40)),
     .box (.mk .TEXT_ALIGN_LEFT .STACK_VERTICAL "v".toList [] 0 (39 / 40) 1 (1 / 40)),
     .box (.mk .TEXT_ALIGN_LEFT .STACK_HORIZONTAL "b".toList [] 0 1 1 (39 / 40)),
     .box (.mk .TEXT_ALIGN_LEFT .STACK_HORIZONTAL "c".toList [] 0 (79 / 40) 1 (39 / 40)),
     .slide (.mk "T".toList true [])], ?_, ?_, ?_⟩
  · simp [rows_then_slide, empty_box, create_box, example_display, apply_layout,
      measure_pass, row_pass, row_scan, height_pass, position_pass, position_elements,
      position_from, apply_word_wrap, wrap_from, calculate_vbox_height, vbox_height_from,
      box_padding, padding_percent, Box.stack_type, Box.set_height, Box.set_width,
      Box.set_position, Box.set_elements, Box.elements, Box.width, Box.height, Box.name,
      to_float_one]
    norm_num
  · simp [box_widths, Slide.elements, Box.width]
  · simp [box_widths, Slide.elements, Box.width]

/-! ## Heights of vertical boxes (C19) -/

theorem vbox_height_from_spec (dpy : Display) :
    ∀ (es : List SlideElement) (y : ℚ),
      (vbox_height_from dpy es y).2 = y + content_height dpy es ∧
      content_height dpy (vbox_height_from dpy es y).1 = content_height dpy es ∧
      (vbox_height_from dpy es y).1.length = es.length
  | [], y => by simp [vbox_height_from, content_height]
  | .text t :: es, y => by
    have ih := vbox_height_from_spec dpy es
      (y + get_line_height dpy t dpy.height)
    simp only [vbox_height_from, content_height, ih.1, ih.2.1, ih.2.2, List.length_cons]
    refine ⟨?_, ?_, trivial⟩
    · ring
    · rfl
  | .image im :: es, y => by
    have ih := vbox_height_from_spec dpy es (y + (1 * (im.height : ℚ)) / (im.width : ℚ))
    simp only [vbox_height_from, content_height, ih.1, ih.2.1, ih.2.2, List.length_cons]
    refine ⟨?_, trivial, trivial⟩
    ring
  | .slide s :: es, y => by
    have ih := vbox_height_from_spec dpy es y
    simp only [vbox_height_from, content_height, ih.1, ih.2.1, ih.2.2, List.length_cons]
    exact ⟨trivial, trivial, trivial⟩
  | .box b :: es, y => by
    have ih := vbox_height_from_spec dpy es y
    simp only [vbox_height_from, content_height, ih.1, ih.2.1, ih.2.2, List.length_cons]
    exact ⟨trivial, trivial, trivial⟩

theorem position_from_content (dpy : Display) (box : Box) (element_count : Nat)
    (box_height_px : Int) (box_aspect_ratio padding : ℚ) :
    ∀ (es : List SlideElement) (y : ℚ),
      content_height dpy
        (position_from dpy box element_count box_height_px box_aspect_ratio padding es y) =
        content_height dpy es
  | [], y => by simp [position_from]
  | .text t :: es, y => by
    simp only [position_from, content_height, position_from_content dpy box element_count
      box_height_px box_aspect_ratio padding es]
    rfl
  | .image im :: es, y => by
    simp only [position_from, content_height, position_from_content dpy box element_count
      box_height_px box_aspect_ratio padding es]
  | .slide s :: es, y => by
    simp only [position_from, content_height, position_from_content dpy box element_count
      box_height_px box_aspect_ratio padding es]
  | .box b :: es, y => by
    simp only [position_from, content_height, position_from_content dpy box element_count
      box_height_px box_aspect_ratio padding es]

theorem box_padding_one (dpy : Display) (hw : dpy.width ≠ 0) :
    box_padding dpy 1 = padding_percent := by
  have hq : (dpy.width : ℚ) ≠ 0 := by exact_mod_cast hw
  unfold box_padding
  field_simp

theorem position_elements_spec (dpy : Display) (box : Box) :
    (position_elements dpy box).height = box.height ∧
    (position_elements dpy box).stack_type = box.stack_type ∧
    content_height dpy (position_elements dpy box).elements =
      content_height dpy box.elements := by
  obtain ⟨text_align, stack_type, name, elements, x, y, width, height⟩ := box
  simp only [position_elements, Box.set_elements, Box.height, Box.stack_type, Box.elements,
    position_from_content]
  exact ⟨trivial, trivial, trivial⟩

theorem apply_word_wrap_frame (dpy : Display) (fuel : Nat) (box wrapped : Box)
    (h : apply_word_wrap dpy fuel box = .ok wrapped) :
    wrapped.width = box.width ∧ wrapped.stack_type = box.stack_type := by
  obtain ⟨text_align, stack_type, name, elements, x, y, width, height⟩ := box
  unfold apply_word_wrap at h
  split at h
  · cases h
  · cases h
    exact ⟨rfl, rfl⟩

theorem measure_pass_vertical (dpy : Display) (fuel : Nat) (hw : dpy.width ≠ 0) :
    ∀ (es : List SlideElement) (total_height : ℚ) (total_hboxes : Int)
      (r : List SlideElement × ℚ × Int),
      only_vertical_boxes es = true →
      measure_pass dpy fuel es total_height total_hboxes = .ok r →
      only_vertical_boxes r.1 = true ∧ box_heights r.1 = content_heights dpy r.1 ∧
        r.1.length = es.length
  | [], th, n, r, _, h => by
    simp only [measure_pass] at h
    cases h
    exact ⟨rfl, rfl, rfl⟩
  | .box b :: es, th, n, r, hv, h => by
    simp only [only_vertical_boxes, Bool.and_eq_true, decide_eq_true_eq] at hv
    simp only [measure_pass, hv.1, if_true] at h
    split at h
    · cases h
    · next wrapped hwrap =>
      split at h
      · cases h
      · next r' hrest =>
        cases h
        have ih := measure_pass_vertical dpy fuel hw es _ _ r' hv.2 hrest
        have hframe := apply_word_wrap_frame dpy fuel _ wrapped hwrap
        obtain ⟨text_align, stack_type, name, elements, x, y, width, height⟩ := wrapped
        obtain ⟨ta, st, nm, els, bx, by', bw, bh⟩ := b
        simp only [Box.set_width, Box.width, Box.stack_type] at hframe hv
        obtain ⟨hwd, hst⟩ := hframe
        subst hwd
        have hspec := vbox_height_from_spec dpy elements (box_padding dpy 1)
        rw [box_padding_one dpy hw] at hspec
        simp only [calculate_vbox_height, Box.elements, Box.width, Box.set_elements,
          Box.set_height, only_vertical_boxes, box_heights, content_heights, Box.height,
          Box.stack_type, hst, hv.1, decide_True, Bool.true_and, ih.1, ih.2.1, ih.2.2,
          List.length_cons, hspec.1, hspec.2.1, box_padding_one dpy hw, div_one, and_self]
  | .slide s :: es, th, n, r, hv, h => by simp [only_vertical_boxes] at hv
  | .text t :: es, th, n, r, hv, h => by simp [only_vertical_boxes] at hv
  | .image im :: es, th, n, r, hv, h => by simp [only_vertical_boxes] at hv

theorem row_pass_vertical (dpy : Display) (fuel : Nat) :
    ∀ (es : List SlideElement) (rs : RowState), only_vertical_boxes es = true →
      ∃ rs', row_pass dpy fuel es rs = .ok (es, rs')
  | [], rs, _ => ⟨rs, rfl⟩
  | .box b :: es, rs, hv => by
    simp only [only_vertical_boxes, Bool.and_eq_true, decide_eq_true_eq] at hv
    obtain ⟨rs', hrs⟩ := row_pass_vertical dpy fuel es { rs with in_row := false } hv.2
    refine ⟨rs', ?_⟩
    simp [row_pass, hv.1, hrs]
  | .slide s :: es, rs, hv => by simp [only_vertical_boxes] at hv
  | .text t :: es, rs, hv => by simp [only_vertical_boxes] at hv
  | .image im :: es, rs, hv => by simp [only_vertical_boxes] at hv

theorem height_pass_vertical (total_height : ℚ) (row_count : Int) :
    ∀ es : List SlideElement, only_vertical_boxes es = true →
      height_pass total_height row_count es = es
  | [], _ => rfl
  | .box b :: es, hv => by
    simp only [only_vertical_boxes, Bool.and_eq_true, decide_eq_true_eq] at hv
    simp [height_pass, hv.1, height_pass_vertical total_height row_count es hv.2]
  | .slide s :: es, hv => by simp [only_vertical_boxes] at hv
  | .text t :: es, hv => by simp [only_vertical_boxes] at hv
  | .image im :: es, hv => by simp [only_vertical_boxes] at hv

theorem position_pass_vertical (dpy : Display) :
    ∀ (es : List SlideElement) (cur_x cur_y : ℚ), only_vertical_boxes es = true →
      box_heights es = content_heights dpy es →
      only_vertical_boxes (position_pass dpy es cur_x cur_y) = true ∧
      box_heights (position_pass dpy es cur_x cur_y) =
        content_heights dpy (position_pass dpy es cur_x cur_y) ∧
      (position_pass dpy es cur_x cur_y).length = es.length
  | [], _, _, _, _ => ⟨rfl, rfl, rfl⟩
  | .box b :: es, cur_x, cur_y, hv, hh => by
    simp only [only_vertical_boxes, Bool.and_eq_true, decide_eq_true_eq] at hv
    simp only [box_heights, content_heights, List.cons.injEq] at hh
    have hp := position_elements_spec dpy (b.set_position cur_x cur_y)
    have hset : (b.set_position cur_x cur_y).height = b.height ∧
        (b.set_position cur_x cur_y).stack_type = b.stack_type ∧
        (b.set_position cur_x cur_y).elements = b.elements := by
      obtain ⟨ta, st, nm, els, bx, by', bw, bh⟩ := b
      exact ⟨rfl, rfl, rfl⟩
    rw [hset.1, hset.2.1, hset.2.2] at hp
    have hstack : (position_elements dpy (b.set_position cur_x cur_y)).stack_type =
        .STACK_VERTICAL := by rw [hp.2.1, hv.1]
    have ih := position_pass_vertical dpy es cur_x
      (cur_y + (position_elements dpy (b.set_position cur_x cur_y)).height) hv.2 hh.2
    rw [hp.1, hh.1] at ih
    simp only [position_pass, hstack, if_true, only_vertical_boxes, box_heights,
      content_heights, decide_True, Bool.true_and, ih.1, ih.2.1, ih.2.2, List.length_cons,
      hp.1, hp.2.2, hh.1, and_self]
  | .slide s :: es, _, _, hv, _ => by simp [only_vertical_boxes] at hv
  | .text t :: es, _, _, hv, _ => by simp [only_vertical_boxes] at hv
  | .image im :: es, _, _, hv, _ => by simp [only_vertical_boxes] at hv

/-- Counterexample to C19 as stated: a slide whose only child is a childless Vertical
box is laid out with the height 1/40 for that box, the padding; the sum of the
heights is not 1. -/
theorem one_vertical_box_height :
    ∃ s, apply_layout example_display 0 one_vertical_box = .ok s ∧
      only_vertical_boxes one_vertical_box.elements = true ∧
      (box_heights s.elements).sum = 1 / 40 ∧ (box_heights s.elements).sum ≠ 1 := by
  refine ⟨.mk "A".toList true
    [.box (.mk .TEXT_ALIGN_LEFT .STACK_VERTICAL "v".toList [] 0 0 1 (1 / 40))], ?_, rfl, ?_, ?_⟩
  · simp [one_vertical_box, empty_box, create_box, example_display, apply_layout,
      measure_pass, row_pass, row_scan, height_pass, position_pass, position_elements,
      position_from, apply_word_wrap, wrap_from, calculate_vbox_height, vbox_height_from,
      box_padding, padding_percent, Box.stack_type, Box.set_height, Box.set_width,
      Box.set_position, Box.set_elements, Box.elements, Box.width, Box.height, Box.name]
  · simp [box_heights, Slide.elements, Box.height]
  · simp [box_heights, Slide.elements, Box.height]

/-- Claim C19, amended: for every slide that contains only Vertical boxes, in a
window of non-zero width, after `apply_layout` the slide still contains as many
children, all Vertical boxes, and the height of every box is 0.025 (the padding)
plus the height of its content: the normalized line heights of its Texts and the
aspect-derived heights of its Images; so the sum of the heights of the boxes equals
the sum of these values. -/
theorem vertical_heights_follow_content (dpy : Display) (fuel : Nat) (name : List Char)
    (visible : Bool) (elements : List SlideElement) (s : Slide)
    (hw : dpy.width ≠ 0) (hv : only_vertical_boxes elements = true)
    (h : apply_layout dpy fuel (.mk name visible elements) = .ok s) :
    s.elements.length = elements.length ∧ only_vertical_boxes s.elements = true ∧
    box_heights s.elements = content_heights dpy s.elements ∧
    (box_heights s.elements).sum = (content_heights dpy s.elements).sum := by
  simp only [apply_layout] at h
  split at h
  · cases h
  · next measured total_height total_hboxes hm =>
    have hmv := measure_pass_vertical dpy fuel hw elements 0 0 _ hv hm
    simp only at hmv
    obtain ⟨rs', hrs⟩ := row_pass_vertical dpy fuel measured
      { in_row := false, cur_count := 0,
        hbox_width := if total_hboxes > 0 then to_float (1 / (total_hboxes : ℚ)) else 0,
        row_count := 0 } hmv.1
    simp only [hrs] at h
    cases h
    rw [height_pass_vertical total_height rs'.row_count measured hmv.1]
    have hp := position_pass_vertical dpy measured 0 0 hmv.1 hmv.2.1
    simp only [Slide.elements]
    exact ⟨hp.2.2.trans hmv.2.2, hp.1, hp.2.1, by rw [hp.2.1]⟩

theorem text_box_slide_layout :
    apply_layout example_display 1 text_box_slide = .ok text_box_slide_laid_out := by
  norm_num [text_box_slide, text_box_slide_laid_out, empty_box, create_box, create_text,
    example_display, apply_layout, measure_pass, row_pass, row_scan, height_pass,
    position_pass, position_elements, position_from, apply_word_wrap, wrap_from,
    calculate_vbox_height, vbox_height_from, box_padding, padding_percent, Box.stack_type,
    Box.set_height, Box.set_width, Box.set_position, Box.set_elements, Box.elements,
    Box.width, Box.height, Box.name, get_text_width, get_line_height, get_font_ascent,
    global_font_size, aligned_x, float_to_int, Box.text_align]
  simp [row_pass, row_scan, height_pass,
    position_pass, position_elements, position_from, apply_word_wrap, wrap_from,
    box_padding, padding_percent, Box.stack_type,
    Box.set_height, Box.set_width, Box.set_position, Box.set_elements, Box.elements,
    Box.width, Box.height, Box.name, get_text_width, get_line_height, get_font_ascent,
    global_font_size, aligned_x, float_to_int, Box.text_align]
  have h35 : ⌊(7 : ℚ) / 120 * 600⌋ = 35 := by
    rw [Int.floor_eq_iff]
    norm_num
  rw [h35]
  norm_num

/-- Witness for the amended C19: in `example_display` the box "v" with the one-line
text "hi" gets the height 1/40 + 20/600 and the childless box "w" the height 1/40. -/
theorem vertical_heights_follow_content_witness :
    text_box_slide_laid_out.elements.length = text_box_slide.elements.length ∧
    only_vertical_boxes text_box_slide_laid_out.elements = true ∧
    box_heights text_box_slide_laid_out.elements =
      content_heights example_display text_box_slide_laid_out.elements ∧
    (box_heights text_box_slide_laid_out.elements).sum =
      (content_heights example_display text_box_slide_laid_out.elements).sum :=
  vertical_heights_follow_content example_display 1 "A".toList true
    text_box_slide.elements text_box_slide_laid_out (by decide) rfl text_box_slide_layout

/-! ## Trimmed tokens (C26) -/

theorem trim_end_append (tail : List Char) :
    tail = trim_end tail ++ (tail.reverse.takeWhile isspace).reverse := by
  unfold trim_end
  rw [← List.reverse_append, List.takeWhile_append_dropWhile, List.reverse_reverse]

theorem trim_end_getLast (tail : List Char) (c : Char)
    (h : (trim_end tail).getLast? = some c) : isspace c = false := by
  unfold trim_end at h
  rw [List.getLast?_reverse] at h
  have := List.head?_dropWhile_not isspace tail.reverse
  rw [h] at this
  simpa using this

theorem trim_end_idem (tail : List Char) : trim_end (trim_end tail) = trim_end tail := by
  unfold trim_end
  rw [List.reverse_reverse, List.dropWhile_idempotent]

theorem dropWhile_head_not (str : List Char) (c : Char) (tail : List Char)
    (h : str.dropWhile isspace = c :: tail) : isspace c = false := by
  have := List.head?_dropWhile_not isspace str
  rw [h] at this
  simpa using this

/-- What `trim_str` returns: the argument is white space, then the result, then white
space, and the result neither starts nor ends with white space. -/
theorem trim_str_parts (str : List Char) :
    ∃ lead trail : List Char, str = lead ++ trim_str str ++ trail ∧
      (∀ c ∈ lead, isspace c = true) ∧ (∀ c ∈ trail, isspace c = true) ∧
      (∀ c, (trim_str str).head? = some c → isspace c = false) ∧
      (∀ c, (trim_str str).getLast? = some c → isspace c = false) := by
  refine ⟨str.takeWhile isspace, ?_⟩
  unfold trim_str
  cases hd : str.dropWhile isspace with
  | nil =>
    refine ⟨[], ?_, fun c hc => List.mem_takeWhile_imp hc, by simp, by simp, by simp⟩
    have := List.takeWhile_append_dropWhile isspace str
    rw [hd] at this
    simpa using this.symm
  | cons c tail =>
    have hc := dropWhile_head_not str c tail hd
    refine ⟨(tail.reverse.takeWhile isspace).reverse, ?_, fun c hc => List.mem_takeWhile_imp hc,
      ?_, ?_, ?_⟩
    · have h1 := List.takeWhile_append_dropWhile isspace str
      rw [hd] at h1
      have h2 := trim_end_append tail
      simp only [List.append_assoc, List.cons_append]
      rw [← h2]
      exact h1.symm
    · intro d hd'
      exact List.mem_takeWhile_imp (List.mem_reverse.1 hd')
    · intro d hd'
      simp only [List.head?_cons, Option.some.injEq] at hd'
      exact hd' ▸ hc
    · intro d hd'
      simp only at hd'
      cases ht : trim_end tail with
      | nil =>
        rw [ht] at hd'
        simp only [List.getLast?_singleton, Option.some.injEq] at hd'
        exact hd' ▸ hc
      | cons e es =>
        rw [ht, List.getLast?_cons_cons] at hd'
        exact trim_end_getLast tail d (ht ▸ hd')

theorem trim_str_idem (str : List Char) : trim_str (trim_str str) = trim_str str := by
  unfold trim_str
  cases hd : str.dropWhile isspace with
  | nil => rfl
  | cons c tail =>
    have hc := dropWhile_head_not str c tail hd
    simp [List.dropWhile_cons, hc, trim_end_idem]

/-- Claim C26: every token that `split_str` returns neither starts nor ends with a
white-space character; `trim_str` takes all white space off the front and off the end
of its argument and keeps what is between (the argument is white space, then the
result, then white space), and trimming a second time changes nothing. -/
theorem split_str_tokens_trimmed (str delim : List Char) :
    (∀ tok ∈ split_str str delim,
      (∀ c, tok.head? = some c → isspace c = false) ∧
      (∀ c, tok.getLast? = some c → isspace c = false)) ∧
    (∃ lead trail : List Char, str = lead ++ trim_str str ++ trail ∧
      (∀ c ∈ lead, isspace c = true) ∧ (∀ c ∈ trail, isspace c = true) ∧
      (∀ c, (trim_str str).head? = some c → isspace c = false) ∧
      (∀ c, (trim_str str).getLast? = some c → isspace c = false)) ∧
    trim_str (trim_str str) = trim_str str := by
  refine ⟨?_, trim_str_parts str, trim_str_idem str⟩
  intro tok htok
  unfold split_str at htok
  obtain ⟨span, -, rfl⟩ := List.mem_map.1 htok
  obtain ⟨_, _, _, _, _, h1, h2⟩ := trim_str_parts (slice str span)
  exact ⟨h1, h2⟩

/-! ## Which lines close a context (C27) -/

/-- Every parser state agrees with the tracker read off it. -/
theorem tracks_self (st : ParserState) :
    Tracks st { kinds := st.slides.map Slide.visible, current := st.current_slide,
                box := st.current_box.isSome, closed := st.list } :=
  ⟨rfl, rfl, rfl, rfl⟩

/-- No handler appends to the SlideList, and none sets `current_box` to NULL. -/
theorem run_keyword_frame (stbi_load : List Char → Option Decoded) (st st' : ParserState)
    (kw : List Char) (rest : List (List Char)) (line_num : Nat)
    (h : run_keyword stbi_load st (kw :: rest) line_num = .ok st') :
    st'.list = st.list ∧ (st.current_box.isSome = true → st'.current_box.isSome = true) := by
  obtain ⟨-, h2, -, h4⟩ := run_keyword_tracks stbi_load st st' kw rest line_num _ h (tracks_self st)
  unfold track_keyword at h2 h4
  refine ⟨?_, fun hb => ?_⟩
  · split_ifs at h2 <;> exact h2
  · split_ifs at h4 <;> simp_all

/-- Claim C27: on a line with the first token `tok`: when `tok` contains "end",
the line does exactly the close-context action on the state before the line; when
`tok` does not contain "end", the line is skipped (trimmed length at most 1) or only
runs the handler of its keyword, and whenever the line is accepted the SlideList is
the same as before and a `current_box` that was set is still set. The lines `end`,
`endslide` and `append` all do the close-context action. -/
theorem end_token_closes (stbi_load : List Char → Option Decoded) (st : ParserState)
    (line : List Char) (line_num : Nat) (tok : List Char) (rest : List (List Char))
    (hsplit : split_str (trim_str line) ":,".toList = tok :: rest) :
    (strstr tok "end".toList = true →
      parse_line stbi_load st line line_num = close_context st line_num) ∧
    (strstr tok "end".toList = false →
      parse_line stbi_load st line line_num =
        (if (trim_str line).length ≤ 1 then .ok st
         else run_keyword stbi_load st (tok :: rest) line_num) ∧
      ∀ st', parse_line stbi_load st line line_num = .ok st' →
        st'.list = st.list ∧
        (st.current_box.isSome = true → st'.current_box.isSome = true)) ∧
    parse_line stbi_load st "end\n".toList line_num = close_context st line_num ∧
    parse_line stbi_load st "endslide\n".toList line_num = close_context st line_num ∧
    parse_line stbi_load st "append\n".toList line_num = close_context st line_num := by
  refine ⟨parse_line_of_strstr_end stbi_load st line line_num tok rest hsplit, ?_,
    parse_line_of_strstr_end stbi_load st _ line_num "end".toList [] rfl rfl,
    parse_line_of_strstr_end stbi_load st _ line_num "endslide".toList [] rfl rfl,
    parse_line_of_strstr_end stbi_load st _ line_num "append".toList [] rfl rfl⟩
  intro hend
  have hpl : parse_line stbi_load st line line_num =
      (if (trim_str line).length ≤ 1 then .ok st
       else run_keyword stbi_load st (tok :: rest) line_num) := by
    simp only [parse_line, hsplit, List.length_cons, handle_end, List.getD_cons_zero, hend]
    by_cases hl : (trim_str line).length ≤ 1
    · simp [hl]
    · simp only [if_neg hl]
      cases run_keyword stbi_load st (tok :: rest) line_num <;> simp
  refine ⟨hpl, ?_⟩
  intro st' h
  rw [hpl] at h
  by_cases hl : (trim_str line).length ≤ 1
  · rw [if_pos hl] at h
    cases h
    exact ⟨rfl, id⟩
  · rw [if_neg hl] at h
    exact run_keyword_frame stbi_load st st' tok rest line_num h

/-- Witness for C27: the line `append`, read with the slide "A" open and no box
current, appends that slide to the SlideList. -/
theorem end_token_closes_witness :
    parse_line (fun _ => none) open_slide_state "append\n".toList 7 =
      .ok { slides := [slide_A], list := [0], current_slide := none, current_box := none } :=
  (end_token_closes (fun _ => none) open_slide_state "append\n".toList 7
    "append".toList [] rfl).1 rfl

/-! ## Word wrap: one pass of the loop -/

/-- A pass of the loop of `apply_word_wrap` over a Text that is too wide and holds a
blank, none of whose words is wider than the box: the Text is replaced and the same
index is visited again. -/
theorem wrap_from_split (dpy : Display) (box_width : ℚ) (box_name : List Char) (padding : ℚ)
    (fuel : Nat) (t : Text) (rest : List SlideElement) (current_y : ℚ)
    (hwide : get_text_width dpy t / (dpy.width : ℚ) + padding > box_width)
    (hblank : strstr t.content [' '] = true)
    (hmax : ¬ max_word_width dpy t.font_size (split_str t.content [' ']) 0 > box_width) :
    wrap_from dpy box_width box_name padding (fuel + 1) (.text t :: rest) current_y =
      wrap_from dpy box_width box_name padding fuel
        (.text (create_text (join_words ((split_str t.content [' ']).take
            (break_index dpy box_width t))) t.font_size) ::
          carry_remainder (join_words ((split_str t.content [' ']).drop
            (break_index dpy box_width t))) t.font_size rest)
        current_y := by
  have hw : get_text_width dpy { t with size := global_font_size t.font_size / (dpy.width : ℚ) } =
      get_text_width dpy t := rfl
  rw [wrap_from]
  simp only [hw]
  rw [if_pos ⟨hwide, hblank⟩, if_neg hmax]
  rcases rest with _ | ⟨_ | _ | _ | _, _⟩ <;> rfl

/-- A pass of the loop of `apply_word_wrap` over a Text that fits or holds no blank:
the Text gets its `size` and `y` and the loop goes on to the next index. -/
theorem wrap_from_keep (dpy : Display) (box_width : ℚ) (box_name : List Char) (padding : ℚ)
    (fuel : Nat) (t : Text) (rest : List SlideElement) (current_y : ℚ)
    (hfit : ¬ (get_text_width dpy t / (dpy.width : ℚ) + padding > box_width ∧
      strstr t.content [' '] = true)) :
    wrap_from dpy box_width box_name padding (fuel + 1) (.text t :: rest) current_y =
      match wrap_from dpy box_width box_name padding fuel rest
          (current_y + get_line_height dpy t dpy.height) with
      | .error e => .error e
      | .ok wrapped =>
        .ok (.text { t with size := global_font_size t.font_size / (dpy.width : ℚ),
                            y := current_y + get_font_ascent dpy t dpy.height } :: wrapped) := by
  have hw : get_text_width dpy { t with size := global_font_size t.font_size / (dpy.width : ℚ) } =
      get_text_width dpy t := rfl
  rw [wrap_from]
  simp only [hw]
  rw [if_neg hfit]
  rfl

/-- A pass of the loop of `apply_word_wrap` over an element that is no Text. -/
theorem wrap_from_other (dpy : Display) (box_width : ℚ) (box_name : List Char) (padding : ℚ)
    (fuel : Nat) (e : SlideElement) (rest : List SlideElement) (current_y : ℚ)
    (hne : ∀ t, e ≠ .text t) :
    wrap_from dpy box_width box_name padding (fuel + 1) (e :: rest) current_y =
      match wrap_from dpy box_width box_name padding fuel rest current_y with
      | .error err => .error err
      | .ok wrapped => .ok (e :: wrapped) := by
  cases e with
  | text t => exact absurd rfl (hne t)
  | slide s => rfl
  | box b => rfl
  | image im => rfl

/-! ## Greedy line fill (C30) -/

theorem huge_text_width (t : Text) :
    get_text_width huge_font_display t = 40 * (t.content.length : ℚ) := by
  unfold get_text_width huge_font_display
  simp only
  induction t.content with
  | nil => simp
  | cons c cs ih =>
    simp only [List.map_cons, List.sum_cons, List.length_cons, Int.cast_add] at ih ⊢
    rw [ih]
    push_cast
    ring

theorem split_hello_brave :
    split_str "hello brave new world".toList [' '] =
      ["hello".toList, "brave".toList, "new".toList, "world".toList] := by
  rfl

theorem huge_padding : box_padding huge_font_display 1 = 1 / 40 := by
  norm_num [box_padding, huge_font_display, padding_percent]

theorem huge_width : ((huge_font_display.width : Int) : ℚ) = 800 := by
  norm_num [huge_font_display]

theorem break_hello_brave :
    break_index huge_font_display 1
      (create_text "hello brave new world".toList .FONT_HUGE) = 2 := by
  unfold break_index
  rw [show (create_text "hello brave new world".toList .FONT_HUGE).content =
    "hello brave new world".toList from rfl, split_hello_brave]
  norm_num [find_break, huge_font_display, get_strtext_width, get_char_width, create_text]

theorem wrap_hello_brave (name : List Char) :
    wrap_from huge_font_display 1 name (1 / 40) 3
      [.text (create_text "hello brave new world".toList .FONT_HUGE)] (1 / 40) =
      .ok hello_brave_wrapped.elements := by
  have hwide : get_text_width huge_font_display
      (create_text "hello brave new world".toList .FONT_HUGE) /
        (huge_font_display.width : ℚ) + 1 / 40 > 1 := by
    rw [huge_text_width, huge_width]
    norm_num [create_text]
  have hmax : ¬ max_word_width huge_font_display
      (create_text "hello brave new world".toList .FONT_HUGE).font_size
      (split_str (create_text "hello brave new world".toList .FONT_HUGE).content [' ']) 0 > 1 := by
    rw [show (create_text "hello brave new world".toList .FONT_HUGE).content =
      "hello brave new world".toList from rfl, split_hello_brave]
    norm_num [max_word_width, huge_font_display, get_strtext_width]
  rw [wrap_from_split _ _ _ _ 2 _ _ _ hwide rfl hmax, break_hello_brave]
  rw [show (create_text "hello brave new world".toList .FONT_HUGE).content =
    "hello brave new world".toList from rfl, split_hello_brave]
  rw [show join_words (List.take 2
      ["hello".toList, "brave".toList, "new".toList, "world".toList]) =
    "hello brave ".toList from rfl,
    show join_words (List.drop 2
      ["hello".toList, "brave".toList, "new".toList, "world".toList]) =
    "new world ".toList from rfl]
  have hfit1 : ¬ (get_text_width huge_font_display
      (create_text "hello brave ".toList .FONT_HUGE) /
        (huge_font_display.width : ℚ) + 1 / 40 > 1 ∧
      strstr (create_text "hello brave ".toList .FONT_HUGE).content [' '] = true) := by
    rw [huge_text_width, huge_width]
    norm_num [create_text]
  have hfit2 : ¬ (get_text_width huge_font_display
      (create_text "new world ".toList .FONT_HUGE) /
        (huge_font_display.width : ℚ) + 1 / 40 > 1 ∧
      strstr (create_text "new world ".toList .FONT_HUGE).content [' '] = true) := by
    rw [huge_text_width, huge_width]
    norm_num [create_text]
  simp only [carry_remainder]
  rw [show (create_text "hello brave new world".toList .FONT_HUGE).font_size = .FONT_HUGE from rfl,
    wrap_from_keep _ _ _ _ 1 _ _ _ hfit1, wrap_from_keep _ _ _ _ 0 _ _ _ hfit2]
  simp only [wrap_from]
  norm_num [hello_brave_wrapped, Box.elements, create_text, global_font_size, get_font_ascent,
    get_line_height, huge_font_display]

theorem hello_brave_wrap :
    apply_word_wrap huge_font_display 3 (huge_text_box "hello brave new world".toList) =
      .ok hello_brave_wrapped := by
  simp only [apply_word_wrap, huge_text_box, Box.width, Box.name, Box.elements, huge_padding,
    wrap_hello_brave]
  rfl

/-- Claim C30 on the code: in a window 800 pixels wide with a font that advances by
40 pixels a character, the Text "hello brave new world" in a box of width 1 has the
running width 4/5 after the words 0..2 and 11/10 after the words 0..3, so `j = 3` is
the first word index at which the running width meets the box width; the loop leaves
`break_idx = j - 1 = 2`, and the wrapped element gets the words 0..1, "hello brave ",
not the words 0..2, while the remainder starts at the word 2, "new world ". -/
theorem wrap_breaks_one_word_early :
    split_str "hello brave new world".toList [' '] =
      ["hello".toList, "brave".toList, "new".toList, "world".toList] ∧
    running_width huge_font_display .FONT_HUGE
      ["hello".toList, "brave".toList, "new".toList, "world".toList] 2 = 4 / 5 ∧
    running_width huge_font_display .FONT_HUGE
      ["hello".toList, "brave".toList, "new".toList, "world".toList] 3 = 11 / 10 ∧
    break_index huge_font_display 1 (create_text "hello brave new world".toList .FONT_HUGE) = 2 ∧
    ∃ wrapped,
      apply_word_wrap huge_font_display 3 (huge_text_box "hello brave new world".toList) =
        .ok wrapped ∧
      text_contents wrapped.elements = ["hello brave ".toList, "new world ".toList] ∧
      text_contents wrapped.elements ≠ ["hello brave new ".toList, "world ".toList] := by
  refine ⟨split_hello_brave, ?_, ?_, break_hello_brave, ?_⟩
  · norm_num [running_width, huge_font_display, get_strtext_width, get_char_width]
  · norm_num [running_width, huge_font_display, get_strtext_width, get_char_width]
  · refine ⟨hello_brave_wrapped, hello_brave_wrap, rfl, ?_⟩
    simp only [hello_brave_wrapped, Box.elements, text_contents]
    decide

/-! ## Termination of the word wrap (C23) -/

theorem split_presentation :
    split_str "presentation software".toList [' '] =
      ["presentation".toList, "software".toList] := by
  rfl

theorem split_presentation_blank :
    split_str "presentation software ".toList [' '] =
      ["presentation".toList, "software".toList] := by
  rfl

/-- A wrap step on "presentation software", with or without a blank at the end, in a
box of width 1 of `huge_font_display`: the running width meets the box width at the
word 1, so `break_idx = 0`: the Text becomes empty and the remainder holds both
words again. -/
theorem wrap_presentation_step (name : List Char) (fuel : Nat) (content : List Char)
    (rest : List SlideElement) (y : ℚ)
    (hlen : 21 ≤ content.length) (hblank : strstr content [' '] = true)
    (hsplit : split_str content [' '] = ["presentation".toList, "software".toList]) :
    wrap_from huge_font_display 1 name (1 / 40) (fuel + 1)
        (.text (create_text content .FONT_HUGE) :: rest) y =
      wrap_from huge_font_display 1 name (1 / 40) fuel
        (.text (create_text [] .FONT_HUGE) ::
          carry_remainder "presentation software ".toList .FONT_HUGE rest) y := by
  have hwide : get_text_width huge_font_display (create_text content .FONT_HUGE) /
        (huge_font_display.width : ℚ) + 1 / 40 > 1 := by
    rw [huge_text_width, huge_width]
    have h : (21 : ℚ) ≤ (content.length : ℚ) := by exact_mod_cast hlen
    simp only [create_text]
    linarith
  have hmax : ¬ max_word_width huge_font_display (create_text content .FONT_HUGE).font_size
      (split_str (create_text content .FONT_HUGE).content [' ']) 0 > 1 := by
    rw [show (create_text content .FONT_HUGE).content = content from rfl, hsplit]
    norm_num [max_word_width, huge_font_display, get_strtext_width]
  have hbreak : break_index huge_font_display 1 (create_text content .FONT_HUGE) = 0 := by
    unfold break_index
    rw [show (create_text content .FONT_HUGE).content = content from rfl, hsplit]
    norm_num [find_break, huge_font_display, get_strtext_width, get_char_width, create_text]
  rw [wrap_from_split _ _ _ _ fuel _ _ _ hwide hblank hmax, hbreak,
    show (create_text content .FONT_HUGE).content = content from rfl, hsplit]
  rfl

/-- The loop of `apply_word_wrap` does not end on the remainder "presentation
software ": every number of passes is used up. -/
theorem wrap_presentation_loops (name : List Char) :
    ∀ (fuel : Nat) (y : ℚ),
      wrap_from huge_font_display 1 name (1 / 40) fuel
        [.text (create_text "presentation software ".toList .FONT_HUGE)] y =
        .error .step_limit := by
  intro fuel
  induction fuel using Nat.strong_induction_on with
  | _ fuel ih =>
    intro y
    match fuel, ih with
    | 0, _ => rfl
    | 1, _ =>
      rw [wrap_presentation_step name 0 "presentation software ".toList [] y (by decide) rfl
        split_presentation_blank]
      rfl
    | fuel + 2, ih =>
      have hfit : ¬ (get_text_width huge_font_display (create_text [] .FONT_HUGE) /
            (huge_font_display.width : ℚ) + 1 / 40 > 1 ∧
          strstr (create_text [] .FONT_HUGE).content [' '] = true) := by
        rintro ⟨-, h⟩
        revert h
        decide
      rw [wrap_presentation_step name (fuel + 1) "presentation software ".toList [] y (by decide)
        rfl split_presentation_blank]
      simp only [carry_remainder]
      rw [wrap_from_keep _ _ _ _ fuel _ _ _ hfit, ih fuel (by omega)]

/-- Claim C23 on the code: in a window 800 pixels wide with a font that advances by
40 pixels a character, no word of the Text "presentation software" is wider than a
box of width 1 (the widest is 3/5 of it), and yet `apply_word_wrap` on that box does
not end: whatever the number of passes allowed, they are used up. The first pass
leaves an empty Text and the remainder "presentation software ", and every later
pass over the remainder does the same. -/
theorem wrap_never_ends :
    max_word_width huge_font_display .FONT_HUGE
      (split_str "presentation software".toList [' ']) 0 = 3 / 5 ∧
    ∀ fuel : Nat,
      apply_word_wrap huge_font_display fuel (huge_text_box "presentation software".toList) =
        .error .step_limit := by
  refine ⟨?_, ?_⟩
  · rw [split_presentation]
    norm_num [max_word_width, huge_font_display, get_strtext_width]
  · intro fuel
    simp only [apply_word_wrap, huge_text_box, Box.width, Box.name, Box.elements, huge_padding]
    match fuel with
    | 0 => rfl
    | 1 =>
      rw [wrap_presentation_step _ 0 "presentation software".toList [] _ (by decide) rfl
        split_presentation]
      rfl
    | fuel + 2 =>
      have hfit : ¬ (get_text_width huge_font_display (create_text [] .FONT_HUGE) /
            (huge_font_display.width : ℚ) + 1 / 40 > 1 ∧
          strstr (create_text [] .FONT_HUGE).content [' '] = true) := by
        rintro ⟨-, h⟩
        revert h
        decide
      rw [wrap_presentation_step _ (fuel + 1) "presentation software".toList [] _ (by decide) rfl
        split_presentation]
      simp only [carry_remainder]
      rw [wrap_from_keep _ _ _ _ fuel _ _ _ hfit, wrap_presentation_loops]

/-! ## The bound of the word wrap (C22) -/

/-- When the loop of `apply_word_wrap` ends, every Text that holds a blank passed the
test of the loop: its width and the padding are within the width of the box. -/
theorem wrap_from_bound (dpy : Display) (box_width : ℚ) (box_name : List Char) (padding : ℚ) :
    ∀ (fuel : Nat) (es : List SlideElement) (y : ℚ) (out : List SlideElement),
      wrap_from dpy box_width box_name padding fuel es y = .ok out →
      ∀ t, .text t ∈ out → strstr t.content [' '] = true →
        get_text_width dpy t / (dpy.width : ℚ) + padding ≤ box_width := by
  intro fuel
  induction fuel with
  | zero =>
    intro es y out h t ht
    cases es with
    | nil =>
      simp only [wrap_from] at h
      cases h
      simp at ht
    | cons e rest => simp [wrap_from] at h
  | succ fuel ih =>
    intro es y out h t ht hblank
    match es, h with
    | [], h =>
      simp only [wrap_from] at h
      cases h
      simp at ht
    | .text t0 :: rest, h =>
      by_cases hc : get_text_width dpy t0 / (dpy.width : ℚ) + padding > box_width ∧
          strstr t0.content [' '] = true
      · by_cases hmax : max_word_width dpy t0.font_size (split_str t0.content [' ']) 0 > box_width
        · rw [wrap_from] at h
          have hw : get_text_width dpy
              { t0 with size := global_font_size t0.font_size / (dpy.width : ℚ) } =
              get_text_width dpy t0 := rfl
          simp only [hw] at h
          rw [if_pos hc, if_pos hmax] at h
          cases h
        · rw [wrap_from_split _ _ _ _ fuel _ _ _ hc.1 hc.2 hmax] at h
          exact ih _ _ _ h t ht hblank
      · rw [wrap_from_keep _ _ _ _ fuel _ _ _ hc] at h
        split at h
        · cases h
        · next wrapped hrest =>
          cases h
          rcases List.mem_cons.1 ht with heq | hmem
          · cases heq
            by_contra hgt
            exact hc ⟨lt_of_not_le hgt, hblank⟩
          · exact ih _ _ _ hrest t hmem hblank
    | .slide s :: rest, h =>
      rw [wrap_from_other _ _ _ _ fuel _ _ _ (by intro t ht; cases ht)] at h
      split at h
      · cases h
      · next wrapped hrest =>
        cases h
        rcases List.mem_cons.1 ht with heq | hmem
        · cases heq
        · exact ih _ _ _ hrest t hmem hblank
    | .box b :: rest, h =>
      rw [wrap_from_other _ _ _ _ fuel _ _ _ (by intro t ht; cases ht)] at h
      split at h
      · cases h
      · next wrapped hrest =>
        cases h
        rcases List.mem_cons.1 ht with heq | hmem
        · cases heq
        · exact ih _ _ _ hrest t hmem hblank
    | .image im :: rest, h =>
      rw [wrap_from_other _ _ _ _ fuel _ _ _ (by intro t ht; cases ht)] at h
      split at h
      · cases h
      · next wrapped hrest =>
        cases h
        rcases List.mem_cons.1 ht with heq | hmem
        · cases heq
        · exact ih _ _ _ hrest t hmem hblank

/-- Texts without a blank are neither split nor rejected: with a pass for every
element the loop of `apply_word_wrap` ends and keeps every content. -/
theorem wrap_from_no_blank (dpy : Display) (box_width : ℚ) (box_name : List Char)
    (padding : ℚ) :
    ∀ (es : List SlideElement) (fuel : Nat) (y : ℚ),
      (∀ u, .text u ∈ es → strstr u.content [' '] = false) → es.length ≤ fuel →
      ∃ out, wrap_from dpy box_width box_name padding fuel es y = .ok out ∧
        text_contents out = text_contents es
  | [], fuel, y, _, _ => ⟨[], by simp [wrap_from], rfl⟩
  | e :: rest, 0, y, _, hlen => by simp at hlen
  | .text t0 :: rest, fuel + 1, y, hno, hlen => by
    have hc : ¬ (get_text_width dpy t0 / (dpy.width : ℚ) + padding > box_width ∧
        strstr t0.content [' '] = true) := by
      rintro ⟨-, h⟩
      rw [hno t0 (List.mem_cons_self _ _)] at h
      cases h
    obtain ⟨out, hout, hcont⟩ := wrap_from_no_blank dpy box_width box_name padding rest fuel
      (y + get_line_height dpy t0 dpy.height)
      (fun u hu => hno u (List.mem_cons_of_mem _ hu))
      (by simpa using hlen)
    refine ⟨_, by rw [wrap_from_keep _ _ _ _ fuel _ _ _ hc, hout], ?_⟩
    simp only [text_contents, hcont]
  | .slide s :: rest, fuel + 1, y, hno, hlen => by
    obtain ⟨out, hout, hcont⟩ := wrap_from_no_blank dpy box_width box_name padding rest fuel y
      (fun u hu => hno u (List.mem_cons_of_mem _ hu)) (by simpa using hlen)
    refine ⟨_, by rw [wrap_from_other _ _ _ _ fuel _ _ _ (by intro t ht; cases ht), hout], ?_⟩
    simp only [text_contents, hcont]
  | .box b :: rest, fuel + 1, y, hno, hlen => by
    obtain ⟨out, hout, hcont⟩ := wrap_from_no_blank dpy box_width box_name padding rest fuel y
      (fun u hu => hno u (List.mem_cons_of_mem _ hu)) (by simpa using hlen)
    refine ⟨_, by rw [wrap_from_other _ _ _ _ fuel _ _ _ (by intro t ht; cases ht), hout], ?_⟩
    simp only [text_contents, hcont]
  | .image im :: rest, fuel + 1, y, hno, hlen => by
    obtain ⟨out, hout, hcont⟩ := wrap_from_no_blank dpy box_width box_name padding rest fuel y
      (fun u hu => hno u (List.mem_cons_of_mem _ hu)) (by simpa using hlen)
    refine ⟨_, by rw [wrap_from_other _ _ _ _ fuel _ _ _ (by intro t ht; cases ht), hout], ?_⟩
    simp only [text_contents, hcont]

theorem apply_word_wrap_elements (dpy : Display) (fuel : Nat) (box : Box)
    (out : List SlideElement)
    (h : wrap_from dpy box.width box.name (box_padding dpy box.width) fuel box.elements
      (box_padding dpy box.width) = .ok out) :
    apply_word_wrap dpy fuel box = .ok (box.set_elements out) := by
  simp only [apply_word_wrap, h]

theorem elements_set_elements (box : Box) (out : List SlideElement) :
    (box.set_elements out).elements = out := by
  obtain ⟨text_align, stack_type, name, elements, x, y, width, height⟩ := box
  rfl

theorem apply_word_wrap_inv (dpy : Display) (fuel : Nat) (box wrapped : Box)
    (h : apply_word_wrap dpy fuel box = .ok wrapped) :
    wrap_from dpy box.width box.name (box_padding dpy box.width) fuel box.elements
      (box_padding dpy box.width) = .ok wrapped.elements ∧
    wrapped = box.set_elements wrapped.elements := by
  unfold apply_word_wrap at h
  split at h
  · cases h
  · next out hout =>
    cases h
    rw [elements_set_elements]
    exact ⟨hout, rfl⟩

/-- The word of 21 characters followed by a blank reaches the test for an over-wide
word: `apply_word_wrap` ends with the diagnostic. -/
theorem blank_word_rejected :
    apply_word_wrap huge_font_display 1 (huge_text_box "incomprehensibilities ".toList) =
      .error (.word_too_wide "v".toList) := by
  have hs : split_str "incomprehensibilities ".toList [' '] =
      ["incomprehensibilities".toList] := rfl
  have hwide : get_text_width huge_font_display
      (create_text "incomprehensibilities ".toList .FONT_HUGE) /
        (huge_font_display.width : ℚ) + 1 / 40 > 1 := by
    rw [huge_text_width, huge_width]
    norm_num [create_text]
  have hmax : max_word_width huge_font_display .FONT_HUGE
      (split_str "incomprehensibilities ".toList [' ']) 0 > 1 := by
    rw [hs]
    norm_num [max_word_width, huge_font_display, get_strtext_width]
  simp only [apply_word_wrap, huge_text_box, Box.width, Box.name, Box.elements, huge_padding]
  rw [wrap_from]
  have hw : get_text_width huge_font_display
      { create_text "incomprehensibilities ".toList .FONT_HUGE with
        size := global_font_size .FONT_HUGE / (huge_font_display.width : ℚ) } =
      get_text_width huge_font_display
        (create_text "incomprehensibilities ".toList .FONT_HUGE) := rfl
  simp only [create_text] at hw hwide hmax ⊢
  simp only [hw]
  rw [if_pos ⟨hwide, rfl⟩, if_pos hmax]

/-- Claim C22 on the code: in a window 800 pixels wide with a font that advances by
40 pixels a character, the Text "incomprehensibilities", one single word of 21
characters, is 21/20 wide, wider than its box of width 1; `apply_word_wrap` does not
fail with the error of the over-wide word: it returns, and the Text is still there
with the same content, wider than the box. The test for an over-wide word is only
reached by a Text that holds a blank: the same word followed by a blank ends in the
diagnostic "Single word in text is wider than box width". -/
theorem single_word_overflows :
    apply_word_wrap huge_font_display 1 (huge_text_box "incomprehensibilities ".toList) =
      .error (.word_too_wide "v".toList) ∧
    split_str "incomprehensibilities".toList [' '] = ["incomprehensibilities".toList] ∧
    get_strtext_width huge_font_display "incomprehensibilities".toList .FONT_HUGE /
      (huge_font_display.width : ℚ) = 21 / 20 ∧
    ∃ wrapped t,
      apply_word_wrap huge_font_display 1 (huge_text_box "incomprehensibilities".toList) =
        .ok wrapped ∧
      wrapped.width = 1 ∧ wrapped.elements = [.text t] ∧
      t.content = "incomprehensibilities".toList ∧
      get_text_width huge_font_display t / (huge_font_display.width : ℚ) = 21 / 20 ∧
      ¬ get_text_width huge_font_display t / (huge_font_display.width : ℚ) ≤ wrapped.width := by
  refine ⟨blank_word_rejected, rfl, by norm_num [get_strtext_width, huge_font_display], ?_⟩
  have hfit : ¬ (get_text_width huge_font_display
        (create_text "incomprehensibilities".toList .FONT_HUGE) /
          (huge_font_display.width : ℚ) + 1 / 40 > 1 ∧
      strstr (create_text "incomprehensibilities".toList .FONT_HUGE).content [' '] = true) := by
    rintro ⟨-, h⟩
    revert h
    decide
  refine ⟨.mk .TEXT_ALIGN_LEFT .STACK_VERTICAL "v".toList
    [.text { font_size := .FONT_HUGE, content := "incomprehensibilities".toList, x := 0,
             y := 11 / 120, size := 1 / 20 }] 0 0 1 0, _, ?_, ?_, rfl, ?_, ?_, ?_⟩
  · simp only [apply_word_wrap, huge_text_box, Box.width, Box.name, Box.elements, huge_padding]
    rw [wrap_from_keep _ _ _ _ 0 _ _ _ hfit]
    simp only [wrap_from]
    norm_num [Box.set_elements, create_text, global_font_size, get_font_ascent, get_line_height,
      huge_font_display]
  · rfl
  · rfl
  · rw [huge_text_width, huge_width]
    norm_num
  · rw [huge_text_width, huge_width]
    norm_num [Box.width]

/-- Whenever `apply_word_wrap` returns, every Text of the box that holds a blank has a
rendered width, normalized by the width of the window, that with the padding of the
box added is at most the width of the box, hence, the padding not being negative,
itself at most the width of the box. A Text without a blank is neither split nor
rejected, however wide it is: on a box whose Texts hold no blank `apply_word_wrap`
returns (one pass for every element is enough) and keeps every content. -/
theorem wrapped_texts_fit (dpy : Display) (fuel : Nat) (box : Box) :
    (∀ wrapped, apply_word_wrap dpy fuel box = .ok wrapped →
      ∀ t, .text t ∈ wrapped.elements → strstr t.content [' '] = true →
        get_text_width dpy t / (dpy.width : ℚ) + box_padding dpy box.width ≤ box.width ∧
        (0 ≤ box_padding dpy box.width →
          get_text_width dpy t / (dpy.width : ℚ) ≤ wrapped.width)) ∧
    ((∀ u, .text u ∈ box.elements → strstr u.content [' '] = false) →
      box.elements.length ≤ fuel →
      ∃ wrapped, apply_word_wrap dpy fuel box = .ok wrapped ∧
        text_contents wrapped.elements = text_contents box.elements) := by
  refine ⟨?_, ?_⟩
  · intro wrapped h t ht hblank
    have hb := wrap_from_bound dpy _ _ _ fuel _ _ _ (apply_word_wrap_inv dpy fuel box wrapped h).1
      t ht hblank
    refine ⟨hb, fun hpad => ?_⟩
    rw [(apply_word_wrap_frame dpy fuel box wrapped h).1]
    linarith
  · intro hno hlen
    obtain ⟨out, hout, hcont⟩ := wrap_from_no_blank dpy box.width box.name
      (box_padding dpy box.width) box.elements fuel (box_padding dpy box.width) hno hlen
    exact ⟨_, apply_word_wrap_elements dpy fuel box out hout, by
      rw [elements_set_elements, hcont]⟩

/-- After the wrap of "hello brave new world" the Text "hello brave " is 3/5 wide, and
3/5 and the padding 1/40 are within the width 1. -/
theorem wrapped_texts_fit_witness :
    apply_word_wrap huge_font_display 3 (huge_text_box "hello brave new world".toList) =
      .ok hello_brave_wrapped ∧
    (40 * 12 : ℚ) / 800 + 1 / 40 ≤ 1 := by
  refine ⟨hello_brave_wrap, ?_⟩
  have h := ((wrapped_texts_fit huge_font_display 3
    (huge_text_box "hello brave new world".toList)).1 hello_brave_wrapped hello_brave_wrap
    { font_size := .FONT_HUGE, content := "hello brave ".toList, x := 0, y := 11 / 120,
      size := 1 / 20 } (by simp [hello_brave_wrapped, Box.elements]) rfl).1
  rw [huge_text_width, huge_width] at h
  simpa [huge_text_box, Box.width, huge_padding] using h

/-! ## Row packing in general -/

theorem stack_cases (st : StackType) : st = .STACK_HORIZONTAL ∨ st = .STACK_VERTICAL := by
  cases st
  · exact Or.inl rfl
  · exact Or.inr rfl

/-- The inner loop `for (j = i; ...)` of `apply_layout`: when it reaches its `break`
the row gets the width one over the number of Horizontal boxes counted, rounded to
`float`, and else only `cur_count` has grown. -/
theorem row_scan_spec : ∀ (es : List SlideElement) (rs : RowState),
    row_scan es rs =
      if row_closes (stack_shape es) = true then
        { in_row := true, cur_count := 0,
          hbox_width := if rs.cur_count + (hboxes_ahead (stack_shape es) : Int) ≤ 1 then 1
            else to_float (1 / ((rs.cur_count + (hboxes_ahead (stack_shape es) : Int) : Int) : ℚ)),
          row_count := rs.row_count + 1 }
      else { rs with cur_count := rs.cur_count + (hboxes_ahead (stack_shape es) : Int) }
  | [], rs => by simp [row_scan, row_closes, hboxes_ahead, stack_shape]
  | .slide s :: rest, rs => by
    simp only [row_scan, row_closes, hboxes_ahead, stack_shape]
    exact row_scan_spec rest rs
  | .text t :: rest, rs => by
    simp only [row_scan, row_closes, hboxes_ahead, stack_shape]
    exact row_scan_spec rest rs
  | .image im :: rest, rs => by
    simp only [row_scan, row_closes, hboxes_ahead, stack_shape]
    exact row_scan_spec rest rs
  | .box b :: rest, rs => by
    rcases stack_cases b.stack_type with hst | hst
    · cases rest with
      | nil => simp [row_scan, row_closes, hboxes_ahead, stack_shape, hst]
      | cons e rest' =>
        have ih := row_scan_spec (e :: rest') { rs with cur_count := rs.cur_count + 1 }
        have hne : (stack_shape (e :: rest')).isEmpty = false := by
          cases e <;> rfl
        simp only [row_scan, row_closes, hboxes_ahead, stack_shape, hst, if_true,
          List.isEmpty_cons, Bool.false_eq_true, or_false, reduceCtorEq, decide_False,
          Bool.false_or, if_false, ih, hne]
        by_cases hc : row_closes (stack_shape (e :: rest')) = true
        · simp only [hc, if_true, Nat.cast_add, Nat.cast_one]
          simp only [add_assoc, add_comm (1 : Int)]
        · simp only [hc, Bool.false_eq_true, if_false, Nat.cast_add, Nat.cast_one]
          simp only [add_assoc, add_comm (1 : Int)]
    · simp [row_scan, row_closes, hboxes_ahead, stack_shape, hst]

theorem stack_type_set_width (b : Box) (w : ℚ) : (b.set_width w).stack_type = b.stack_type := by
  obtain ⟨ta, st, nm, els, bx, by', bw, bh⟩ := b
  rfl

theorem width_set_width (b : Box) (w : ℚ) : (b.set_width w).width = w := by
  obtain ⟨ta, st, nm, els, bx, by', bw, bh⟩ := b
  rfl

/-- The second loop of `apply_layout` keeps the children and their stack types. -/
theorem row_pass_shape (dpy : Display) (fuel : Nat) :
    ∀ (es : List SlideElement) (rs : RowState) (r : List SlideElement × RowState),
      row_pass dpy fuel es rs = .ok r → stack_shape r.1 = stack_shape es
  | [], rs, r, h => by
    simp only [row_pass] at h
    cases h
    rfl
  | .slide s :: rest, rs, r, h => by
    simp only [row_pass] at h
    split at h
    · cases h
    · next r' hr =>
      cases h
      simp only [stack_shape, row_pass_shape dpy fuel rest rs r' hr]
  | .text t :: rest, rs, r, h => by
    simp only [row_pass] at h
    split at h
    · cases h
    · next r' hr =>
      cases h
      simp only [stack_shape, row_pass_shape dpy fuel rest rs r' hr]
  | .image im :: rest, rs, r, h => by
    simp only [row_pass] at h
    split at h
    · cases h
    · next r' hr =>
      cases h
      simp only [stack_shape, row_pass_shape dpy fuel rest rs r' hr]
  | .box b :: rest, rs, r, h => by
    simp only [row_pass] at h
    split at h
    · split at h
      · cases h
      · next box' hwrap =>
        split at h
        · cases h
        · next r' hr =>
          cases h
          have hf := apply_word_wrap_frame dpy fuel _ box' hwrap
          simp only [stack_shape, row_pass_shape dpy fuel rest _ r' hr, hf.2,
            stack_type_set_width]
    · split at h
      · cases h
      · next r' hr =>
        cases h
        simp only [stack_shape, row_pass_shape dpy fuel rest _ r' hr]

theorem row_state_ok_skip (shape : List (Option StackType)) (rs : RowState) (x : ℚ) :
    row_state_ok (none :: shape) rs x ↔ row_state_ok shape rs x := by
  simp only [row_state_ok, hboxes_ahead, row_closes, count_hboxes]

/-- At a Vertical box the cursor is at 0, and the loop goes on outside a row. -/
theorem row_state_ok_vertical (shape : List (Option StackType)) (rs : RowState) (x : ℚ)
    (hok : row_state_ok (some .STACK_VERTICAL :: shape) rs x) :
    x = 0 ∧ row_state_ok shape { rs with in_row := false } 0 := by
  unfold row_state_ok at hok ⊢
  simp only [hboxes_ahead, row_closes, count_hboxes, decide_True, Bool.true_or, if_true] at hok
  have hfalse : ¬ (({ rs with in_row := false } : RowState).in_row = true) := by simp
  rw [if_neg hfalse]
  by_cases hin : rs.in_row = true
  · rw [if_pos hin] at hok
    obtain ⟨hc, m, j, hm, hw, -, hx⟩ := hok
    refine ⟨hx, ?_⟩
    by_cases hcl : row_closes shape = true
    · rw [if_pos hcl]
      exact ⟨hc, rfl, Or.inl ⟨m, hm, hw⟩⟩
    · rw [if_neg hcl]
      exact Or.inl ⟨m, 0, by omega, hw, by simp⟩
  · rw [if_neg hin] at hok
    obtain ⟨hc, hx, hW⟩ := hok
    refine ⟨hx, ?_⟩
    by_cases hcl : row_closes shape = true
    · rw [if_pos hcl]
      exact ⟨hc, rfl, hW⟩
    · rw [if_neg hcl]
      rcases hW with ⟨m, hm, hw⟩ | h0
      · exact Or.inl ⟨m, 0, by omega, hw, by simp⟩
      · exact Or.inr ⟨rfl, h0⟩

/-- At a Horizontal box inside a row whose width is set. -/
theorem row_state_ok_in_row (shape : List (Option StackType)) (rs : RowState) (x : ℚ)
    (hin : rs.in_row = true)
    (hok : row_state_ok (some .STACK_HORIZONTAL :: shape) rs x) :
    ∃ m j : Nat, j < m ∧ rs.hbox_width = to_float (1 / (m : ℚ)) ∧ x = (j : ℚ) / (m : ℚ) ∧
      m = j + hboxes_ahead (some .STACK_HORIZONTAL :: shape) ∧
      row_state_ok shape rs (if j + 1 = m then 0 else ((j : ℚ) + 1) / (m : ℚ)) := by
  unfold row_state_ok at hok
  rw [if_pos hin] at hok
  simp only [hboxes_ahead, Nat.add_one_ne_zero, if_false] at hok
  obtain ⟨hc, m, j, hm, hw, hj, hx⟩ := hok
  refine ⟨m, j, by omega, hw, hx, by simp only [hboxes_ahead]; omega, ?_⟩
  unfold row_state_ok
  rw [if_pos hin]
  refine ⟨hc, m, j + 1, hm, hw, by omega, ?_⟩
  by_cases h0 : hboxes_ahead shape = 0
  · have : j + 1 = m := by omega
    simp [h0, this]
  · have : ¬ j + 1 = m := by omega
    simp [h0, this]

/-- At the first Horizontal box of a row that the inner loop closes. -/
theorem row_state_ok_scan (shape : List (Option StackType)) (rs : RowState) (x : ℚ)
    (hin : ¬ rs.in_row = true)
    (hcl : row_closes (some .STACK_HORIZONTAL :: shape) = true)
    (hok : row_state_ok (some .STACK_HORIZONTAL :: shape) rs x) :
    row_state_ok (some .STACK_HORIZONTAL :: shape)
      { in_row := true, cur_count := 0,
        hbox_width :=
          if rs.cur_count + (hboxes_ahead (some .STACK_HORIZONTAL :: shape) : Int) ≤ 1 then 1
          else to_float
            (1 / ((rs.cur_count + (hboxes_ahead (some .STACK_HORIZONTAL :: shape) : Int) : Int) : ℚ)),
        row_count := rs.row_count + 1 } x := by
  unfold row_state_ok at hok ⊢
  rw [if_neg hin, if_pos hcl] at hok
  obtain ⟨hc, hx, -⟩ := hok
  simp only [if_true, hboxes_ahead, Nat.add_one_ne_zero, if_false, hc, zero_add]
  refine ⟨trivial, hboxes_ahead shape + 1, 0, by omega, ?_, by omega, by simp [hx]⟩
  by_cases h1 : ((hboxes_ahead shape + 1 : Nat) : Int) ≤ 1
  · have h0 : hboxes_ahead shape = 0 := by omega
    simp [h0, to_float_one]
  · rw [if_neg h1]
    push_cast
    rfl

/-- At a Horizontal box after which the inner loop cannot close a row. -/
theorem row_state_ok_open (shape : List (Option StackType)) (rs rs' : RowState) (x : ℚ)
    (hin : ¬ rs.in_row = true)
    (hcl : ¬ row_closes (some .STACK_HORIZONTAL :: shape) = true)
    (hok : row_state_ok (some .STACK_HORIZONTAL :: shape) rs x)
    (hin' : rs'.in_row = false) (hw' : rs'.hbox_width = rs.hbox_width) :
    ∃ m j : Nat, j < m ∧ rs.hbox_width = to_float (1 / (m : ℚ)) ∧ x = (j : ℚ) / (m : ℚ) ∧
      row_state_ok shape rs' (if j + 1 = m then 0 else ((j : ℚ) + 1) / (m : ℚ)) := by
  unfold row_state_ok at hok
  rw [if_neg hin, if_neg hcl] at hok
  have hcl' : ¬ row_closes shape = true := by
    intro h
    apply hcl
    simp [row_closes, h]
  have hin'' : ¬ rs'.in_row = true := by simp [hin']
  rcases hok with ⟨m, j, hj, hw, hx⟩ | ⟨-, h0⟩
  · refine ⟨m, j, hj, hw, hx, ?_⟩
    unfold row_state_ok
    rw [if_neg hin'', if_neg hcl']
    refine Or.inl ?_
    by_cases hjm : j + 1 = m
    · exact ⟨m, 0, by omega, hw'.trans hw, by simp [hjm]⟩
    · exact ⟨m, j + 1, by omega, hw'.trans hw, by simp [hjm]⟩
  · simp [count_hboxes] at h0

theorem row_packed_hbox (dpy : Display) (fuel : Nat) (b box' : Box) (w : ℚ)
    (shape : List (Option StackType)) (out : List SlideElement) (x : ℚ) (m j : Nat)
    (hst : b.stack_type = .STACK_HORIZONTAL)
    (hwrap : apply_word_wrap dpy fuel (b.set_width w) = .ok box')
    (hj : j < m) (hw : w = to_float (1 / (m : ℚ))) (hex : exact_count m)
    (hx : x = (j : ℚ) / (m : ℚ))
    (hm : row_closes (some .STACK_HORIZONTAL :: shape) = true →
      m = j + hboxes_ahead (some .STACK_HORIZONTAL :: shape))
    (hshape : stack_shape out = shape)
    (hrest : row_packed (if j + 1 = m then 0 else ((j : ℚ) + 1) / (m : ℚ)) out) :
    row_packed x (.box box' :: out) := by
  have hf := apply_word_wrap_frame dpy fuel _ box' hwrap
  rw [stack_type_set_width, hst] at hf
  rw [width_set_width] at hf
  have hne : ¬ box'.stack_type = .STACK_VERTICAL := by
    rw [hf.2]
    decide
  have h1 : to_float (1 / (m : ℚ)) = 1 / (m : ℚ) := by
    have := hex 1 (by omega)
    simpa using this
  unfold row_packed
  rw [if_neg hne]
  refine ⟨m, j, hj, hex, hf.1.trans (hw.trans h1), hx, ?_, hrest⟩
  simp only [stack_shape, hshape, hf.2]
  exact hm

/-- The second loop of `apply_layout` leaves widths that fit the cursor of the
position pass, where the rows it makes have sums that are exact in `float`. -/
theorem row_pass_packed (dpy : Display) (fuel : Nat) :
    ∀ (es : List SlideElement) (rs : RowState) (x : ℚ) (r : List SlideElement × RowState),
      row_pass dpy fuel es rs = .ok r → row_state_ok (stack_shape es) rs x →
      (∀ c, .box c ∈ r.1 → c.stack_type = .STACK_HORIZONTAL →
        ∀ m : Nat, c.width = to_float (1 / (m : ℚ)) → exact_count m) →
      row_packed x r.1
  | [], rs, x, r, h, _, _ => by
    simp only [row_pass] at h
    cases h
    trivial
  | .slide s :: rest, rs, x, r, h, hok, hall => by
    simp only [row_pass] at h
    split at h
    · cases h
    · next r' hr =>
      cases h
      exact row_pass_packed dpy fuel rest rs x r' hr ((row_state_ok_skip _ rs x).1 hok)
        (fun c hc => hall c (List.mem_cons_of_mem _ hc))
  | .text t :: rest, rs, x, r, h, hok, hall => by
    simp only [row_pass] at h
    split at h
    · cases h
    · next r' hr =>
      cases h
      exact row_pass_packed dpy fuel rest rs x r' hr ((row_state_ok_skip _ rs x).1 hok)
        (fun c hc => hall c (List.mem_cons_of_mem _ hc))
  | .image im :: rest, rs, x, r, h, hok, hall => by
    simp only [row_pass] at h
    split at h
    · cases h
    · next r' hr =>
      cases h
      exact row_pass_packed dpy fuel rest rs x r' hr ((row_state_ok_skip _ rs x).1 hok)
        (fun c hc => hall c (List.mem_cons_of_mem _ hc))
  | .box b :: rest, rs, x, r, h, hok, hall => by
    rcases stack_cases b.stack_type with hst | hst
    · have hshape : stack_shape (.box b :: rest) = some .STACK_HORIZONTAL :: stack_shape rest := by
        simp only [stack_shape, hst]
      rw [hshape] at hok
      simp only [row_pass, hst, if_true] at h
      by_cases hin : rs.in_row = true
      · simp only [hin, if_true] at h
        split at h
        · cases h
        · next box' hwrap =>
          split at h
          · cases h
          · next r' hr =>
            cases h
            obtain ⟨m, j, hj, hw, hx, hm, hnext⟩ := row_state_ok_in_row _ rs x hin hok
            have hf := apply_word_wrap_frame dpy fuel _ box' hwrap
            rw [stack_type_set_width, hst, width_set_width] at hf
            have hex := hall box' (List.mem_cons_self _ _) hf.2 m (hf.1.trans hw)
            exact row_packed_hbox dpy fuel b box' _ _ r'.1 x m j hst hwrap hj hw hex hx
              (fun _ => hm) (row_pass_shape dpy fuel rest rs r' hr)
              (row_pass_packed dpy fuel rest rs _ r' hr hnext
                (fun c hc => hall c (List.mem_cons_of_mem _ hc)))
      · simp only [hin, Bool.false_eq_true, if_false] at h
        rw [row_scan_spec, hshape] at h
        by_cases hcl : row_closes (some .STACK_HORIZONTAL :: stack_shape rest) = true
        · simp only [hcl, if_true] at h
          have hok1 := row_state_ok_scan _ rs x hin hcl hok
          split at h
          · cases h
          · next box' hwrap =>
            split at h
            · cases h
            · next r' hr =>
              cases h
              obtain ⟨m, j, hj, hw, hx, hm, hnext⟩ := row_state_ok_in_row _ _ x rfl hok1
              have hf := apply_word_wrap_frame dpy fuel _ box' hwrap
              rw [stack_type_set_width, hst, width_set_width] at hf
              have hex := hall box' (List.mem_cons_self _ _) hf.2 m (hf.1.trans hw)
              exact row_packed_hbox dpy fuel b box' _ _ r'.1 x m j hst hwrap hj hw hex hx
                (fun _ => hm) (row_pass_shape dpy fuel rest _ r' hr)
                (row_pass_packed dpy fuel rest _ _ r' hr hnext
                  (fun c hc => hall c (List.mem_cons_of_mem _ hc)))
        · simp only [hcl, Bool.false_eq_true, if_false] at h
          split at h
          · cases h
          · next box' hwrap =>
            split at h
            · cases h
            · next r' hr =>
              cases h
              have hin' : rs.in_row = false := by simpa using hin
              obtain ⟨m, j, hj, hw, hx, hnext⟩ := row_state_ok_open _ rs
                { rs with cur_count := rs.cur_count +
                    (hboxes_ahead (some .STACK_HORIZONTAL :: stack_shape rest) : Int) } x
                hin hcl hok hin' rfl
              have hf := apply_word_wrap_frame dpy fuel _ box' hwrap
              rw [stack_type_set_width, hst, width_set_width] at hf
              have hex := hall box' (List.mem_cons_self _ _) hf.2 m (hf.1.trans hw)
              exact row_packed_hbox dpy fuel b box' _ _ r'.1 x m j hst hwrap hj hw hex hx
                (fun hc => absurd hc hcl) (row_pass_shape dpy fuel rest _ r' hr)
                (row_pass_packed dpy fuel rest _ _ r' hr hnext
                  (fun c hc => hall c (List.mem_cons_of_mem _ hc)))
    · have hshape : stack_shape (.box b :: rest) = some .STACK_VERTICAL :: stack_shape rest := by
        simp only [stack_shape, hst]
      rw [hshape] at hok
      have hne : ¬ b.stack_type = .STACK_HORIZONTAL := by
        rw [hst]
        decide
      simp only [row_pass, if_neg hne] at h
      split at h
      · cases h
      · next r' hr =>
        cases h
        obtain ⟨hx, hnext⟩ := row_state_ok_vertical _ rs x hok
        unfold row_packed
        rw [if_pos hst]
        exact ⟨hx, row_pass_packed dpy fuel rest _ 0 r' hr hnext
          (fun c hc => hall c (List.mem_cons_of_mem _ hc))⟩

/-! ## What the passes of the layout keep -/

theorem box_set_height_fields (b : Box) (h : ℚ) :
    (b.set_height h).stack_type = b.stack_type ∧ (b.set_height h).width = b.width ∧
    (b.set_height h).height = h ∧ (b.set_height h).elements = b.elements ∧
    (b.set_height h).x = b.x ∧ (b.set_height h).y = b.y ∧
    (b.set_height h).name = b.name ∧ (b.set_height h).text_align = b.text_align := by
  obtain ⟨ta, st, nm, els, bx, by', bw, bh⟩ := b
  exact ⟨rfl, rfl, rfl, rfl, rfl, rfl, rfl, rfl⟩

theorem box_set_width_fields (b : Box) (w : ℚ) :
    (b.set_width w).stack_type = b.stack_type ∧ (b.set_width w).width = w ∧
    (b.set_width w).height = b.height ∧ (b.set_width w).elements = b.elements ∧
    (b.set_width w).x = b.x ∧ (b.set_width w).y = b.y ∧
    (b.set_width w).name = b.name ∧ (b.set_width w).text_align = b.text_align := by
  obtain ⟨ta, st, nm, els, bx, by', bw, bh⟩ := b
  exact ⟨rfl, rfl, rfl, rfl, rfl, rfl, rfl, rfl⟩

theorem box_set_elements_fields (b : Box) (es : List SlideElement) :
    (b.set_elements es).stack_type = b.stack_type ∧ (b.set_elements es).width = b.width ∧
    (b.set_elements es).height = b.height ∧ (b.set_elements es).elements = es ∧
    (b.set_elements es).x = b.x ∧ (b.set_elements es).y = b.y ∧
    (b.set_elements es).name = b.name ∧ (b.set_elements es).text_align = b.text_align := by
  obtain ⟨ta, st, nm, els, bx, by', bw, bh⟩ := b
  exact ⟨rfl, rfl, rfl, rfl, rfl, rfl, rfl, rfl⟩

theorem box_set_position_fields (b : Box) (x y : ℚ) :
    (b.set_position x y).stack_type = b.stack_type ∧ (b.set_position x y).width = b.width ∧
    (b.set_position x y).height = b.height ∧ (b.set_position x y).elements = b.elements ∧
    (b.set_position x y).x = x ∧ (b.set_position x y).y = y ∧
    (b.set_position x y).name = b.name ∧ (b.set_position x y).text_align = b.text_align := by
  obtain ⟨ta, st, nm, els, bx, by', bw, bh⟩ := b
  exact ⟨rfl, rfl, rfl, rfl, rfl, rfl, rfl, rfl⟩

/-- The function `position_elements` writes only to the elements of the box. -/
theorem position_elements_fields (dpy : Display) (b : Box) :
    (position_elements dpy b).stack_type = b.stack_type ∧
    (position_elements dpy b).width = b.width ∧ (position_elements dpy b).height = b.height ∧
    (position_elements dpy b).x = b.x ∧ (position_elements dpy b).y = b.y ∧
    (position_elements dpy b).name = b.name ∧
    (position_elements dpy b).text_align = b.text_align := by
  unfold position_elements
  obtain ⟨h1, h2, h3, -, h5, h6, h7, h8⟩ := box_set_elements_fields b
    (position_from dpy b b.elements.length (float_to_int (b.height * (dpy.height : ℚ)))
      ((b.width * (dpy.width : ℚ)) / (b.height * (dpy.height : ℚ)))
      (box_padding dpy b.width) b.elements (box_padding dpy b.width))
  exact ⟨h1, h2, h3, h5, h6, h7, h8⟩

/-- The box that the fourth loop of `apply_layout` leaves at the cursor. -/
theorem placed_box_fields (dpy : Display) (b : Box) (x y : ℚ) :
    (position_elements dpy (b.set_position x y)).stack_type = b.stack_type ∧
    (position_elements dpy (b.set_position x y)).width = b.width ∧
    (position_elements dpy (b.set_position x y)).height = b.height ∧
    (position_elements dpy (b.set_position x y)).x = x ∧
    (position_elements dpy (b.set_position x y)).y = y := by
  obtain ⟨h1, h2, h3, h4, h5, -, -⟩ := position_elements_fields dpy (b.set_position x y)
  obtain ⟨g1, g2, g3, -, g5, g6, -, -⟩ := box_set_position_fields b x y
  exact ⟨h1.trans g1, h2.trans g2, h3.trans g3, h4.trans g5, h5.trans g6⟩

theorem calculate_vbox_height_fields (dpy : Display) (b : Box) :
    (calculate_vbox_height dpy b).1.stack_type = b.stack_type ∧
    (calculate_vbox_height dpy b).1.width = b.width := by
  unfold calculate_vbox_height
  obtain ⟨h1, h2, -⟩ := box_set_elements_fields b
    (vbox_height_from dpy b.elements (box_padding dpy b.width)).1
  exact ⟨h1, h2⟩

/-- The first loop of `apply_layout` keeps the children and their stack types, and
counts the Horizontal boxes. -/
theorem measure_pass_shape (dpy : Display) (fuel : Nat) :
    ∀ (es : List SlideElement) (th : ℚ) (n : Int) (r : List SlideElement × ℚ × Int),
      measure_pass dpy fuel es th n = .ok r →
      stack_shape r.1 = stack_shape es ∧ r.2.2 = n + (count_hboxes (stack_shape es) : Int)
  | [], th, n, r, h => by
    simp only [measure_pass] at h
    cases h
    simp [stack_shape, count_hboxes]
  | .slide s :: rest, th, n, r, h => by
    simp only [measure_pass] at h
    split at h
    · cases h
    · split at h
      · cases h
      · next r' hr =>
        cases h
        have ih := measure_pass_shape dpy fuel rest th n r' hr
        simp only [stack_shape, count_hboxes, ih.1, ih.2, and_self]
  | .text t :: rest, th, n, r, h => by
    simp only [measure_pass] at h
    split at h
    · cases h
    · next r' hr =>
      cases h
      have ih := measure_pass_shape dpy fuel rest th n r' hr
      simp only [stack_shape, count_hboxes, ih.1, ih.2, and_self]
  | .image im :: rest, th, n, r, h => by
    simp only [measure_pass] at h
    split at h
    · cases h
    · next r' hr =>
      cases h
      have ih := measure_pass_shape dpy fuel rest th n r' hr
      simp only [stack_shape, count_hboxes, ih.1, ih.2, and_self]
  | .box b :: rest, th, n, r, h => by
    rcases stack_cases b.stack_type with hst | hst
    · have hne : ¬ b.stack_type = .STACK_VERTICAL := by
        rw [hst]
        decide
      simp only [measure_pass, if_neg hne] at h
      split at h
      · cases h
      · next r' hr =>
        cases h
        have ih := measure_pass_shape dpy fuel rest th (n + 1) r' hr
        simp only [stack_shape, count_hboxes, ih.1, ih.2, (box_set_height_fields b 1).1, hst,
          true_and]
        push_cast
        ring
    · simp only [measure_pass, hst, if_true] at h
      split at h
      · cases h
      · next wrapped hwrap =>
        split at h
        · cases h
        · next r' hr =>
          cases h
          have ih := measure_pass_shape dpy fuel rest _ n r' hr
          have hf := apply_word_wrap_frame dpy fuel _ wrapped hwrap
          rw [(box_set_width_fields b 1).1] at hf
          simp only [stack_shape, count_hboxes, ih.1, ih.2, (box_set_height_fields _ _).1,
            (calculate_vbox_height_fields dpy wrapped).1, hf.2, hst, and_self]

/-- The third loop of `apply_layout` keeps the stack types and the widths. -/
theorem height_pass_shape (total_height : ℚ) (row_count : Int) :
    ∀ es : List SlideElement,
      stack_shape (height_pass total_height row_count es) = stack_shape es
  | [] => rfl
  | .slide s :: rest => by
    simp only [height_pass, stack_shape, height_pass_shape total_height row_count rest]
  | .text t :: rest => by
    simp only [height_pass, stack_shape, height_pass_shape total_height row_count rest]
  | .image im :: rest => by
    simp only [height_pass, stack_shape, height_pass_shape total_height row_count rest]
  | .box b :: rest => by
    simp only [height_pass]
    split
    · simp only [stack_shape, height_pass_shape total_height row_count rest,
        (box_set_height_fields _ _).1]
    · simp only [stack_shape, height_pass_shape total_height row_count rest]

theorem height_pass_packed (total_height : ℚ) (row_count : Int) :
    ∀ (es : List SlideElement) (x : ℚ), row_packed x es →
      row_packed x (height_pass total_height row_count es)
  | [], _, _ => trivial
  | .slide s :: rest, x, h => by
    simp only [height_pass, row_packed] at h ⊢
    exact height_pass_packed total_height row_count rest x h
  | .text t :: rest, x, h => by
    simp only [height_pass, row_packed] at h ⊢
    exact height_pass_packed total_height row_count rest x h
  | .image im :: rest, x, h => by
    simp only [height_pass, row_packed] at h ⊢
    exact height_pass_packed total_height row_count rest x h
  | .box b :: rest, x, h => by
    rcases stack_cases b.stack_type with hst | hst
    · have hne : ¬ b.stack_type = .STACK_VERTICAL := by
        rw [hst]
        decide
      unfold row_packed at h
      rw [if_neg hne] at h
      obtain ⟨m, j, hj, hex, hw, hx, hm, hrest⟩ := h
      obtain ⟨f1, f2, -⟩ := box_set_height_fields b ((1 - total_height) / (row_count : ℚ))
      simp only [height_pass, hst, if_true]
      unfold row_packed
      rw [f1, if_neg hne]
      refine ⟨m, j, hj, hex, f2.trans hw, hx, ?_,
        height_pass_packed total_height row_count rest _ hrest⟩
      simpa only [stack_shape, height_pass_shape, f1] using hm
    · have hne : ¬ b.stack_type = .STACK_HORIZONTAL := by
        rw [hst]
        decide
      unfold row_packed at h
      rw [if_pos hst] at h
      simp only [height_pass, if_neg hne]
      unfold row_packed
      rw [if_pos hst]
      exact ⟨h.1, height_pass_packed total_height row_count rest 0 h.2⟩

/-! ## Boxes and the viewport (C21) -/

/-- Before the first child no row is open, and the width that the second loop of
`apply_layout` starts with is one over the number of Horizontal boxes, rounded to
`float`. -/
theorem row_state_ok_init (shape : List (Option StackType)) (total_hboxes : Int)
    (h : total_hboxes = (count_hboxes shape : Int)) :
    row_state_ok shape
      { in_row := false, cur_count := 0,
        hbox_width := if total_hboxes > 0 then to_float (1 / (total_hboxes : ℚ)) else 0,
        row_count := 0 } 0 := by
  unfold row_state_ok
  simp only [Bool.false_eq_true, if_false, true_and]
  have hW : (∃ m : Nat, 1 ≤ m ∧
      (if total_hboxes > 0 then to_float (1 / (total_hboxes : ℚ)) else 0) =
        to_float (1 / (m : ℚ))) ∨
      count_hboxes shape = 0 := by
    by_cases h0 : count_hboxes shape = 0
    · exact Or.inr h0
    · refine Or.inl ⟨count_hboxes shape, by omega, ?_⟩
      have hpos : total_hboxes > 0 := by omega
      rw [if_pos hpos, h]
      push_cast
      rfl
  by_cases hcl : row_closes shape = true
  · rw [if_pos hcl]
    exact hW
  · rw [if_neg hcl]
    rcases hW with ⟨m, hm, hw⟩ | h0
    · exact Or.inl ⟨m, 0, by omega, hw, by simp⟩
    · exact Or.inr h0

/-- The fourth loop of `apply_layout`, on widths that fit its cursor: every
Horizontal box is put inside the viewport, and every Vertical box at the left edge. -/
theorem position_pass_inside (dpy : Display) :
    ∀ (es : List SlideElement) (x y : ℚ), row_packed x es →
      ∀ b, .box b ∈ position_pass dpy es x y →
        (b.stack_type = .STACK_HORIZONTAL → 0 ≤ b.x ∧ b.x + b.width ≤ 1) ∧
        (b.stack_type = .STACK_VERTICAL → b.x = 0)
  | [], _, _, _, b, hb => by simp [position_pass] at hb
  | .slide s :: rest, x, y, h, b, hb => by
    simp only [position_pass, row_packed, List.mem_cons, reduceCtorEq, false_or] at h hb
    exact position_pass_inside dpy rest x y h b hb
  | .text t :: rest, x, y, h, b, hb => by
    simp only [position_pass, row_packed, List.mem_cons, reduceCtorEq, false_or] at h hb
    exact position_pass_inside dpy rest x y h b hb
  | .image im :: rest, x, y, h, b, hb => by
    simp only [position_pass, row_packed, List.mem_cons, reduceCtorEq, false_or] at h hb
    exact position_pass_inside dpy rest x y h b hb
  | .box b0 :: rest, x, y, h, b, hb => by
    obtain ⟨f1, f2, f3, f4, f5⟩ := placed_box_fields dpy b0 x y
    rcases stack_cases b0.stack_type with hst | hst
    · have hne : ¬ b0.stack_type = .STACK_VERTICAL := by
        rw [hst]
        decide
      unfold row_packed at h
      rw [if_neg hne] at h
      obtain ⟨m, j, hj, hex, hw, hx, -, hrest⟩ := h
      have hm : (0 : ℚ) < (m : ℚ) := by exact_mod_cast (by omega : 0 < m)
      have hjm : (j : ℚ) + 1 ≤ (m : ℚ) := by exact_mod_cast (by omega : j + 1 ≤ m)
      have hsum : x + b0.width = ((j : ℚ) + 1) / (m : ℚ) := by
        rw [hx, hw]
        field_simp
      have hfl : to_float (x + b0.width) = x + b0.width := by
        rw [hsum]
        have := hex (j + 1) (by omega)
        push_cast at this
        exact this
      simp only [position_pass, f1, if_neg hne, f2, hfl] at hb
      by_cases hge : x + b0.width ≥ 1
      · have hjm' : j + 1 = m := by
          rw [hsum, ge_iff_le, le_div_iff₀ hm, one_mul] at hge
          have : (m : ℚ) ≤ ((j + 1 : Nat) : ℚ) := by push_cast; exact hge
          have := Nat.cast_le.1 this
          omega
        rw [if_pos hge] at hb
        rw [if_pos hjm'] at hrest
        rcases List.mem_cons.1 hb with heq | hmem
        · cases heq
          refine ⟨fun _ => ?_, fun hv => absurd (f1 ▸ hv) hne⟩
          rw [f4, f2, hsum, hx]
          exact ⟨by positivity, by rw [div_le_one hm]; exact hjm⟩
        · exact position_pass_inside dpy rest 0 _ hrest b hmem
      · have hjm' : ¬ j + 1 = m := by
          intro heq
          apply hge
          rw [hsum, ← heq]
          push_cast
          rw [div_self (by positivity)]
        rw [if_neg hge] at hb
        rw [if_neg hjm', ← hsum] at hrest
        rcases List.mem_cons.1 hb with heq | hmem
        · cases heq
          refine ⟨fun _ => ?_, fun hv => absurd (f1 ▸ hv) hne⟩
          rw [f4, f2, hsum, hx]
          exact ⟨by positivity, by rw [div_le_one hm]; exact hjm⟩
        · exact position_pass_inside dpy rest _ _ hrest b hmem
    · have hne : ¬ b0.stack_type = .STACK_HORIZONTAL := by
        rw [hst]
        decide
      unfold row_packed at h
      rw [if_pos hst] at h
      simp only [position_pass, f1, hst, if_true] at hb
      rcases List.mem_cons.1 hb with heq | hmem
      · cases heq
        exact ⟨fun hh => absurd (f1 ▸ hh) hne, fun _ => f4.trans h.1⟩
      · rw [h.1] at hmem
        exact position_pass_inside dpy rest 0 _ h.2 b hmem

theorem height_pass_keeps_box (total_height : ℚ) (row_count : Int) :
    ∀ (es : List SlideElement) (c : Box), .box c ∈ es →
      ∃ c', .box c' ∈ height_pass total_height row_count es ∧
        c'.stack_type = c.stack_type ∧ c'.width = c.width
  | [], c, h => absurd h (List.not_mem_nil _)
  | .slide s :: rest, c, h => by
    simp only [List.mem_cons, reduceCtorEq, false_or] at h
    obtain ⟨c', h1, h2⟩ := height_pass_keeps_box total_height row_count rest c h
    exact ⟨c', by simp only [height_pass]; exact List.mem_cons_of_mem _ h1, h2⟩
  | .text t :: rest, c, h => by
    simp only [List.mem_cons, reduceCtorEq, false_or] at h
    obtain ⟨c', h1, h2⟩ := height_pass_keeps_box total_height row_count rest c h
    exact ⟨c', by simp only [height_pass]; exact List.mem_cons_of_mem _ h1, h2⟩
  | .image im :: rest, c, h => by
    simp only [List.mem_cons, reduceCtorEq, false_or] at h
    obtain ⟨c', h1, h2⟩ := height_pass_keeps_box total_height row_count rest c h
    exact ⟨c', by simp only [height_pass]; exact List.mem_cons_of_mem _ h1, h2⟩
  | .box b :: rest, c, h => by
    rcases List.mem_cons.1 h with heq | hmem
    · have hcb : c = b := SlideElement.box.inj heq
      subst hcb
      by_cases hst : c.stack_type = .STACK_HORIZONTAL
      · obtain ⟨f1, f2, -⟩ := box_set_height_fields c ((1 - total_height) / (row_count : ℚ))
        exact ⟨_, by simp only [height_pass, if_pos hst]; exact List.mem_cons_self _ _, f1, f2⟩
      · exact ⟨c, by simp only [height_pass, if_neg hst]; exact List.mem_cons_self _ _, rfl, rfl⟩
    · obtain ⟨c', h1, h2⟩ := height_pass_keeps_box total_height row_count rest c hmem
      exact ⟨c', by simp only [height_pass]; exact List.mem_cons_of_mem _ h1, h2⟩

theorem position_pass_keeps_box (dpy : Display) :
    ∀ (es : List SlideElement) (x y : ℚ) (c : Box), .box c ∈ es →
      ∃ c', .box c' ∈ position_pass dpy es x y ∧
        c'.stack_type = c.stack_type ∧ c'.width = c.width
  | [], _, _, c, h => absurd h (List.not_mem_nil _)
  | .slide s :: rest, x, y, c, h => by
    simp only [List.mem_cons, reduceCtorEq, false_or] at h
    obtain ⟨c', h1, h2⟩ := position_pass_keeps_box dpy rest x y c h
    exact ⟨c', by simp only [position_pass]; exact List.mem_cons_of_mem _ h1, h2⟩
  | .text t :: rest, x, y, c, h => by
    simp only [List.mem_cons, reduceCtorEq, false_or] at h
    obtain ⟨c', h1, h2⟩ := position_pass_keeps_box dpy rest x y c h
    exact ⟨c', by simp only [position_pass]; exact List.mem_cons_of_mem _ h1, h2⟩
  | .image im :: rest, x, y, c, h => by
    simp only [List.mem_cons, reduceCtorEq, false_or] at h
    obtain ⟨c', h1, h2⟩ := position_pass_keeps_box dpy rest x y c h
    exact ⟨c', by simp only [position_pass]; exact List.mem_cons_of_mem _ h1, h2⟩
  | .box b :: rest, x, y, c, h => by
    obtain ⟨f1, f2, -⟩ := placed_box_fields dpy b x y
    simp only [position_pass]
    rcases List.mem_cons.1 h with heq | hmem
    · have hcb : c = b := SlideElement.box.inj heq
      subst hcb
      split
      · exact ⟨_, List.mem_cons_self _ _, f1, f2⟩
      · split
        · exact ⟨_, List.mem_cons_self _ _, f1, f2⟩
        · exact ⟨_, List.mem_cons_self _ _, f1, f2⟩
    · split
      · obtain ⟨c', h1, h2⟩ := position_pass_keeps_box dpy rest x _ c hmem
        exact ⟨c', List.mem_cons_of_mem _ h1, h2⟩
      · split
        · obtain ⟨c', h1, h2⟩ := position_pass_keeps_box dpy rest 0 _ c hmem
          exact ⟨c', List.mem_cons_of_mem _ h1, h2⟩
        · obtain ⟨c', h1, h2⟩ := position_pass_keeps_box dpy rest _ y c hmem
          exact ⟨c', List.mem_cons_of_mem _ h1, h2⟩

/-- After `apply_layout`, where the rows of the slide have sums that are exact in
`float`, the widths of the Horizontal boxes of the slide fit the cursor of the
position pass, from 0 on. -/
theorem apply_layout_packed (dpy : Display) (fuel : Nat) (name : List Char) (visible : Bool)
    (elements : List SlideElement) (s : Slide)
    (h : apply_layout dpy fuel (.mk name visible elements) = .ok s)
    (hexact : ∀ c, .box c ∈ s.elements → c.stack_type = .STACK_HORIZONTAL →
      ∀ m : Nat, c.width = to_float (1 / (m : ℚ)) → exact_count m) :
    ∃ (sized : List SlideElement) (total_height : ℚ) (row_count : Int),
      s = .mk name visible (position_pass dpy (height_pass total_height row_count sized) 0 0) ∧
      stack_shape sized = stack_shape elements ∧
      row_packed 0 (height_pass total_height row_count sized) := by
  simp only [apply_layout] at h
  split at h
  · cases h
  · next measured total_height total_hboxes hm =>
    split at h
    · cases h
    · next sized rs hr =>
      cases h
      have hms := measure_pass_shape dpy fuel elements 0 0 _ hm
      simp only [zero_add] at hms
      have hrs := row_pass_shape dpy fuel measured _ _ hr
      have hinit := row_state_ok_init (stack_shape measured) total_hboxes (by rw [hms.2, hms.1])
      have hall : ∀ c, .box c ∈ sized → c.stack_type = .STACK_HORIZONTAL →
          ∀ m : Nat, c.width = to_float (1 / (m : ℚ)) → exact_count m := by
        intro c hc hst m hw
        obtain ⟨c1, hc1, hs1, hw1⟩ := height_pass_keeps_box total_height rs.row_count sized c hc
        obtain ⟨c2, hc2, hs2, hw2⟩ := position_pass_keeps_box dpy _ 0 0 c1 hc1
        exact hexact c2 hc2 (hs2.trans (hs1.trans hst)) m (hw2.trans (hw1.trans hw))
      have hp := row_pass_packed dpy fuel measured _ 0 _ hr hinit hall
      exact ⟨sized, total_height, rs.row_count, rfl, hrs.trans hms.1,
        height_pass_packed _ _ _ _ hp⟩

theorem measure_pass_measured (dpy : Display) (fuel : Nat) :
    ∀ (es : List SlideElement) (th : ℚ) (n : Int) (r : List SlideElement × ℚ × Int),
      measure_pass dpy fuel es th n = .ok r → ∀ e ∈ r.1, vertical_measured dpy e
  | [], th, n, r, h, e, he => by
    simp only [measure_pass] at h
    cases h
    simp at he
  | .slide s :: rest, th, n, r, h, e, he => by
    simp only [measure_pass] at h
    split at h
    · cases h
    · split at h
      · cases h
      · next r' hr =>
        cases h
        rcases List.mem_cons.1 he with heq | hmem
        · rw [heq]
          trivial
        · exact measure_pass_measured dpy fuel rest th n r' hr e hmem
  | .text t :: rest, th, n, r, h, e, he => by
    simp only [measure_pass] at h
    split at h
    · cases h
    · next r' hr =>
      cases h
      rcases List.mem_cons.1 he with heq | hmem
      · rw [heq]
        trivial
      · exact measure_pass_measured dpy fuel rest th n r' hr e hmem
  | .image im :: rest, th, n, r, h, e, he => by
    simp only [measure_pass] at h
    split at h
    · cases h
    · next r' hr =>
      cases h
      rcases List.mem_cons.1 he with heq | hmem
      · rw [heq]
        trivial
      · exact measure_pass_measured dpy fuel rest th n r' hr e hmem
  | .box b :: rest, th, n, r, h, e, he => by
    rcases stack_cases b.stack_type with hst | hst
    · have hne : ¬ b.stack_type = .STACK_VERTICAL := by
        rw [hst]
        decide
      simp only [measure_pass, if_neg hne] at h
      split at h
      · cases h
      · next r' hr =>
        cases h
        rcases List.mem_cons.1 he with heq | hmem
        · rw [heq]
          intro hv
          rw [(box_set_height_fields b 1).1] at hv
          exact absurd hv hne
        · exact measure_pass_measured dpy fuel rest th _ r' hr e hmem
    · simp only [measure_pass, hst, if_true] at h
      split at h
      · cases h
      · next wrapped hwrap =>
        split at h
        · cases h
        · next r' hr =>
          cases h
          rcases List.mem_cons.1 he with heq | hmem
          · rw [heq]
            intro _
            have hf := apply_word_wrap_frame dpy fuel _ wrapped hwrap
            rw [(box_set_width_fields b 1).2.1] at hf
            obtain ⟨g1, g2, g3, g4, -⟩ := box_set_height_fields
              (calculate_vbox_height dpy wrapped).1 ((calculate_vbox_height dpy wrapped).2 / 1)
            have hspec := vbox_height_from_spec dpy wrapped.elements (box_padding dpy 1)
            rw [g2, g3, g4, (calculate_vbox_height_fields dpy wrapped).2, hf.1]
            refine ⟨rfl, ?_⟩
            simp only [calculate_vbox_height, (box_set_elements_fields _ _).2.2.2.1, hf.1,
              div_one]
            rw [hspec.1, hspec.2.1]
          · exact measure_pass_measured dpy fuel rest _ n r' hr e hmem

theorem row_pass_measured (dpy : Display) (fuel : Nat) :
    ∀ (es : List SlideElement) (rs : RowState) (r : List SlideElement × RowState),
      row_pass dpy fuel es rs = .ok r → (∀ e ∈ es, vertical_measured dpy e) →
      ∀ e ∈ r.1, vertical_measured dpy e
  | [], rs, r, h, _, e, he => by
    simp only [row_pass] at h
    cases h
    simp at he
  | .slide s :: rest, rs, r, h, hall, e, he => by
    simp only [row_pass] at h
    split at h
    · cases h
    · next r' hr =>
      cases h
      rcases List.mem_cons.1 he with heq | hmem
      · rw [heq]
        trivial
      · exact row_pass_measured dpy fuel rest rs r' hr
          (fun e he => hall e (List.mem_cons_of_mem _ he)) e hmem
  | .text t :: rest, rs, r, h, hall, e, he => by
    simp only [row_pass] at h
    split at h
    · cases h
    · next r' hr =>
      cases h
      rcases List.mem_cons.1 he with heq | hmem
      · rw [heq]
        trivial
      · exact row_pass_measured dpy fuel rest rs r' hr
          (fun e he => hall e (List.mem_cons_of_mem _ he)) e hmem
  | .image im :: rest, rs, r, h, hall, e, he => by
    simp only [row_pass] at h
    split at h
    · cases h
    · next r' hr =>
      cases h
      rcases List.mem_cons.1 he with heq | hmem
      · rw [heq]
        trivial
      · exact row_pass_measured dpy fuel rest rs r' hr
          (fun e he => hall e (List.mem_cons_of_mem _ he)) e hmem
  | .box b :: rest, rs, r, h, hall, e, he => by
    simp only [row_pass] at h
    split at h
    · next hst =>
      split at h
      · cases h
      · next box' hwrap =>
        split at h
        · cases h
        · next r' hr =>
          cases h
          rcases List.mem_cons.1 he with heq | hmem
          · rw [heq]
            intro hv
            have hf := apply_word_wrap_frame dpy fuel _ box' hwrap
            rw [stack_type_set_width, hst] at hf
            rw [hf.2] at hv
            cases hv
          · exact row_pass_measured dpy fuel rest _ r' hr
              (fun e he => hall e (List.mem_cons_of_mem _ he)) e hmem
    · split at h
      · cases h
      · next r' hr =>
        cases h
        rcases List.mem_cons.1 he with heq | hmem
        · rw [heq]
          exact hall _ (List.mem_cons_self _ _)
        · exact row_pass_measured dpy fuel rest _ r' hr
            (fun e he => hall e (List.mem_cons_of_mem _ he)) e hmem

theorem height_pass_measured (dpy : Display) (total_height : ℚ) (row_count : Int) :
    ∀ es : List SlideElement, (∀ e ∈ es, vertical_measured dpy e) →
      ∀ e ∈ height_pass total_height row_count es, vertical_measured dpy e
  | [], _, e, he => by simp [height_pass] at he
  | .slide s :: rest, hall, e, he => by
    simp only [height_pass] at he
    rcases List.mem_cons.1 he with heq | hmem
    · rw [heq]
      trivial
    · exact height_pass_measured dpy total_height row_count rest
        (fun e he => hall e (List.mem_cons_of_mem _ he)) e hmem
  | .text t :: rest, hall, e, he => by
    simp only [height_pass] at he
    rcases List.mem_cons.1 he with heq | hmem
    · rw [heq]
      trivial
    · exact height_pass_measured dpy total_height row_count rest
        (fun e he => hall e (List.mem_cons_of_mem _ he)) e hmem
  | .image im :: rest, hall, e, he => by
    simp only [height_pass] at he
    rcases List.mem_cons.1 he with heq | hmem
    · rw [heq]
      trivial
    · exact height_pass_measured dpy total_height row_count rest
        (fun e he => hall e (List.mem_cons_of_mem _ he)) e hmem
  | .box b :: rest, hall, e, he => by
    simp only [height_pass] at he
    rcases List.mem_cons.1 he with heq | hmem
    · rw [heq]
      split
      · next hst =>
        intro hv
        rw [(box_set_height_fields b _).1, hst] at hv
        cases hv
      · exact hall _ (List.mem_cons_self _ _)
    · exact height_pass_measured dpy total_height row_count rest
        (fun e he => hall e (List.mem_cons_of_mem _ he)) e hmem

theorem position_pass_measured (dpy : Display) :
    ∀ (es : List SlideElement) (x y : ℚ), (∀ e ∈ es, vertical_measured dpy e) →
      ∀ e ∈ position_pass dpy es x y, vertical_measured dpy e
  | [], _, _, _, e, he => by simp [position_pass] at he
  | .slide s :: rest, x, y, hall, e, he => by
    simp only [position_pass] at he
    rcases List.mem_cons.1 he with heq | hmem
    · rw [heq]
      trivial
    · exact position_pass_measured dpy rest x y
        (fun e he => hall e (List.mem_cons_of_mem _ he)) e hmem
  | .text t :: rest, x, y, hall, e, he => by
    simp only [position_pass] at he
    rcases List.mem_cons.1 he with heq | hmem
    · rw [heq]
      trivial
    · exact position_pass_measured dpy rest x y
        (fun e he => hall e (List.mem_cons_of_mem _ he)) e hmem
  | .image im :: rest, x, y, hall, e, he => by
    simp only [position_pass] at he
    rcases List.mem_cons.1 he with heq | hmem
    · rw [heq]
      trivial
    · exact position_pass_measured dpy rest x y
        (fun e he => hall e (List.mem_cons_of_mem _ he)) e hmem
  | .box b :: rest, x, y, hall, e, he => by
    have hb : vertical_measured dpy (.box b) := hall _ (List.mem_cons_self _ _)
    have hrest : ∀ e ∈ rest, vertical_measured dpy e :=
      fun e he => hall e (List.mem_cons_of_mem _ he)
    obtain ⟨f1, f2, f3, -, -⟩ := placed_box_fields dpy b x y
    have hc : content_height dpy (position_elements dpy (b.set_position x y)).elements =
        content_height dpy b.elements := by
      rw [(position_elements_spec dpy (b.set_position x y)).2.2,
        (box_set_position_fields b x y).2.2.2.1]
    have hplaced : vertical_measured dpy (.box (position_elements dpy (b.set_position x y))) := by
      intro hv
      rw [f1] at hv
      rw [f2, f3, hc]
      exact hb hv
    simp only [position_pass] at he
    split at he
    · rcases List.mem_cons.1 he with heq | hmem
      · rw [heq]
        exact hplaced
      · exact position_pass_measured dpy rest _ _ hrest e hmem
    · split at he
      · rcases List.mem_cons.1 he with heq | hmem
        · rw [heq]
          exact hplaced
        · exact position_pass_measured dpy rest _ _ hrest e hmem
      · rcases List.mem_cons.1 he with heq | hmem
        · rw [heq]
          exact hplaced
        · exact position_pass_measured dpy rest _ _ hrest e hmem

/-- After `apply_layout` every Vertical box of the slide has the width 1 and as height
the padding of a box of width 1 and the height of its content. -/
theorem apply_layout_measured (dpy : Display) (fuel : Nat) (slide s : Slide)
    (h : apply_layout dpy fuel slide = .ok s) :
    ∀ e ∈ s.elements, vertical_measured dpy e := by
  obtain ⟨name, visible, elements⟩ := slide
  simp only [apply_layout] at h
  split at h
  · cases h
  · next measured total_height total_hboxes hm =>
    split at h
    · cases h
    · next sized rs hr =>
      cases h
      exact position_pass_measured dpy _ 0 0
        (height_pass_measured dpy _ _ _
          (row_pass_measured dpy fuel measured _ _ hr
            (measure_pass_measured dpy fuel elements 0 0 _ hm)))

/-- Counterexample to C25 as stated: in `example_display` the Vertical box "v" with
the one-line Text "hi", whose normalized line height is 1/30, gets the height 7/120,
and the Vertical box "w" without children gets the height 1/40, not 0. -/
theorem vertical_height_exceeds_content :
    ∃ s v w, apply_layout example_display 1 text_box_slide = .ok s ∧
      s.elements = [.box v, .box w] ∧
      v.stack_type = .STACK_VERTICAL ∧ content_height example_display v.elements = 1 / 30 ∧
      v.height = 7 / 120 ∧
      w.stack_type = .STACK_VERTICAL ∧ w.elements = [] ∧ w.height = 1 / 40 ∧ w.height ≠ 0 := by
  refine ⟨text_box_slide_laid_out, _, _, text_box_slide_layout, rfl, rfl, ?_, rfl, rfl, rfl, rfl,
    ?_⟩
  · norm_num [content_height, Box.elements, get_line_height, example_display]
  · norm_num [Box.height]

/-- Claim C25, amended: in a window of non-zero width, for every Vertical box of a
slide, `apply_layout` sets width = 1 and sets height to 0.025, the padding, plus the
sum, over the children of the box after word-wrap, of the normalized line height of
each Text and the aspect-derived height (image height / image width) of each Image;
in particular a Vertical box without children gets the height 0.025. -/
theorem vertical_box_measure (dpy : Display) (fuel : Nat) (slide s : Slide) (b : Box)
    (hw : dpy.width ≠ 0) (h : apply_layout dpy fuel slide = .ok s)
    (hb : .box b ∈ s.elements) (hv : b.stack_type = .STACK_VERTICAL) :
    b.width = 1 ∧ b.height = 1 / 40 + content_height dpy b.elements ∧
    (b.elements = [] → b.height = 1 / 40) := by
  have hm := apply_layout_measured dpy fuel slide s h _ hb hv
  rw [box_padding_one dpy hw] at hm
  refine ⟨hm.1, hm.2, fun he => ?_⟩
  rw [hm.2, he]
  simp [content_height, padding_percent]

/-- Witness for the amended C25: in `example_display` the childless Vertical box "w"
of `text_box_slide` gets the width 1 and the height 1/40. -/
theorem vertical_box_measure_witness :
    apply_layout example_display 1 text_box_slide = .ok text_box_slide_laid_out ∧
    (Box.mk .TEXT_ALIGN_LEFT .STACK_VERTICAL "w".toList [] 0 (7 / 120) 1 (1 / 40)).width = 1 ∧
    (Box.mk .TEXT_ALIGN_LEFT .STACK_VERTICAL "w".toList [] 0 (7 / 120) 1 (1 / 40)).height =
      1 / 40 :=
  ⟨text_box_slide_layout,
    (vertical_box_measure example_display 1 text_box_slide text_box_slide_laid_out
      (.mk .TEXT_ALIGN_LEFT .STACK_VERTICAL "w".toList [] 0 (7 / 120) 1 (1 / 40))
      (by decide) text_box_slide_layout (by simp [text_box_slide_laid_out, Slide.elements]) rfl).1,
    (vertical_box_measure example_display 1 text_box_slide text_box_slide_laid_out
      (.mk .TEXT_ALIGN_LEFT .STACK_VERTICAL "w".toList [] 0 (7 / 120) 1 (1 / 40))
      (by decide) text_box_slide_layout (by simp [text_box_slide_laid_out, Slide.elements])
      rfl).2.2 rfl⟩

/-! ## Boxes and the viewport: the claim (C21) -/

/-- The fourth loop of `apply_layout` keeps the children and their stack types. -/
theorem position_pass_shape (dpy : Display) :
    ∀ (es : List SlideElement) (x y : ℚ), stack_shape (position_pass dpy es x y) = stack_shape es
  | [], _, _ => rfl
  | .slide s :: rest, x, y => by
    simp only [position_pass, stack_shape, position_pass_shape dpy rest]
  | .text t :: rest, x, y => by
    simp only [position_pass, stack_shape, position_pass_shape dpy rest]
  | .image im :: rest, x, y => by
    simp only [position_pass, stack_shape, position_pass_shape dpy rest]
  | .box b :: rest, x, y => by
    obtain ⟨f1, -⟩ := placed_box_fields dpy b x y
    simp only [position_pass]
    split
    · simp only [stack_shape, position_pass_shape dpy rest, f1]
    · split
      · simp only [stack_shape, position_pass_shape dpy rest, f1]
      · simp only [stack_shape, position_pass_shape dpy rest, f1]

/-- The positions of the claim depend on the stack types and the heights only, which
the fourth loop of `apply_layout` keeps. -/
theorem stacked_positions_position_pass (dpy : Display) :
    ∀ (es : List SlideElement) (x y : ℚ) (k : Nat) (y0 : ℚ),
      stacked_positions (position_pass dpy es x y) k y0 = stacked_positions es k y0
  | [], _, _, _, _ => rfl
  | .slide s :: rest, x, y, k, y0 => by
    simp only [position_pass, stacked_positions, stacked_positions_position_pass dpy rest]
  | .text t :: rest, x, y, k, y0 => by
    simp only [position_pass, stacked_positions, stacked_positions_position_pass dpy rest]
  | .image im :: rest, x, y, k, y0 => by
    simp only [position_pass, stacked_positions, stacked_positions_position_pass dpy rest]
  | .box b :: rest, x, y, k, y0 => by
    obtain ⟨f1, -, f3, -⟩ := placed_box_fields dpy b x y
    simp only [position_pass]
    split
    · simp only [stacked_positions, stack_shape, position_pass_shape dpy rest, f1, f3,
        stacked_positions_position_pass dpy rest]
    · split
      · simp only [stacked_positions, stack_shape, position_pass_shape dpy rest, f1, f3,
          stacked_positions_position_pass dpy rest]
      · simp only [stacked_positions, stack_shape, position_pass_shape dpy rest, f1, f3,
          stacked_positions_position_pass dpy rest]

/-- Among boxes only, the inner loop of `apply_layout` closes every row. -/
theorem row_closes_of_all_boxes :
    ∀ shape : List (Option StackType), shape.all Option.isSome = true → shape ≠ [] →
      row_closes shape = true
  | [], _, hne => absurd rfl hne
  | none :: rest, hall, _ => by simp at hall
  | some st :: [], _, _ => by simp [row_closes]
  | some st :: e :: rest, hall, _ => by
    simp only [List.all_cons, Bool.and_eq_true] at hall
    have ih := row_closes_of_all_boxes (e :: rest)
      (by simp only [List.all_cons, Bool.and_eq_true]; exact hall.2) (by simp)
    simp [row_closes, ih]

/-- The fourth loop of `apply_layout`, on boxes only whose widths fit its cursor, puts
the boxes where the claim says. -/
theorem position_pass_stacked (dpy : Display) :
    ∀ (es : List SlideElement) (x y : ℚ) (k : Nat),
      all_boxes es = true → row_packed x es →
      (hboxes_ahead (stack_shape es) ≠ 0 →
        x = (k : ℚ) / ((k + hboxes_ahead (stack_shape es) : Nat) : ℚ)) →
      box_positions (position_pass dpy es x y) = stacked_positions es k y
  | [], _, _, _, _, _, _ => rfl
  | .slide s :: rest, x, y, k, hall, _, _ => by simp [all_boxes, stack_shape] at hall
  | .text t :: rest, x, y, k, hall, _, _ => by simp [all_boxes, stack_shape] at hall
  | .image im :: rest, x, y, k, hall, _, _ => by simp [all_boxes, stack_shape] at hall
  | .box b :: rest, x, y, k, hall, hp, hk => by
    obtain ⟨f1, f2, f3, f4, f5⟩ := placed_box_fields dpy b x y
    have hall' : all_boxes rest = true := by
      simp only [all_boxes, stack_shape, List.all_cons, Bool.and_eq_true] at hall
      exact hall.2
    rcases stack_cases b.stack_type with hst | hst
    · have hne : ¬ b.stack_type = .STACK_VERTICAL := by
        rw [hst]
        decide
      have hcl : row_closes (stack_shape (.box b :: rest)) = true :=
        row_closes_of_all_boxes _ hall (by simp [stack_shape])
      have hshape : stack_shape (.box b :: rest) =
          some .STACK_HORIZONTAL :: stack_shape rest := by
        simp only [stack_shape, hst]
      unfold row_packed at hp
      rw [if_neg hne] at hp
      obtain ⟨m, j, hj, hex, hw, hx, hm, hrest⟩ := hp
      have hm' := hm hcl
      rw [hshape] at hm' hk
      simp only [hboxes_ahead] at hm' hk
      have hkx := hk (by omega)
      have hm0 : (0 : ℚ) < (m : ℚ) := by exact_mod_cast (by omega : 0 < m)
      have hkj : k = j := by
        rw [hx] at hkx
        have hk0 : (0 : ℚ) < ((k + (hboxes_ahead (stack_shape rest) + 1) : Nat) : ℚ) := by
          exact_mod_cast (by omega : 0 < k + (hboxes_ahead (stack_shape rest) + 1))
        rw [div_eq_div_iff (ne_of_gt hm0) (ne_of_gt hk0)] at hkx
        have h2 : j * (k + (hboxes_ahead (stack_shape rest) + 1)) = k * m := by
          exact_mod_cast hkx
        rw [hm'] at h2
        have h3 : j * (hboxes_ahead (stack_shape rest) + 1) =
            k * (hboxes_ahead (stack_shape rest) + 1) := by
          have : j * (k + (hboxes_ahead (stack_shape rest) + 1)) =
              j * k + j * (hboxes_ahead (stack_shape rest) + 1) := by ring
          have : k * (j + (hboxes_ahead (stack_shape rest) + 1)) =
              j * k + k * (hboxes_ahead (stack_shape rest) + 1) := by ring
          omega
        exact (Nat.eq_of_mul_eq_mul_right (by omega) h3).symm
      subst hkj
      have hsum : x + b.width = ((k : ℚ) + 1) / (m : ℚ) := by
        rw [hx, hw]
        field_simp
      have hxk : x = (k : ℚ) / ((k + hboxes_ahead (stack_shape (.box b :: rest)) : Nat) : ℚ) := by
        rw [hshape]
        simp only [hboxes_ahead]
        rw [← hm']
        exact hx
      have hfl : to_float (x + b.width) = x + b.width := by
        rw [hsum]
        have := hex (k + 1) (by omega)
        push_cast at this
        exact this
      simp only [position_pass, f1, if_neg hne, f2, stacked_positions, hfl]
      by_cases h0 : hboxes_ahead (stack_shape rest) = 0
      · have hjm : k + 1 = m := by omega
        have hge : x + b.width ≥ 1 := by
          rw [hsum, ← hjm]
          push_cast
          rw [div_self (by positivity)]
        rw [if_pos hjm] at hrest
        rw [if_pos hge, if_pos h0]
        simp only [box_positions, f4, f5, f3]
        rw [position_pass_stacked dpy rest 0 _ 0 hall' hrest (fun h => absurd h0 h), ← hxk]
      · have hjm : ¬ k + 1 = m := by omega
        have hlt : ¬ x + b.width ≥ 1 := by
          rw [hsum, ge_iff_le, le_div_iff₀ hm0, one_mul, not_le]
          exact_mod_cast (by omega : k + 1 < m)
        rw [if_neg hjm, ← hsum] at hrest
        rw [if_neg hlt, if_neg h0]
        simp only [box_positions, f4, f5, f3]
        rw [position_pass_stacked dpy rest _ _ (k + 1) hall' hrest
          (fun _ => by
            rw [hsum, hm']
            push_cast
            ring_nf), ← hxk]
    · unfold row_packed at hp
      rw [if_pos hst] at hp
      simp only [position_pass, f1, hst, if_true, stacked_positions, box_positions, f4, f5, f3]
      rw [hp.1, position_pass_stacked dpy rest 0 _ 0 hall' hp.2 (fun _ => by simp)]

theorem two_rows_layout :
    apply_layout example_display 0 two_rows_slide = .ok two_rows_laid_out := by
  simp [two_rows_slide, two_rows_laid_out, empty_box, create_box, example_display, apply_layout,
    measure_pass, row_pass, row_scan, height_pass, position_pass, position_elements,
    position_from, apply_word_wrap, wrap_from, calculate_vbox_height, vbox_height_from,
    box_padding, padding_percent, Box.stack_type, Box.set_height, Box.set_width,
    Box.set_position, Box.set_elements, Box.elements, Box.width, Box.height, Box.name,
    to_float_one, to_float_inv_two]
  norm_num [to_float_one, to_float_inv_two]

/-- Where the sums of the rows are exact in `float`, a slide whose children are all
boxes is laid out as `stacked_positions` says: the `k`-th box of a row of `N`
Horizontal boxes at `x = k / N`, all boxes of one row at the same `y`, and every box
at the `y` that is the sum of the heights of the Vertical boxes and of the complete
rows before it; every Vertical box has `x = 0`. -/
theorem boxes_stacked (dpy : Display) (fuel : Nat) (slide s : Slide)
    (hall : all_boxes slide.elements = true) (h : apply_layout dpy fuel slide = .ok s)
    (hexact : ∀ c, .box c ∈ s.elements → c.stack_type = .STACK_HORIZONTAL →
      ∀ m : Nat, c.width = to_float (1 / (m : ℚ)) → exact_count m) :
    all_boxes s.elements = true ∧ stack_shape s.elements = stack_shape slide.elements ∧
    box_positions s.elements = stacked_positions s.elements 0 0 ∧
    ∀ b, .box b ∈ s.elements → b.stack_type = .STACK_VERTICAL → b.x = 0 := by
  obtain ⟨name, visible, elements⟩ := slide
  obtain ⟨sized, total_height, row_count, rfl, hshape, hp⟩ :=
    apply_layout_packed dpy fuel name visible elements s h hexact
  have hs : stack_shape (position_pass dpy (height_pass total_height row_count sized) 0 0) =
      stack_shape elements := by
    rw [position_pass_shape, height_pass_shape, hshape]
  have hall' : all_boxes (height_pass total_height row_count sized) = true := by
    simp only [Slide.elements] at hall
    simp only [all_boxes, height_pass_shape, hshape]
    exact hall
  refine ⟨?_, hs, ?_, fun b hb hv => (position_pass_inside dpy _ 0 0 hp b hb).2 hv⟩
  · simp only [Slide.elements] at hall ⊢
    simp only [all_boxes, hs]
    exact hall
  · simp only [Slide.elements]
    rw [stacked_positions_position_pass]
    exact position_pass_stacked dpy _ 0 0 0 hall' hp (fun _ => by simp)

/-! ## A row of twelve boxes (C29) -/

theorem float_twelfth : to_float (1 / 12) = 11184811 / 134217728 := by
  rw [to_float_eq (1 / 12) (-4) 11184811 (by norm_num) (by norm_num) (by norm_num)
    (by rw [abs_lt]; constructor <;> norm_num)]
  norm_num

/-- The sums of the cursor over a row of twelve boxes of the width `float(1 / 12)`,
rounded to `float` at every step: the twelfth sum is 8388607/8388608, below 1. -/
theorem cursor_of_twelve :
    to_float (0 + 11184811 / 134217728) = 11184811 / 134217728 ∧
    to_float (11184811 / 134217728 + 11184811 / 134217728) = 11184811 / 67108864 ∧
    to_float (11184811 / 67108864 + 11184811 / 134217728) = 1 / 4 ∧
    to_float (1 / 4 + 11184811 / 134217728) = 11184811 / 33554432 ∧
    to_float (11184811 / 33554432 + 11184811 / 134217728) = 6990507 / 16777216 ∧
    to_float (6990507 / 16777216 + 11184811 / 134217728) = 1 / 2 ∧
    to_float (1 / 2 + 11184811 / 134217728) = 9786709 / 16777216 ∧
    to_float (9786709 / 16777216 + 11184811 / 134217728) = 5592405 / 8388608 ∧
    to_float (5592405 / 8388608 + 11184811 / 134217728) = 12582911 / 16777216 ∧
    to_float (12582911 / 16777216 + 11184811 / 134217728) = 3495253 / 4194304 ∧
    to_float (3495253 / 4194304 + 11184811 / 134217728) = 15379113 / 16777216 ∧
    to_float (15379113 / 16777216 + 11184811 / 134217728) = 8388607 / 8388608 := by
  refine ⟨?_, ?_, ?_, ?_, ?_, ?_, ?_, ?_, ?_, ?_, ?_, ?_⟩
  · rw [to_float_eq (0 + 11184811 / 134217728) (-4) 11184811 (by norm_num) (by norm_num) (by norm_num)
      (by rw [abs_lt]; constructor <;> norm_num)]
    norm_num
  · rw [to_float_eq (11184811 / 134217728 + 11184811 / 134217728) (-3) 11184811 (by norm_num) (by norm_num) (by norm_num)
      (by rw [abs_lt]; constructor <;> norm_num)]
    norm_num
  · rw [to_float_eq (11184811 / 67108864 + 11184811 / 134217728) (-2) 8388608 (by norm_num) (by norm_num) (by norm_num)
      (by rw [abs_lt]; constructor <;> norm_num)]
    norm_num
  · rw [to_float_eq (1 / 4 + 11184811 / 134217728) (-2) 11184811 (by norm_num) (by norm_num) (by norm_num)
      (by rw [abs_lt]; constructor <;> norm_num)]
    norm_num
  · rw [to_float_eq (11184811 / 33554432 + 11184811 / 134217728) (-2) 13981014 (by norm_num) (by norm_num) (by norm_num)
      (by rw [abs_lt]; constructor <;> norm_num)]
    norm_num
  · rw [to_float_eq (6990507 / 16777216 + 11184811 / 134217728) (-1) 8388608 (by norm_num) (by norm_num) (by norm_num)
      (by rw [abs_lt]; constructor <;> norm_num)]
    norm_num
  · rw [to_float_eq (1 / 2 + 11184811 / 134217728) (-1) 9786709 (by norm_num) (by norm_num) (by norm_num)
      (by rw [abs_lt]; constructor <;> norm_num)]
    norm_num
  · rw [to_float_eq (9786709 / 16777216 + 11184811 / 134217728) (-1) 11184810 (by norm_num) (by norm_num) (by norm_num)
      (by rw [abs_lt]; constructor <;> norm_num)]
    norm_num
  · rw [to_float_eq (5592405 / 8388608 + 11184811 / 134217728) (-1) 12582911 (by norm_num) (by norm_num) (by norm_num)
      (by rw [abs_lt]; constructor <;> norm_num)]
    norm_num
  · rw [to_float_eq (12582911 / 16777216 + 11184811 / 134217728) (-1) 13981012 (by norm_num) (by norm_num) (by norm_num)
      (by rw [abs_lt]; constructor <;> norm_num)]
    norm_num
  · rw [to_float_eq (3495253 / 4194304 + 11184811 / 134217728) (-1) 15379113 (by norm_num) (by norm_num) (by norm_num)
      (by rw [abs_lt]; constructor <;> norm_num)]
    norm_num
  · rw [to_float_eq (15379113 / 16777216 + 11184811 / 134217728) (-1) 16777214 (by norm_num) (by norm_num) (by norm_num)
      (by rw [abs_lt]; constructor <;> norm_num)]
    norm_num

theorem position_pass_empty_hbox (dpy : Display) (a : TextAlignmentType) (n : List Char)
    (bx by0 w h : ℚ) (rest : List SlideElement) (x y : ℚ) :
    position_pass dpy (.box (.mk a .STACK_HORIZONTAL n [] bx by0 w h) :: rest) x y =
      .box (.mk a .STACK_HORIZONTAL n [] x y w h) ::
        (if to_float (x + w) ≥ 1 then position_pass dpy rest 0 (y + h)
         else position_pass dpy rest (to_float (x + w)) y) := by
  simp only [position_pass, position_elements, position_from, Box.set_position, Box.set_elements,
    Box.elements, Box.stack_type, Box.width, Box.height, reduceCtorEq, if_false]
  split <;> rfl

theorem twelve_then_vertical_layout :
    apply_layout example_display 0 twelve_then_vertical = .ok twelve_then_vertical_laid_out := by
  have h12 : to_float ((12 : ℚ))⁻¹ = 11184811 / 134217728 := by
    have h := float_twelfth
    rwa [one_div] at h
  obtain ⟨c1, c2, c3, c4, c5, c6, c7, c8, c9, c10, c11, c12⟩ := cursor_of_twelve
  simp only [twelve_then_vertical, empty_box, create_box, apply_layout, measure_pass,
    apply_word_wrap, wrap_from, calculate_vbox_height, vbox_height_from, Box.stack_type,
    Box.set_height, Box.set_width, Box.set_elements, Box.elements, Box.width, Box.height,
    Box.name, reduceCtorEq, if_true, if_false]
  simp [row_pass, row_scan, apply_word_wrap, wrap_from, Box.stack_type, Box.set_width,
    Box.set_elements, Box.elements, Box.width, Box.name, h12, float_twelfth]
  have hp : box_padding example_display 1 = 1 / 40 := by
    norm_num [box_padding, padding_percent, example_display]
  have hh : ((1 : ℚ) - 1 / 40) / ((1 : Int) : ℚ) = 39 / 40 := by norm_num
  simp only [hp, height_pass, Box.stack_type, Box.set_height, reduceCtorEq, if_true, if_false, hh]
  rw [position_pass_empty_hbox, c1, if_neg (by norm_num)]
  rw [position_pass_empty_hbox, c2, if_neg (by norm_num)]
  rw [position_pass_empty_hbox, c3, if_neg (by norm_num)]
  rw [position_pass_empty_hbox, c4, if_neg (by norm_num)]
  rw [position_pass_empty_hbox, c5, if_neg (by norm_num)]
  rw [position_pass_empty_hbox, c6, if_neg (by norm_num)]
  rw [position_pass_empty_hbox, c7, if_neg (by norm_num)]
  rw [position_pass_empty_hbox, c8, if_neg (by norm_num)]
  rw [position_pass_empty_hbox, c9, if_neg (by norm_num)]
  rw [position_pass_empty_hbox, c10, if_neg (by norm_num)]
  rw [position_pass_empty_hbox, c11, if_neg (by norm_num)]
  rw [position_pass_empty_hbox, c12, if_neg (by norm_num)]
  simp only [position_pass, position_elements, position_from, Box.set_position, Box.set_elements,
    Box.elements, Box.stack_type, Box.width, Box.height, if_true]
  rfl

/-- Claim C29 on the code: a slide with a row of twelve childless Horizontal boxes and
a Vertical box after it, all children boxes, in a window of 800 by 600 pixels. Every
box of the row gets the width `1.0f / 12`, the `float` 11184811/134217728, and the
cursor is the `float` sum of these widths: after the twelfth box it is
8388607/8388608 (0.99999988), not 1, so the test `cur_x >= 1.0f` fails and the row is
never completed. The Vertical box is put at x = 8388607/8388608 and y = 0, beside the
row, where the claim puts it at x = 0 and y = 39/40, below the row; and the boxes of
the row are not at k/12 (the third is at 11184811/67108864, not at 1/6). -/
theorem row_of_twelve_never_wraps :
    all_boxes twelve_then_vertical.elements = true ∧
    apply_layout example_display 0 twelve_then_vertical = .ok twelve_then_vertical_laid_out ∧
    to_float (15379113 / 16777216 + 11184811 / 134217728) = 8388607 / 8388608 ∧
    (box_positions twelve_then_vertical_laid_out.elements).getLast? =
      some (8388607 / 8388608, 0) ∧
    (stacked_positions twelve_then_vertical_laid_out.elements 0 0).getLast? =
      some (0, 39 / 40) ∧
    box_positions twelve_then_vertical_laid_out.elements ≠
      stacked_positions twelve_then_vertical_laid_out.elements 0 0 := by
  have hlast : (box_positions twelve_then_vertical_laid_out.elements).getLast? =
      some (8388607 / 8388608, 0) := by
    simp [box_positions, twelve_then_vertical_laid_out, Slide.elements, Box.x, Box.y]
  have hclaim : (stacked_positions twelve_then_vertical_laid_out.elements 0 0).getLast? =
      some (0, 39 / 40) := by
    simp [stacked_positions, twelve_then_vertical_laid_out, Slide.elements, Box.stack_type,
      Box.height, stack_shape, hboxes_ahead]
  refine ⟨rfl, twelve_then_vertical_layout, cursor_of_twelve.2.2.2.2.2.2.2.2.2.2.2, hlast,
    hclaim, ?_⟩
  intro heq
  rw [heq, hclaim] at hlast
  norm_num at hlast

/-! ## The height of the rows (C28) -/

theorem rows_then_slide_layout :
    apply_layout example_display 0 rows_then_slide = .ok rows_then_slide_laid_out := by
  simp [rows_then_slide, rows_then_slide_laid_out, empty_box, create_box, example_display,
    apply_layout,
    measure_pass, row_pass, row_scan, height_pass, position_pass, position_elements,
    position_from, apply_word_wrap, wrap_from, calculate_vbox_height, vbox_height_from,
    box_padding, padding_percent, Box.stack_type, Box.set_height, Box.set_width,
    Box.set_position, Box.set_elements, Box.elements, Box.width, Box.height, Box.name,
    to_float_one]
  norm_num

/-- Claim C28 on the code: the slide with the children Horizontal "a", Vertical "v",
Horizontal "b", Horizontal "c" and a nested slide has R = 2 rows, and its Vertical
box has the height T = 1/40; the claim gives every Horizontal box the height
(1 - T) / R = 39/80. The row of "b" and "c" ends at an element that is no Box, so the
inner loop never closes it and `row_count` stays 1: every Horizontal box gets the
height (1 - T) / 1 = 39/40, and T + R * h is 79/40, not 1. -/
theorem open_row_is_not_counted :
    apply_layout example_display 0 rows_then_slide = .ok rows_then_slide_laid_out ∧
    count_rows false (stack_shape rows_then_slide_laid_out.elements) = 2 ∧
    vertical_total rows_then_slide_laid_out.elements = 1 / 40 ∧
    hbox_heights rows_then_slide_laid_out.elements = [39 / 40, 39 / 40, 39 / 40] ∧
    (39 / 40 : ℚ) ≠ (1 - 1 / 40) / 2 ∧
    vertical_total rows_then_slide_laid_out.elements + 2 * (39 / 40) = 79 / 40 := by
  refine ⟨rows_then_slide_layout, rfl, ?_, ?_, by norm_num, ?_⟩
  · simp [vertical_total, rows_then_slide_laid_out, Slide.elements, Box.stack_type, Box.height]
  · simp [hbox_heights, rows_then_slide_laid_out, Slide.elements, Box.stack_type, Box.height]
  · simp [vertical_total, rows_then_slide_laid_out, Slide.elements, Box.stack_type, Box.height]
    norm_num


/-! ## A second layout (C24) -/

theorem unplaced_element_eq_text (e : SlideElement) (u : Text)
    (h : unplaced_element e = .text u) : ∃ t, e = .text t ∧ t.unplaced = u := by
  cases e with
  | text t =>
    simp only [unplaced_element, SlideElement.text.injEq] at h
    exact ⟨t, rfl, h⟩
  | image im => simp [unplaced_element] at h
  | slide s => simp [unplaced_element] at h
  | box b => simp [unplaced_element] at h

theorem unplaced_element_not_text (e e2 : SlideElement) (hne : ∀ t, e ≠ .text t)
    (h : unplaced_element e2 = unplaced_element e) : ∀ t, e2 ≠ .text t := by
  intro t ht
  subst ht
  cases e with
  | text t0 => exact hne t0 rfl
  | image im => simp [unplaced_element] at h
  | slide s => simp [unplaced_element] at h
  | box b => simp [unplaced_element] at h

/-- One more pass allowed does not change what the loop of `apply_word_wrap` returns. -/
theorem wrap_from_mono (dpy : Display) (box_width : ℚ) (box_name : List Char) (padding : ℚ) :
    ∀ (fuel : Nat) (es : List SlideElement) (y : ℚ) (out : List SlideElement),
      wrap_from dpy box_width box_name padding fuel es y = .ok out →
      wrap_from dpy box_width box_name padding (fuel + 1) es y = .ok out := by
  intro fuel
  induction fuel with
  | zero =>
    intro es y out h
    cases es with
    | nil =>
      simp only [wrap_from] at h ⊢
      exact h
    | cons e rest => simp [wrap_from] at h
  | succ fuel ih =>
    intro es y out h
    match es, h with
    | [], h =>
      simp only [wrap_from] at h ⊢
      exact h
    | .text t0 :: rest, h =>
      by_cases hc : get_text_width dpy t0 / (dpy.width : ℚ) + padding > box_width ∧
          strstr t0.content [' '] = true
      · by_cases hmax : max_word_width dpy t0.font_size (split_str t0.content [' ']) 0 > box_width
        · rw [wrap_from] at h
          have hw : get_text_width dpy
              { t0 with size := global_font_size t0.font_size / (dpy.width : ℚ) } =
              get_text_width dpy t0 := rfl
          simp only [hw] at h
          rw [if_pos hc, if_pos hmax] at h
          cases h
        · rw [wrap_from_split _ _ _ _ fuel _ _ _ hc.1 hc.2 hmax] at h
          rw [wrap_from_split _ _ _ _ (fuel + 1) _ _ _ hc.1 hc.2 hmax]
          exact ih _ _ _ h
      · rw [wrap_from_keep _ _ _ _ fuel _ _ _ hc] at h
        rw [wrap_from_keep _ _ _ _ (fuel + 1) _ _ _ hc]
        split at h
        · cases h
        · next wrapped hrest =>
          rw [ih _ _ _ hrest]
          exact h
    | .slide s :: rest, h =>
      rw [wrap_from_other _ _ _ _ fuel _ _ _ (by intro t ht; cases ht)] at h
      rw [wrap_from_other _ _ _ _ (fuel + 1) _ _ _ (by intro t ht; cases ht)]
      split at h
      · cases h
      · next wrapped hrest =>
        rw [ih _ _ _ hrest]
        exact h
    | .box b :: rest, h =>
      rw [wrap_from_other _ _ _ _ fuel _ _ _ (by intro t ht; cases ht)] at h
      rw [wrap_from_other _ _ _ _ (fuel + 1) _ _ _ (by intro t ht; cases ht)]
      split at h
      · cases h
      · next wrapped hrest =>
        rw [ih _ _ _ hrest]
        exact h
    | .image im :: rest, h =>
      rw [wrap_from_other _ _ _ _ fuel _ _ _ (by intro t ht; cases ht)] at h
      rw [wrap_from_other _ _ _ _ (fuel + 1) _ _ _ (by intro t ht; cases ht)]
      split at h
      · cases h
      · next wrapped hrest =>
        rw [ih _ _ _ hrest]
        exact h

/-- What the loop of `apply_word_wrap` returns is wrapped: on elements that are the
result but for their places, the loop returns them again, but for their places. -/
theorem wrap_from_settled (dpy : Display) (box_width : ℚ) (box_name : List Char)
    (padding : ℚ) :
    ∀ (fuel : Nat) (es : List SlideElement) (y : ℚ) (out : List SlideElement),
      wrap_from dpy box_width box_name padding fuel es y = .ok out →
      ∀ (es2 : List SlideElement) (y2 : ℚ),
        es2.map unplaced_element = out.map unplaced_element →
        ∃ out2, wrap_from dpy box_width box_name padding fuel es2 y2 = .ok out2 ∧
          out2.map unplaced_element = out.map unplaced_element := by
  intro fuel
  induction fuel with
  | zero =>
    intro es y out h es2 y2 h2
    cases es with
    | nil =>
      simp only [wrap_from] at h
      cases h
      simp only [List.map_nil, List.map_eq_nil_iff] at h2
      subst h2
      exact ⟨[], rfl, rfl⟩
    | cons e rest => simp [wrap_from] at h
  | succ fuel ih =>
    intro es y out h es2 y2 h2
    match es, h with
    | [], h =>
      simp only [wrap_from] at h
      cases h
      simp only [List.map_nil, List.map_eq_nil_iff] at h2
      subst h2
      exact ⟨[], rfl, rfl⟩
    | .text t0 :: rest, h =>
      by_cases hc : get_text_width dpy t0 / (dpy.width : ℚ) + padding > box_width ∧
          strstr t0.content [' '] = true
      · by_cases hmax : max_word_width dpy t0.font_size (split_str t0.content [' ']) 0 > box_width
        · rw [wrap_from] at h
          have hw : get_text_width dpy
              { t0 with size := global_font_size t0.font_size / (dpy.width : ℚ) } =
              get_text_width dpy t0 := rfl
          simp only [hw] at h
          rw [if_pos hc, if_pos hmax] at h
          cases h
        · rw [wrap_from_split _ _ _ _ fuel _ _ _ hc.1 hc.2 hmax] at h
          obtain ⟨out2, hout2, hmap⟩ := ih _ _ _ h es2 y2 h2
          exact ⟨out2, wrap_from_mono _ _ _ _ _ _ _ _ hout2, hmap⟩
      · rw [wrap_from_keep _ _ _ _ fuel _ _ _ hc] at h
        split at h
        · cases h
        · next wrapped hrest =>
          cases h
          cases es2 with
          | nil => simp at h2
          | cons e2 rest2 =>
            simp only [List.map_cons, List.cons.injEq] at h2
            obtain ⟨he2, hrest2⟩ := h2
            obtain ⟨t2, rfl, ht2⟩ := unplaced_element_eq_text e2 _ he2
            simp only [Text.unplaced, Text.mk.injEq] at ht2
            obtain ⟨hfont, hcontent, -, -, hsize⟩ := ht2
            have hw2 : get_text_width dpy t2 = get_text_width dpy t0 := by
              unfold get_text_width
              rw [hfont, hcontent]
            have hc2 : ¬ (get_text_width dpy t2 / (dpy.width : ℚ) + padding > box_width ∧
                strstr t2.content [' '] = true) := by
              rw [hw2, hcontent]
              exact hc
            obtain ⟨out2, hout2, hmap⟩ := ih _ _ _ hrest rest2
              (y2 + get_line_height dpy t2 dpy.height) hrest2
            refine ⟨_, by rw [wrap_from_keep _ _ _ _ fuel _ _ _ hc2, hout2], ?_⟩
            simp only [List.map_cons, hmap, unplaced_element, Text.unplaced, hfont, hcontent]
    | .slide s :: rest, h =>
      rw [wrap_from_other _ _ _ _ fuel _ _ _ (by intro t ht; cases ht)] at h
      split at h
      · cases h
      · next wrapped hrest =>
        cases h
        cases es2 with
        | nil => simp at h2
        | cons e2 rest2 =>
          simp only [List.map_cons, List.cons.injEq] at h2
          obtain ⟨he2, hrest2⟩ := h2
          have hne := unplaced_element_not_text (.slide s) e2 (by intro t ht; cases ht) he2
          obtain ⟨out2, hout2, hmap⟩ := ih _ _ _ hrest rest2 y2 hrest2
          refine ⟨_, by rw [wrap_from_other _ _ _ _ fuel _ _ _ hne, hout2], ?_⟩
          simp only [List.map_cons, hmap, he2]
    | .box b :: rest, h =>
      rw [wrap_from_other _ _ _ _ fuel _ _ _ (by intro t ht; cases ht)] at h
      split at h
      · cases h
      · next wrapped hrest =>
        cases h
        cases es2 with
        | nil => simp at h2
        | cons e2 rest2 =>
          simp only [List.map_cons, List.cons.injEq] at h2
          obtain ⟨he2, hrest2⟩ := h2
          have hne := unplaced_element_not_text (.box b) e2 (by intro t ht; cases ht) he2
          obtain ⟨out2, hout2, hmap⟩ := ih _ _ _ hrest rest2 y2 hrest2
          refine ⟨_, by rw [wrap_from_other _ _ _ _ fuel _ _ _ hne, hout2], ?_⟩
          simp only [List.map_cons, hmap, he2]
    | .image im :: rest, h =>
      rw [wrap_from_other _ _ _ _ fuel _ _ _ (by intro t ht; cases ht)] at h
      split at h
      · cases h
      · next wrapped hrest =>
        cases h
        cases es2 with
        | nil => simp at h2
        | cons e2 rest2 =>
          simp only [List.map_cons, List.cons.injEq] at h2
          obtain ⟨he2, hrest2⟩ := h2
          have hne := unplaced_element_not_text (.image im) e2 (by intro t ht; cases ht) he2
          obtain ⟨out2, hout2, hmap⟩ := ih _ _ _ hrest rest2 y2 hrest2
          refine ⟨_, by rw [wrap_from_other _ _ _ _ fuel _ _ _ hne, hout2], ?_⟩
          simp only [List.map_cons, hmap, he2]

theorem content_height_unplaced (dpy : Display) :
    ∀ es : List SlideElement, content_height dpy (es.map unplaced_element) = content_height dpy es
  | [] => rfl
  | .text t :: es => by
    simp only [List.map_cons, unplaced_element, content_height, content_height_unplaced dpy es]
    rfl
  | .image im :: es => by
    simp only [List.map_cons, unplaced_element, content_height, content_height_unplaced dpy es]
    rfl
  | .slide s :: es => by
    simp only [List.map_cons, unplaced_element, content_height, content_height_unplaced dpy es]
  | .box b :: es => by
    simp only [List.map_cons, unplaced_element, content_height, content_height_unplaced dpy es]

/-- The loop of `calculate_vbox_height` writes only places. -/
theorem vbox_height_from_unplaced (dpy : Display) :
    ∀ (es : List SlideElement) (y : ℚ),
      (vbox_height_from dpy es y).1.map unplaced_element = es.map unplaced_element
  | [], _ => rfl
  | .text t :: es, y => by
    simp only [vbox_height_from, List.map_cons, unplaced_element, vbox_height_from_unplaced dpy es]
    rfl
  | .image im :: es, y => by
    simp only [vbox_height_from, List.map_cons, unplaced_element, vbox_height_from_unplaced dpy es]
  | .slide s :: es, y => by
    simp only [vbox_height_from, List.map_cons, unplaced_element, vbox_height_from_unplaced dpy es]
  | .box b :: es, y => by
    simp only [vbox_height_from, List.map_cons, unplaced_element, vbox_height_from_unplaced dpy es]

/-- The loop of `position_elements` writes only places. -/
theorem position_from_unplaced (dpy : Display) (box : Box) (element_count : Nat)
    (box_height_px : Int) (box_aspect_ratio padding : ℚ) :
    ∀ (es : List SlideElement) (y : ℚ),
      (position_from dpy box element_count box_height_px box_aspect_ratio padding es y).map
        unplaced_element = es.map unplaced_element
  | [], _ => rfl
  | .text t :: es, y => by
    simp only [position_from, List.map_cons, unplaced_element,
      position_from_unplaced dpy box element_count box_height_px box_aspect_ratio padding es]
    rfl
  | .image im :: es, y => by
    simp only [position_from, List.map_cons, unplaced_element,
      position_from_unplaced dpy box element_count box_height_px box_aspect_ratio padding es]
    rfl
  | .slide s :: es, y => by
    simp only [position_from, List.map_cons, unplaced_element,
      position_from_unplaced dpy box element_count box_height_px box_aspect_ratio padding es]
  | .box b :: es, y => by
    simp only [position_from, List.map_cons, unplaced_element,
      position_from_unplaced dpy box element_count box_height_px box_aspect_ratio padding es]

/-- The loop of `position_elements` reads no place: elements that agree but for their
places, in boxes of the same width, height and alignment, are placed the same. -/
theorem position_from_congr (dpy : Display) (box box' : Box) (element_count : Nat)
    (box_height_px : Int) (box_aspect_ratio padding : ℚ)
    (hw : box.width = box'.width) (hh : box.height = box'.height)
    (ha : box.text_align = box'.text_align) :
    ∀ (es es' : List SlideElement) (y : ℚ),
      es.map unplaced_element = es'.map unplaced_element →
      position_from dpy box element_count box_height_px box_aspect_ratio padding es y =
        position_from dpy box' element_count box_height_px box_aspect_ratio padding es' y
  | [], [], _, _ => rfl
  | [], _ :: _, _, h => by simp at h
  | _ :: _, [], _, h => by simp at h
  | .text t :: es, e' :: es', y, h => by
    simp only [List.map_cons, List.cons.injEq] at h
    obtain ⟨t', rfl, ht⟩ := unplaced_element_eq_text e' _ h.1.symm
    simp only [Text.unplaced, Text.mk.injEq] at ht
    obtain ⟨hfont, hcontent, -, -, hsize⟩ := ht
    have hwid : get_text_width dpy t' = get_text_width dpy t := by
      unfold get_text_width
      rw [hfont, hcontent]
    have hlh : get_line_height dpy t' box_height_px = get_line_height dpy t box_height_px := by
      unfold get_line_height
      rw [hfont]
    have hasc : get_font_ascent dpy t' box_height_px = get_font_ascent dpy t box_height_px := by
      unfold get_font_ascent
      rw [hfont]
    simp only [position_from, hwid, hlh, hasc, hw, ha,
      position_from_congr dpy box box' element_count box_height_px box_aspect_ratio padding
        hw hh ha es es' _ h.2, hfont, hcontent, hsize]
  | .image im :: es, e' :: es', y, h => by
    simp only [List.map_cons, List.cons.injEq] at h
    cases e' with
    | text t' => simp [unplaced_element] at h
    | slide s' => simp [unplaced_element] at h
    | box b' => simp [unplaced_element] at h
    | image im' =>
      obtain ⟨h1, h2⟩ := h
      simp only [unplaced_element, SlideElement.image.injEq, Image.unplaced,
        Image.mk.injEq] at h1
      obtain ⟨hf, hiw, hih, hch, -⟩ := h1
      simp only [position_from, hw, hh, ha, hf, hiw, hih, hch,
        position_from_congr dpy box box' element_count box_height_px box_aspect_ratio padding
          hw hh ha es es' _ h2]
  | .slide s :: es, e' :: es', y, h => by
    simp only [List.map_cons, List.cons.injEq] at h
    cases e' with
    | text t' => simp [unplaced_element] at h
    | image im' => simp [unplaced_element] at h
    | box b' => simp [unplaced_element] at h
    | slide s' =>
      obtain ⟨h1, h2⟩ := h
      simp only [unplaced_element, SlideElement.slide.injEq] at h1
      subst h1
      simp only [position_from,
        position_from_congr dpy box box' element_count box_height_px box_aspect_ratio padding
          hw hh ha es es' _ h2]
  | .box b :: es, e' :: es', y, h => by
    simp only [List.map_cons, List.cons.injEq] at h
    cases e' with
    | text t' => simp [unplaced_element] at h
    | image im' => simp [unplaced_element] at h
    | slide s' => simp [unplaced_element] at h
    | box b' =>
      obtain ⟨h1, h2⟩ := h
      simp only [unplaced_element, SlideElement.box.injEq] at h1
      subst h1
      simp only [position_from,
        position_from_congr dpy box box' element_count box_height_px box_aspect_ratio padding
          hw hh ha es es' _ h2]

theorem unplaced_box_fields (b2 b : Box) (h : b2.unplaced = b.unplaced) :
    b2.text_align = b.text_align ∧ b2.stack_type = b.stack_type ∧ b2.name = b.name ∧
    b2.elements.map unplaced_element = b.elements.map unplaced_element ∧
    b2.width = b.width ∧ (b.stack_type = .STACK_VERTICAL → b2.height = b.height) := by
  obtain ⟨ta, st, nm, els, bx, by', bw, bh⟩ := b
  obtain ⟨ta2, st2, nm2, els2, bx2, by2, bw2, bh2⟩ := b2
  simp only [Box.unplaced, Box.mk.injEq] at h
  obtain ⟨h1, h2, h3, h4, -, -, h7, h8⟩ := h
  refine ⟨h1, h2, h3, h4, h7, fun hv => ?_⟩
  simp only [Box.stack_type] at hv
  subst hv
  subst h2
  simpa using h8

theorem unplaced_of_fields (b2 b : Box) (h1 : b2.text_align = b.text_align)
    (h2 : b2.stack_type = b.stack_type) (h3 : b2.name = b.name)
    (h4 : b2.elements.map unplaced_element = b.elements.map unplaced_element)
    (h5 : b2.width = b.width) (h6 : b.stack_type = .STACK_VERTICAL → b2.height = b.height) :
    b2.unplaced = b.unplaced := by
  obtain ⟨ta, st, nm, els, bx, by', bw, bh⟩ := b
  obtain ⟨ta2, st2, nm2, els2, bx2, by2, bw2, bh2⟩ := b2
  simp only [Box.text_align, Box.stack_type, Box.name, Box.elements, Box.width,
    Box.height] at h1 h2 h3 h4 h5 h6
  subst h1 h2 h3 h5
  simp only [Box.unplaced, h4, Box.mk.injEq, true_and]
  rcases stack_cases st2 with hst | hst
  · simp [hst]
  · simp [hst, h6 hst]

theorem unplaced_child_eq_box (e : SlideElement) (u : Box)
    (h : unplaced_child e = .box u) : ∃ b, e = .box b ∧ b.unplaced = u := by
  cases e with
  | box b =>
    simp only [unplaced_child, SlideElement.box.injEq] at h
    exact ⟨b, rfl, h⟩
  | text t => simp [unplaced_child] at h
  | image im => simp [unplaced_child] at h
  | slide s => simp [unplaced_child] at h

theorem unplaced_child_eq_other (e e2 : SlideElement) (hne : ∀ b, e ≠ .box b)
    (h : unplaced_child e2 = unplaced_child e) : e2 = e := by
  cases e with
  | box b => exact absurd rfl (hne b)
  | text t => cases e2 <;> simp_all [unplaced_child]
  | image im => cases e2 <;> simp_all [unplaced_child]
  | slide s => cases e2 <;> simp_all [unplaced_child]

/-- The function `position_elements` on boxes that agree but for what the layout
writes after the word wrap, at the same place and with the same height. -/
theorem position_elements_congr (dpy : Display) (b b' : Box) (x y : ℚ)
    (h : b.unplaced = b'.unplaced) (hh : b.height = b'.height) :
    position_elements dpy (b.set_position x y) = position_elements dpy (b'.set_position x y) := by
  obtain ⟨h1, h2, h3, h4, h5, -⟩ := unplaced_box_fields b b' h
  obtain ⟨ta, st, nm, els, bx, by', bw, bh⟩ := b
  obtain ⟨ta', st', nm', els', bx', by2, bw', bh'⟩ := b'
  simp only [Box.text_align, Box.stack_type, Box.name, Box.elements, Box.width,
    Box.height] at h1 h2 h3 h4 h5 hh
  subst h1 h2 h3 h5 hh
  have hlen : els.length = els'.length := by
    have := congrArg List.length h4
    simpa using this
  simp only [position_elements, Box.set_position, Box.set_elements, Box.height, Box.width,
    Box.elements, hlen]
  rw [position_from_congr dpy (.mk ta st nm els x y bw bh) (.mk ta st nm els' x y bw bh) _ _ _ _
    rfl rfl rfl els els' _ h4]

/-- The function `position_elements` writes, but for places, nothing. -/
theorem position_elements_unplaced (dpy : Display) (b : Box) (x y : ℚ) :
    (position_elements dpy (b.set_position x y)).unplaced = b.unplaced := by
  obtain ⟨ta, st, nm, els, bx, by', bw, bh⟩ := b
  simp only [position_elements, Box.set_position, Box.set_elements, Box.height, Box.width,
    Box.elements, Box.unplaced, position_from_unplaced]

theorem set_height_unplaced (b : Box) (h : ℚ) (hst : b.stack_type = .STACK_HORIZONTAL) :
    (b.set_height h).unplaced = b.unplaced := by
  obtain ⟨ta, st, nm, els, bx, by', bw, bh⟩ := b
  simp only [Box.stack_type] at hst
  subst hst
  simp [Box.set_height, Box.unplaced]

/-- The third and the fourth loop of `apply_layout` together read nothing of what
they write: children that agree but for that are placed the same. -/
theorem place_congr (dpy : Display) (total_height : ℚ) (row_count : Int) :
    ∀ (a a' : List SlideElement) (x y : ℚ),
      a.map unplaced_child = a'.map unplaced_child →
      position_pass dpy (height_pass total_height row_count a) x y =
        position_pass dpy (height_pass total_height row_count a') x y
  | [], [], _, _, _ => rfl
  | [], _ :: _, _, _, h => by simp at h
  | _ :: _, [], _, _, h => by simp at h
  | .box b :: a, e' :: a', x, y, h => by
    simp only [List.map_cons, List.cons.injEq] at h
    obtain ⟨b', rfl, hb⟩ := unplaced_child_eq_box e' _ h.1.symm
    obtain ⟨-, hst, -, -, hw, hv⟩ := unplaced_box_fields b' b hb
    have ih : ∀ x y, position_pass dpy (height_pass total_height row_count a) x y =
        position_pass dpy (height_pass total_height row_count a') x y :=
      fun x y => place_congr dpy total_height row_count a a' x y h.2
    rcases stack_cases b.stack_type with hs | hs
    · have hs' : b'.stack_type = .STACK_HORIZONTAL := hst.trans hs
      have hne : ¬ b.stack_type = .STACK_VERTICAL := by
        rw [hs]
        decide
      have hu : (b.set_height ((1 - total_height) / (row_count : ℚ))).unplaced =
          (b'.set_height ((1 - total_height) / (row_count : ℚ))).unplaced := by
        rw [set_height_unplaced b _ hs, set_height_unplaced b' _ hs', hb]
      have hc := position_elements_congr dpy _ _ x y hu
        (by rw [(box_set_height_fields b _).2.2.1, (box_set_height_fields b' _).2.2.1])
      obtain ⟨f1, f2, f3, -, -⟩ := placed_box_fields dpy
        (b'.set_height ((1 - total_height) / (row_count : ℚ))) x y
      simp only [height_pass, hs, hs', if_true, position_pass, hc, f1, f2, f3,
        (box_set_height_fields b' _).1, ih]
    · have hs' : b'.stack_type = .STACK_VERTICAL := hst.trans hs
      have hne : ¬ b.stack_type = .STACK_HORIZONTAL := by
        rw [hs]
        decide
      have hne' : ¬ b'.stack_type = .STACK_HORIZONTAL := by
        rw [hs']
        decide
      have hc := position_elements_congr dpy b b' x y hb.symm (hv hs).symm
      obtain ⟨f1, f2, f3, -, -⟩ := placed_box_fields dpy b' x y
      simp only [height_pass, if_neg hne, if_neg hne', position_pass, hc, f1, f3, hs', if_true,
        ih]
  | .slide s :: a, e' :: a', x, y, h => by
    simp only [List.map_cons, List.cons.injEq] at h
    have he := unplaced_child_eq_other (.slide s) e' (by intro b hb; cases hb) h.1.symm
    subst he
    simp only [height_pass, position_pass, place_congr dpy total_height row_count a a' _ _ h.2]
  | .text t :: a, e' :: a', x, y, h => by
    simp only [List.map_cons, List.cons.injEq] at h
    have he := unplaced_child_eq_other (.text t) e' (by intro b hb; cases hb) h.1.symm
    subst he
    simp only [height_pass, position_pass, place_congr dpy total_height row_count a a' _ _ h.2]
  | .image im :: a, e' :: a', x, y, h => by
    simp only [List.map_cons, List.cons.injEq] at h
    have he := unplaced_child_eq_other (.image im) e' (by intro b hb; cases hb) h.1.symm
    subst he
    simp only [height_pass, position_pass, place_congr dpy total_height row_count a a' _ _ h.2]

/-- The third and the fourth loop of `apply_layout` write only what `unplaced_child`
leaves out. -/
theorem place_unplaced (dpy : Display) (total_height : ℚ) (row_count : Int) :
    ∀ (a : List SlideElement) (x y : ℚ),
      (position_pass dpy (height_pass total_height row_count a) x y).map unplaced_child =
        a.map unplaced_child
  | [], _, _ => rfl
  | .slide s :: a, x, y => by
    simp only [height_pass, position_pass, List.map_cons, unplaced_child,
      place_unplaced dpy total_height row_count a]
  | .text t :: a, x, y => by
    simp only [height_pass, position_pass, List.map_cons, unplaced_child,
      place_unplaced dpy total_height row_count a]
  | .image im :: a, x, y => by
    simp only [height_pass, position_pass, List.map_cons, unplaced_child,
      place_unplaced dpy total_height row_count a]
  | .box b :: a, x, y => by
    have ih := place_unplaced dpy total_height row_count a
    simp only [height_pass]
    split
    · next hs =>
      simp only [position_pass]
      split
      · simp only [List.map_cons, unplaced_child, ih, position_elements_unplaced,
          set_height_unplaced b _ hs]
      · split
        · simp only [List.map_cons, unplaced_child, ih, position_elements_unplaced,
            set_height_unplaced b _ hs]
        · simp only [List.map_cons, unplaced_child, ih, position_elements_unplaced,
            set_height_unplaced b _ hs]
    · simp only [position_pass]
      split
      · simp only [List.map_cons, unplaced_child, ih, position_elements_unplaced]
      · split
        · simp only [List.map_cons, unplaced_child, ih, position_elements_unplaced]
        · simp only [List.map_cons, unplaced_child, ih, position_elements_unplaced]

theorem stack_shape_unplaced :
    ∀ a : List SlideElement, stack_shape (a.map unplaced_child) = stack_shape a
  | [] => rfl
  | .slide s :: a => by simp only [List.map_cons, unplaced_child, stack_shape, stack_shape_unplaced a]
  | .text t :: a => by simp only [List.map_cons, unplaced_child, stack_shape, stack_shape_unplaced a]
  | .image im :: a => by
    simp only [List.map_cons, unplaced_child, stack_shape, stack_shape_unplaced a]
  | .box b :: a => by
    obtain ⟨ta, st, nm, els, bx, by', bw, bh⟩ := b
    simp only [List.map_cons, unplaced_child, stack_shape, stack_shape_unplaced a, Box.unplaced,
      Box.stack_type]

theorem stack_shape_congr (a a2 : List SlideElement)
    (h : a2.map unplaced_child = a.map unplaced_child) : stack_shape a2 = stack_shape a := by
  rw [← stack_shape_unplaced a2, h, stack_shape_unplaced]

/-- The first loop of `apply_layout` adds up the heights of the Vertical boxes. -/
theorem measure_pass_total (dpy : Display) (fuel : Nat) :
    ∀ (es : List SlideElement) (th : ℚ) (n : Int) (r : List SlideElement × ℚ × Int),
      measure_pass dpy fuel es th n = .ok r → r.2.1 = th + vertical_total r.1
  | [], th, n, r, h => by
    simp only [measure_pass] at h
    cases h
    simp [vertical_total]
  | .slide s :: rest, th, n, r, h => by
    simp only [measure_pass] at h
    split at h
    · cases h
    · split at h
      · cases h
      · next r' hr =>
        cases h
        simpa only [vertical_total] using measure_pass_total dpy fuel rest th n r' hr
  | .text t :: rest, th, n, r, h => by
    simp only [measure_pass] at h
    split at h
    · cases h
    · next r' hr =>
      cases h
      simpa only [vertical_total] using measure_pass_total dpy fuel rest th n r' hr
  | .image im :: rest, th, n, r, h => by
    simp only [measure_pass] at h
    split at h
    · cases h
    · next r' hr =>
      cases h
      simpa only [vertical_total] using measure_pass_total dpy fuel rest th n r' hr
  | .box b :: rest, th, n, r, h => by
    rcases stack_cases b.stack_type with hst | hst
    · have hne : ¬ b.stack_type = .STACK_VERTICAL := by
        rw [hst]
        decide
      simp only [measure_pass, if_neg hne] at h
      split at h
      · cases h
      · next r' hr =>
        cases h
        have ih := measure_pass_total dpy fuel rest th _ r' hr
        simp only [vertical_total, (box_set_height_fields b 1).1, if_neg hne, zero_add]
        exact ih
    · simp only [measure_pass, hst, if_true] at h
      split at h
      · cases h
      · next wrapped hwrap =>
        split at h
        · cases h
        · next r' hr =>
          cases h
          have ih := measure_pass_total dpy fuel rest _ n r' hr
          have hf := apply_word_wrap_frame dpy fuel _ wrapped hwrap
          rw [(box_set_width_fields b 1).1] at hf
          have hv : ((calculate_vbox_height dpy wrapped).1.set_height
              ((calculate_vbox_height dpy wrapped).2 / 1)).stack_type = .STACK_VERTICAL := by
            rw [(box_set_height_fields _ _).1, (calculate_vbox_height_fields dpy wrapped).1,
              hf.2, hst]
          simp only [vertical_total, hv, if_true]
          rw [ih]
          ring

/-- The second loop of `apply_layout` keeps the Vertical boxes and the nested slides. -/
theorem row_pass_settled (dpy : Display) (fuel : Nat) :
    ∀ (es : List SlideElement) (rs : RowState) (r : List SlideElement × RowState),
      row_pass dpy fuel es rs = .ok r → (∀ e ∈ es, settled dpy fuel e) →
      (∀ e ∈ r.1, settled dpy fuel e) ∧ vertical_total r.1 = vertical_total es
  | [], rs, r, h, _ => by
    simp only [row_pass] at h
    cases h
    exact ⟨by simp, rfl⟩
  | .slide s :: rest, rs, r, h, hall => by
    simp only [row_pass] at h
    split at h
    · cases h
    · next r' hr =>
      cases h
      have ih := row_pass_settled dpy fuel rest rs r' hr
        (fun e he => hall e (List.mem_cons_of_mem _ he))
      refine ⟨fun e he => ?_, by simp only [vertical_total, ih.2]⟩
      rcases List.mem_cons.1 he with heq | hmem
      · rw [heq]
        exact hall _ (List.mem_cons_self _ _)
      · exact ih.1 e hmem
  | .text t :: rest, rs, r, h, hall => by
    simp only [row_pass] at h
    split at h
    · cases h
    · next r' hr =>
      cases h
      have ih := row_pass_settled dpy fuel rest rs r' hr
        (fun e he => hall e (List.mem_cons_of_mem _ he))
      refine ⟨fun e he => ?_, by simp only [vertical_total, ih.2]⟩
      rcases List.mem_cons.1 he with heq | hmem
      · rw [heq]
        trivial
      · exact ih.1 e hmem
  | .image im :: rest, rs, r, h, hall => by
    simp only [row_pass] at h
    split at h
    · cases h
    · next r' hr =>
      cases h
      have ih := row_pass_settled dpy fuel rest rs r' hr
        (fun e he => hall e (List.mem_cons_of_mem _ he))
      refine ⟨fun e he => ?_, by simp only [vertical_total, ih.2]⟩
      rcases List.mem_cons.1 he with heq | hmem
      · rw [heq]
        trivial
      · exact ih.1 e hmem
  | .box b :: rest, rs, r, h, hall => by
    simp only [row_pass] at h
    split at h
    · next hst =>
      split at h
      · cases h
      · next box' hwrap =>
        split at h
        · cases h
        · next r' hr =>
          cases h
          have ih := row_pass_settled dpy fuel rest _ r' hr
            (fun e he => hall e (List.mem_cons_of_mem _ he))
          have hf := apply_word_wrap_frame dpy fuel _ box' hwrap
          rw [stack_type_set_width, hst] at hf
          have hne : ¬ box'.stack_type = .STACK_VERTICAL := by
            rw [hf.2]
            decide
          have hne0 : ¬ b.stack_type = .STACK_VERTICAL := by
            rw [hst]
            decide
          refine ⟨fun e he => ?_, by simp only [vertical_total, ih.2, if_neg hne, if_neg hne0]⟩
          rcases List.mem_cons.1 he with heq | hmem
          · rw [heq]
            intro hv
            exact absurd hv hne
          · exact ih.1 e hmem
    · split at h
      · cases h
      · next r' hr =>
        cases h
        have ih := row_pass_settled dpy fuel rest _ r' hr
          (fun e he => hall e (List.mem_cons_of_mem _ he))
        refine ⟨fun e he => ?_, by simp only [vertical_total, ih.2]⟩
        rcases List.mem_cons.1 he with heq | hmem
        · rw [heq]
          exact hall _ (List.mem_cons_self _ _)
        · exact ih.1 e hmem

/-- The first loop of `apply_layout` on children that are settled, or agree with
settled ones but for what the layout writes after the word wrap: they stay the same
but for that, and the totals are the ones of the settled children. -/
theorem measure_pass_refit (dpy : Display) (fuel : Nat) :
    ∀ (a a2 : List SlideElement) (th : ℚ) (n : Int),
      (∀ e ∈ a, settled dpy fuel e) → a2.map unplaced_child = a.map unplaced_child →
      ∃ m2, measure_pass dpy fuel a2 th n =
          .ok (m2, th + vertical_total a, n + (count_hboxes (stack_shape a) : Int)) ∧
        m2.map unplaced_child = a.map unplaced_child
  | [], [], th, n, _, _ => ⟨[], by simp [measure_pass, vertical_total, stack_shape, count_hboxes],
      rfl⟩
  | [], _ :: _, _, _, _, h => by simp at h
  | _ :: _, [], _, _, _, h => by simp at h
  | .slide s :: a, e2 :: a2, th, n, hall, h => by
    simp only [List.map_cons, List.cons.injEq] at h
    have he := unplaced_child_eq_other (.slide s) e2 (by intro b hb; cases hb) h.1
    subst he
    have hs : apply_layout dpy fuel s = .ok s := hall _ (List.mem_cons_self _ _)
    obtain ⟨m2, hm2, hmap⟩ := measure_pass_refit dpy fuel a a2 th n
      (fun e he => hall e (List.mem_cons_of_mem _ he)) h.2
    refine ⟨.slide s :: m2, ?_, by simp only [List.map_cons, hmap]⟩
    simp only [measure_pass, hs, hm2, vertical_total, stack_shape, count_hboxes]
  | .text t :: a, e2 :: a2, th, n, hall, h => by
    simp only [List.map_cons, List.cons.injEq] at h
    have he := unplaced_child_eq_other (.text t) e2 (by intro b hb; cases hb) h.1
    subst he
    obtain ⟨m2, hm2, hmap⟩ := measure_pass_refit dpy fuel a a2 th n
      (fun e he => hall e (List.mem_cons_of_mem _ he)) h.2
    refine ⟨.text t :: m2, ?_, by simp only [List.map_cons, hmap]⟩
    simp only [measure_pass, hm2, vertical_total, stack_shape, count_hboxes]
  | .image im :: a, e2 :: a2, th, n, hall, h => by
    simp only [List.map_cons, List.cons.injEq] at h
    have he := unplaced_child_eq_other (.image im) e2 (by intro b hb; cases hb) h.1
    subst he
    obtain ⟨m2, hm2, hmap⟩ := measure_pass_refit dpy fuel a a2 th n
      (fun e he => hall e (List.mem_cons_of_mem _ he)) h.2
    refine ⟨.image im :: m2, ?_, by simp only [List.map_cons, hmap]⟩
    simp only [measure_pass, hm2, vertical_total, stack_shape, count_hboxes]
  | .box b :: a, e2 :: a2, th, n, hall, h => by
    simp only [List.map_cons, List.cons.injEq] at h
    obtain ⟨b2, rfl, hb⟩ := unplaced_child_eq_box e2 _ h.1
    obtain ⟨-, hst, -⟩ := unplaced_box_fields b2 b hb
    have hall' : ∀ e ∈ a, settled dpy fuel e := fun e he => hall e (List.mem_cons_of_mem _ he)
    rcases stack_cases b.stack_type with hs | hs
    · have hs2 : b2.stack_type = .STACK_HORIZONTAL := hst.trans hs
      have hne : ¬ b.stack_type = .STACK_VERTICAL := by
        rw [hs]
        decide
      have hne2 : ¬ b2.stack_type = .STACK_VERTICAL := by
        rw [hs2]
        decide
      obtain ⟨m2, hm2, hmap⟩ := measure_pass_refit dpy fuel a a2 th (n + 1) hall' h.2
      refine ⟨.box (b2.set_height 1) :: m2, ?_, by
        simp only [List.map_cons, hmap, unplaced_child, set_height_unplaced b2 1 hs2, hb]⟩
      simp only [measure_pass, if_neg hne2, hm2, vertical_total, if_neg hne, zero_add,
        stack_shape, hs, count_hboxes]
      push_cast
      rw [add_assoc, add_comm (1 : Int), zero_add]
    · have hs2 : b2.stack_type = .STACK_VERTICAL := hst.trans hs
      have hb' : settled dpy fuel (.box b) := hall _ (List.mem_cons_self _ _)
      obtain ⟨wrapped, hwrap, hun, hh⟩ := hb' hs b2 hb
      have hheight : ((calculate_vbox_height dpy wrapped).1.set_height
          ((calculate_vbox_height dpy wrapped).2 / 1)).height = b.height := by
        rw [(box_set_height_fields _ _).2.2.1, hh]
      obtain ⟨m2, hm2, hmap⟩ := measure_pass_refit dpy fuel a a2 (th + b.height) n hall' h.2
      refine ⟨.box ((calculate_vbox_height dpy wrapped).1.set_height
          ((calculate_vbox_height dpy wrapped).2 / 1)) :: m2, ?_, by
        simp only [List.map_cons, hmap, unplaced_child, hun]⟩
      simp only [measure_pass, hs2, if_true, hwrap, hheight, hm2, vertical_total, hs,
        stack_shape, count_hboxes, add_assoc]

/-- The second loop of `apply_layout` on children that agree with what it returned,
but for what the layout writes after the word wrap: it returns them the same but for
that, with the same locals. -/
theorem row_pass_refit (dpy : Display) (fuel : Nat) :
    ∀ (a : List SlideElement) (rs : RowState) (r : List SlideElement × RowState),
      row_pass dpy fuel a rs = .ok r →
      ∀ a2 : List SlideElement, a2.map unplaced_child = r.1.map unplaced_child →
      ∃ r2, row_pass dpy fuel a2 rs = .ok (r2, r.2) ∧
        r2.map unplaced_child = r.1.map unplaced_child
  | [], rs, r, h, a2, h2 => by
    simp only [row_pass] at h
    cases h
    simp only [List.map_nil, List.map_eq_nil_iff] at h2
    subst h2
    exact ⟨[], rfl, rfl⟩
  | .slide s :: a, rs, r, h, a2, h2 => by
    simp only [row_pass] at h
    split at h
    · cases h
    · next r' hr =>
      cases h
      cases a2 with
      | nil => simp at h2
      | cons e2 a2 =>
        simp only [List.map_cons, List.cons.injEq] at h2
        have he := unplaced_child_eq_other (.slide s) e2 (by intro b hb; cases hb) h2.1
        subst he
        obtain ⟨r2, hr2, hmap⟩ := row_pass_refit dpy fuel a rs r' hr a2 h2.2
        exact ⟨.slide s :: r2, by simp only [row_pass, hr2], by simp only [List.map_cons, hmap]⟩
  | .text t :: a, rs, r, h, a2, h2 => by
    simp only [row_pass] at h
    split at h
    · cases h
    · next r' hr =>
      cases h
      cases a2 with
      | nil => simp at h2
      | cons e2 a2 =>
        simp only [List.map_cons, List.cons.injEq] at h2
        have he := unplaced_child_eq_other (.text t) e2 (by intro b hb; cases hb) h2.1
        subst he
        obtain ⟨r2, hr2, hmap⟩ := row_pass_refit dpy fuel a rs r' hr a2 h2.2
        exact ⟨.text t :: r2, by simp only [row_pass, hr2], by simp only [List.map_cons, hmap]⟩
  | .image im :: a, rs, r, h, a2, h2 => by
    simp only [row_pass] at h
    split at h
    · cases h
    · next r' hr =>
      cases h
      cases a2 with
      | nil => simp at h2
      | cons e2 a2 =>
        simp only [List.map_cons, List.cons.injEq] at h2
        have he := unplaced_child_eq_other (.image im) e2 (by intro b hb; cases hb) h2.1
        subst he
        obtain ⟨r2, hr2, hmap⟩ := row_pass_refit dpy fuel a rs r' hr a2 h2.2
        exact ⟨.image im :: r2, by simp only [row_pass, hr2], by simp only [List.map_cons, hmap]⟩
  | .box b :: a, rs, r, h, a2, h2 => by
    simp only [row_pass] at h
    split at h
    · next hst =>
      split at h
      · cases h
      · next box' hwrap =>
        split at h
        · cases h
        · next r' hr =>
          cases h
          cases a2 with
          | nil => simp at h2
          | cons e2 a2 =>
            simp only [List.map_cons, List.cons.injEq] at h2
            obtain ⟨b2, rfl, hb⟩ := unplaced_child_eq_box e2 _ h2.1
            obtain ⟨g1, g2, g3, g4, g5, -⟩ := unplaced_box_fields b2 box' hb
            have hf := apply_word_wrap_frame dpy fuel _ box' hwrap
            obtain ⟨hinv, hbox'⟩ := apply_word_wrap_inv dpy fuel _ box' hwrap
            obtain ⟨w1, w2, -, w4, -, -, w7, w8⟩ := box_set_width_fields b
              (if rs.in_row = true then rs else row_scan (.box b :: a) rs).hbox_width
            rw [w1, hst] at hf
            rw [w2] at hf
            rw [w2, w7, w4] at hinv
            have hs2 : b2.stack_type = .STACK_HORIZONTAL := g2.trans hf.2
            have hshape : stack_shape (.box b2 :: a2) = stack_shape (.box b :: a) := by
              simp only [stack_shape, hs2, hst, stack_shape_congr _ _ h2.2,
                row_pass_shape dpy fuel a _ r' hr]
            have hscan : row_scan (.box b2 :: a2) rs = row_scan (.box b :: a) rs := by
              rw [row_scan_spec, row_scan_spec, hshape]
            have hname : box'.name = b.name := by
              rw [hbox', (box_set_elements_fields _ _).2.2.2.2.2.2.1, w7]
            obtain ⟨out2, hout2, hmap2⟩ := wrap_from_settled dpy _ _ _ fuel _ _ _ hinv
              b2.elements
              (box_padding dpy (if rs.in_row = true then rs else row_scan (.box b :: a) rs).hbox_width)
              g4
            obtain ⟨v1, v2, -, v4, -, -, v7, v8⟩ := box_set_width_fields b2
              (if rs.in_row = true then rs else row_scan (.box b :: a) rs).hbox_width
            have hwrap2 : apply_word_wrap dpy fuel (b2.set_width
                (if rs.in_row = true then rs else row_scan (.box b :: a) rs).hbox_width) =
                .ok ((b2.set_width
                  (if rs.in_row = true then rs else row_scan (.box b :: a) rs).hbox_width
                  ).set_elements out2) := by
              apply apply_word_wrap_elements
              rw [v2, v7, v4, g3, hname]
              exact hout2
            obtain ⟨r2, hr2, hmap⟩ := row_pass_refit dpy fuel a _ r' hr a2 h2.2
            refine ⟨.box ((b2.set_width
                (if rs.in_row = true then rs else row_scan (.box b :: a) rs).hbox_width
                ).set_elements out2) :: r2, ?_, ?_⟩
            · simp only [row_pass, hs2, if_true, hscan, hwrap2, hr2]
            · simp only [List.map_cons, hmap, unplaced_child, List.cons.injEq, and_true,
                SlideElement.box.injEq]
              obtain ⟨u1, u2, -, u4, -, -, u7, u8⟩ := box_set_elements_fields (b2.set_width
                (if rs.in_row = true then rs else row_scan (.box b :: a) rs).hbox_width) out2
              apply unplaced_of_fields
              · rw [u8, v8, g1]
              · rw [u1, v1, g2]
              · rw [u7, v7, g3]
              · rw [u4, hmap2]
              · rw [u2, v2, hf.1]
              · intro hv
                rw [hf.2] at hv
                cases hv
    · next hst =>
      split at h
      · cases h
      · next r' hr =>
        cases h
        cases a2 with
        | nil => simp at h2
        | cons e2 a2 =>
          simp only [List.map_cons, List.cons.injEq] at h2
          obtain ⟨b2, rfl, hb⟩ := unplaced_child_eq_box e2 _ h2.1
          obtain ⟨-, g2, -⟩ := unplaced_box_fields b2 b hb
          have hst2 : ¬ b2.stack_type = .STACK_HORIZONTAL := by
            rw [g2]
            exact hst
          obtain ⟨r2, hr2, hmap⟩ := row_pass_refit dpy fuel a _ r' hr a2 h2.2
          exact ⟨.box b2 :: r2, by simp only [row_pass, if_neg hst2, hr2],
            by simp only [List.map_cons, hmap, unplaced_child, hb]⟩

theorem apply_word_wrap_cases (dpy : Display) (fuel : Nat) (box wrapped : Box)
    (h : apply_word_wrap dpy fuel box = .ok wrapped) :
    ∃ out, wrap_from dpy box.width box.name (box_padding dpy box.width) fuel box.elements
        (box_padding dpy box.width) = .ok out ∧ wrapped = box.set_elements out := by
  unfold apply_word_wrap at h
  split at h
  · cases h
  · next out hout =>
    cases h
    exact ⟨out, hout, rfl⟩

theorem content_height_congr (dpy : Display) (es es' : List SlideElement)
    (h : es.map unplaced_element = es'.map unplaced_element) :
    content_height dpy es = content_height dpy es' := by
  rw [← content_height_unplaced dpy es, h, content_height_unplaced]

/-- The Vertical box that the first loop of `apply_layout` leaves is settled. -/
theorem measured_box_settled (dpy : Display) (fuel : Nat) (b wrapped : Box)
    (hwrap : apply_word_wrap dpy fuel (b.set_width 1) = .ok wrapped) :
    settled dpy fuel (.box ((calculate_vbox_height dpy wrapped).1.set_height
      ((calculate_vbox_height dpy wrapped).2 / 1))) := by
  intro _ b2 hb2
  obtain ⟨out, hout, rfl⟩ := apply_word_wrap_cases dpy fuel _ wrapped hwrap
  obtain ⟨ta, st, nm, els, bx, by', bw, bh⟩ := b
  obtain ⟨ta2, st2, nm2, els2, bx2, by2, bw2, bh2⟩ := b2
  simp only [Box.set_width, Box.set_elements, Box.width, Box.name, Box.elements,
    calculate_vbox_height, Box.set_height, Box.unplaced, Box.mk.injEq,
    vbox_height_from_unplaced] at hout hb2 ⊢
  obtain ⟨h1, h2, h3, h4, -, -, h7, h8⟩ := hb2
  subst h1 h2 h3
  obtain ⟨out2, hout2, hmap2⟩ := wrap_from_settled dpy _ _ _ fuel _ _ _ hout els2
    (box_padding dpy 1) h4
  have hspec := vbox_height_from_spec dpy out (box_padding dpy 1)
  have hspec2 := vbox_height_from_spec dpy out2 (box_padding dpy 1)
  have hch := content_height_congr dpy out2 out hmap2
  refine ⟨.mk ta2 st2 nm2 out2 bx2 by2 1 bh2, ?_, ?_, ?_⟩
  · simp only [apply_word_wrap, Box.width, Box.name, Box.elements, hout2, Box.set_elements]
  · simp only [Box.elements, Box.width, Box.set_elements, Box.set_height, Box.unplaced,
      vbox_height_from_unplaced, hmap2, hspec.1, hspec2.1, hch]
  · simp only [Box.elements, Box.width, hspec.1, hspec2.1, hch, Box.height]

mutual
/-- What `apply_layout` returns, `apply_layout` returns as it is. -/
theorem apply_layout_settled (dpy : Display) (fuel : Nat) :
    ∀ (slide s : Slide), apply_layout dpy fuel slide = .ok s → apply_layout dpy fuel s = .ok s
  | .mk name visible elements, s, h => by
    simp only [apply_layout] at h
    split at h
    · cases h
    · next measured total_height total_hboxes hm =>
      split at h
      · cases h
      · next sized rs hr =>
        cases h
        have hsm := measure_pass_settled dpy fuel elements 0 0 _ hm
        have htot := measure_pass_total dpy fuel elements 0 0 _ hm
        have hms := measure_pass_shape dpy fuel elements 0 0 _ hm
        obtain ⟨hsr, hvt⟩ := row_pass_settled dpy fuel measured _ _ hr hsm
        have hrs := row_pass_shape dpy fuel measured _ _ hr
        simp only at htot hms hrs hvt hsr
        obtain ⟨m2, hm2, hmap2⟩ := measure_pass_refit dpy fuel sized
          (position_pass dpy (height_pass total_height rs.row_count sized) 0 0) 0 0 hsr
          (place_unplaced dpy total_height rs.row_count sized 0 0)
        have hT : (0 : ℚ) + vertical_total sized = total_height := by
          rw [hvt, htot]
        have hn : (0 : Int) + (count_hboxes (stack_shape sized) : Int) = total_hboxes := by
          rw [hrs, hms.1, hms.2]
        rw [hT, hn] at hm2
        obtain ⟨r2, hr2, hmapr⟩ := row_pass_refit dpy fuel measured _ _ hr m2 hmap2
        simp only [apply_layout, hm2, hr2]
        rw [place_congr dpy total_height rs.row_count r2 sized 0 0 hmapr]
/-- What the first loop of `apply_layout` leaves is settled. -/
theorem measure_pass_settled (dpy : Display) (fuel : Nat) :
    ∀ (es : List SlideElement) (th : ℚ) (n : Int) (r : List SlideElement × ℚ × Int),
      measure_pass dpy fuel es th n = .ok r → ∀ e ∈ r.1, settled dpy fuel e
  | [], th, n, r, h, e, he => by
    simp only [measure_pass] at h
    cases h
    simp at he
  | .slide s :: rest, th, n, r, h, e, he => by
    simp only [measure_pass] at h
    split at h
    · cases h
    · next nested hnested =>
      split at h
      · cases h
      · next r' hr =>
        cases h
        rcases List.mem_cons.1 he with heq | hmem
        · rw [heq]
          exact apply_layout_settled dpy fuel s nested hnested
        · exact measure_pass_settled dpy fuel rest th n r' hr e hmem
  | .text t :: rest, th, n, r, h, e, he => by
    simp only [measure_pass] at h
    split at h
    · cases h
    · next r' hr =>
      cases h
      rcases List.mem_cons.1 he with heq | hmem
      · rw [heq]
        trivial
      · exact measure_pass_settled dpy fuel rest th n r' hr e hmem
  | .image im :: rest, th, n, r, h, e, he => by
    simp only [measure_pass] at h
    split at h
    · cases h
    · next r' hr =>
      cases h
      rcases List.mem_cons.1 he with heq | hmem
      · rw [heq]
        trivial
      · exact measure_pass_settled dpy fuel rest th n r' hr e hmem
  | .box b :: rest, th, n, r, h, e, he => by
    rcases stack_cases b.stack_type with hst | hst
    · have hne : ¬ b.stack_type = .STACK_VERTICAL := by
        rw [hst]
        decide
      simp only [measure_pass, if_neg hne] at h
      split at h
      · cases h
      · next r' hr =>
        cases h
        rcases List.mem_cons.1 he with heq | hmem
        · rw [heq]
          intro hv
          rw [(box_set_height_fields b 1).1] at hv
          exact absurd hv hne
        · exact measure_pass_settled dpy fuel rest th _ r' hr e hmem
    · simp only [measure_pass, hst, if_true] at h
      split at h
      · cases h
      · next wrapped hwrap =>
        split at h
        · cases h
        · next r' hr =>
          cases h
          rcases List.mem_cons.1 he with heq | hmem
          · rw [heq]
            exact measured_box_settled dpy fuel b wrapped hwrap
          · exact measure_pass_settled dpy fuel rest _ n r' hr e hmem
end

/-- Claim C24: for every slide tree, window and fonts, if `apply_layout` returns
without error, then `apply_layout` on the tree it returned returns that tree again:
the same Texts with the same contents, and the same x, y, width and height of every
box and x, y and size of every element. -/
theorem layout_twice (dpy : Display) (fuel : Nat) (slide s : Slide)
    (h : apply_layout dpy fuel slide = .ok s) : apply_layout dpy fuel s = .ok s :=
  apply_layout_settled dpy fuel slide s h

theorem hello_brave_layout :
    apply_layout huge_font_display 3 hello_brave_slide = .ok hello_brave_laid_out := by
  have h1 : (huge_text_box "hello brave new world".toList).set_width 1 =
      huge_text_box "hello brave new world".toList := rfl
  have h2 : (huge_text_box "hello brave new world".toList).stack_type = .STACK_VERTICAL := rfl
  simp only [hello_brave_slide, apply_layout, measure_pass, h1, h2, if_true, hello_brave_wrap]
  norm_num [hello_brave_wrapped, hello_brave_laid_out, huge_font_display,
    row_pass, row_scan, height_pass, position_pass, position_elements,
    position_from, calculate_vbox_height, vbox_height_from,
    box_padding, padding_percent, Box.stack_type, Box.set_height, Box.set_width,
    Box.set_position, Box.set_elements, Box.elements, Box.width, Box.height, Box.name,
    aligned_x, float_to_int, Box.text_align, get_text_width, get_line_height, get_font_ascent]
  simp [row_pass, row_scan, height_pass, position_pass, position_elements,
    position_from, box_padding, padding_percent, Box.stack_type, Box.set_height, Box.set_width,
    Box.set_position, Box.set_elements, Box.elements, Box.width, Box.height, Box.name,
    aligned_x, float_to_int, Box.text_align, get_text_width, get_line_height, get_font_ascent]
  have h115 : ⌊(23 : ℚ) / 120 * 600⌋ = 115 := by
    rw [Int.floor_eq_iff]
    norm_num
  rw [h115]
  norm_num

/-- Witness for C24: the slide with the Text "hello brave new world", which the first
layout in `huge_font_display` wraps into "hello brave " and "new world ", is laid out
to itself by the second layout. -/
theorem layout_twice_witness :
    apply_layout huge_font_display 3 hello_brave_slide = .ok hello_brave_laid_out ∧
    apply_layout huge_font_display 3 hello_brave_laid_out = .ok hello_brave_laid_out :=
  ⟨hello_brave_layout,
    layout_twice huge_font_display 3 hello_brave_slide hello_brave_laid_out hello_brave_layout⟩

theorem elements_agree_length (v : Bool) :
    ∀ es cs : List SlideElement, elements_agree v es cs = true → es.length = cs.length
  | [], [], _ => rfl
  | [], _ :: _, h => by simp [elements_agree] at h
  | _ :: _, [], h => by simp [elements_agree] at h
  | e :: es, c :: cs, h => by
    simp only [elements_agree, Bool.and_eq_true] at h
    simp [elements_agree_length v es cs h.2]

/-! ## Lines without a keyword (C39) -/

theorem run_keyword_other (stbi_load : List Char → Option Decoded) (st : ParserState)
    (split : List (List Char)) (line_num : Nat) (hkw : split.getD 0 [] ∉ keyword_map) :
    run_keyword stbi_load st split line_num = .ok st := by
  simp only [keyword_map, List.mem_cons, List.mem_singleton, List.not_mem_nil, or_false,
    not_or] at hkw
  obtain ⟨h1, h2, h3, h4, h5, h6, h7⟩ := hkw
  unfold run_keyword
  simp only [if_neg h1, if_neg h2, if_neg h3, if_neg h4, if_neg h5, if_neg h6, if_neg h7]

/-- Claim C39: a line whose first token (the first string `split_str` cuts out of the
trimmed line at ':' and ',') is none of the seven keywords of `keyword_map` and does
not contain "end" is passed over: `parse_line` returns without error and with the
state it was given, so `current_slide`, `current_box`, the tree and the SlideList
are unchanged. -/
theorem other_line_is_passed_over (stbi_load : List Char → Option Decoded) (st : ParserState)
    (line : List Char) (line_num : Nat)
    (hkw : (split_str (trim_str line) ":,".toList).getD 0 [] ∉ keyword_map)
    (hend : strstr ((split_str (trim_str line) ":,".toList).getD 0 []) "end".toList = false) :
    parse_line stbi_load st line line_num = .ok st := by
  unfold parse_line
  simp only []
  split
  · rfl
  · split
    · rfl
    · rw [run_keyword_other stbi_load st _ line_num hkw]
      simp only [handle_end, hend]
      rfl

/-- Witness for C39: the line `slide "A"`, without ':' between the keyword and the
argument, is one token, `slide "A"`; read in the state at the start of the file it
opens no slide. -/
theorem other_line_is_passed_over_witness :
    split_str (trim_str "slide \"A\"\n".toList) ":,".toList = ["slide \"A\"".toList] ∧
    parse_line (fun _ => none) ParserState.init "slide \"A\"\n".toList 1 =
      .ok ParserState.init :=
  ⟨rfl, other_line_is_passed_over (fun _ => none) ParserState.init "slide \"A\"\n".toList 1
    (by decide) (by decide)⟩

/-! ## Deep copy of nested templates (C38) -/

/-- Claim C38: for every slide `s` shaped as the parser builds it (slides hold only
Boxes and nested Slides, boxes only Texts and Images; the image files decode, as they
did when the parser read them), `copy_slide` returns a slide `c` with
`visible = true`, whatever `s.visible` is, and with the name of `s`; the children of
`c` are as many as those of `s` and in the same order, with equal Box name, stack_type
and text_align, equal Text content and font_size and equal Image filename,
recursively (`Slide.agrees false`, which leaves the `visible` flags out). -/
theorem copy_slide_visible_and_equal (stbi_load : List Char → Option Decoded) (s : Slide)
    (hshape : s.parser_shaped = true)
    (hload : ∀ im ∈ s.images, (stbi_load im.filename).isSome = true) :
    ∃ c, copy_slide stbi_load s = .ok c ∧ c.visible = true ∧ c.name = s.name ∧
      c.elements.length = s.elements.length ∧ s.agrees false c = true := by
  obtain ⟨c, h1, h2, h3⟩ := copy_slide_agrees_aux stbi_load s hshape hload
  obtain ⟨name, visible, elements⟩ := s
  obtain ⟨name', visible', elements'⟩ := c
  simp only [Slide.all_visible, Bool.and_eq_true] at h3
  have hn : name = name' := by
    simp only [Slide.agrees, Slide.name, Bool.and_eq_true, decide_eq_true_eq] at h2
    exact h2.1.1
  have hl : elements_agree false elements elements' = true := by
    simp only [Slide.agrees, Slide.elements, Bool.and_eq_true] at h2
    exact h2.2
  refine ⟨_, h1, h3.1, hn.symm, (elements_agree_length false elements elements' hl).symm, h2⟩

/-- Witness for C38: the copy of the template `template_of_templates`, which is not
visible and holds a template that is not visible, with a decoder that reads every
file as a 4 by 3 image. -/
theorem copy_slide_visible_and_equal_witness :
    template_of_templates.visible = false ∧
    ∃ c, copy_slide (fun _ => some ⟨4, 3, 4⟩) template_of_templates = .ok c ∧
      c.visible = true ∧ c.name = template_of_templates.name ∧
      c.elements.length = template_of_templates.elements.length ∧
      template_of_templates.agrees false c = true :=
  ⟨rfl, copy_slide_visible_and_equal (fun _ => some ⟨4, 3, 4⟩) template_of_templates rfl
    (fun _ _ => rfl)⟩

/-! ## Stepping back from the end slide (C37) -/

/-- Claim C37 on the code: with the SlideList of the slide "A" followed by the
template "T" (length 2), `skip_templates` starts at index 0, two forward steps of
`change_slide` lead to index 1 and then to index 2, the end slide; the backward step
from there tests `slides[1]`, the template, which is not visible, so the index stays
2 and `render_slide(*list.slides[2])` reads past the end of the list. -/
theorem step_back_from_end_reads_past_list :
    slide_then_template.length = 2 ∧
    skip_templates slide_then_template 0 = .ok 0 ∧
    change_slide slide_then_template 0 1 = .ok (1, some (.slide 1)) ∧
    change_slide slide_then_template 1 1 = .ok (2, some .end_slide) ∧
    may_step_back slide_then_template 2 (-1) = .ok false ∧
    change_slide slide_then_template 2 (-1) =
      .error (.undefined (.slide_index_out_of_bounds 2)) :=
  ⟨rfl, rfl, rfl, rfl, rfl, rfl⟩

/-! ## A row that ends in a nested slide (C36) -/

/-- Claim C36 on the code: the slide `hbox_then_slide` has one Horizontal box, and
its last child is a nested Slide. The first loop of `apply_layout` counts the box
(`total_hboxes = 1`); the inner loop of the second loop passes over the nested Slide
before it tests for the end of the children, so the row is never closed: after the
second loop `in_row` is false and `row_count` is 0, and that is the divisor of
`(1 - total_height) / row_count` in the third loop. -/
theorem row_count_zero_at_division :
    count_hboxes (stack_shape hbox_then_slide.elements) = 1 ∧
    ∃ measured sized rs,
      measure_pass example_display 0 hbox_then_slide.elements 0 0 = .ok (measured, 0, 1) ∧
      row_pass example_display 0 measured
        { in_row := false, cur_count := 0, hbox_width := 1 / ((1 : Int) : ℚ), row_count := 0 } =
          .ok (sized, rs) ∧
      rs.in_row = false ∧ rs.row_count = 0 ∧
      height_pass 0 rs.row_count sized =
        [.box (.mk .TEXT_ALIGN_LEFT .STACK_HORIZONTAL "a".toList [] 0 0 1
          ((1 - 0) / ((0 : Int) : ℚ))),
         .slide (.mk "T".toList true [])] := by
  refine ⟨rfl,
    [.box (.mk .TEXT_ALIGN_LEFT .STACK_HORIZONTAL "a".toList [] 0 0 0 1),
     .slide (.mk "T".toList true [])],
    [.box (.mk .TEXT_ALIGN_LEFT .STACK_HORIZONTAL "a".toList [] 0 0 1 1),
     .slide (.mk "T".toList true [])],
    { in_row := false, cur_count := 1, hbox_width := 1, row_count := 0 }, ?_, ?_, rfl, rfl, ?_⟩
  · simp [hbox_then_slide, Slide.elements, measure_pass, apply_layout, row_pass, height_pass,
      position_pass, Box.stack_type, Box.set_height]
  · simp [row_pass, row_scan, apply_word_wrap, wrap_from, Box.stack_type, Box.set_width,
      Box.set_elements, Box.width, Box.name, Box.elements]
  · simp [height_pass, Box.stack_type, Box.set_height]

/-! ## Word wrap: one wrap step on the box (C31, C35) -/

theorem drop_of_getElem? {α : Type} (l : List α) (i : Nat) (a : α) (h : l[i]? = some a) :
    l.drop i = a :: l.drop (i + 1) ∧ (l.take i).length = i := by
  have hi : i < l.length := by
    by_contra hge
    rw [List.getElem?_eq_none (by omega)] at h
    cases h
  have ha : l[i] = a := by
    rw [List.getElem?_eq_getElem hi] at h
    exact Option.some.inj h
  refine ⟨?_, by simp; omega⟩
  rw [← ha]
  exact List.drop_eq_getElem_cons hi

theorem wrap_step_elements (dpy : Display) (box : Box) (i : Nat) (t : Text)
    (ht : box.elements[i]? = some (.text t)) :
    (wrap_step dpy box i).elements =
      box.elements.take i ++ .text (create_text (new_line dpy box.width t) t.font_size) ::
        carry_remainder (next_line dpy box.width t) t.font_size (box.elements.drop (i + 1)) ∧
    (wrap_step dpy box i).width = box.width ∧ (wrap_step dpy box i).name = box.name := by
  have hd := (drop_of_getElem? box.elements i _ ht).1
  unfold wrap_step
  rw [hd]
  obtain ⟨text_align, stack_type, name, elements, x, y, width, height⟩ := box
  exact ⟨rfl, rfl, rfl⟩

theorem getElem?_take_append_lt {α : Type} (l r : List α) (i k : Nat) (hk : k < i)
    (hi : i ≤ l.length) : (l.take i ++ r)[k]? = l[k]? := by
  rw [List.getElem?_append_left (by simp; omega), List.getElem?_take_of_lt hk]

theorem getElem?_take_append_ge {α : Type} (l r : List α) (i j : Nat) (hi : i ≤ l.length) :
    (l.take i ++ r)[i + j]? = r[j]? := by
  rw [List.getElem?_append_right (by simp)]
  congr 1
  simp
  omega

/-- A wrap step is what a pass of the loop of `apply_word_wrap` does at a Text that
is too wide, holds a blank and has no word wider than the box: the loop goes on, at
the same index, on the box after the step. -/
theorem wrap_from_step (dpy : Display) (box : Box) (i : Nat) (t : Text) (padding : ℚ)
    (fuel : Nat) (current_y : ℚ) (ht : box.elements[i]? = some (.text t))
    (hwide : get_text_width dpy t / (dpy.width : ℚ) + padding > box.width)
    (hblank : strstr t.content [' '] = true)
    (hmax : ¬ max_word_width dpy t.font_size (split_str t.content [' ']) 0 > box.width) :
    wrap_from dpy box.width box.name padding (fuel + 1) (box.elements.drop i) current_y =
      wrap_from dpy box.width box.name padding fuel ((wrap_step dpy box i).elements.drop i)
        current_y := by
  have hd := drop_of_getElem? box.elements i _ ht
  rw [(wrap_step_elements dpy box i t ht).1, hd.1,
    wrap_from_split dpy box.width box.name padding fuel t _ current_y hwide hblank hmax]
  have hdrop : ∀ r : List SlideElement, (box.elements.take i ++ r).drop i = r := by
    intro r
    rw [List.drop_append_of_le_length (by rw [hd.2])]
    simp [List.drop_eq_nil_of_le, hd.2]
  rw [hdrop]
  rfl

/-- Claim C31: a wrap step at index `i`, where the box with `n` children has the Text
`t`. The children before `i` are unchanged, and the Text at `i` now holds the words
before the break. If child `i + 1` is a Text, the number of children stays `n`, the
content of child `i + 1` becomes the remainder followed by its former content, and
the children after it are unchanged. Otherwise the number of children becomes
`n + 1`, a new Text with the remainder is at `i + 1`, and the former children
`i + 1 .. n - 1` are at `i + 2 .. n` in the same order. The pass of the loop of
`apply_word_wrap` at a Text that is too wide, holds a blank and has no over-wide word
is this step. -/
theorem wrap_step_children (dpy : Display) (box : Box) (i : Nat) (t : Text)
    (ht : box.elements[i]? = some (.text t)) :
    (∀ k, k < i → (wrap_step dpy box i).elements[k]? = box.elements[k]?) ∧
    (∃ new_text, (wrap_step dpy box i).elements[i]? = some (.text new_text) ∧
      new_text.content = new_line dpy box.width t) ∧
    (∀ next_text, box.elements[i + 1]? = some (.text next_text) →
      (wrap_step dpy box i).elements.length = box.elements.length ∧
      (∃ merged, (wrap_step dpy box i).elements[i + 1]? = some (.text merged) ∧
        merged.content = next_line dpy box.width t ++ next_text.content) ∧
      ∀ k, i + 1 < k → (wrap_step dpy box i).elements[k]? = box.elements[k]?) ∧
    ((∀ next_text, box.elements[i + 1]? ≠ some (.text next_text)) →
      (wrap_step dpy box i).elements.length = box.elements.length + 1 ∧
      (∃ inserted, (wrap_step dpy box i).elements[i + 1]? = some (.text inserted) ∧
        inserted.content = next_line dpy box.width t) ∧
      ∀ k, i + 1 ≤ k → k < box.elements.length →
        (wrap_step dpy box i).elements[k + 1]? = box.elements[k]?) ∧
    (∀ (fuel : Nat) (current_y : ℚ),
      get_text_width dpy t / (dpy.width : ℚ) + box_padding dpy box.width > box.width →
      strstr t.content [' '] = true →
      ¬ max_word_width dpy t.font_size (split_str t.content [' ']) 0 > box.width →
      wrap_from dpy box.width box.name (box_padding dpy box.width) (fuel + 1)
          (box.elements.drop i) current_y =
        wrap_from dpy box.width box.name (box_padding dpy box.width) fuel
          ((wrap_step dpy box i).elements.drop i) current_y) := by
  have hi : i < box.elements.length := by
    by_contra hge
    rw [List.getElem?_eq_none (by omega)] at ht
    cases ht
  have he := (wrap_step_elements dpy box i t ht).1
  refine ⟨?_, ?_, ?_, ?_, ?_⟩
  · intro k hk
    rw [he, getElem?_take_append_lt box.elements _ i k hk (by omega)]
  · refine ⟨create_text (new_line dpy box.width t) t.font_size, ?_, rfl⟩
    rw [he]
    have h0 := getElem?_take_append_ge box.elements
      (.text (create_text (new_line dpy box.width t) t.font_size) ::
        carry_remainder (next_line dpy box.width t) t.font_size (box.elements.drop (i + 1)))
      i 0 (by omega)
    simpa using h0
  · intro next_text hnext
    have hd := (drop_of_getElem? box.elements (i + 1) _ hnext).1
    rw [he, hd]
    refine ⟨?_, ⟨create_text (next_line dpy box.width t ++ next_text.content) t.font_size,
      ?_, rfl⟩, ?_⟩
    · have hlen : i + 1 < box.elements.length := by
        by_contra hge
        rw [List.getElem?_eq_none (by omega)] at hnext
        cases hnext
      simp [carry_remainder]
      omega
    · rw [getElem?_take_append_ge box.elements _ i 1 (by omega)]
      simp [carry_remainder]
    · intro k hk
      obtain ⟨j, rfl⟩ : ∃ j, k = i + (j + 2) := ⟨k - i - 2, by omega⟩
      rw [getElem?_take_append_ge box.elements _ i (j + 2) (by omega)]
      simp only [carry_remainder, List.getElem?_cons_succ]
      rw [List.getElem?_drop]
      congr 1
      omega
  · intro hnone
    have hc : carry_remainder (next_line dpy box.width t) t.font_size
        (box.elements.drop (i + 1)) =
        .text (create_text (next_line dpy box.width t) t.font_size) ::
          box.elements.drop (i + 1) := by
      rcases hrest : box.elements.drop (i + 1) with _ | ⟨e, after⟩
      · rfl
      · cases e with
        | text next_text =>
          exfalso
          apply hnone next_text
          have hget : (box.elements.drop (i + 1))[0]? = box.elements[i + 1]? := by
            rw [List.getElem?_drop]
          rw [hrest] at hget
          simpa using hget.symm
        | slide s => rfl
        | box b => rfl
        | image im => rfl
    rw [he, hc]
    refine ⟨?_, ⟨create_text (next_line dpy box.width t) t.font_size, ?_, rfl⟩, ?_⟩
    · simp
      omega
    · rw [getElem?_take_append_ge box.elements _ i 1 (by omega)]
      simp
    · intro k hk hkn
      obtain ⟨j, rfl⟩ : ∃ j, k = i + 1 + j := ⟨k - i - 1, by omega⟩
      rw [show i + 1 + j + 1 = i + (j + 2) by omega,
        getElem?_take_append_ge box.elements _ i (j + 2) (by omega)]
      simp only [List.getElem?_cons_succ]
      rw [List.getElem?_drop]
  · intro fuel current_y hwide hblank hmax
    exact wrap_from_step dpy box i t _ fuel current_y ht hwide hblank hmax

theorem wrap_step_hello_brave :
    (wrap_step huge_font_display (huge_text_box "hello brave new world".toList) 0).elements =
      [.text (create_text "hello brave ".toList .FONT_HUGE),
       .text (create_text "new world ".toList .FONT_HUGE)] := by
  rw [(wrap_step_elements huge_font_display (huge_text_box "hello brave new world".toList) 0
    (create_text "hello brave new world".toList .FONT_HUGE) rfl).1]
  have hw : (huge_text_box "hello brave new world".toList).width = 1 := rfl
  rw [hw]
  unfold new_line next_line
  rw [break_hello_brave]
  rfl

theorem hello_brave_wide :
    get_text_width huge_font_display (create_text "hello brave new world".toList .FONT_HUGE) /
      (huge_font_display.width : ℚ) + 1 / 40 > 1 := by
  rw [huge_text_width, huge_width]
  norm_num [create_text]

theorem hello_brave_words_fit :
    ¬ max_word_width huge_font_display .FONT_HUGE
      (split_str "hello brave new world".toList [' ']) 0 > 1 := by
  rw [split_hello_brave]
  norm_num [max_word_width, huge_font_display, get_strtext_width]

/-- Witness for C31: the box with the one Text "hello brave new world", in a window
where the box holds 20 characters of the font. The wrap step at index 0 leaves
"hello brave " at index 0 and inserts "new world " at index 1: two children instead
of one; and the loop of `apply_word_wrap` takes this step. -/
theorem wrap_step_children_witness :
    (wrap_step huge_font_display (huge_text_box "hello brave new world".toList) 0).elements =
      [.text (create_text "hello brave ".toList .FONT_HUGE),
       .text (create_text "new world ".toList .FONT_HUGE)] ∧
    (wrap_step huge_font_display (huge_text_box "hello brave new world".toList) 0).elements.length =
      (huge_text_box "hello brave new world".toList).elements.length + 1 ∧
    wrap_from huge_font_display 1 "v".toList (1 / 40) (2 + 1)
        ((huge_text_box "hello brave new world".toList).elements.drop 0) (1 / 40) =
      wrap_from huge_font_display 1 "v".toList (1 / 40) 2
        ((wrap_step huge_font_display (huge_text_box "hello brave new world".toList) 0).elements.drop
          0) (1 / 40) := by
  have h := wrap_step_children huge_font_display (huge_text_box "hello brave new world".toList) 0
    (create_text "hello brave new world".toList .FONT_HUGE) rfl
  refine ⟨wrap_step_hello_brave, (h.2.2.2.1 (fun next_text hn => by cases hn)).1, ?_⟩
  have h5 := h.2.2.2.2 2 (1 / 40)
  have hw : (huge_text_box "hello brave new world".toList).width = 1 := rfl
  have hn : (huge_text_box "hello brave new world".toList).name = "v".toList := rfl
  rw [hw, hn, huge_padding] at h5
  exact h5 hello_brave_wide rfl hello_brave_words_fit

/-- Claim C35: a wrap step at index `i`, where the box has the Text `t`. The Text at
`i` after the step has the font size of `t`: the step does not change the font size
of the wrapped element. If child `i + 1` is a Text, the step merges the remainder
into it, and the merged Text has the font size of `t`, the element being wrapped,
which is not the font size of the sibling when the two differ. -/
theorem wrap_step_font_size (dpy : Display) (box : Box) (i : Nat) (t : Text)
    (ht : box.elements[i]? = some (.text t)) :
    (∃ new_text, (wrap_step dpy box i).elements[i]? = some (.text new_text) ∧
      new_text.font_size = t.font_size) ∧
    (∀ next_text, box.elements[i + 1]? = some (.text next_text) →
      ∃ merged, (wrap_step dpy box i).elements[i + 1]? = some (.text merged) ∧
        merged.content = next_line dpy box.width t ++ next_text.content ∧
        merged.font_size = t.font_size ∧
        (next_text.font_size ≠ t.font_size → merged.font_size ≠ next_text.font_size)) := by
  have hi : i < box.elements.length := by
    by_contra hge
    rw [List.getElem?_eq_none (by omega)] at ht
    cases ht
  have he := (wrap_step_elements dpy box i t ht).1
  refine ⟨⟨create_text (new_line dpy box.width t) t.font_size, ?_, rfl⟩, ?_⟩
  · rw [he]
    have h0 := getElem?_take_append_ge box.elements
      (.text (create_text (new_line dpy box.width t) t.font_size) ::
        carry_remainder (next_line dpy box.width t) t.font_size (box.elements.drop (i + 1)))
      i 0 (by omega)
    simpa using h0
  · intro next_text hnext
    have hd := (drop_of_getElem? box.elements (i + 1) _ hnext).1
    refine ⟨create_text (next_line dpy box.width t ++ next_text.content) t.font_size, ?_, rfl,
      rfl, fun hne => Ne.symm hne⟩
    rw [he, hd, getElem?_take_append_ge box.elements _ i 1 (by omega)]
    simp [carry_remainder]

/-- Witness for C35: the Huge Text "hello brave new world" followed by the Normal Text
"again". The wrap step at index 0 leaves the Huge Text "hello brave " and merges the
remainder into the sibling: "new world again", now of the Huge size. -/
theorem wrap_step_font_size_witness :
    (wrap_step huge_font_display two_fonts_box 0).elements =
      [.text (create_text "hello brave ".toList .FONT_HUGE),
       .text (create_text "new world again".toList .FONT_HUGE)] ∧
    ∃ merged, (wrap_step huge_font_display two_fonts_box 0).elements[0 + 1]? =
        some (.text merged) ∧
      merged.content = next_line huge_font_display two_fonts_box.width
        (create_text "hello brave new world".toList .FONT_HUGE) ++
          (create_text "again".toList .FONT_NORMAL).content ∧
      merged.font_size = (create_text "hello brave new world".toList .FONT_HUGE).font_size ∧
      ((create_text "again".toList .FONT_NORMAL).font_size ≠
          (create_text "hello brave new world".toList .FONT_HUGE).font_size →
        merged.font_size ≠ (create_text "again".toList .FONT_NORMAL).font_size) := by
  refine ⟨?_, (wrap_step_font_size huge_font_display two_fonts_box 0
    (create_text "hello brave new world".toList .FONT_HUGE) rfl).2
    (create_text "again".toList .FONT_NORMAL) rfl⟩
  rw [(wrap_step_elements huge_font_display two_fonts_box 0
    (create_text "hello brave new world".toList .FONT_HUGE) rfl).1]
  have hw : two_fonts_box.width = 1 := rfl
  rw [hw]
  unfold new_line next_line
  rw [break_hello_brave]
  rfl

/-! ## The bound of the word wrap, with the padding (C33) -/

theorem box_padding_eq (dpy : Display) (box_width : ℚ) (hw : dpy.width ≠ 0) :
    box_padding dpy box_width = padding_percent / box_width := by
  have hq : (dpy.width : ℚ) ≠ 0 := by exact_mod_cast hw
  unfold box_padding
  by_cases hb : box_width = 0
  · simp [hb]
  · field_simp
    ring

/-- Claim C33: whenever `apply_word_wrap` returns on a box, in a window whose width is
not 0, the width of the box is unchanged, the padding is 0.025 / box width, and every
Text of the returned box whose content contains a blank satisfies
text_width / viewport_width + padding ≤ box width. A Text that was shortened is
examined again at the same index: the pass of the loop at a Text that is too wide,
holds a blank and has no over-wide word goes on with the box after the wrap step from
the same index, where the shortened Text stands. -/
theorem wrapped_blank_texts_fit (dpy : Display) (fuel : Nat) (box wrapped : Box)
    (hwidth : dpy.width ≠ 0) (h : apply_word_wrap dpy fuel box = .ok wrapped) :
    wrapped.width = box.width ∧
    box_padding dpy box.width = (1 / 40) / box.width ∧
    (∀ t, .text t ∈ wrapped.elements → strstr t.content [' '] = true →
      get_text_width dpy t / (dpy.width : ℚ) + (1 / 40) / box.width ≤ box.width) ∧
    (∀ (b : Box) (i : Nat) (t : Text) (passes : Nat) (current_y : ℚ),
      b.elements[i]? = some (.text t) →
      get_text_width dpy t / (dpy.width : ℚ) + box_padding dpy b.width > b.width →
      strstr t.content [' '] = true →
      ¬ max_word_width dpy t.font_size (split_str t.content [' ']) 0 > b.width →
      wrap_from dpy b.width b.name (box_padding dpy b.width) (passes + 1) (b.elements.drop i)
          current_y =
        wrap_from dpy b.width b.name (box_padding dpy b.width) passes
          ((wrap_step dpy b i).elements.drop i) current_y ∧
      ((wrap_step dpy b i).elements.drop i).head? =
        some (.text (create_text (new_line dpy b.width t) t.font_size))) := by
  have hp := box_padding_eq dpy box.width hwidth
  rw [show padding_percent = (1 : ℚ) / 40 from rfl] at hp
  refine ⟨(apply_word_wrap_frame dpy fuel box wrapped h).1, hp, ?_, ?_⟩
  · intro t ht hblank
    have hb := wrap_from_bound dpy _ _ _ fuel _ _ _ (apply_word_wrap_inv dpy fuel box wrapped h).1
      t ht hblank
    rw [hp] at hb
    exact hb
  · intro b i t passes current_y ht hwide hblank hmax
    refine ⟨wrap_from_step dpy b i t _ passes current_y ht hwide hblank hmax, ?_⟩
    have hd := drop_of_getElem? b.elements i _ ht
    rw [(wrap_step_elements dpy b i t ht).1, List.drop_append_of_le_length (by rw [hd.2])]
    simp [List.drop_eq_nil_of_le, hd.2]

/-- Witness for C33: after the wrap of "hello brave new world" in a window 800 pixels
wide, in a box of width 1, the Text "hello brave " is 480 pixels wide: 3/5 and the
padding 1/40 are within the width 1. -/
theorem wrapped_blank_texts_fit_witness :
    apply_word_wrap huge_font_display 3 (huge_text_box "hello brave new world".toList) =
      .ok hello_brave_wrapped ∧
    (40 * 12 : ℚ) / 800 + (1 / 40) / 1 ≤ 1 := by
  refine ⟨hello_brave_wrap, ?_⟩
  have h := (wrapped_blank_texts_fit huge_font_display 3
    (huge_text_box "hello brave new world".toList) hello_brave_wrapped (by decide)
    hello_brave_wrap).2.2.1
    { font_size := .FONT_HUGE, content := "hello brave ".toList, x := 0, y := 11 / 120,
      size := 1 / 20 } (by simp [hello_brave_wrapped, Box.elements]) rfl
  rw [huge_text_width, huge_width] at h
  simpa [huge_text_box, Box.width] using h

/-! ## Places of the elements of a box (C32) -/

theorem position_from_follows (dpy : Display) (box : Box) (element_count : Nat)
    (box_height_px : Int) (box_aspect_ratio padding : ℚ) (hcount : element_count ≠ 1) :
    ∀ (es : List SlideElement) (current_y : ℚ),
      follows_cursor dpy box_height_px current_y
        (position_from dpy box element_count box_height_px box_aspect_ratio padding es
          current_y) = true
  | [], _ => rfl
  | .text t :: rest, current_y => by
    simp only [position_from, if_neg hcount, follows_cursor, Bool.and_eq_true, decide_eq_true_eq]
    exact ⟨rfl, position_from_follows dpy box element_count box_height_px box_aspect_ratio padding
      hcount rest _⟩
  | .image im :: rest, current_y => by
    simp only [position_from, if_neg hcount, follows_cursor, Bool.and_eq_true, decide_eq_true_eq]
    exact ⟨trivial, position_from_follows dpy box element_count box_height_px box_aspect_ratio
      padding hcount rest _⟩
  | .slide s :: rest, current_y => by
    simp only [position_from, follows_cursor]
    exact position_from_follows dpy box element_count box_height_px box_aspect_ratio padding
      hcount rest _
  | .box b :: rest, current_y => by
    simp only [position_from, follows_cursor]
    exact position_from_follows dpy box element_count box_height_px box_aspect_ratio padding
      hcount rest _

theorem lone_image_place (dpy : Display) (box : Box) (box_height_px : Int)
    (box_aspect_ratio padding : ℚ) (im : Image) (cursor : ℚ) :
    ∃ placed,
      position_from dpy box 1 box_height_px box_aspect_ratio padding [.image im] cursor =
        [.image placed] ∧
      placed.y = 1 / 2 - placed.rheight / 2 ∧ placed.y + placed.rheight / 2 = 1 / 2 ∧
      (scaled_rheight box_aspect_ratio im ≤ box.height - cursor →
        placed.rheight = scaled_rheight box_aspect_ratio im ∧
        placed.y = 1 / 2 - scaled_rheight box_aspect_ratio im / 2) ∧
      (scaled_rheight box_aspect_ratio im > box.height - cursor →
        placed.rheight = box.height - cursor ∧
        placed.y = (1 - box.height + cursor) / 2) := by
  simp only [position_from, if_true]
  refine ⟨_, rfl, rfl, by ring, ?_, ?_⟩
  · intro hle
    have hn : ¬ scaled_rheight box_aspect_ratio im > box.height - cursor := not_lt.2 hle
    unfold scaled_rheight at hn
    simp only [hn, decide_False, Bool.false_eq_true, if_false]
    exact ⟨rfl, rfl⟩
  · intro hgt
    have hg := hgt
    unfold scaled_rheight at hg
    simp only [hg, decide_True, if_true, true_and]
    ring

/-- Counterexample to C32 as stated: the lone image of 600 by 800 pixels in a box of
width 1 and height 1, in a window of 800 by 600 pixels. Its scaled height 8/5 is more
than the room below the cursor, so `position_elements` cuts `rheight` to the height of
the box minus the cursor: started at the padding 1/40, the loop gives rheight = 39/40
and y = 1/80; started at 0 it gives rheight = 1 and y = 0, and started at 1/2 it gives
rheight = 1/2 and y = 1/4. The y of the lone Image depends on the cursor. -/
theorem lone_image_depends_on_cursor :
    lone_image_box.elements = [.image tall_image] ∧
    (position_elements example_display lone_image_box).elements =
      [.image { tall_image with rwidth := 351 / 640, rheight := 39 / 40, y := 1 / 80,
                                x := 1 / 40 }] ∧
    box_padding example_display lone_image_box.width = 1 / 40 ∧
    position_from example_display lone_image_box 1
        (float_to_int (lone_image_box.height * (example_display.height : ℚ)))
        ((lone_image_box.width * (example_display.width : ℚ)) /
          (lone_image_box.height * (example_display.height : ℚ)))
        (box_padding example_display lone_image_box.width) [.image tall_image] 0 =
      [.image { tall_image with rwidth := 9 / 16, rheight := 1, y := 0, x := 1 / 40 }] ∧
    position_from example_display lone_image_box 1
        (float_to_int (lone_image_box.height * (example_display.height : ℚ)))
        ((lone_image_box.width * (example_display.width : ℚ)) /
          (lone_image_box.height * (example_display.height : ℚ)))
        (box_padding example_display lone_image_box.width) [.image tall_image] (1 / 2) =
      [.image { tall_image with rwidth := 9 / 32, rheight := 1 / 2, y := 1 / 4,
                                x := 1 / 40 }] := by
  have hp : box_padding example_display lone_image_box.width = 1 / 40 := by
    norm_num [box_padding, padding_percent, example_display, lone_image_box, Box.width]
  refine ⟨rfl, ?_, hp, ?_, ?_⟩
  · rw [position_elements, elements_set_elements, hp]
    norm_num [position_from, lone_image_box, tall_image, example_display, Box.elements,
      Box.width, Box.height, Box.text_align, aligned_x]
  · rw [hp]
    norm_num [position_from, lone_image_box, tall_image, example_display, Box.elements,
      Box.width, Box.height, Box.text_align, aligned_x]
  · rw [hp]
    norm_num [position_from, lone_image_box, tall_image, example_display, Box.elements,
      Box.width, Box.height, Box.text_align, aligned_x]

/-- Claim C32, amended: `position_elements` on a box with exactly one child. A lone
Text gets y = 1/2 + line_height/2, with the line height of its font in the height of
the box in pixels, whatever value the loop starts the cursor with (in
`position_elements`, the padding). A lone Image gets y = 1/2 - rheight/2, so that its
vertical midpoint y + rheight/2 is 1/2, with the `rheight` that the call gives it:
the scaled height of the image when that is at most the height of the box minus the
cursor, and then y does not depend on the cursor; and else the height of the box
minus the cursor, and then y = (1 - box height + cursor)/2 does depend on it. On a
box with two or more children the places follow the cursor: from the padding on, a
Text is at the cursor plus the ascent of its font and moves the cursor on by its line
height, an Image is at the cursor and moves it on by its `rheight`. -/
theorem lone_child_centred (dpy : Display) (box : Box) :
    (∀ t, box.elements = [.text t] →
      ∃ placed, (position_elements dpy box).elements = [.text placed] ∧
        placed.y =
          1 / 2 + get_line_height dpy t (float_to_int (box.height * (dpy.height : ℚ))) / 2 ∧
        ∀ cursor, position_from dpy box 1 (float_to_int (box.height * (dpy.height : ℚ)))
          ((box.width * (dpy.width : ℚ)) / (box.height * (dpy.height : ℚ)))
          (box_padding dpy box.width) [.text t] cursor = [.text placed]) ∧
    (∀ im, box.elements = [.image im] →
      (position_elements dpy box).elements =
        position_from dpy box 1 (float_to_int (box.height * (dpy.height : ℚ)))
          ((box.width * (dpy.width : ℚ)) / (box.height * (dpy.height : ℚ)))
          (box_padding dpy box.width) [.image im] (box_padding dpy box.width) ∧
      ∀ cursor, ∃ placed,
        position_from dpy box 1 (float_to_int (box.height * (dpy.height : ℚ)))
          ((box.width * (dpy.width : ℚ)) / (box.height * (dpy.height : ℚ)))
          (box_padding dpy box.width) [.image im] cursor = [.image placed] ∧
        placed.y = 1 / 2 - placed.rheight / 2 ∧ placed.y + placed.rheight / 2 = 1 / 2 ∧
        (scaled_rheight ((box.width * (dpy.width : ℚ)) / (box.height * (dpy.height : ℚ))) im ≤
            box.height - cursor →
          placed.rheight =
            scaled_rheight ((box.width * (dpy.width : ℚ)) / (box.height * (dpy.height : ℚ))) im ∧
          placed.y = 1 / 2 -
            scaled_rheight ((box.width * (dpy.width : ℚ)) / (box.height * (dpy.height : ℚ))) im /
              2) ∧
        (scaled_rheight ((box.width * (dpy.width : ℚ)) / (box.height * (dpy.height : ℚ))) im >
            box.height - cursor →
          placed.rheight = box.height - cursor ∧
          placed.y = (1 - box.height + cursor) / 2)) ∧
    (2 ≤ box.elements.length →
      follows_cursor dpy (float_to_int (box.height * (dpy.height : ℚ)))
        (box_padding dpy box.width) (position_elements dpy box).elements = true) := by
  refine ⟨?_, ?_, ?_⟩
  · intro t ht
    rw [position_elements, elements_set_elements, ht]
    simp only [position_from, List.length_singleton, if_true]
    exact ⟨_, rfl, rfl, fun _ => rfl⟩
  · intro im him
    refine ⟨?_, fun cursor => lone_image_place dpy box _ _ _ im cursor⟩
    rw [position_elements, elements_set_elements, him]
    rfl
  · intro hlen
    rw [position_elements, elements_set_elements]
    exact position_from_follows dpy box _ _ _ _ (by omega) _ _

/-- Witness for the amended C32: the lone Text "hi" in a box as high as a window of
600 pixels, with a font 50 pixels high, is put at y = 1/2 + (50/600)/2 = 13/24; the
lone image of 600 by 800 pixels in a box of width 1 and height 1, with the scaled
height 8/5, is cut to the height 1 - 1/40 below the padding and put at
y = (1 - 1 + 1/40)/2 = 1/80. -/
theorem lone_child_centred_witness :
    (∃ placed, (position_elements huge_font_display lone_text_box).elements = [.text placed] ∧
      placed.y = 13 / 24) ∧
    (∃ placed, (position_elements example_display lone_image_box).elements = [.image placed] ∧
      placed.rheight = 39 / 40 ∧ placed.y = 1 / 80) := by
  refine ⟨?_, ?_⟩
  · obtain ⟨placed, h1, h2, -⟩ := (lone_child_centred huge_font_display lone_text_box).1
      (create_text "hi".toList .FONT_HUGE) rfl
    refine ⟨placed, h1, ?_⟩
    rw [h2]
    have hpx : float_to_int (lone_text_box.height * (huge_font_display.height : ℚ)) = 600 := by
      have hf : ⌊(600 : ℚ)⌋ = 600 := by
        rw [Int.floor_eq_iff]
        norm_num
      simp [float_to_int, lone_text_box, Box.height, huge_font_display, hf]
    rw [hpx]
    norm_num [get_line_height, huge_font_display, create_text]
  · obtain ⟨hpos, hcur⟩ := (lone_child_centred example_display lone_image_box).2.1
      tall_image rfl
    have hp : box_padding example_display lone_image_box.width = 1 / 40 := by
      norm_num [box_padding, padding_percent, example_display, lone_image_box, Box.width]
    obtain ⟨placed, h1, -, -, -, h5⟩ := hcur (box_padding example_display lone_image_box.width)
    have hcut : scaled_rheight ((lone_image_box.width * (example_display.width : ℚ)) /
        (lone_image_box.height * (example_display.height : ℚ))) tall_image >
        lone_image_box.height - box_padding example_display lone_image_box.width := by
      rw [hp]
      norm_num [scaled_rheight, lone_image_box, tall_image, example_display, Box.width,
        Box.height]
    obtain ⟨h6, h7⟩ := h5 hcut
    refine ⟨placed, hpos.trans h1, ?_, ?_⟩
    · rw [h6, hp]
      norm_num [lone_image_box, Box.height]
    · rw [h7, hp]
      norm_num [lone_image_box, Box.height]

/-! ## Word wrap: the words of the box (C34) -/

theorem slice_middle (pre cur rest : List Char) :
    slice (pre ++ cur ++ rest) (pre.length, (pre ++ cur).length) = cur := by
  simp [slice]

theorem split_loop_blank_runs (str : List Char) :
    ∀ (cs pre cur : List Char) (start_idx : Nat),
      str = pre ++ cur ++ cs → dquote ∉ cs → (cur ≠ [] → start_idx = pre.length) →
      (split_loop [' '] cs (pre ++ cur).length false (decide (cur ≠ [])) start_idx).map
          (fun span => slice str span) = blank_runs cs cur
  | [], pre, cur, start_idx, hstr, _, hstart => by
    by_cases hcur : cur = []
    · simp [split_loop, blank_runs, hcur]
    · have hs := slice_middle pre cur []
      rw [← hstr] at hs
      simp only [List.length_append] at hs
      simp [split_loop, blank_runs, hcur, hstart hcur, hs]
  | c :: cs, pre, cur, start_idx, hstr, hq, hstart => by
    have hc : c ≠ dquote := fun h => hq (by simp [h])
    have hq' : dquote ∉ cs := fun h => hq (List.mem_cons_of_mem _ h)
    by_cases hb : c = ' '
    · subst hb
      by_cases hcur : cur = []
      · subst hcur
        have ih := split_loop_blank_runs str cs (pre ++ [' ']) [] start_idx
          (by simp [hstr]) hq' (fun h => absurd rfl h)
        simp only [List.append_nil, ne_eq, not_true_eq_false, decide_False] at ih ⊢
        simp only [List.length_append, List.length_singleton] at ih
        simp [split_loop, blank_runs, hc, ih]
      · have ih := split_loop_blank_runs str cs (pre ++ cur ++ [' ']) [] pre.length
          (by simp [hstr]) hq' (fun h => absurd rfl h)
        simp only [List.append_nil, ne_eq, not_true_eq_false, decide_False] at ih
        have hs := slice_middle pre cur (' ' :: cs)
        rw [← hstr] at hs
        have hlen : (pre ++ cur ++ [' ']).length = (pre ++ cur).length + 1 := by
          simp only [List.length_append, List.length_singleton]
        rw [hlen] at ih
        simp only [List.length_append] at hs ih
        simp [split_loop, blank_runs, hc, hcur, hstart hcur]
        exact ⟨hs, ih⟩
    · have ih := split_loop_blank_runs str cs pre (cur ++ [c])
        (if cur ≠ [] then start_idx else (pre ++ cur).length)
        (by simp [hstr]) hq' (fun _ => by
          by_cases hcur : cur = []
          · simp [hcur]
          · simp [hcur, hstart hcur])
      have hne : cur ++ [c] ≠ [] := by simp
      have hlen : (pre ++ (cur ++ [c])).length = (pre ++ cur).length + 1 := by
        simp only [List.length_append, List.length_singleton, Nat.add_assoc]
      rw [hlen] at ih
      simp only [ne_eq, hne, not_false_eq_true, decide_True] at ih
      have hbeq : (c == ' ') = false := by simpa using hb
      have hcont : ([' '] : List Char).contains c = false := by
        simp [List.contains, List.elem, hbeq]
      simp only [split_loop, if_neg hc, hcont, if_true, blank_runs, if_neg hb]
      rw [← ih]
      by_cases hcur : cur = [] <;> simp [hcur]

theorem split_str_blank_runs (s : List Char) (hq : dquote ∉ s) :
    split_str s [' '] = (blank_runs s []).map trim_str := by
  have h := split_loop_blank_runs s s [] [] 0 (by simp) hq (fun h => absurd rfl h)
  simp only [List.append_nil, List.length_nil, ne_eq, not_true_eq_false, decide_False] at h
  unfold split_str split_spans
  rw [← h, List.map_map]
  rfl

theorem blank_runs_word :
    ∀ (w cur rest : List Char), ' ' ∉ w → blank_runs (w ++ rest) cur = blank_runs rest (cur ++ w)
  | [], cur, rest, _ => by simp
  | c :: w, cur, rest, h => by
    have hc : c ≠ ' ' := fun hc => h (by simp [hc])
    have hw : ' ' ∉ w := fun hw => h (List.mem_cons_of_mem _ hw)
    rw [List.cons_append]
    simp only [blank_runs, if_neg hc]
    exact (blank_runs_word w (cur ++ [c]) rest hw).trans (by simp)

theorem blank_runs_join :
    ∀ (ws : List (List Char)) (s : List Char), (∀ w ∈ ws, ' ' ∉ w) →
      blank_runs (join_words ws ++ s) [] =
        ws.filter (fun w => !w.isEmpty) ++ blank_runs s []
  | [], s, _ => by simp [join_words]
  | w :: ws, s, h => by
    have hw : ' ' ∉ w := h w (List.mem_cons_self _ _)
    have ih := blank_runs_join ws s (fun v hv => h v (List.mem_cons_of_mem _ hv))
    simp only [join_words, List.append_assoc, List.cons_append]
    rw [blank_runs_word w [] _ hw]
    simp only [List.nil_append, blank_runs, if_true, ih]
    cases w <;> simp

theorem blank_runs_chars :
    ∀ (cs cur : List Char), ' ' ∉ cur → ∀ r ∈ blank_runs cs cur,
      ' ' ∉ r ∧ ∀ c ∈ r, c ∈ cur ∨ c ∈ cs
  | [], cur, hcur, r, hr => by
    simp only [blank_runs] at hr
    split at hr
    · simp at hr
    · simp only [List.mem_singleton] at hr
      subst hr
      exact ⟨hcur, fun c hc => Or.inl hc⟩
  | c :: cs, cur, hcur, r, hr => by
    simp only [blank_runs] at hr
    split at hr
    · split at hr
      · obtain ⟨h1, h2⟩ := blank_runs_chars cs [] (by simp) r hr
        exact ⟨h1, fun d hd => Or.inr (List.mem_cons_of_mem _ ((h2 d hd).resolve_left (List.not_mem_nil d)))⟩
      · rcases List.mem_cons.1 hr with rfl | hr
        · exact ⟨hcur, fun d hd => Or.inl hd⟩
        · obtain ⟨h1, h2⟩ := blank_runs_chars cs [] (by simp) r hr
          exact ⟨h1, fun d hd =>
            Or.inr (List.mem_cons_of_mem _ ((h2 d hd).resolve_left (List.not_mem_nil d)))⟩
    · next hc =>
      obtain ⟨h1, h2⟩ := blank_runs_chars cs (cur ++ [c])
        (by
          intro h
          rcases List.mem_append.1 h with h | h
          · exact hcur h
          · exact hc (List.mem_singleton.1 h).symm) r hr
      refine ⟨h1, fun d hd => ?_⟩
      rcases h2 d hd with h | h
      · rcases List.mem_append.1 h with h | h
        · exact Or.inl h
        · exact Or.inr (by simp at h; simp [h])
      · exact Or.inr (List.mem_cons_of_mem _ h)

theorem mem_of_mem_trim_str (str : List Char) (c : Char) (h : c ∈ trim_str str) : c ∈ str := by
  obtain ⟨lead, trail, hstr, -⟩ := trim_str_parts str
  rw [hstr]
  simp [h]

/-- The words that `split_str` cuts at blanks out of a string without a double quote:
they hold no blank and no double quote, they are trimmed, and their characters are
characters of the string. -/
theorem split_str_word_chars (s : List Char) (hq : dquote ∉ s) :
    ∀ w ∈ split_str s [' '], ' ' ∉ w ∧ dquote ∉ w ∧ trim_str w = w := by
  intro w hw
  rw [split_str_blank_runs s hq] at hw
  obtain ⟨r, hr, rfl⟩ := List.mem_map.1 hw
  obtain ⟨h1, h2⟩ := blank_runs_chars s [] (by simp) r hr
  refine ⟨fun h => h1 (mem_of_mem_trim_str r _ h), fun h => hq ?_, trim_str_idem r⟩
  exact (h2 _ (mem_of_mem_trim_str r _ h)).resolve_left (List.not_mem_nil _)

theorem mem_join_words :
    ∀ (ws : List (List Char)) (c : Char), c ∈ join_words ws → c = ' ' ∨ ∃ w ∈ ws, c ∈ w
  | [], c, h => by simp [join_words] at h
  | w :: ws, c, h => by
    simp only [join_words, List.mem_append, List.mem_cons] at h
    rcases h with h | h | h
    · exact Or.inr ⟨w, List.mem_cons_self _ _, h⟩
    · exact Or.inl h
    · rcases mem_join_words ws c h with h | ⟨v, hv, hc⟩
      · exact Or.inl h
      · exact Or.inr ⟨v, List.mem_cons_of_mem _ hv, hc⟩

/-- The words of a line that a wrap step builds out of words `ws` of a Text, followed
by a string `s`: the words of `ws` that are not empty, then the words of `s`. -/
theorem split_str_join (ws : List (List Char)) (s : List Char)
    (hws : ∀ w ∈ ws, ' ' ∉ w ∧ dquote ∉ w ∧ trim_str w = w) (hs : dquote ∉ s) :
    split_str (join_words ws ++ s) [' '] =
      ws.filter (fun w => !w.isEmpty) ++ split_str s [' '] := by
  have hq : dquote ∉ join_words ws ++ s := by
    intro h
    rcases List.mem_append.1 h with h | h
    · rcases mem_join_words ws _ h with h | ⟨w, hw, hc⟩
      · exact absurd h (by decide)
      · exact (hws w hw).2.1 hc
    · exact hs h
  rw [split_str_blank_runs _ hq, split_str_blank_runs s hs,
    blank_runs_join ws s (fun w hw => (hws w hw).1), List.map_append]
  congr 1
  have hid : ∀ l : List (List Char), (∀ w ∈ l, trim_str w = w) → l.map trim_str = l := by
    intro l hl
    induction l with
    | nil => rfl
    | cons a l ih =>
      simp only [List.map_cons, hl a (List.mem_cons_self _ _)]
      rw [ih (fun w hw => hl w (List.mem_cons_of_mem _ hw))]
  exact hid _ (fun w hw => (hws w (List.mem_of_mem_filter hw)).2.2)

theorem split_str_join_words (ws : List (List Char))
    (hws : ∀ w ∈ ws, ' ' ∉ w ∧ dquote ∉ w ∧ trim_str w = w) :
    split_str (join_words ws) [' '] = ws.filter (fun w => !w.isEmpty) := by
  have h := split_str_join ws [] hws (List.not_mem_nil _)
  rw [List.append_nil, show split_str [] [' '] = [] from rfl, List.append_nil] at h
  exact h

theorem box_words_append :
    ∀ (es fs : List SlideElement), box_words (es ++ fs) = box_words es ++ box_words fs
  | [], fs => rfl
  | .text t :: es, fs => by simp [box_words, box_words_append es fs]
  | .slide s :: es, fs => by simp [box_words, box_words_append es fs]
  | .box b :: es, fs => by simp [box_words, box_words_append es fs]
  | .image im :: es, fs => by simp [box_words, box_words_append es fs]

theorem non_text_children_append :
    ∀ (es fs : List SlideElement),
      non_text_children (es ++ fs) = non_text_children es ++ non_text_children fs
  | [], fs => rfl
  | .text t :: es, fs => by simp [non_text_children, non_text_children_append es fs]
  | .slide s :: es, fs => by simp [non_text_children, non_text_children_append es fs]
  | .box b :: es, fs => by simp [non_text_children, non_text_children_append es fs]
  | .image im :: es, fs => by simp [non_text_children, non_text_children_append es fs]

theorem mem_of_getElem?_eq {α : Type} (l : List α) (i : Nat) (a : α) (h : l[i]? = some a) :
    a ∈ l := by
  have hd := (drop_of_getElem? l i a h).1
  have hmem : a ∈ l.drop i := by
    rw [hd]
    exact List.mem_cons_self _ _
  exact List.mem_of_mem_drop hmem

/-- The words of the box after a wrap step at the Text `t`: the words before and
after `t` are the former ones, and the words of `t` are there but for the empty
ones. -/
theorem wrap_step_words (dpy : Display) (box : Box) (i : Nat) (t : Text)
    (ht : box.elements[i]? = some (.text t))
    (hq : ∀ u, .text u ∈ box.elements → dquote ∉ u.content) :
    box_words (wrap_step dpy box i).elements =
      box_words (box.elements.take i) ++
        ((split_str t.content [' ']).filter (fun w => !w.isEmpty) ++
          box_words (box.elements.drop (i + 1))) := by
  have hws := split_str_word_chars t.content (hq t (mem_of_getElem?_eq _ _ _ ht))
  have htake : ∀ w ∈ (split_str t.content [' ']).take (break_index dpy box.width t),
      ' ' ∉ w ∧ dquote ∉ w ∧ trim_str w = w := fun w hw => hws w (List.mem_of_mem_take hw)
  have hdrop : ∀ w ∈ (split_str t.content [' ']).drop (break_index dpy box.width t),
      ' ' ∉ w ∧ dquote ∉ w ∧ trim_str w = w := fun w hw => hws w (List.mem_of_mem_drop hw)
  have hnew : split_str (new_line dpy box.width t) [' '] =
      ((split_str t.content [' ']).take (break_index dpy box.width t)).filter
        (fun w => !w.isEmpty) := by
    rw [new_line]
    exact split_str_join_words _ htake
  have hfilter : ((split_str t.content [' ']).take (break_index dpy box.width t)).filter
        (fun w => !w.isEmpty) ++
      ((split_str t.content [' ']).drop (break_index dpy box.width t)).filter
        (fun w => !w.isEmpty) = (split_str t.content [' ']).filter (fun w => !w.isEmpty) := by
    rw [← List.filter_append, List.take_append_drop]
  rw [(wrap_step_elements dpy box i t ht).1, box_words_append]
  congr 1
  simp only [box_words, create_text, hnew]
  rw [← hfilter, List.append_assoc]
  congr 1
  rcases hrest : box.elements.drop (i + 1) with _ | ⟨e, after⟩
  · have h := split_str_join_words _ hdrop
    simp only [carry_remainder, box_words, create_text, next_line, h]
  · cases e with
    | text next_text =>
      have hin : SlideElement.text next_text ∈ box.elements.drop (i + 1) := by
        rw [hrest]
        exact List.mem_cons_self _ _
      have hmem : SlideElement.text next_text ∈ box.elements := List.mem_of_mem_drop hin
      have h := split_str_join _ next_text.content hdrop (hq next_text hmem)
      simp only [carry_remainder, box_words, create_text, next_line, h, List.append_assoc]
    | slide s =>
      have h := split_str_join_words _ hdrop
      simp only [carry_remainder, box_words, create_text, next_line, h]
    | box b =>
      have h := split_str_join_words _ hdrop
      simp only [carry_remainder, box_words, create_text, next_line, h]
    | image im =>
      have h := split_str_join_words _ hdrop
      simp only [carry_remainder, box_words, create_text, next_line, h]

theorem box_words_split (box : Box) (i : Nat) (t : Text)
    (ht : box.elements[i]? = some (.text t)) :
    box_words box.elements =
      box_words (box.elements.take i) ++
        (split_str t.content [' '] ++ box_words (box.elements.drop (i + 1))) := by
  have hd := (drop_of_getElem? box.elements i _ ht).1
  conv_lhs => rw [← List.take_append_drop i box.elements, hd]
  rw [box_words_append]
  rfl

theorem wrap_step_non_text (dpy : Display) (box : Box) (i : Nat) (t : Text)
    (ht : box.elements[i]? = some (.text t)) :
    non_text_children (wrap_step dpy box i).elements = non_text_children box.elements := by
  have hd := (drop_of_getElem? box.elements i _ ht).1
  conv_rhs => rw [← List.take_append_drop i box.elements, hd]
  rw [(wrap_step_elements dpy box i t ht).1, non_text_children_append, non_text_children_append]
  congr 1
  rcases box.elements.drop (i + 1) with _ | ⟨_ | _ | _ | _, after⟩ <;> rfl

theorem tab_word_break :
    break_index huge_font_display 1
      (create_text "hello brave \t new world".toList .FONT_HUGE) = 3 := by
  have hs : split_str "hello brave \t new world".toList [' '] =
      ["hello".toList, "brave".toList, [], "new".toList, "world".toList] := by decide
  unfold break_index
  rw [show (create_text "hello brave \t new world".toList .FONT_HUGE).content =
    "hello brave \t new world".toList from rfl, hs]
  norm_num [find_break, huge_font_display, get_strtext_width, get_char_width, create_text]

/-- Counterexample to C34 as stated: the Text `hello brave \t new world`, without a
double quote, in a box of width 1 that holds 20 characters of the font. The Text is
too wide, holds a blank and has no over-wide word, so the loop of `apply_word_wrap`
takes a wrap step. The words of the box before the step are "hello", "brave", the
empty word that `split_str` makes of the tab, "new" and "world"; after the step, with
the Texts `hello brave  ` and `new world `, the empty word is no longer there. -/
theorem wrap_step_drops_empty_word :
    tab_word_box.elements = [.text (create_text "hello brave \t new world".toList .FONT_HUGE)] ∧
    dquote ∉ "hello brave \t new world".toList ∧
    get_text_width huge_font_display (create_text "hello brave \t new world".toList .FONT_HUGE) /
      (huge_font_display.width : ℚ) + box_padding huge_font_display tab_word_box.width >
        tab_word_box.width ∧
    strstr "hello brave \t new world".toList [' '] = true ∧
    ¬ max_word_width huge_font_display .FONT_HUGE
      (split_str "hello brave \t new world".toList [' ']) 0 > tab_word_box.width ∧
    (wrap_step huge_font_display tab_word_box 0).elements =
      [.text (create_text "hello brave  ".toList .FONT_HUGE),
       .text (create_text "new world ".toList .FONT_HUGE)] ∧
    box_words tab_word_box.elements =
      ["hello".toList, "brave".toList, [], "new".toList, "world".toList] ∧
    box_words (wrap_step huge_font_display tab_word_box 0).elements =
      ["hello".toList, "brave".toList, "new".toList, "world".toList] ∧
    box_words (wrap_step huge_font_display tab_word_box 0).elements ≠
      box_words tab_word_box.elements := by
  have hs : split_str "hello brave \t new world".toList [' '] =
      ["hello".toList, "brave".toList, [], "new".toList, "world".toList] := by decide
  have hw : tab_word_box.width = 1 := rfl
  have he : (wrap_step huge_font_display tab_word_box 0).elements =
      [.text (create_text "hello brave  ".toList .FONT_HUGE),
       .text (create_text "new world ".toList .FONT_HUGE)] := by
    rw [(wrap_step_elements huge_font_display tab_word_box 0
      (create_text "hello brave \t new world".toList .FONT_HUGE) rfl).1, hw]
    unfold new_line next_line
    rw [tab_word_break]
    rfl
  refine ⟨rfl, by decide, ?_, by decide, ?_, he, by decide, ?_, ?_⟩
  · rw [huge_text_width, huge_width, hw, huge_padding]
    norm_num [create_text]
  · rw [hs, hw]
    norm_num [max_word_width, huge_font_display, get_strtext_width]
  · rw [he]
    decide
  · rw [he]
    decide

/-- Claim C34, amended: for every box whose Text contents contain no double-quote
character, a wrap step of `apply_word_wrap` keeps the non-empty words of the box:
concatenating, in child order, the words that `split_str(content, " ")` returns for
every Text child and leaving out the empty ones gives the same list before and after
the step; the words of the box are the former ones throughout when no word of the
wrapped Text is empty. The children that are no Text are the same, in the same
order. -/
theorem wrap_step_keeps_words (dpy : Display) (box : Box) (i : Nat) (t : Text)
    (ht : box.elements[i]? = some (.text t))
    (hq : ∀ u, .text u ∈ box.elements → dquote ∉ u.content) :
    (box_words (wrap_step dpy box i).elements).filter (fun w => !w.isEmpty) =
      (box_words box.elements).filter (fun w => !w.isEmpty) ∧
    ((∀ w ∈ split_str t.content [' '], w ≠ []) →
      box_words (wrap_step dpy box i).elements = box_words box.elements) ∧
    non_text_children (wrap_step dpy box i).elements = non_text_children box.elements := by
  have h1 := wrap_step_words dpy box i t ht hq
  have h2 := box_words_split box i t ht
  refine ⟨?_, ?_, wrap_step_non_text dpy box i t ht⟩
  · rw [h1, h2]
    simp only [List.filter_append, List.filter_filter, Bool.and_self]
  · intro hne
    rw [h1, h2]
    congr 2
    rw [List.filter_eq_self]
    intro w hw
    have := hne w hw
    cases w with
    | nil => exact absurd rfl this
    | cons c cs => rfl

/-- Witness for the amended C34: the wrap step on "hello brave new world" leaves the
Texts "hello brave " and "new world ", with the same four words. -/
theorem wrap_step_keeps_words_witness :
    (wrap_step huge_font_display (huge_text_box "hello brave new world".toList) 0).elements =
      [.text (create_text "hello brave ".toList .FONT_HUGE),
       .text (create_text "new world ".toList .FONT_HUGE)] ∧
    box_words (wrap_step huge_font_display
        (huge_text_box "hello brave new world".toList) 0).elements =
      box_words (huge_text_box "hello brave new world".toList).elements :=
  ⟨wrap_step_hello_brave,
    (wrap_step_keeps_words huge_font_display (huge_text_box "hello brave new world".toList) 0
      (create_text "hello brave new world".toList .FONT_HUGE) rfl
      (by
        intro u hu
        simp only [huge_text_box, Box.elements, List.mem_singleton, SlideElement.text.injEq] at hu
        subst hu
        decide)).2.1
      (by
        rw [show (create_text "hello brave new world".toList .FONT_HUGE).content =
          "hello brave new world".toList from rfl, split_hello_brave]
        decide)⟩

end Illuscribe
